import Mathlib

/-!
# FinalProject: receipt extraction pipeline and expense routes

A shallow embedding of `backend/src/routes/processReceipt.js`
(`parseCurrency`, `validateExtractedData`, `callGeminiWithRetry`,
`getFallbackResponse`, the handler of `POST /process-receipt`) together with
the JavaScript built-ins those functions call (`parseInt`, `parseFloat`,
`ToString`, `Math.min`, `Math.max`, `Math.round`, the `||` operator,
`String.prototype.match` with the pattern `/\{[\s\S]*\}/`,
`String.prototype.replace` with a string pattern); of the routes of
`backend/src/routes/expenses.js` (the gate `authenticateUser`, the dashboard,
the two list routes, the delete route) and of `backend/src/routes/auth.js`
over a table of expense rows; and of the two frontend pieces the backend
meets: the risk badge of `TransactionList.js` and the size check of
`ScanReceipt.js` against the body limit of `server.js`.

Services.  The auth provider, the vision model, `JSON.parse` and the database
insert are parameters of the handlers; the `expenses` table is a list of rows,
a query a filter followed by a stable sort.

Numbers.  A JavaScript number is modelled as `NaN`, `±Infinity`, or a finite
decimal fraction `mant / 10 ^ scale`.  Every numeral of a JSON text is such a
fraction, and so is every finite double; a fraction that is not a double
stands for the double nearest to it.  The binary64 arithmetic of the program
is modelled by `JSNum.mul` (the product in `parseCurrency`) and
`JSNum.addDouble` (the sums of the dashboard): operands and result are rounded
to the nearest double, ties to the even significand, and a result out of range
is `Infinity`.  `JSNum.add` is the exact sum of two decimal fractions: the
definitions `dashboard`, `categoryTotals` and `topLeakageCategories` describe
the dashboard over exact decimal arithmetic, `dashboardWith JSNum.addDouble`
and its parts describe it in binary64 arithmetic.  `-0` is identified with `0`
(both are falsy, and both print as "0").

Values.  The records handled by the pipeline come from `JSON.parse` or from the
object literal of `getFallbackResponse`, so a field holds `null`, a boolean, a
number, a string, an array or an object; reading a field that is not there
gives `undefined`.  The code never looks inside an array or object held by a
field: it only compares it with `undefined`/`null`, tests its truthiness, or
converts it to a string.  Such a value is therefore represented by the outcome
of its string conversion.
-/

namespace FinalProject

/-! ## JavaScript numbers -/

/-- A JavaScript number: `NaN`, `Infinity` / `-Infinity`, or the finite decimal
fraction `mant / 10 ^ scale`. -/
inductive JSNum where
  | nan : JSNum
  | inf (neg : Bool) : JSNum
  | fin (mant : Int) (scale : Nat) : JSNum
deriving DecidableEq, Repr

/-- Cancel common factors of ten between mantissa and denominator. -/
def normDec : Int → Nat → Int × Nat
  | m, 0 => (m, 0)
  | m, k + 1 => if m % 10 = 0 then normDec (m / 10) k else (m, k + 1)

/-- The number of binary digits of `n` (none for `0`); `fuel` bounds the
number of halvings. -/
def bitLengthAux : Nat → Nat → Nat
  | 0, _ => 0
  | fuel + 1, n => if n = 0 then 0 else bitLengthAux fuel (n / 2) + 1

/-- The number of binary digits of `n`: `2 ^ (bitLength n - 1) ≤ n < 2 ^ bitLength n`
for `n > 0`. -/
def bitLength (n : Nat) : Nat := bitLengthAux n n

/-- The integer nearest to `num / den`, the even one of the two when
`num / den` lies half way between them. -/
def roundHalfEven (num den : Nat) : Nat :=
  if 2 * (num % den) < den then num / den
  else if den < 2 * (num % den) then num / den + 1
  else if (num / den) % 2 = 0 then num / den
  else num / den + 1

/-- The exponent `e` of the binary64 format for the positive fraction `a / b`:
the doubles around `a / b` are the multiples of `2 ^ e`.  With `l` the integer
for which `2 ^ l ≤ a / b < 2 ^ (l + 1)`, it is `l - 52` (53 significant bits),
and `-1074` for the fractions below `2 ^ (-1022)`. -/
def doubleExponent (a b : Nat) : Int :=
  let t : Int := (bitLength a : Int) - (bitLength b : Int)
  let l : Int := if b * 2 ^ t.toNat ≤ a * 2 ^ (-t).toNat then t else t - 1
  max (l - 52) (-1074)

/-- The double nearest to the fraction `a / b` (with `b > 0`), the one with
the even significand on a tie, as significand and exponent: the double is
`significand * 2 ^ exponent`, with a significand of at most `2 ^ 53`.  The
result is `none` when that value is `2 ^ 1024` or more (an exponent above 971,
or the significand `2 ^ 53` at the exponent 971), which the format does not
have: the number is then `Infinity`. -/
def nearestDouble (a b : Nat) : Option (Nat × Int) :=
  if a = 0 then some (0, 0)
  else
    let e := doubleExponent a b
    let significand := roundHalfEven (a * 2 ^ (-e).toNat) (b * 2 ^ e.toNat)
    if 971 < e ∨ (e = 971 ∧ 2 ^ 53 ≤ significand) then none
    else some (significand, e)

namespace JSNum

/-- The finite number `m / 10 ^ k`, in lowest decimal terms. -/
def dec (m : Int) (k : Nat) : JSNum :=
  fin (normDec m k).1 (normDec m k).2

/-- The binary64 value a decimal fraction stands for in an arithmetic
operation: the double nearest to it, written out as the decimal fraction it
is exactly, or an infinity when it is out of range. -/
def toDouble : JSNum → JSNum
  | fin m k =>
    match nearestDouble m.natAbs (10 ^ k) with
    | none => inf (decide (m < 0))
    | some (significand, e) =>
      dec ((if m < 0 then -(significand : Int) else (significand : Int)) *
        2 ^ e.toNat * 5 ^ (-e).toNat) (-e).toNat
  | x => x

/-- The finite number `m * 10 ^ e` for an integer exponent `e`. -/
def sci (m : Int) (e : Int) : JSNum :=
  if 0 ≤ e then fin (m * 10 ^ e.toNat) 0 else dec m (-e).toNat

def isNaN : JSNum → Bool
  | nan => true
  | _ => false

/-- ToBoolean on a number: `NaN` and zero are falsy. -/
def truthy : JSNum → Bool
  | nan => false
  | inf _ => true
  | fin m _ => decide (m ≠ 0)

/-- Numeric `<` on numbers that are not `NaN` (false when either is `NaN`). -/
def lt : JSNum → JSNum → Bool
  | nan, _ => false
  | _, nan => false
  | inf a, inf b => a && !b
  | inf a, fin _ _ => a
  | fin _ _, inf b => !b
  | fin a j, fin b k => decide (a * 10 ^ k < b * 10 ^ j)

/-- The product of two binary64 values: the double nearest to the exact
product. -/
def mulDouble : JSNum → JSNum → JSNum
  | nan, _ => nan
  | _, nan => nan
  | inf a, inf b => inf (a != b)
  | inf a, fin m _ => if m = 0 then nan else inf (a != decide (m < 0))
  | fin m _, inf b => if m = 0 then nan else inf (decide (m < 0) != b)
  | fin a j, fin b k => (dec (a * b) (j + k)).toDouble

/-- The product `x * y` in binary64 arithmetic: the operands are the doubles
nearest to `x` and `y`, the result is the double nearest to their exact
product, `Infinity` when that is out of range. -/
def mul (x y : JSNum) : JSNum := mulDouble x.toDouble y.toDouble

/-- The quotient `x / 10 ^ j` of a whole number `x` (the source only ever
divides the result of `Math.round` by `100`), as a decimal fraction: it stands
for the double nearest to it, which is what the division returns. -/
def divPow10 : JSNum → Nat → JSNum
  | nan, _ => nan
  | inf a, _ => inf a
  | fin m k, j => dec m (k + j)

/-- The exact value of a finite number (`0` for `NaN` and the infinities). -/
def toRat : JSNum → ℚ
  | fin m k => (m : ℚ) / (10 : ℚ) ^ k
  | _ => 0

def isFinite : JSNum → Bool
  | fin _ _ => true
  | _ => false

end JSNum

/-- `Math.min(a, b)`: `NaN` if either argument is `NaN`, else the smaller. -/
def mathMin (a b : JSNum) : JSNum :=
  if a.isNaN || b.isNaN then .nan else if b.lt a then b else a

/-- `Math.max(a, b)`: `NaN` if either argument is `NaN`, else the larger. -/
def mathMax (a b : JSNum) : JSNum :=
  if a.isNaN || b.isNaN then .nan else if a.lt b then b else a

/-- `Math.round(x)`: the integer nearest to `x`, ties towards `+Infinity`,
that is `floor(x + 1/2)`. -/
def mathRound : JSNum → JSNum
  | .nan => .nan
  | .inf a => .inf a
  | .fin m k => .fin ((2 * m + 10 ^ k) / (2 * 10 ^ k)) 0

/-- The operator `a || b` on numbers. -/
def numOr (a b : JSNum) : JSNum := if a.truthy then a else b

/-! ## Strings to numbers -/

/-- The characters removed by `TrimString`: WhiteSpace and LineTerminator. -/
def isWhiteSpace (c : Char) : Bool :=
  c.toNat ∈ [0x9, 0xA, 0xB, 0xC, 0xD, 0x20, 0xA0, 0x1680, 0x2028, 0x2029,
    0x202F, 0x205F, 0x3000, 0xFEFF] || (0x2000 ≤ c.toNat && c.toNat ≤ 0x200A)

/-- The `\d` class of a JavaScript pattern: the ASCII digits. -/
def isDigit (c : Char) : Bool := '0' ≤ c && c ≤ '9'

/-- Value of one digit in a radix up to sixteen, if the character is one. -/
def hexVal (c : Char) : Option Nat :=
  if '0' ≤ c && c ≤ '9' then some (c.toNat - 48)
  else if 'a' ≤ c && c ≤ 'f' then some (c.toNat - 87)
  else if 'A' ≤ c && c ≤ 'F' then some (c.toNat - 55)
  else none

/-- Whether `c` is a digit of the radix (ten or sixteen). -/
def isRadixDigit (radix : Nat) (c : Char) : Bool :=
  match hexVal c with
  | some v => decide (v < radix)
  | none => false

/-- The number written by a list of digits of the radix. -/
def digitsToNat (radix : Nat) (cs : List Char) : Nat :=
  cs.foldl (fun acc c => radix * acc + (hexVal c).getD 0) 0

/-- Remove an optional sign; the flag says whether it was `-`. -/
def takeSign : List Char → Bool × List Char
  | '-' :: r => (true, r)
  | '+' :: r => (false, r)
  | cs => (false, cs)

/-- The value of an `ExponentPart` at the head of `cs`, or `0` when there is
no well-formed one (the literal then ends before it). -/
def exponentOf : List Char → Int
  | c :: r =>
    if c = 'e' ∨ c = 'E' then
      let (neg, r1) := takeSign r
      let ds := r1.takeWhile isDigit
      if ds = [] then 0
      else if neg then -(digitsToNat 10 ds : Int) else (digitsToNat 10 ds : Int)
    else 0
  | [] => 0

/-- The longest prefix of `u` that is a `StrUnsignedDecimalLiteral` other than
`Infinity`, read as a number with the given sign: integer digits, an optional
dot with fraction digits, an optional exponent; `NaN` when there is no digit
before the exponent. -/
def strDecimalLiteral (neg : Bool) (u : List Char) : JSNum :=
  let ip := u.takeWhile isDigit
  let r1 := u.dropWhile isDigit
  let fp := match r1 with
    | '.' :: r => r.takeWhile isDigit
    | _ => []
  let r2 := match r1 with
    | '.' :: r => r.dropWhile isDigit
    | _ => r1
  if ip = [] ∧ fp = [] then .nan
  else
    let n : Int := digitsToNat 10 (ip ++ fp)
    JSNum.sci (if neg then -n else n) (exponentOf r2 - fp.length)

/-- The built-in `parseFloat` applied to a string: skip leading white space and
read the longest prefix that is a `StrDecimalLiteral`; `NaN` if there is
none. -/
def parseFloatStr (s : List Char) : JSNum :=
  let (neg, u) := takeSign (s.dropWhile isWhiteSpace)
  if "Infinity".toList.isPrefixOf u then .inf neg
  else strDecimalLiteral neg u

/-- The built-in `parseInt` applied to a string with no radix argument: skip
leading white space, read a sign, switch to radix sixteen after `0x`/`0X`, and
read the longest run of digits; `NaN` if the run is empty. -/
def parseIntStr (s : List Char) : JSNum :=
  let (neg, u) := takeSign (s.dropWhile isWhiteSpace)
  let radix := match u with
    | '0' :: 'x' :: _ => 16
    | '0' :: 'X' :: _ => 16
    | _ => 10
  let body := if radix = 16 then u.drop 2 else u
  let z := body.takeWhile (isRadixDigit radix)
  if z = [] then .nan
  else
    let n : Int := digitsToNat radix z
    .fin (if neg then -n else n) 0

/-! ## Numbers to strings -/

/-- Drop the zeros at the end of a digit list. -/
def stripTrailingZeros (ds : List Char) : List Char :=
  (ds.reverse.dropWhile (· == '0')).reverse

/-- `Number::toString` for radix ten.  With `s` the significant digits, `k`
their count and `n` the position of the decimal point, the value is printed
plainly when `-6 < n ≤ 21` and in exponent form otherwise. -/
def numToString : JSNum → String
  | .nan => "NaN"
  | .inf false => "Infinity"
  | .inf true => "-Infinity"
  | .fin m scale =>
    if m = 0 then "0"
    else
      let sign := if m < 0 then "-" else ""
      let all := Nat.toDigits 10 m.natAbs
      let s := stripTrailingZeros all
      let k := s.length
      let n : Int := (all.length : Int) - scale
      let body : List Char :=
        if (k : Int) ≤ n ∧ n ≤ 21 then s ++ List.replicate (n.toNat - k) '0'
        else if 0 < n ∧ n ≤ 21 then s.take n.toNat ++ '.' :: s.drop n.toNat
        else if -6 < n ∧ n ≤ 0 then '0' :: '.' :: List.replicate (-n).toNat '0' ++ s
        else
          let e := n - 1
          let es := (if e < 0 then '-' else '+') :: Nat.toDigits 10 e.natAbs
          if k = 1 then s ++ 'e' :: es
          else s.take 1 ++ '.' :: s.drop 1 ++ 'e' :: es
      sign ++ String.mk body

/-! ## Values and records -/

/-- What a failed evaluation throws: an `Error` raised by the code itself, or a
`TypeError` raised by the language. -/
inductive JSError where
  | error (message : String) : JSError
  | typeError (message : String) : JSError
deriving DecidableEq, Repr

deriving instance DecidableEq for Except

/-- A value held by a field of a record.  `obj conv` stands for an array or an
object; `conv` is the outcome of converting it to a string: `some s` when the
conversion gives `s` (`"[object Object]"` for a plain object, the joined
elements for an array), `none` when it throws (an object parsed from JSON that
has a `toString` member of its own, which is not callable). -/
inductive JSValue where
  | undefined : JSValue
  | null : JSValue
  | bool (b : Bool) : JSValue
  | num (n : JSNum) : JSValue
  | str (s : String) : JSValue
  | obj (conv : Option String) : JSValue
deriving DecidableEq, Repr

/-- An object with string keys, as an association list in key order. -/
abbrev Record := List (String × JSValue)

/-- Reading `data[field]`: the value of the field, `undefined` when absent. -/
def getField : Record → String → JSValue
  | [], _ => .undefined
  | (k, v) :: rest, f => if k = f then v else getField rest f

/-- The assignment `data[field] = v`: overwrite in place, or append a new
field. -/
def setField : Record → String → JSValue → Record
  | [], f, v => [(f, v)]
  | (k, w) :: rest, f, v => if k = f then (k, v) :: rest else (k, w) :: setField rest f v

/-- The abstract operation `ToString`. -/
def toStr : JSValue → Except JSError String
  | .undefined => .ok "undefined"
  | .null => .ok "null"
  | .bool true => .ok "true"
  | .bool false => .ok "false"
  | .num n => .ok (numToString n)
  | .str s => .ok s
  | .obj (some s) => .ok s
  | .obj none => .error (.typeError "Cannot convert object to primitive value")

/-- The built-in `parseInt(v)`: convert the argument to a string, then parse. -/
def parseInt (v : JSValue) : Except JSError JSNum :=
  (toStr v).map (fun s => parseIntStr s.toList)

/-- The built-in `parseFloat(v)`: convert the argument to a string, then
parse. -/
def parseFloat (v : JSValue) : Except JSError JSNum :=
  (toStr v).map (fun s => parseFloatStr s.toList)

/-- ToBoolean: `undefined`, `null`, `false`, `NaN`, zero and the empty string
are falsy. -/
def truthy : JSValue → Bool
  | .undefined => false
  | .null => false
  | .bool b => b
  | .num n => n.truthy
  | .str s => decide (s ≠ "")
  | .obj _ => true

/-! ## `parseCurrency` -/

/-- The two chained calls `.replace(/[^\d.,]/g, '').replace(/,/g, '')`. -/
def numericString (amountStr : String) : List Char :=
  (amountStr.toList.filter (fun c => isDigit c || c == '.' || c == ',')).filter
    (fun c => c != ',')

/-- The function `parseCurrency(amountStr)` of `processReceipt.js`.  A falsy
argument gives `0`; a truthy argument that is not a string has no `replace`
method, so the call throws. -/
def parseCurrency (amountStr : JSValue) : Except JSError JSNum :=
  if !truthy amountStr then .ok (.fin 0 0)
  else
    match amountStr with
    | .str s =>
      let amount := parseFloatStr (numericString s)
      .ok (if amount.isNaN then .fin 0 0
        else (mathRound (amount.mul (.fin 100 0))).divPow10 2)
    | _ => .error (.typeError "amountStr.replace is not a function")

/-- The characters that can remain in `numericString`: the digits and the
dot. -/
def keptChars : List Char := ['0', '1', '2', '3', '4', '5', '6', '7', '8', '9', '.']

/-! ## `validateExtractedData` -/

/-- The array `required` of `validateExtractedData`. -/
def required : List String :=
  ["merchant", "totalAmountStr", "date", "category", "gstAmountStr",
    "otherTaxAmountStr", "taxDeductible", "confidenceScore", "leakageRiskScore",
    "flagReason"]

/-- The test `data[field] === undefined || data[field] === null`. -/
def isAbsent (v : JSValue) : Bool :=
  v == .undefined || v == .null

/-- The loop over `required`: throw at the first absent field. -/
def checkRequired (data : Record) : List String → Except JSError Unit
  | [] => .ok ()
  | field :: rest =>
    if isAbsent (getField data field) then
      .error (.error ("Missing required field: " ++ field))
    else checkRequired data rest

/-- The function `validateExtractedData(data)` of `processReceipt.js`. -/
def validateExtractedData (data : Record) : Except JSError Record := do
  checkRequired data required
  let leakage ← parseInt (getField data "leakageRiskScore")
  let data1 := setField data "leakageRiskScore"
    (.num (mathMax (.fin 0 0) (mathMin (.fin 10 0) (numOr leakage (.fin 5 0)))))
  let confidence ← parseFloat (getField data1 "confidenceScore")
  let data2 := setField data1 "confidenceScore"
    (.num (mathMax (.fin 0 0) (mathMin (.fin 1 0) (numOr confidence (.fin 5 1)))))
  pure data2

/-! ## `callGeminiWithRetry` -/

/-- The object literal returned by `getFallbackResponse()`.  `today` is the
value of `new Date().toISOString().split('T')[0]`. -/
def getFallbackResponse (today : String) : Record :=
  [("merchant", .str "Unknown Merchant"),
    ("totalAmountStr", .str "₹0.00"),
    ("date", .str today),
    ("category", .str "Other"),
    ("gstAmountStr", .str "₹0.00"),
    ("otherTaxAmountStr", .str "₹0.00"),
    ("taxDeductible", .bool false),
    ("confidenceScore", .num (.fin 1 1)),
    ("leakageRiskScore", .num (.fin 5 0)),
    ("flagReason", .str "Unable to analyze receipt image"),
    ("savingsInsight", .str "Please verify expense details manually")]

/-- The tail `[\s\S]*\}` of the pattern, matched at the head of `cs`: the star
is greedy, so it first takes one more character and only when the rest cannot
match does it stop and look for the closing brace here. -/
def greedyClose : List Char → Option (List Char)
  | [] => none
  | c :: cs =>
    match greedyClose cs with
    | some m => some (c :: m)
    | none => if c = '\x7d' then some [c] else none

/-- The call `text.match(/\{[\s\S]*\}/)`: the match at the leftmost position
where the pattern matches, `none` for `null`. -/
def jsonMatch : List Char → Option (List Char)
  | [] => none
  | c :: cs =>
    match (if c = '\x7b' then greedyClose cs else none) with
    | some m => some (c :: m)
    | none => jsonMatch cs

/-- What one call of the vision model gives: `failure` when
`generateContent` or `response.text()` throws, else the response text. -/
inductive Outcome where
  | failure : Outcome
  | text (t : String) : Outcome
deriving DecidableEq, Repr

/-- The body of the `try` block for one model outcome: the parsed object, or
`none` when the block throws (model error, no match, or `JSON.parse` throws).
`jsonParse` is the built-in `JSON.parse` on a text that starts with a brace:
the parsed object, or `none` for a `SyntaxError`. -/
def attemptOnce (jsonParse : String → Option Record) : Outcome → Option Record
  | .failure => none
  | .text t =>
    match jsonMatch t.toList with
    | some m => jsonParse (String.mk m)
    | none => none

/-- What the retry loop does that is visible outside: a call of the model
(numbered by attempt) or a `setTimeout` wait of so many milliseconds. -/
inductive Event where
  | call (attempt : Nat) : Event
  | wait (ms : Nat) : Event
deriving DecidableEq, Repr

/-- The `for` loop of `callGeminiWithRetry` from a given `attempt` on; `fuel`
counts the iterations left (`maxRetries - attempt + 1`).  The result is `none`
when the loop ends without a `return` (the function then gives
`undefined`). -/
def retryFrom (model : Nat → Outcome) (jsonParse : String → Option Record)
    (today : String) (maxRetries : Nat) : Nat → Nat → Option Record × List Event
  | 0, _ => (none, [])
  | fuel + 1, attempt =>
    match attemptOnce jsonParse (model attempt) with
    | some parsed => (some parsed, [.call attempt])
    | none =>
      if attempt = maxRetries then (some (getFallbackResponse today), [.call attempt])
      else
        let rest := retryFrom model jsonParse today maxRetries fuel (attempt + 1)
        (rest.1, .call attempt :: .wait (2 ^ attempt * 1000) :: rest.2)

/-- The function `callGeminiWithRetry(imageBase64, maxRetries)`.  `model n` is
the outcome of the `n`-th call of the vision model for this image. -/
def callGeminiWithRetry (model : Nat → Outcome) (jsonParse : String → Option Record)
    (today : String) (maxRetries : Nat) : Option Record × List Event :=
  retryFrom model jsonParse today maxRetries maxRetries 1

/-- The default `maxRetries = 3` of `callGeminiWithRetry`. -/
def defaultMaxRetries : Nat := 3

/-- The model calls of a trace, in order. -/
def callsOf : List Event → List Nat
  | [] => []
  | .call n :: rest => n :: callsOf rest
  | .wait _ :: rest => callsOf rest

/-- The waits of a trace, in order. -/
def waitsOf : List Event → List Nat
  | [] => []
  | .call _ :: rest => waitsOf rest
  | .wait ms :: rest => ms :: waitsOf rest

/-! ## The specification's wording, for comparison with the code -/

/-- A valid decimal numeral in the specification's sense: digits with at most
one dot and at least one digit, as in `12`, `12.`, `12.50` and `.5`. -/
def isDecimalNumeral (r : List Char) : Bool :=
  match r.dropWhile isDigit with
  | [] => !r.isEmpty
  | c :: fp => c == '.' && fp.all isDigit && !((r.takeWhile isDigit).isEmpty && fp.isEmpty)

/-- The value of a decimal numeral: its digits read as an integer, divided by
ten for every digit after the dot. -/
def decimalNumeralValue (r : List Char) : Option ℚ :=
  if isDecimalNumeral r then
    some ((digitsToNat 10 (r.filter isDigit) : ℚ) /
      (10 : ℚ) ^ ((r.dropWhile isDigit).length - 1))
  else none

/-- Rounding to two decimals, half up. -/
def roundTwoDecimals (q : ℚ) : ℚ := (⌊q * 100 + 1 / 2⌋ : ℤ) / 100

/-- The currency parser as the specification words it: strip, remove commas,
parse the whole remainder as a decimal number, `0` when that fails. -/
def specParseCurrency (s : String) : ℚ :=
  match decimalNumeralValue (numericString s) with
  | some v => roundTwoDecimals v
  | none => 0

/-- Scan for the brace that closes the one already open: `depth` braces are
open; the result is the text up to and including the closing brace. -/
def braceMatchedFrom : Nat → List Char → Option (List Char)
  | _, [] => none
  | depth, c :: cs =>
    if c = '\x7b' then (braceMatchedFrom (depth + 1) cs).map (c :: ·)
    else if c = '\x7d' then
      if depth ≤ 1 then some [c] else (braceMatchedFrom (depth - 1) cs).map (c :: ·)
    else (braceMatchedFrom depth cs).map (c :: ·)

/-- The first top-level object as the specification words it: the
brace-matched substring that starts at the first opening brace. -/
def specFirstObject (text : List Char) : Option (List Char) :=
  match text.dropWhile (fun c => c != '\x7b') with
  | [] => none
  | c :: cs => (braceMatchedFrom 1 cs).map (c :: ·)

/-- The schedule the specification gives for `j` attempts starting at attempt
`a`: each call but the last is followed by a wait of `2 ^ attempt` seconds. -/
def backoffSchedule : Nat → Nat → List Event
  | _, 0 => []
  | a, 1 => [.call a]
  | a, j + 2 => .call a :: .wait (2 ^ a * 1000) :: backoffSchedule (a + 1) (j + 1)

/-! ## `POST /process-receipt` -/

/-- The identity the auth provider resolves a token to. -/
structure User where
  id : String
  email : String
deriving DecidableEq, Repr

/-- What `supabase.auth.getUser(token)` does: it resolves to an object with a
`user` (or `null`) and an `error` (or `null`), or it throws. -/
inductive ProviderOutcome where
  | result (user : Option User) (error : Option String) : ProviderOutcome
  | throws (message : String) : ProviderOutcome
deriving DecidableEq, Repr

/-- The call `s.replace(pat, rep)` with a string pattern: the first occurrence
of `pat` is replaced, the rest of `s` is kept. -/
def replaceFirst (pat rep : List Char) : List Char → List Char
  | [] => if pat = [] then rep else []
  | c :: cs =>
    if pat.isPrefixOf (c :: cs) then rep ++ (c :: cs).drop pat.length
    else c :: replaceFirst pat rep cs

/-- The argument of `getUser`: `authHeader.replace('Bearer ', '')`. -/
def bearerToken (authHeader : String) : String :=
  String.mk (replaceFirst "Bearer ".toList [] authHeader.toList)

/-- The object handed to `supabase.from('expenses').insert(...)`. -/
structure InsertRow where
  user_id : String
  merchant : JSValue
  date : JSValue
  category : JSValue
  total_amount_str : JSValue
  total_amount_numeric : JSNum
  gst_amount_str : JSValue
  gst_amount_numeric : JSNum
  other_tax_amount_str : JSValue
  other_tax_amount_numeric : JSNum
  tax_deductible : JSValue
  confidence_score : JSValue
  leakage_risk_score : JSValue
  flag_reason : JSValue
  savings_insight : JSValue
deriving DecidableEq, Repr

/-- What the insert followed by `.select().single()` resolves to: the stored
row, with the id and creation time the database gave it, or an error. -/
inductive InsertOutcome where
  | stored (id : String) (created_at : String) : InsertOutcome
  | failed (message : String) : InsertOutcome
deriving DecidableEq, Repr

/-- The JSON body of a response of the route. -/
inductive ReceiptBody where
  | error (error : String) : ReceiptBody
  | failure (error : String) (details : String) (fallback : Option Record) : ReceiptBody
  | success (id : String) (created_at : String) (data : InsertRow) (message : String) :
      ReceiptBody
deriving DecidableEq, Repr

/-- What a request to the route leads to: the response, the calls and waits
of the retry loop, and the rows handed to the database. -/
structure ReceiptResult where
  status : Nat
  body : ReceiptBody
  events : List Event
  inserted : List InsertRow
deriving DecidableEq, Repr

/-- The message of a thrown error (`error.message`). -/
def JSError.message : JSError → String
  | .error m => m
  | .typeError m => m

/-- The operator `a || b` on values. -/
def valueOr (a b : JSValue) : JSValue := if truthy a then a else b

/-- The `catch` block of the route: status 500, the generic error, the message
as `details`, and the fallback record only in development. -/
def receiptCatch (nodeEnv today : String) (e : JSError) (events : List Event) :
    ReceiptResult :=
  { status := 500,
    body := .failure "Failed to process receipt" e.message
      (if nodeEnv = "development" then some (getFallbackResponse today) else none),
    events := events,
    inserted := [] }

/-- The three `parseCurrency` calls and the object literal of the insert. -/
def buildInsertRow (user : User) (validatedData : Record) : Except JSError InsertRow := do
  let totalAmountNumeric ← parseCurrency (getField validatedData "totalAmountStr")
  let gstAmountNumeric ← parseCurrency (getField validatedData "gstAmountStr")
  let otherTaxAmountNumeric ← parseCurrency (getField validatedData "otherTaxAmountStr")
  pure
    { user_id := user.id,
      merchant := getField validatedData "merchant",
      date := getField validatedData "date",
      category := getField validatedData "category",
      total_amount_str := getField validatedData "totalAmountStr",
      total_amount_numeric := totalAmountNumeric,
      gst_amount_str := getField validatedData "gstAmountStr",
      gst_amount_numeric := gstAmountNumeric,
      other_tax_amount_str := getField validatedData "otherTaxAmountStr",
      other_tax_amount_numeric := otherTaxAmountNumeric,
      tax_deductible := getField validatedData "taxDeductible",
      confidence_score := getField validatedData "confidenceScore",
      leakage_risk_score := getField validatedData "leakageRiskScore",
      flag_reason := getField validatedData "flagReason",
      savings_insight :=
        valueOr (getField validatedData "savingsInsight") (.str "No insight provided") }

/-- The handler of `router.post('/')` in `processReceipt.js`.  `authorization`
is `req.headers.authorization`, `imageBase64` the body member of that name,
`getUser` the auth provider, `model` and `jsonParse` as in
`callGeminiWithRetry`, `dbInsert` the database, `nodeEnv` the value of
`process.env.NODE_ENV`. -/
def processReceipt (getUser : String → ProviderOutcome) (model : Nat → Outcome)
    (jsonParse : String → Option Record) (dbInsert : InsertRow → InsertOutcome)
    (nodeEnv today : String) (authorization : Option String) (imageBase64 : JSValue) :
    ReceiptResult :=
  match authorization with
  | none => ⟨401, .error "No authorization header", [], []⟩
  | some authHeader =>
    if authHeader = "" then ⟨401, .error "No authorization header", [], []⟩
    else
      match getUser (bearerToken authHeader) with
      | .throws message => receiptCatch nodeEnv today (.error message) []
      | .result none _ => ⟨401, .error "Invalid authentication token", [], []⟩
      | .result (some _) (some _) => ⟨401, .error "Invalid authentication token", [], []⟩
      | .result (some user) none =>
        if !truthy imageBase64 then ⟨400, .error "No image data provided", [], []⟩
        else
          let run := callGeminiWithRetry model jsonParse today defaultMaxRetries
          match run.1 with
          | none =>
            receiptCatch nodeEnv today
              (.typeError "Cannot read properties of undefined") run.2
          | some extractedData =>
            match validateExtractedData extractedData with
            | .error e => receiptCatch nodeEnv today e run.2
            | .ok validatedData =>
              match buildInsertRow user validatedData with
              | .error e => receiptCatch nodeEnv today e run.2
              | .ok row =>
                match dbInsert row with
                | .failed _ => ⟨500, .error "Failed to save expense", run.2, [row]⟩
                | .stored id created_at =>
                  ⟨200, .success id created_at row "Receipt processed successfully",
                    run.2, [row]⟩
/-! ## The `expenses` table and its queries -/

/-- A value of the `date` column: a calendar date. -/
structure Date where
  year : Nat
  month : Nat
  day : Nat
deriving DecidableEq, Repr

/-- Whether month and day are those of a calendar date (the database stores no
other). -/
def Date.valid (d : Date) : Bool :=
  decide (1 ≤ d.month) && decide (d.month ≤ 12) && decide (1 ≤ d.day) && decide (d.day ≤ 31)

/-- The order of dates, on or before. -/
def Date.le (a b : Date) : Bool :=
  decide (a.year < b.year) ||
    (decide (a.year = b.year) &&
      (decide (a.month < b.month) || (decide (a.month = b.month) && decide (a.day ≤ b.day))))

/-- A value of a numeric column: the finite decimal `mant / 10 ^ scale`. -/
structure Dec where
  mant : Int
  scale : Nat
deriving DecidableEq, Repr

/-- The number a numeric column value becomes in a query result. -/
def Dec.num (d : Dec) : JSNum := .fin d.mant d.scale

/-- The exact value of a numeric column value. -/
def Dec.toRat (d : Dec) : ℚ := (d.mant : ℚ) / (10 : ℚ) ^ d.scale

/-- A row of the `expenses` table, with the columns the routes of
`expenses.js` read or filter on. -/
structure Expense where
  id : String
  user_id : String
  date : Date
  category : String
  total_amount_numeric : Dec
  gst_amount_numeric : Dec
  other_tax_amount_numeric : Dec
  leakage_risk_score : Int
  created_at : Nat
deriving DecidableEq, Repr

/-- The sum `x + y` of two numbers. -/
def JSNum.add : JSNum → JSNum → JSNum
  | .nan, _ => .nan
  | _, .nan => .nan
  | .inf a, .inf b => if a = b then .inf a else .nan
  | .inf a, .fin _ _ => .inf a
  | .fin _ _, .inf b => .inf b
  | .fin a j, .fin b k => JSNum.dec (a * 10 ^ k + b * 10 ^ j) (j + k)

/-- The sum `x + y` in binary64 arithmetic: the operands are the doubles
nearest to `x` and `y`, the result is the double nearest to their exact sum,
an infinity when that is out of range. -/
def JSNum.addDouble (x y : JSNum) : JSNum := (x.toDouble.add y.toDouble).toDouble

/-- The date `${currentYear}-01-01`. -/
def yearStart (currentYear : Nat) : Date := ⟨currentYear, 1, 1⟩

/-- The date `${currentYear}-12-31`. -/
def yearEnd (currentYear : Nat) : Date := ⟨currentYear, 12, 31⟩

/-- A filter of a query on the table, for the columns the routes filter on. -/
inductive Filter where
  | eqId (id : String) : Filter
  | eqUserId (userId : String) : Filter
  | gteRisk (score : Int) : Filter
  | gteDate (date : Date) : Filter
  | lteDate (date : Date) : Filter
deriving DecidableEq, Repr

/-- Whether a row passes a filter. -/
def Filter.holds : Filter → Expense → Bool
  | .eqId id, e => decide (e.id = id)
  | .eqUserId userId, e => decide (e.user_id = userId)
  | .gteRisk score, e => decide (score ≤ e.leakage_risk_score)
  | .gteDate date, e => date.le e.date
  | .lteDate date, e => e.date.le date

/-- The rows a `select` with these filters returns, in table order. -/
def selectRows (store : List Expense) (filters : List Filter) : List Expense :=
  store.filter (fun e => filters.all (fun f => f.holds e))

/-- The table after a `delete` with these filters: the rows that pass every
filter are gone. -/
def deleteRows (store : List Expense) (filters : List Filter) : List Expense :=
  store.filter (fun e => !filters.all (fun f => f.holds e))

/-- The filters `.eq('user_id', userId).gte('date', start).lte('date', end)`
shared by the first four dashboard queries. -/
def ytdRows (store : List Expense) (userId : String) (currentYear : Nat) : List Expense :=
  selectRows store
    [.eqUserId userId, .gteDate (yearStart currentYear), .lteDate (yearEnd currentYear)]

/-- The fifth dashboard query, with the added filter
`.gte('leakage_risk_score', 7)`. -/
def leakageRows (store : List Expense) (userId : String) (currentYear : Nat) :
    List Expense :=
  selectRows store
    [.eqUserId userId, .gteRisk 7, .gteDate (yearStart currentYear),
      .lteDate (yearEnd currentYear)]

/-- The call `x.toFixed(fractionDigits)` for the quotient `x = num / den` with
`den > 0`: the integer `n` nearest to `|x| * 10 ^ fractionDigits`, the larger
one on a tie, printed with the decimal point inserted, zeros put in front where
it has too few digits, and a minus sign for negative `x`.  The switch to the
exponent form for `|x| ≥ 10 ^ 21` is left out: a mean of database integers is
below that. -/
def toFixed (num : Int) (den : Nat) (fractionDigits : Nat) : String :=
  let n := (2 * num.natAbs * 10 ^ fractionDigits + den) / (2 * den)
  let m := if n = 0 then ['0'] else Nat.toDigits 10 n
  let padded := List.replicate (fractionDigits + 1 - m.length) '0' ++ m
  let body :=
    if fractionDigits = 0 then m
    else padded.take (padded.length - fractionDigits) ++
      '.' :: padded.drop (padded.length - fractionDigits)
  String.mk ((if num < 0 then ['-'] else []) ++ body)

/-- The expression `parseFloat(riskScoreAvg.toFixed(2))`, where `riskScoreAvg`
is the sum of the scores divided by their number, or `0` when there are no
rows. -/
def riskScoreAverage (riskScores : List Expense) : JSNum :=
  if 0 < riskScores.length then
    parseFloatStr
      (toFixed (riskScores.foldl (fun sum exp => sum + exp.leakage_risk_score) 0)
        riskScores.length 2).toList
  else parseFloatStr (toFixed 0 1 2).toList

/-- The members an object literal inherits from `Object.prototype`: the
built-in functions, with the text a function is converted to, and the
accessor `__proto__`, whose value is `Object.prototype` itself. -/
def inheritedMember (key : String) : Option JSValue :=
  if key = "constructor" then some (.obj (some "function Object() \x7b [native code] \x7d"))
  else if key = "__proto__" then some (.obj (some "[object Object]"))
  else if key ∈ ["__defineGetter__", "__defineSetter__", "hasOwnProperty",
      "__lookupGetter__", "__lookupSetter__", "isPrototypeOf", "propertyIsEnumerable",
      "toString", "valueOf", "toLocaleString"] then
    some (.obj (some ("function " ++ key ++ "() \x7b [native code] \x7d")))
  else none

/-- Reading `obj[key]` from an object created by a literal: the own property,
else the inherited member, else `undefined`. -/
def readProperty (obj : Record) (key : String) : JSValue :=
  if obj.any (fun p => p.1 == key) then getField obj key
  else (inheritedMember key).getD .undefined

/-- The assignment `obj[key] = v` of a primitive `v`: the `__proto__` setter
ignores it, any other key becomes or stays an own property. -/
def writeProperty (obj : Record) (key : String) (v : JSValue) : Record :=
  if key = "__proto__" then obj else setField obj key v

/-- The operator `a + b` with a number on the right: string concatenation when
the left operand is a string or converts to one, numeric addition otherwise.
The left operand here is a number, a string or an inherited member; an object
whose conversion throws does not occur among them. -/
def plusNumber (a : JSValue) (b : JSNum) : JSValue :=
  match a with
  | .str s => .str (s ++ numToString b)
  | .obj (some s) => .str (s ++ numToString b)
  | .obj none => .undefined
  | .num x => .num (x.add b)
  | .undefined => .num .nan
  | .null => .num b
  | .bool c => .num ((JSNum.fin (if c then 1 else 0) 0).add b)

/-- The body of the `forEach` callback for one row. -/
def addToCategory (categoryTotals : Record) (exp : Expense) : Record :=
  let init :=
    if !truthy (readProperty categoryTotals exp.category) then
      writeProperty categoryTotals exp.category (.num (.fin 0 0))
    else categoryTotals
  writeProperty init exp.category
    (plusNumber (readProperty init exp.category) exp.total_amount_numeric.num)

/-- The object `categoryTotals` after the `forEach`. -/
def categoryTotals (leakageCategories : List Expense) : Record :=
  leakageCategories.foldl addToCategory []

/-- The array index a property key stands for, if any: the decimal numeral,
without leading zeros, of an integer below `2 ^ 32 - 1`. -/
def arrayIndex (key : String) : Option Nat :=
  if key.toList.all isDigit && !key.toList.isEmpty &&
      (key.toList.head? != some '0' || key.toList.length == 1) &&
      decide (digitsToNat 10 key.toList < 2 ^ 32 - 1) then
    some (digitsToNat 10 key.toList)
  else none

/-- `Object.entries(obj)`: the own properties, those whose key is an array
index first in ascending index order, then the others in creation order. -/
def objectEntries (obj : Record) : List (String × JSValue) :=
  (obj.filter (fun p => (arrayIndex p.1).isSome)).insertionSort
      (fun p q => (arrayIndex p.1).getD 0 ≤ (arrayIndex q.1).getD 0) ++
    obj.filter (fun p => (arrayIndex p.1).isNone)

/-- Whether the comparator `([,a], [,b]) => b - a` gives a positive number, so
that `b` is put first.  A total that has become a string makes the difference
`NaN`, which is not positive. -/
def amountLess (a b : JSValue) : Bool :=
  match a, b with
  | .num x, .num y => x.lt y
  | _, _ => false

/-- The entries of `categoryTotals` after `.sort(([,a], [,b]) => b - a)`: the
sort is stable and moves an entry behind another only when the comparator is
positive. -/
def sortedCategoryTotals (leakageCategories : List Expense) : List (String × JSValue) :=
  (objectEntries (categoryTotals leakageCategories)).insertionSort
    (fun p q => amountLess p.2 q.2 = false)

/-- The array `topLeakageCategories`: the first five sorted entries, as
category and amount. -/
def topLeakageCategories (leakageCategories : List Expense) : List (String × JSValue) :=
  (sortedCategoryTotals leakageCategories).take 5

/-- The body of the dashboard response. -/
structure Dashboard where
  totalExpensesYTD : JSNum
  totalGSTClaimed : JSNum
  totalOtherTaxes : JSNum
  riskScoreAverage : JSNum
  topLeakageCategories : List (String × JSValue)
deriving DecidableEq, Repr

/-- The statistics computed by `router.get('/dashboard')` for the caller
`userId` when no query fails. -/
def dashboard (store : List Expense) (userId : String) (currentYear : Nat) : Dashboard :=
  { totalExpensesYTD :=
      (ytdRows store userId currentYear).foldl
        (fun sum exp => sum.add exp.total_amount_numeric.num) (.fin 0 0),
    totalGSTClaimed :=
      (ytdRows store userId currentYear).foldl
        (fun sum exp => sum.add exp.gst_amount_numeric.num) (.fin 0 0),
    totalOtherTaxes :=
      (ytdRows store userId currentYear).foldl
        (fun sum exp => sum.add exp.other_tax_amount_numeric.num) (.fin 0 0),
    riskScoreAverage := riskScoreAverage (ytdRows store userId currentYear),
    topLeakageCategories := topLeakageCategories (leakageRows store userId currentYear) }

/-! ## The dashboard with the addition left open

The same code with the addition of two numbers as a parameter `plus`:
`JSNum.add` gives the definitions above, sums of exact decimals;
`JSNum.addDouble` gives the sums the program computes, in binary64
arithmetic. -/

/-- The operator `a + b` with a number on the right, as `plusNumber`, with the
addition of two numbers left open. -/
def plusNumberWith (plus : JSNum → JSNum → JSNum) (a : JSValue) (b : JSNum) : JSValue :=
  match a with
  | .str s => .str (s ++ numToString b)
  | .obj (some s) => .str (s ++ numToString b)
  | .obj none => .undefined
  | .num x => .num (plus x b)
  | .undefined => .num .nan
  | .null => .num b
  | .bool c => .num (plus (JSNum.fin (if c then 1 else 0) 0) b)

/-- The body of the `forEach` callback for one row, as `addToCategory`. -/
def addToCategoryWith (plus : JSNum → JSNum → JSNum) (categoryTotals : Record)
    (exp : Expense) : Record :=
  let init :=
    if !truthy (readProperty categoryTotals exp.category) then
      writeProperty categoryTotals exp.category (.num (.fin 0 0))
    else categoryTotals
  writeProperty init exp.category
    (plusNumberWith plus (readProperty init exp.category) exp.total_amount_numeric.num)

/-- The object `categoryTotals` after the `forEach`, as `categoryTotals`. -/
def categoryTotalsWith (plus : JSNum → JSNum → JSNum) (leakageCategories : List Expense) :
    Record :=
  leakageCategories.foldl (addToCategoryWith plus) []

/-- The entries of `categoryTotals` after the sort, as `sortedCategoryTotals`. -/
def sortedCategoryTotalsWith (plus : JSNum → JSNum → JSNum)
    (leakageCategories : List Expense) : List (String × JSValue) :=
  (objectEntries (categoryTotalsWith plus leakageCategories)).insertionSort
    (fun p q => amountLess p.2 q.2 = false)

/-- The array `topLeakageCategories`, as `topLeakageCategories`. -/
def topLeakageCategoriesWith (plus : JSNum → JSNum → JSNum)
    (leakageCategories : List Expense) : List (String × JSValue) :=
  (sortedCategoryTotalsWith plus leakageCategories).take 5

/-- The statistics computed by `router.get('/dashboard')`, as `dashboard`. -/
def dashboardWith (plus : JSNum → JSNum → JSNum) (store : List Expense) (userId : String)
    (currentYear : Nat) : Dashboard :=
  { totalExpensesYTD :=
      (ytdRows store userId currentYear).foldl
        (fun sum exp => plus sum exp.total_amount_numeric.num) (.fin 0 0),
    totalGSTClaimed :=
      (ytdRows store userId currentYear).foldl
        (fun sum exp => plus sum exp.gst_amount_numeric.num) (.fin 0 0),
    totalOtherTaxes :=
      (ytdRows store userId currentYear).foldl
        (fun sum exp => plus sum exp.other_tax_amount_numeric.num) (.fin 0 0),
    riskScoreAverage := riskScoreAverage (ytdRows store userId currentYear),
    topLeakageCategories :=
      topLeakageCategoriesWith plus (leakageRows store userId currentYear) }

/-! ## The other routes of `expenses.js` -/

/-- The error object of a failed database call. -/
structure DbError where
  code : String
  message : String
deriving DecidableEq, Repr

/-- A response with a status and, for an error, its message. -/
structure Reply where
  status : Nat
  error : Option String
deriving DecidableEq, Repr

/-- The handler of `router.delete('/:id')` for the caller `userId`.  `failure`
is the error the database reports, if it fails; a delete that matches no row
is not a failure.  The result is the table afterwards and the response. -/
def deleteExpense (store : List Expense) (failure : Option DbError) (id userId : String) :
    List Expense × Reply :=
  let error := failure
  let store1 := if error.isSome then store else deleteRows store [.eqId id, .eqUserId userId]
  if error.isSome then (store1, ⟨500, some "Failed to delete expense"⟩)
  else if error.isSome && (error.map (fun e => e.code)) == some "PGRST116" then
    (store1, ⟨404, some "Expense not found or unauthorized"⟩)
  else (store1, ⟨204, none⟩)

/-- The rows `router.get('/')` returns for the caller: the caller's rows by
date, latest first. -/
def listExpenses (store : List Expense) (userId : String) : List Expense :=
  (selectRows store [.eqUserId userId]).insertionSort (fun a b => b.date.le a.date = true)

/-- The rows `router.get('/flagged')` returns for the caller: the caller's rows
with a score of 7 or more by creation time, latest first. -/
def listFlagged (store : List Expense) (userId : String) : List Expense :=
  (selectRows store [.eqUserId userId, .gteRisk 7]).insertionSort
    (fun a b => b.created_at ≤ a.created_at)

/-- What the middleware `authenticateUser` does with a request: it sets
`req.user` and calls `next()`, or it responds itself. -/
inductive GateOutcome where
  | next (user : User) : GateOutcome
  | respond (status : Nat) (error : String) : GateOutcome
deriving DecidableEq, Repr

/-- The middleware `authenticateUser` of `expenses.js`.  `authorization` is
`req.headers.authorization`. -/
def authenticateUser (getUser : String → ProviderOutcome) (authorization : Option String) :
    GateOutcome :=
  match authorization with
  | none => .respond 401 "No authorization header"
  | some authHeader =>
    if authHeader = "" then .respond 401 "No authorization header"
    else
      match getUser (bearerToken authHeader) with
      | .throws _ => .respond 401 "Authentication failed"
      | .result none _ => .respond 401 "Invalid authentication token"
      | .result (some _) (some _) => .respond 401 "Invalid authentication token"
      | .result (some user) none => .next user

/-- What `router.get('/profile')` of `auth.js` answers: the profile of the
resolved user (its `id`, `email` and `created_at`), or a status with an error
message. -/
inductive ProfileReply where
  | profile (user : User) : ProfileReply
  | respond (status : Nat) (error : String) : ProfileReply
deriving DecidableEq, Repr

/-- The handler of `router.get('/profile')` in `auth.js`.  `authorization` is
`req.headers.authorization`. -/
def getProfile (getUser : String → ProviderOutcome) (authorization : Option String) :
    ProfileReply :=
  match authorization with
  | none => .respond 401 "No authorization header"
  | some authHeader =>
    if authHeader = "" then .respond 401 "No authorization header"
    else
      match getUser (bearerToken authHeader) with
      | .throws _ => .respond 500 "Failed to fetch user profile"
      | .result none _ => .respond 401 "Invalid authentication token"
      | .result (some _) (some _) => .respond 401 "Invalid authentication token"
      | .result (some user) none => .profile user

/-! ## The scanner page and the body limit -/

/-- The constant `MAX_SIZE_MB` of `ScanReceipt.js`. -/
def MAX_SIZE_MB : Nat := 8

/-- Whether `processFile` goes on with an image file of this size in bytes:
it stops when `file.size > MAX_SIZE_MB * 1024 * 1024`. -/
def acceptsFileSize (size : Nat) : Bool :=
  !decide (size > MAX_SIZE_MB * 1024 * 1024)

/-- The length of `reader.result.split(',')[1]` for a file of `size` bytes:
`readAsDataURL` encodes every three bytes, the last group padded, as four
characters. -/
def base64Length (size : Nat) : Nat := 4 * ((size + 2) / 3)

/-- The length in bytes of `JSON.stringify(\x7b imageBase64: base64 \x7d)` for a
file of `size` bytes: the payload between the opening and the closing text;
every character is one byte. -/
def requestBodyLength (size : Nat) : Nat :=
  "\x7b\"imageBase64\":\"".length + base64Length size + "\"\x7d".length

/-- The limit of `express.json(\x7b limit: '10mb' \x7d)` in bytes. -/
def jsonBodyLimit : Nat := 10 * 1024 * 1024

/-- Whether the body parser takes a body of this length: it refuses one that
is longer than the limit. -/
def bodyWithinLimit (length : Nat) : Bool := decide (length ≤ jsonBodyLimit)

/-! ## The transaction table -/

/-- The comparison `a >= b` on numbers: false when either is `NaN`. -/
def JSNum.ge (a b : JSNum) : Bool :=
  !(a.isNaN || b.isNaN) && !(a.lt b)

/-- The class `colorClass` the component `DataBadge` of `TransactionList.js`
gives its badge, for the props `value` and `type`. -/
def DataBadge (value : JSValue) (type : String) : Except JSError String :=
  if type = "risk" then do
    let numericValue ← parseFloat value
    if numericValue.ge (.fin 7 0) then pure "bg-red-100 text-red-800 font-bold"
    else if numericValue.ge (.fin 4 0) then pure "bg-yellow-100 text-yellow-800"
    else pure "bg-green-100 text-green-800"
  else if type = "deductible" then
    pure (if truthy value then "bg-indigo-100 text-indigo-800" else "bg-gray-100 text-gray-500")
  else pure "bg-gray-100 text-gray-800"

/-! ## Sample data -/

/-- A complete record as the vision model is asked to produce it, with the two
scores left open. -/
def sampleRecord (leakage confidence : JSValue) : Record :=
  [("merchant", .str "City Fuel"),
    ("totalAmountStr", .str "₹1,500.00"),
    ("date", .str "2024-03-09"),
    ("category", .str "Fuel"),
    ("gstAmountStr", .str "₹75.00"),
    ("otherTaxAmountStr", .str "₹0.00"),
    ("taxDeductible", .bool true),
    ("confidenceScore", confidence),
    ("leakageRiskScore", leakage),
    ("flagReason", .str "")]

/-- A caller, as the auth provider resolves the token `tok-a`. -/
def sampleUser : User := ⟨"user-a", "a@example.com"⟩

/-- An auth provider that knows the token `tok-a` only. -/
def sampleGetUser (token : String) : ProviderOutcome :=
  if token = "tok-a" then .result (some sampleUser) none
  else .result none (some "invalid JWT")

/-- A database that stores every row under the id `e-1`. -/
def sampleInsert (_row : InsertRow) : InsertOutcome := .stored "e-1" "2024-03-09T10:00:00Z"

/-- The row built from the fallback record for a caller. -/
def fallbackInsertRow (user : User) (today : String) : InsertRow :=
  { user_id := user.id,
    merchant := .str "Unknown Merchant",
    date := .str today,
    category := .str "Other",
    total_amount_str := .str "₹0.00",
    total_amount_numeric := .fin 0 0,
    gst_amount_str := .str "₹0.00",
    gst_amount_numeric := .fin 0 0,
    other_tax_amount_str := .str "₹0.00",
    other_tax_amount_numeric := .fin 0 0,
    tax_deductible := .bool false,
    confidence_score := .num (.fin 1 1),
    leakage_risk_score := .num (.fin 5 0),
    flag_reason := .str "Unable to analyze receipt image",
    savings_insight := .str "Please verify expense details manually" }

/-- The categories the prompt and the data model enumerate. -/
def expenseCategories : List String :=
  ["Fuel", "Meals", "Supplies", "Travel", "Software", "Office", "Utilities", "Marketing",
    "Entertainment", "Transportation", "Other"]

/-- A response text of the vision model: a complete record whose category is
not one of the enumerated ones. -/
def groceriesText : String :=
  "\x7b\"merchant\":\"City Fuel\",\"totalAmountStr\":\"₹1,500.00\",\"date\":\"2024-03-09\"," ++
  "\"category\":\"Groceries\",\"gstAmountStr\":\"₹75.00\",\"otherTaxAmountStr\":\"₹0.00\"," ++
  "\"taxDeductible\":true,\"confidenceScore\":0.85,\"leakageRiskScore\":7," ++
  "\"flagReason\":\"\"\x7d"

/-- The object `JSON.parse` makes of `groceriesText`. -/
def groceriesRecord : Record :=
  [("merchant", .str "City Fuel"),
    ("totalAmountStr", .str "₹1,500.00"),
    ("date", .str "2024-03-09"),
    ("category", .str "Groceries"),
    ("gstAmountStr", .str "₹75.00"),
    ("otherTaxAmountStr", .str "₹0.00"),
    ("taxDeductible", .bool true),
    ("confidenceScore", .num (.fin 85 2)),
    ("leakageRiskScore", .num (.fin 7 0)),
    ("flagReason", .str "")]

/-- `JSON.parse` on the one text used here. -/
def groceriesParse (text : String) : Option Record :=
  if text = groceriesText then some groceriesRecord else none

/-- The row the route builds from `groceriesRecord` for the sample caller. -/
def groceriesRow : InsertRow :=
  { user_id := "user-a",
    merchant := .str "City Fuel",
    date := .str "2024-03-09",
    category := .str "Groceries",
    total_amount_str := .str "₹1,500.00",
    total_amount_numeric := .fin 1500 0,
    gst_amount_str := .str "₹75.00",
    gst_amount_numeric := .fin 75 0,
    other_tax_amount_str := .str "₹0.00",
    other_tax_amount_numeric := .fin 0 0,
    tax_deductible := .bool true,
    confidence_score := .num (.fin 85 2),
    leakage_risk_score := .num (.fin 7 0),
    flag_reason := .str "",
    savings_insight := .str "No insight provided" }

/-- An expense of user A. -/
def expenseOfA : Expense :=
  ⟨"e-1", "user-a", ⟨2024, 3, 9⟩, "Meals", ⟨100, 0⟩, ⟨10, 0⟩, ⟨0, 0⟩, 8, 1⟩

/-- Another expense of user A. -/
def secondOfA : Expense :=
  ⟨"e-2", "user-a", ⟨2024, 5, 1⟩, "Fuel", ⟨200, 0⟩, ⟨20, 0⟩, ⟨0, 0⟩, 3, 2⟩

/-- An expense of user B. -/
def expenseOfB : Expense :=
  ⟨"e-3", "user-b", ⟨2024, 5, 2⟩, "Travel", ⟨4000, 2⟩, ⟨0, 0⟩, ⟨0, 0⟩, 9, 3⟩

/-- An expense of user A dated in an earlier year. -/
def lastYearOfA : Expense :=
  ⟨"e-0", "user-a", ⟨2023, 12, 31⟩, "Meals", ⟨999, 0⟩, ⟨99, 0⟩, ⟨9, 0⟩, 10, 0⟩

/-- A high-risk expense whose category is the name of a member every object
inherits. -/
def constructorExpense : Expense :=
  ⟨"e-4", "user-a", ⟨2024, 6, 1⟩, "constructor", ⟨100, 0⟩, ⟨0, 0⟩, ⟨0, 0⟩, 8, 4⟩

/-- A high-risk expense whose category is the numeral `10`. -/
def categoryTen : Expense :=
  ⟨"e-5", "user-a", ⟨2024, 6, 2⟩, "10", ⟨50, 0⟩, ⟨0, 0⟩, ⟨0, 0⟩, 9, 5⟩

/-- A high-risk expense whose category is the numeral `9`, with the same
amount. -/
def categoryNine : Expense :=
  ⟨"e-6", "user-a", ⟨2024, 6, 3⟩, "9", ⟨50, 0⟩, ⟨0, 0⟩, ⟨0, 0⟩, 9, 6⟩

/-- The amount a category total stands for: the value of a finite number, `0`
for anything else. -/
def amountOf : JSValue → ℚ
  | .num x => x.toRat
  | _ => 0

/-- A high-risk expense of user A in the category Travel, with the amount of
`expenseOfA`. -/
def travelOfA : Expense :=
  ⟨"e-7", "user-a", ⟨2024, 6, 4⟩, "Travel", ⟨100, 0⟩, ⟨0, 0⟩, ⟨0, 0⟩, 8, 7⟩

/-- `JSON.parse` on the text of an empty object. -/
def emptyObjectParse (text : String) : Option Record :=
  if text = "\x7b\x7d" then some [] else none

/-- A complete record whose total amount is the number 1500, not a string. -/
def numericAmountRecord : Record :=
  [("merchant", .str "City Fuel"),
    ("totalAmountStr", .num (.fin 1500 0)),
    ("date", .str "2024-03-09"),
    ("category", .str "Fuel"),
    ("gstAmountStr", .str "₹75.00"),
    ("otherTaxAmountStr", .str "₹0.00"),
    ("taxDeductible", .bool true),
    ("confidenceScore", .num (.fin 85 2)),
    ("leakageRiskScore", .num (.fin 7 0)),
    ("flagReason", .str "")]

/-- A complete record whose total amount is the number 0. -/
def zeroAmountRecord : Record :=
  [("merchant", .str "City Fuel"),
    ("totalAmountStr", .num (.fin 0 0)),
    ("date", .str "2024-03-09"),
    ("category", .str "Fuel"),
    ("gstAmountStr", .str "₹75.00"),
    ("otherTaxAmountStr", .str "₹0.00"),
    ("taxDeductible", .bool true),
    ("confidenceScore", .num (.fin 85 2)),
    ("leakageRiskScore", .num (.fin 7 0)),
    ("flagReason", .str "")]

/-- The sample record with a further field the code does not know. -/
def annotatedRecord (leakage confidence : JSValue) : Record :=
  sampleRecord leakage confidence ++ [("note", .str "paid")]

/-- A second high-risk expense with the category of `constructorExpense`. -/
def constructorSecond : Expense :=
  ⟨"e-9", "user-a", ⟨2024, 8, 2⟩, "constructor", ⟨200, 0⟩, ⟨0, 0⟩, ⟨0, 0⟩, 7, 9⟩

/-- A high-risk expense of user A in the category Meals with 0.1 in each
numeric column. -/
def tenthOfA : Expense :=
  ⟨"e-8", "user-a", ⟨2024, 7, 1⟩, "Meals", ⟨1, 1⟩, ⟨1, 1⟩, ⟨1, 1⟩, 8, 8⟩

/-- A second one, with 0.2 in each numeric column. -/
def fifthOfA : Expense :=
  ⟨"e-9", "user-a", ⟨2024, 7, 2⟩, "Meals", ⟨2, 1⟩, ⟨2, 1⟩, ⟨2, 1⟩, 8, 9⟩

/-- A high-risk expense of user A in the category Travel with the amount
0.3. -/
def threeTenthsOfA : Expense :=
  ⟨"e-10", "user-a", ⟨2024, 6, 30⟩, "Travel", ⟨3, 1⟩, ⟨0, 0⟩, ⟨0, 0⟩, 8, 10⟩

/-! # Theorems -/

/-! ## Records -/

theorem getField_setField_same (d : Record) (f : String) (v : JSValue) :
    getField (setField d f v) f = v := by
  induction d with
  | nil => simp [setField, getField]
  | cons p rest ih =>
    obtain ⟨k, w⟩ := p
    by_cases h : k = f
    · simp [setField, getField, h]
    · simp [setField, getField, h, ih]

theorem getField_setField_other (d : Record) (f g : String) (v : JSValue) (h : g ≠ f) :
    getField (setField d f v) g = getField d g := by
  induction d with
  | nil => simp [setField, getField, Ne.symm h]
  | cons p rest ih =>
    obtain ⟨k, w⟩ := p
    by_cases hk : k = f
    · subst hk
      simp [setField, getField, Ne.symm h]
    · by_cases hg : k = g
      · subst hg
        simp [setField, getField, hk]
      · simp [setField, getField, hk, hg, ih]

/-! ## The required-field loop -/

theorem isAbsent_iff (v : JSValue) : isAbsent v = true ↔ v = .undefined ∨ v = .null := by
  cases v <;> simp [isAbsent]

theorem checkRequired_ok_iff (data : Record) (fs : List String) :
    checkRequired data fs = .ok () ↔ ∀ f ∈ fs, isAbsent (getField data f) = false := by
  induction fs with
  | nil => simp [checkRequired]
  | cons f rest ih =>
    by_cases h : isAbsent (getField data f) = true
    · simp [checkRequired, h]
    · simp [checkRequired, h, ih]

theorem checkRequired_error (data : Record) (fs : List String) (e : JSError)
    (h : checkRequired data fs = .error e) :
    ∃ f ∈ fs, isAbsent (getField data f) = true ∧ e = .error ("Missing required field: " ++ f) := by
  induction fs with
  | nil => simp [checkRequired] at h
  | cons f rest ih =>
    by_cases ha : isAbsent (getField data f) = true
    · simp [checkRequired, ha] at h
      exact ⟨f, by simp, ha, h.symm⟩
    · simp [checkRequired, ha] at h
      obtain ⟨g, hg, hga, he⟩ := ih h
      exact ⟨g, by simp [hg], hga, he⟩

theorem checkRequired_cases (data : Record) (fs : List String) :
    checkRequired data fs = .ok () ∨
      ∃ f ∈ fs, isAbsent (getField data f) = true ∧
        checkRequired data fs = .error (.error ("Missing required field: " ++ f)) := by
  cases h : checkRequired data fs with
  | ok u => left; rfl
  | error e =>
    right
    obtain ⟨f, hf, ha, he⟩ := checkRequired_error data fs e h
    exact ⟨f, hf, ha, by rw [he]⟩

/-! ## Clamping -/

theorem parseIntStr_cases (s : List Char) :
    parseIntStr s = .nan ∨ ∃ n : Int, parseIntStr s = .fin n 0 := by
  unfold parseIntStr
  simp only
  split_ifs <;> first | exact Or.inl rfl | exact Or.inr ⟨_, rfl⟩

/-- The leakage expression always yields an integer between 0 and 10. -/
theorem clampLeakage_range (x : JSNum) (hx : x = .nan ∨ ∃ n : Int, x = .fin n 0) :
    ∃ n : Nat, n ≤ 10 ∧
      mathMax (.fin 0 0) (mathMin (.fin 10 0) (numOr x (.fin 5 0))) = .fin n 0 := by
  rcases hx with rfl | ⟨n, rfl⟩
  · exact ⟨5, by decide, by decide⟩
  · by_cases h0 : n = 0
    · subst h0
      exact ⟨5, by decide, by decide⟩
    · by_cases h10 : n < 10
      · by_cases hpos : 0 < n
        · refine ⟨n.toNat, by omega, ?_⟩
          simp [mathMax, mathMin, numOr, JSNum.truthy, JSNum.isNaN, JSNum.lt, h0, h10, hpos]
          omega
        · refine ⟨0, by omega, ?_⟩
          simp [mathMax, mathMin, numOr, JSNum.truthy, JSNum.isNaN, JSNum.lt, h0, h10, hpos]
      · refine ⟨10, by omega, ?_⟩
        simp [mathMax, mathMin, numOr, JSNum.truthy, JSNum.isNaN, JSNum.lt, h0, h10]

/-- The confidence expression always yields a finite number between 0 and 1. -/
theorem clampConfidence_range (x : JSNum) :
    ∃ (m : Int) (k : Nat), 0 ≤ m ∧ m ≤ 10 ^ k ∧
      mathMax (.fin 0 0) (mathMin (.fin 1 0) (numOr x (.fin 5 1))) = .fin m k := by
  cases x with
  | nan => exact ⟨5, 1, by decide, by decide, by decide⟩
  | inf neg =>
    cases neg
    · exact ⟨1, 0, by decide, by decide, by decide⟩
    · exact ⟨0, 0, by decide, by decide, by decide⟩
  | fin m k =>
    by_cases h0 : m = 0
    · subst h0
      refine ⟨5, 1, by decide, by decide, ?_⟩
      simp [mathMax, mathMin, numOr, JSNum.truthy, JSNum.isNaN, JSNum.lt]
    · by_cases h1 : m < 10 ^ k
      · by_cases hpos : 0 < m
        · refine ⟨m, k, by omega, by omega, ?_⟩
          simp [mathMax, mathMin, numOr, JSNum.truthy, JSNum.isNaN, JSNum.lt, h0, h1, hpos]
        · refine ⟨0, 0, by omega, by simp, ?_⟩
          simp [mathMax, mathMin, numOr, JSNum.truthy, JSNum.isNaN, JSNum.lt, h0, h1, hpos]
      · refine ⟨1, 0, by omega, by simp, ?_⟩
        simp [mathMax, mathMin, numOr, JSNum.truthy, JSNum.isNaN, JSNum.lt, h0, h1]

/-! ## Shape of `validateExtractedData` -/

theorem toStr_error_iff (v : JSValue) (e : JSError) :
    toStr v = .error e ↔
      v = .obj none ∧ e = .typeError "Cannot convert object to primitive value" := by
  cases v with
  | bool b => cases b <;> simp [toStr]
  | obj c => cases c <;> simp [toStr, eq_comm]
  | _ => simp [toStr]

theorem toStr_ok_of_ne (v : JSValue) (h : v ≠ .obj none) : ∃ s, toStr v = .ok s := by
  cases hv : toStr v with
  | ok s => exact ⟨s, rfl⟩
  | error e => exact absurd ((toStr_error_iff v e).1 hv).1 h

/-- The validator, written out: the required-field loop, then the two string
conversions, then the two assignments. -/
theorem validateExtractedData_unfold (data : Record) :
    validateExtractedData data =
      match checkRequired data required with
      | .error e => .error e
      | .ok _ =>
        match toStr (getField data "leakageRiskScore") with
        | .error e => .error e
        | .ok s1 =>
          match toStr (getField data "confidenceScore") with
          | .error e => .error e
          | .ok s2 =>
            .ok (setField
              (setField data "leakageRiskScore"
                (.num (mathMax (.fin 0 0) (mathMin (.fin 10 0)
                  (numOr (parseIntStr s1.toList) (.fin 5 0))))))
              "confidenceScore"
              (.num (mathMax (.fin 0 0) (mathMin (.fin 1 0)
                (numOr (parseFloatStr s2.toList) (.fin 5 1)))))) := by
  unfold validateExtractedData
  cases hc : checkRequired data required with
  | error e => rfl
  | ok u =>
    cases h1 : toStr (getField data "leakageRiskScore") with
    | error e => simp [bind, Except.bind, parseInt, Except.map, h1]
    | ok s1 =>
      have hne : ("confidenceScore" : String) ≠ "leakageRiskScore" := by decide
      cases h2 : toStr (getField data "confidenceScore") with
      | error e =>
        simp [bind, Except.bind, parseInt, parseFloat, Except.map, h1, h2,
          getField_setField_other _ _ _ _ hne]
      | ok s2 =>
        simp [bind, Except.bind, parseInt, parseFloat, Except.map, h1, h2,
          getField_setField_other _ _ _ _ hne, pure, Except.pure]

theorem validateExtractedData_ok_inv (data out : Record)
    (h : validateExtractedData data = .ok out) :
    checkRequired data required = .ok () ∧
    ∃ s1 s2, toStr (getField data "leakageRiskScore") = .ok s1 ∧
      toStr (getField data "confidenceScore") = .ok s2 ∧
      out = setField
        (setField data "leakageRiskScore"
          (.num (mathMax (.fin 0 0) (mathMin (.fin 10 0)
            (numOr (parseIntStr s1.toList) (.fin 5 0))))))
        "confidenceScore"
        (.num (mathMax (.fin 0 0) (mathMin (.fin 1 0)
          (numOr (parseFloatStr s2.toList) (.fin 5 1))))) := by
  rw [validateExtractedData_unfold] at h
  cases hc : checkRequired data required with
  | error e => simp [hc] at h
  | ok u =>
    cases h1 : toStr (getField data "leakageRiskScore") with
    | error e => simp [hc, h1] at h
    | ok s1 =>
      cases h2 : toStr (getField data "confidenceScore") with
      | error e => simp [hc, h1, h2] at h
      | ok s2 =>
        simp [hc, h1, h2] at h
        exact ⟨rfl, s1, s2, rfl, rfl, h.symm⟩

theorem validateExtractedData_error_inv (data : Record) (e : JSError)
    (h : validateExtractedData data = .error e) :
    checkRequired data required = .error e ∨
      (checkRequired data required = .ok () ∧
        e = .typeError "Cannot convert object to primitive value" ∧
        (getField data "leakageRiskScore" = .obj none ∨
          getField data "confidenceScore" = .obj none)) := by
  rw [validateExtractedData_unfold] at h
  cases hc : checkRequired data required with
  | error e1 =>
    simp [hc] at h
    left; rw [h]
  | ok u =>
    right
    refine ⟨rfl, ?_⟩
    cases h1 : toStr (getField data "leakageRiskScore") with
    | error e1 =>
      simp [hc, h1] at h
      subst h
      have := (toStr_error_iff _ _).1 h1
      exact ⟨this.2, Or.inl this.1⟩
    | ok s1 =>
      cases h2 : toStr (getField data "confidenceScore") with
      | error e2 =>
        simp [hc, h1, h2] at h
        subst h
        have := (toStr_error_iff _ _).1 h2
        exact ⟨this.2, Or.inr this.1⟩
      | ok s2 => simp [hc, h1, h2] at h

theorem validateExtractedData_ok_of (data : Record)
    (hc : checkRequired data required = .ok ())
    (h1 : getField data "leakageRiskScore" ≠ .obj none)
    (h2 : getField data "confidenceScore" ≠ .obj none) :
    ∃ out, validateExtractedData data = .ok out := by
  obtain ⟨s1, hs1⟩ := toStr_ok_of_ne _ h1
  obtain ⟨s2, hs2⟩ := toStr_ok_of_ne _ h2
  rw [validateExtractedData_unfold]
  simp [hc, hs1, hs2]

/-! ## The extraction validator -/

theorem checkRequired_ok_of_present (data : Record)
    (h : ∀ f ∈ required, getField data f ≠ .undefined ∧ getField data f ≠ .null) :
    checkRequired data required = .ok () := by
  rw [checkRequired_ok_iff]
  intro f hf
  cases hab : isAbsent (getField data f) with
  | false => rfl
  | true =>
    rcases (isAbsent_iff _).1 hab with h1 | h1
    · exact absurd h1 (h f hf).1
    · exact absurd h1 (h f hf).2

/-- C1, as amended.  `validateExtractedData` raises a "Missing required field"
error exactly when one of the ten fields `merchant`, `totalAmountStr`, `date`,
`category`, `gstAmountStr`, `otherTaxAmountStr`, `taxDeductible`,
`confidenceScore`, `leakageRiskScore`, `flagReason` is `undefined` or `null`.
A record that has all ten is accepted, whether or not it has `savingsInsight`,
exactly when neither score is an object whose conversion to a string throws;
when one is, the call raises that `TypeError`.  A record whose ten fields all
hold `false`, `0` or the empty string is accepted. -/
theorem validateExtractedData_missing_field_iff (data : Record) :
    ((∃ f, validateExtractedData data =
          .error (.error ("Missing required field: " ++ f))) ↔
        ∃ f ∈ ["merchant", "totalAmountStr", "date", "category", "gstAmountStr",
            "otherTaxAmountStr", "taxDeductible", "confidenceScore", "leakageRiskScore",
            "flagReason"],
          getField data f = .undefined ∨ getField data f = .null) ∧
    ((∀ f ∈ ["merchant", "totalAmountStr", "date", "category", "gstAmountStr",
            "otherTaxAmountStr", "taxDeductible", "confidenceScore", "leakageRiskScore",
            "flagReason"],
          getField data f ≠ .undefined ∧ getField data f ≠ .null) →
        ((∃ out, validateExtractedData data = .ok out) ↔
          (getField data "leakageRiskScore" ≠ .obj none ∧
            getField data "confidenceScore" ≠ .obj none)) ∧
        ((getField data "leakageRiskScore" = .obj none ∨
            getField data "confidenceScore" = .obj none) →
          validateExtractedData data =
            .error (.typeError "Cannot convert object to primitive value"))) ∧
    ((∀ f ∈ ["merchant", "totalAmountStr", "date", "category", "gstAmountStr",
            "otherTaxAmountStr", "taxDeductible", "confidenceScore", "leakageRiskScore",
            "flagReason"],
          getField data f = .bool false ∨
          getField data f = .num (.fin 0 0) ∨ getField data f = .str "") →
        ∃ out, validateExtractedData data = .ok out) := by
  have hreq : required = ["merchant", "totalAmountStr", "date", "category", "gstAmountStr",
      "otherTaxAmountStr", "taxDeductible", "confidenceScore", "leakageRiskScore",
      "flagReason"] := rfl
  rw [← hreq]
  have hthrow : (∀ f ∈ required, getField data f ≠ .undefined ∧ getField data f ≠ .null) →
      (getField data "leakageRiskScore" = .obj none ∨
        getField data "confidenceScore" = .obj none) →
      validateExtractedData data =
        .error (.typeError "Cannot convert object to primitive value") := by
    intro hpres hobj
    have hc := checkRequired_ok_of_present data hpres
    cases hv : validateExtractedData data with
    | ok out =>
      obtain ⟨_, s1, s2, hs1, hs2, _⟩ := validateExtractedData_ok_inv data out hv
      rcases hobj with h | h
      · rw [h] at hs1
        cases hs1
      · rw [h] at hs2
        cases hs2
    | error e =>
      rcases validateExtractedData_error_inv data e hv with hce | ⟨_, he, _⟩
      · rw [hc] at hce
        cases hce
      · rw [he]
  refine ⟨⟨?_, ?_⟩, ?_, ?_⟩
  · rintro ⟨f, hf⟩
    rcases validateExtractedData_error_inv data _ hf with hc | ⟨_, he, _⟩
    · obtain ⟨g, hg, hga, _⟩ := checkRequired_error data required _ hc
      exact ⟨g, hg, (isAbsent_iff _).1 hga⟩
    · cases he
  · rintro ⟨f, hf, habs⟩
    rcases checkRequired_cases data required with hok | ⟨g, _, _, hg⟩
    · have := (checkRequired_ok_iff data required).1 hok f hf
      rw [(isAbsent_iff _).2 habs] at this
      cases this
    · refine ⟨g, ?_⟩
      rw [validateExtractedData_unfold, hg]
  · intro hpres
    refine ⟨⟨?_, ?_⟩, hthrow hpres⟩
    · rintro ⟨out, hout⟩
      constructor
      · intro h
        rw [hthrow hpres (Or.inl h)] at hout
        cases hout
      · intro h
        rw [hthrow hpres (Or.inr h)] at hout
        cases hout
    · rintro ⟨hl, hcf⟩
      exact validateExtractedData_ok_of data (checkRequired_ok_of_present data hpres) hl hcf
  · intro hfalsy
    have hl : getField data "leakageRiskScore" ≠ .obj none := by
      rcases hfalsy "leakageRiskScore" (by decide) with h | h | h <;> rw [h] <;> decide
    have hcf : getField data "confidenceScore" ≠ .obj none := by
      rcases hfalsy "confidenceScore" (by decide) with h | h | h <;> rw [h] <;> decide
    refine validateExtractedData_ok_of data (checkRequired_ok_of_present data ?_) hl hcf
    intro f hf
    rcases hfalsy f hf with h | h | h <;> rw [h] <;> exact ⟨by decide, by decide⟩

/-- C1, at a record with all ten required fields and no `savingsInsight`: it
is returned. -/
theorem validateExtractedData_missing_field_iff_witness :
    ∃ out, validateExtractedData
      (sampleRecord (.num (.fin 7 0)) (.num (.fin 85 2))) = .ok out :=
  ((validateExtractedData_missing_field_iff
      (sampleRecord (.num (.fin 7 0)) (.num (.fin 85 2)))).2.1 (by decide)).1.2
    ⟨by decide, by decide⟩

/-- C1 as stated fails at a record that has all ten fields and whose
`leakageRiskScore` is an object that cannot be converted to a string (in a
JSON text, an object with a `toString` member that is not a function):
no field is `undefined` or `null`, yet the record is not accepted;
`parseInt` raises a `TypeError`. -/
theorem validateExtractedData_complete_rejected_counterexample :
    (∀ f ∈ ["merchant", "totalAmountStr", "date", "category", "gstAmountStr",
          "otherTaxAmountStr", "taxDeductible", "confidenceScore", "leakageRiskScore",
          "flagReason"],
        getField (sampleRecord (.obj none) (.num (.fin 85 2))) f ≠ .undefined ∧
          getField (sampleRecord (.obj none) (.num (.fin 85 2))) f ≠ .null) ∧
      validateExtractedData (sampleRecord (.obj none) (.num (.fin 85 2))) =
        .error (.typeError "Cannot convert object to primitive value") := by
  decide

/-- C2. For every record that has the ten required fields, whatever its two
score fields hold (numbers, strings, booleans, or any array or object that can
be converted to a string), `validateExtractedData` returns a record whose
`leakageRiskScore` is an integer between 0 and 10 and whose `confidenceScore`
is a finite number between 0 and 1; a `leakageRiskScore` of 15 becomes 10 and
a `confidenceScore` of -1 becomes 0. -/
theorem validateExtractedData_scores_in_range (data : Record)
    (hreq : ∀ f ∈ required, getField data f ≠ .undefined ∧ getField data f ≠ .null)
    (hl : getField data "leakageRiskScore" ≠ .obj none)
    (hc : getField data "confidenceScore" ≠ .obj none) :
    ∃ out, validateExtractedData data = .ok out ∧
      (∃ n : Nat, n ≤ 10 ∧ getField out "leakageRiskScore" = .num (.fin n 0)) ∧
      (∃ c : JSNum, getField out "confidenceScore" = .num c ∧ c.isFinite = true ∧
        0 ≤ c.toRat ∧ c.toRat ≤ 1) ∧
      (getField data "leakageRiskScore" = .num (.fin 15 0) →
        getField out "leakageRiskScore" = .num (.fin 10 0)) ∧
      (getField data "confidenceScore" = .num (.fin (-1) 0) →
        getField out "confidenceScore" = .num (.fin 0 0)) := by
  obtain ⟨out, hout⟩ :=
    validateExtractedData_ok_of data (checkRequired_ok_of_present data hreq) hl hc
  obtain ⟨_, s1, s2, hs1, hs2, rfl⟩ := validateExtractedData_ok_inv data out hout
  have hne : ("leakageRiskScore" : String) ≠ "confidenceScore" := by decide
  refine ⟨_, hout, ?_, ?_, ?_, ?_⟩
  · obtain ⟨n, hn, hv⟩ := clampLeakage_range _ (parseIntStr_cases s1.toList)
    exact ⟨n, hn, by rw [getField_setField_other _ _ _ _ hne, getField_setField_same, hv]⟩
  · obtain ⟨m, k, h0, h1, hv⟩ := clampConfidence_range (parseFloatStr s2.toList)
    refine ⟨.fin m k, by rw [getField_setField_same, hv], rfl, ?_, ?_⟩
    · exact div_nonneg (by exact_mod_cast h0) (by positivity)
    · have h1q : (m : ℚ) ≤ (10 : ℚ) ^ k := by exact_mod_cast h1
      exact (div_le_one (by positivity)).2 h1q
  · intro h15
    rw [h15] at hs1
    simp only [toStr, Except.ok.injEq] at hs1
    subst hs1
    rw [getField_setField_other _ _ _ _ hne, getField_setField_same]
    decide
  · intro hneg
    rw [hneg] at hs2
    simp only [toStr, Except.ok.injEq] at hs2
    subst hs2
    rw [getField_setField_same]
    decide

/-- C2, at a complete record with `leakageRiskScore` 15 and `confidenceScore`
-1. -/
theorem validateExtractedData_scores_in_range_witness :
    ∃ out, validateExtractedData
        (sampleRecord (.num (.fin 15 0)) (.num (.fin (-1) 0))) = .ok out ∧
      (∃ n : Nat, n ≤ 10 ∧ getField out "leakageRiskScore" = .num (.fin n 0)) ∧
      (∃ c : JSNum, getField out "confidenceScore" = .num c ∧ c.isFinite = true ∧
        0 ≤ c.toRat ∧ c.toRat ≤ 1) ∧
      (getField (sampleRecord (.num (.fin 15 0)) (.num (.fin (-1) 0)))
          "leakageRiskScore" = .num (.fin 15 0) →
        getField out "leakageRiskScore" = .num (.fin 10 0)) ∧
      (getField (sampleRecord (.num (.fin 15 0)) (.num (.fin (-1) 0)))
          "confidenceScore" = .num (.fin (-1) 0) →
        getField out "confidenceScore" = .num (.fin 0 0)) :=
  validateExtractedData_scores_in_range
    (sampleRecord (.num (.fin 15 0)) (.num (.fin (-1) 0)))
    (by decide) (by decide) (by decide)

/-- C3. At a complete record whose two scores are the in-range value 0, the
validator does not return them: `parseInt(0) || 5` and `parseFloat(0) || 0.5`
take 0 for a missing value, so the record comes back with `leakageRiskScore` 5
and `confidenceScore` 0.5.  In-range scores other than 0, such as 7 and 0.85,
come back as given. -/
theorem validateExtractedData_zero_scores_defaulted :
    validateExtractedData (sampleRecord (.num (.fin 0 0)) (.num (.fin 0 0))) =
        .ok (sampleRecord (.num (.fin 5 0)) (.num (.fin 5 1))) ∧
      validateExtractedData (sampleRecord (.num (.fin 7 0)) (.num (.fin 85 2))) =
        .ok (sampleRecord (.num (.fin 7 0)) (.num (.fin 85 2))) := by
  decide

/-! ## Exact values -/

theorem normDec_value (m : Int) (k : Nat) :
    ((normDec m k).1 : ℚ) / (10 : ℚ) ^ (normDec m k).2 = (m : ℚ) / (10 : ℚ) ^ k := by
  induction k generalizing m with
  | zero => simp [normDec]
  | succ k ih =>
    unfold normDec
    split_ifs with h
    · rw [ih]
      obtain ⟨c, hc⟩ := Int.dvd_of_emod_eq_zero h
      subst hc
      rw [Int.mul_ediv_cancel_left _ (by norm_num : (10 : Int) ≠ 0)]
      push_cast
      rw [pow_succ]
      field_simp
      ring
    · rfl

theorem toRat_dec (m : Int) (k : Nat) :
    (JSNum.dec m k).toRat = (m : ℚ) / (10 : ℚ) ^ k := by
  simp only [JSNum.dec, JSNum.toRat]
  exact normDec_value m k

theorem isFinite_dec (m : Int) (k : Nat) : (JSNum.dec m k).isFinite = true := rfl

theorem mathRound_fin (m : Int) (k : Nat) :
    mathRound (.fin m k) = .fin ⌊(JSNum.fin m k).toRat + 1 / 2⌋ 0 := by
  simp only [mathRound, JSNum.toRat]
  congr 1
  have h : (m : ℚ) / (10 : ℚ) ^ k + 1 / 2 =
      ((2 * m + 10 ^ k : Int) : ℚ) / ((2 * 10 ^ k : Nat) : ℚ) := by
    push_cast
    field_simp
    ring
  rw [h, Rat.floor_intCast_div_natCast]
  push_cast
  rfl

/-! ## Binary rounding -/

theorem bitLengthAux_zero (fuel : Nat) : bitLengthAux fuel 0 = 0 := by
  cases fuel <;> simp [bitLengthAux]

theorem bitLengthAux_spec (fuel n : Nat) (hn : n ≠ 0) (hf : n ≤ fuel) :
    1 ≤ bitLengthAux fuel n ∧ 2 ^ (bitLengthAux fuel n - 1) ≤ n ∧
      n < 2 ^ bitLengthAux fuel n := by
  induction fuel generalizing n with
  | zero => omega
  | succ fuel ih =>
    rw [bitLengthAux, if_neg hn]
    by_cases h2 : n / 2 = 0
    · rw [h2, bitLengthAux_zero]
      have h1 : n = 1 := by omega
      subst h1
      simp
    · obtain ⟨h1, hlo, hhi⟩ := ih (n / 2) h2 (by omega)
      refine ⟨by omega, ?_, ?_⟩
      · have hc : bitLengthAux fuel (n / 2) + 1 - 1 =
            (bitLengthAux fuel (n / 2) - 1) + 1 := by omega
        rw [hc, pow_succ]
        omega
      · rw [pow_succ]
        omega

/-- The bounds `2 ^ (c - 1) ≤ n < 2 ^ c` for `c = bitLength n`, as powers with
integer exponents. -/
theorem bitLength_spec (n : Nat) (hn : n ≠ 0) :
    (2 : ℚ) ^ ((bitLength n : Int) - 1) ≤ n ∧ (n : ℚ) < (2 : ℚ) ^ (bitLength n : Int) := by
  obtain ⟨h1, hlo, hhi⟩ := bitLengthAux_spec n n hn le_rfl
  obtain ⟨c, hc⟩ : ∃ c, bitLength n = c + 1 := ⟨bitLength n - 1, by unfold bitLength; omega⟩
  have hlo1 : 2 ^ c ≤ n := by
    have := hlo
    rw [show bitLengthAux n n = c + 1 from hc] at this
    simpa using this
  have hhi1 : n < 2 ^ (c + 1) := by
    have := hhi
    rw [show bitLengthAux n n = c + 1 from hc] at this
    exact this
  rw [hc]
  constructor
  · have h : ((c + 1 : Nat) : Int) - 1 = (c : Int) := by push_cast; ring
    rw [h, zpow_natCast]
    exact_mod_cast hlo1
  · rw [zpow_natCast]
    exact_mod_cast hhi1

theorem roundHalfEven_spec (num den : Nat) (hden : 0 < den) :
    |(roundHalfEven num den : ℚ) - (num : ℚ) / den| ≤ 1 / 2 := by
  have hd : (0 : ℚ) < den := by exact_mod_cast hden
  have hnum : (num : ℚ) = den * (num / den : Nat) + (num % den : Nat) := by
    exact_mod_cast (Nat.div_add_mod num den).symm
  have hr : ((num % den : Nat) : ℚ) < den := by exact_mod_cast Nat.mod_lt num hden
  have hr0 : (0 : ℚ) ≤ (num % den : Nat) := by positivity
  have hq : (num : ℚ) / den = (num / den : Nat) + ((num % den : Nat) : ℚ) / den := by
    rw [hnum]
    field_simp
    ring
  rw [hq, abs_le]
  have hfrac0 : 0 ≤ ((num % den : Nat) : ℚ) / den := by positivity
  have hfrac1 : ((num % den : Nat) : ℚ) / den < 1 := (div_lt_one hd).2 hr
  unfold roundHalfEven
  split_ifs with h1 h2 h3
  · have : (2 : ℚ) * (num % den : Nat) < den := by exact_mod_cast h1
    have : ((num % den : Nat) : ℚ) / den < 1 / 2 := by
      rw [div_lt_iff₀ hd]; linarith
    constructor <;> linarith
  · have : (den : ℚ) < 2 * (num % den : Nat) := by exact_mod_cast h2
    have : 1 / 2 < ((num % den : Nat) : ℚ) / den := by
      rw [lt_div_iff₀ hd]; linarith
    push_cast
    constructor <;> linarith
  · have e : 2 * (num % den) = den := by omega
    have : (2 : ℚ) * (num % den : Nat) = den := by exact_mod_cast e
    have : ((num % den : Nat) : ℚ) / den = 1 / 2 := by
      rw [div_eq_iff (ne_of_gt hd)]; linarith
    constructor <;> linarith
  · have e : 2 * (num % den) = den := by omega
    have : (2 : ℚ) * (num % den : Nat) = den := by exact_mod_cast e
    have : ((num % den : Nat) : ℚ) / den = 1 / 2 := by
      rw [div_eq_iff (ne_of_gt hd)]; linarith
    push_cast
    constructor <;> linarith

theorem two_zpow_split (t : Int) :
    (2 : ℚ) ^ t = (2 : ℚ) ^ t.toNat / (2 : ℚ) ^ (-t).toNat := by
  rcases le_total 0 t with h | h
  · obtain ⟨n, rfl⟩ := Int.eq_ofNat_of_zero_le h
    simp
  · obtain ⟨n, hn⟩ := Int.eq_ofNat_of_zero_le (neg_nonneg.2 h)
    have ht : t = -(n : Int) := by omega
    subst ht
    simp

theorem two_zpow_pos (t : Int) : (0 : ℚ) < (2 : ℚ) ^ t := zpow_pos (by norm_num) t

theorem two_zpow_le (s t : Int) (h : s ≤ t) : (2 : ℚ) ^ s ≤ (2 : ℚ) ^ t :=
  zpow_le_zpow_right₀ (by norm_num) h

theorem two_zpow_lt_inv (s t : Int) (h : (2 : ℚ) ^ s < (2 : ℚ) ^ t) : s < t := by
  by_contra hc
  exact absurd (two_zpow_le t s (not_lt.1 hc)) (not_le.2 h)

theorem two_zpow_le_inv (s t : Int) (h : (2 : ℚ) ^ s ≤ (2 : ℚ) ^ t) : s ≤ t := by
  by_contra hc
  have h1 : t + 1 ≤ s := by omega
  have h2 : (2 : ℚ) ^ (t + 1) ≤ (2 : ℚ) ^ t := le_trans (two_zpow_le _ _ h1) h
  rw [zpow_add₀ (by norm_num : (2 : ℚ) ≠ 0)] at h2
  have h3 := two_zpow_pos t
  norm_num at h2
  linarith

/-- The exponent chosen by `doubleExponent` puts the fraction in the binade
`2 ^ (e + 52) ≤ a / b < 2 ^ (e + 53)`, except below the normal range. -/
theorem doubleExponent_spec (a b : Nat) (ha : a ≠ 0) (hb : b ≠ 0) :
    -1074 ≤ doubleExponent a b ∧
    (a : ℚ) / b < (2 : ℚ) ^ (doubleExponent a b + 53) ∧
    ((-1074 < doubleExponent a b ∨ 1 / (2 : ℚ) ^ 1022 ≤ (a : ℚ) / b) →
      (2 : ℚ) ^ (doubleExponent a b + 52) ≤ (a : ℚ) / b) := by
  obtain ⟨halo, hahi⟩ := bitLength_spec a ha
  obtain ⟨hblo, hbhi⟩ := bitLength_spec b hb
  have hbq : (0 : ℚ) < b := by exact_mod_cast Nat.pos_of_ne_zero hb
  have h2 : (2 : ℚ) ≠ 0 := by norm_num
  have key : ∃ l : Int, doubleExponent a b = max (l - 52) (-1074) ∧
      (2 : ℚ) ^ l ≤ (a : ℚ) / b ∧ (a : ℚ) / b < (2 : ℚ) ^ (l + 1) := by
    obtain ⟨t, ht⟩ : ∃ t : Int, t = (bitLength a : Int) - (bitLength b : Int) := ⟨_, rfl⟩
    have hup : (a : ℚ) / b < (2 : ℚ) ^ (t + 1) := by
      rw [div_lt_iff₀ hbq]
      calc (a : ℚ) < (2 : ℚ) ^ (bitLength a : Int) := hahi
        _ = (2 : ℚ) ^ (t + 1) * (2 : ℚ) ^ ((bitLength b : Int) - 1) := by
            rw [← zpow_add₀ h2]
            congr 1
            omega
        _ ≤ (2 : ℚ) ^ (t + 1) * b :=
            mul_le_mul_of_nonneg_left hblo (le_of_lt (two_zpow_pos _))
    have hdown : (2 : ℚ) ^ (t - 1) < (a : ℚ) / b := by
      rw [lt_div_iff₀ hbq]
      calc (2 : ℚ) ^ (t - 1) * b < (2 : ℚ) ^ (t - 1) * (2 : ℚ) ^ (bitLength b : Int) :=
            mul_lt_mul_of_pos_left hbhi (two_zpow_pos _)
        _ = (2 : ℚ) ^ ((bitLength a : Int) - 1) := by
            rw [← zpow_add₀ h2]
            congr 1
            omega
        _ ≤ a := halo
    have hpos1 : (0 : ℚ) < (2 : ℚ) ^ (-t).toNat := by positivity
    by_cases htest : b * 2 ^ t.toNat ≤ a * 2 ^ (-t).toNat
    · refine ⟨t, ?_, ?_, hup⟩
      · simp only [doubleExponent]
        rw [← ht, if_pos htest]
      · rw [two_zpow_split t, div_le_div_iff₀ hpos1 hbq]
        have : ((b * 2 ^ t.toNat : Nat) : ℚ) ≤ ((a * 2 ^ (-t).toNat : Nat) : ℚ) := by
          exact_mod_cast htest
        push_cast at this
        linarith
    · refine ⟨t - 1, ?_, le_of_lt hdown, ?_⟩
      · simp only [doubleExponent]
        rw [← ht, if_neg htest]
      · have e1 : t - 1 + 1 = t := by ring
        rw [e1, two_zpow_split t, div_lt_div_iff₀ hbq hpos1]
        have : ((a * 2 ^ (-t).toNat : Nat) : ℚ) < ((b * 2 ^ t.toNat : Nat) : ℚ) := by
          exact_mod_cast not_le.1 htest
        push_cast at this
        linarith
  obtain ⟨l, hl, hlo, hhi⟩ := key
  rw [hl]
  refine ⟨le_max_right _ _, ?_, ?_⟩
  · refine lt_of_lt_of_le hhi (two_zpow_le _ _ ?_)
    have := le_max_left (l - 52) (-1074)
    omega
  · intro h
    have hle : -1074 ≤ l - 52 := by
      rcases h with h | h
      · by_contra hc
        rw [max_eq_right (by omega)] at h
        omega
      · have e2 : 1 / (2 : ℚ) ^ 1022 = (2 : ℚ) ^ (-1022 : Int) := by
          rw [zpow_neg, one_div]
          norm_cast
        rw [e2] at h
        have := two_zpow_lt_inv _ _ (lt_of_le_of_lt h hhi)
        omega
    rw [max_eq_left hle]
    have e3 : l - 52 + 52 = l := by ring
    rw [e3]
    exact hlo

/-- The double chosen by `nearestDouble` for `a / b`: out of range only from
`2 ^ 1023` on, within relative error `2 ^ (-53)` in the normal range, and not
above a power of two that `a / b` is not above. -/
theorem nearestDouble_spec (a b : Nat) (ha : a ≠ 0) (hb : b ≠ 0) :
    (nearestDouble a b = none ∧ (2 : ℚ) ^ 1023 ≤ (a : ℚ) / b) ∨
    ∃ (M : Nat) (e : Int), nearestDouble a b = some (M, e) ∧
      (1 / (2 : ℚ) ^ 1022 ≤ (a : ℚ) / b →
        |(M : ℚ) * (2 : ℚ) ^ e - (a : ℚ) / b| ≤ (a : ℚ) / b / 2 ^ 53) ∧
      (∀ t : Nat, (a : ℚ) / b ≤ 2 ^ t → (M : ℚ) * (2 : ℚ) ^ e ≤ 2 ^ t) := by
  obtain ⟨hmin, hhi, hlo⟩ := doubleExponent_spec a b ha hb
  have h2 : (2 : ℚ) ≠ 0 := by norm_num
  obtain ⟨e, he⟩ : ∃ e : Int, e = doubleExponent a b := ⟨_, rfl⟩
  rw [← he] at hmin hhi hlo
  have hdenN : 0 < b * 2 ^ e.toNat := Nat.mul_pos (Nat.pos_of_ne_zero hb) (by positivity)
  obtain ⟨M, hMdef⟩ : ∃ M : Nat, M = roundHalfEven (a * 2 ^ (-e).toNat) (b * 2 ^ e.toNat) :=
    ⟨_, rfl⟩
  have hM := roundHalfEven_spec (a * 2 ^ (-e).toNat) (b * 2 ^ e.toNat) hdenN
  rw [← hMdef] at hM
  have hbq : (0 : ℚ) < b := by exact_mod_cast Nat.pos_of_ne_zero hb
  have hpe := two_zpow_pos e
  have hq : ((a * 2 ^ (-e).toNat : Nat) : ℚ) / ((b * 2 ^ e.toNat : Nat) : ℚ) =
      (a : ℚ) / b / (2 : ℚ) ^ e := by
    rw [two_zpow_split e]
    push_cast
    field_simp
  rw [hq] at hM
  have habs : |(M : ℚ) * (2 : ℚ) ^ e - (a : ℚ) / b| ≤ (2 : ℚ) ^ e / 2 := by
    have e1 : (M : ℚ) * (2 : ℚ) ^ e - (a : ℚ) / b =
        ((M : ℚ) - (a : ℚ) / b / (2 : ℚ) ^ e) * (2 : ℚ) ^ e := by
      field_simp
      ring
    rw [e1, abs_mul, abs_of_pos hpe]
    calc |(M : ℚ) - (a : ℚ) / b / (2 : ℚ) ^ e| * (2 : ℚ) ^ e
        ≤ 1 / 2 * (2 : ℚ) ^ e := mul_le_mul_of_nonneg_right hM (le_of_lt hpe)
      _ = (2 : ℚ) ^ e / 2 := by ring
  have hnd : nearestDouble a b =
      if 971 < e ∨ (e = 971 ∧ 2 ^ 53 ≤ M) then none else some (M, e) := by
    simp only [nearestDouble]
    rw [if_neg ha, ← he, ← hMdef]
  by_cases hov : 971 < e ∨ (e = 971 ∧ 2 ^ 53 ≤ M)
  · left
    rw [hnd, if_pos hov]
    refine ⟨rfl, ?_⟩
    have hge : 971 ≤ e := by
      rcases hov with h | ⟨h, _⟩ <;> omega
    have h1 := hlo (Or.inl (by omega))
    calc (2 : ℚ) ^ 1023 = (2 : ℚ) ^ ((1023 : Nat) : Int) := (zpow_natCast _ _).symm
      _ ≤ (2 : ℚ) ^ (e + 52) := two_zpow_le _ _ (by push_cast; omega)
      _ ≤ (a : ℚ) / b := h1
  · right
    rw [hnd, if_neg hov]
    refine ⟨M, e, rfl, ?_, ?_⟩
    · intro hnorm
      have h1 := hlo (Or.inr hnorm)
      calc |(M : ℚ) * (2 : ℚ) ^ e - (a : ℚ) / b| ≤ (2 : ℚ) ^ e / 2 := habs
        _ = (2 : ℚ) ^ (e + 52) / 2 ^ 53 := by
            rw [zpow_add₀ h2]
            norm_num
            ring
        _ ≤ (a : ℚ) / b / 2 ^ 53 := div_le_div_of_nonneg_right h1 (by positivity)
    · intro t ht
      have het : e ≤ t := by
        by_cases hc : -1074 < e
        · have h1 := hlo (Or.inl hc)
          have h3 : (2 : ℚ) ^ (e + 52) ≤ (2 : ℚ) ^ ((t : Nat) : Int) := by
            rw [zpow_natCast]
            exact le_trans h1 ht
          have := two_zpow_le_inv _ _ h3
          omega
        · omega
      obtain ⟨n, hn⟩ := Int.eq_ofNat_of_zero_le (sub_nonneg.2 het)
      have h4 : (2 : ℚ) ^ t / (2 : ℚ) ^ e = (2 : ℚ) ^ n := by
        rw [← zpow_natCast (2 : ℚ) t, ← zpow_sub₀ h2, hn, zpow_natCast]
      have h5 : (M : ℚ) ≤ 2 ^ n + 1 / 2 := by
        have h6 := (abs_le.1 hM).2
        have h7 : (a : ℚ) / b / (2 : ℚ) ^ e ≤ 2 ^ t / (2 : ℚ) ^ e :=
          div_le_div_of_nonneg_right ht (le_of_lt hpe)
        rw [h4] at h7
        linarith
      have h8 : M ≤ 2 ^ n := by
        have h9 : ((2 * M : Nat) : ℚ) ≤ ((2 * 2 ^ n + 1 : Nat) : ℚ) := by
          push_cast
          linarith
        have h10 : 2 * M ≤ 2 * 2 ^ n + 1 := by exact_mod_cast h9
        omega
      have h11 : (M : ℚ) ≤ 2 ^ n := by exact_mod_cast h8
      calc (M : ℚ) * (2 : ℚ) ^ e ≤ 2 ^ n * (2 : ℚ) ^ e :=
            mul_le_mul_of_nonneg_right h11 (le_of_lt hpe)
        _ = 2 ^ t := by
            rw [← h4]
            field_simp

theorem fin_nonneg_of_toRat (m : Int) (k : Nat) (h : 0 ≤ (JSNum.fin m k).toRat) : 0 ≤ m := by
  by_contra hc
  have hm : (m : ℚ) < 0 := by exact_mod_cast not_le.1 hc
  have hp : (0 : ℚ) < (10 : ℚ) ^ k := by positivity
  have : (JSNum.fin m k).toRat < 0 := by
    simp only [JSNum.toRat]
    exact div_neg_of_neg_of_pos hm hp
  linarith

/-- The double a non-negative decimal fraction stands for: `Infinity` only
from `2 ^ 1023` on; otherwise a non-negative fraction, within relative error
`2 ^ (-53)` of the decimal in the normal range (and equal to it at zero), and
not above a power of two that the decimal is not above. -/
theorem toDouble_spec (m : Int) (k : Nat) (hm : 0 ≤ m) :
    ((JSNum.fin m k).toDouble = .inf false ∧ (2 : ℚ) ^ 1023 ≤ (JSNum.fin m k).toRat) ∨
    ∃ m1 k1, (JSNum.fin m k).toDouble = .fin m1 k1 ∧ 0 ≤ m1 ∧
      ((m = 0 ∨ 1 / (2 : ℚ) ^ 1022 ≤ (JSNum.fin m k).toRat) →
        |(JSNum.fin m1 k1).toRat - (JSNum.fin m k).toRat| ≤
          (JSNum.fin m k).toRat / 2 ^ 53) ∧
      (∀ t : Nat, (JSNum.fin m k).toRat ≤ 2 ^ t → (JSNum.fin m1 k1).toRat ≤ 2 ^ t) := by
  by_cases h0 : m = 0
  · subst h0
    right
    refine ⟨0, 0, ?_, le_rfl, ?_, ?_⟩
    · simp [JSNum.toDouble, nearestDouble, JSNum.dec, normDec]
    · intro _
      simp [JSNum.toRat]
    · intro t _
      simp only [JSNum.toRat]
      norm_num
  · have ha : m.natAbs ≠ 0 := Int.natAbs_ne_zero.2 h0
    have hb : (10 : Nat) ^ k ≠ 0 := by positivity
    have hcast : ((m.natAbs : Nat) : ℚ) / ((10 ^ k : Nat) : ℚ) = (JSNum.fin m k).toRat := by
      simp only [JSNum.toRat]
      have h1 : ((m.natAbs : Nat) : ℚ) = (m : ℚ) := by
        obtain ⟨n, hn⟩ := Int.eq_ofNat_of_zero_le hm
        rw [hn]
        simp
      rw [h1]
      push_cast
      rfl
    have hneg : ¬ m < 0 := not_lt.2 hm
    rcases nearestDouble_spec m.natAbs (10 ^ k) ha hb with ⟨hnone, hbig⟩ |
      ⟨M, e, hsome, hrel, hbound⟩
    · left
      rw [hcast] at hbig
      refine ⟨?_, hbig⟩
      simp only [JSNum.toDouble, hnone]
      simp [hneg]
    · right
      rw [hcast] at hrel hbound
      have hval : (JSNum.dec ((M : Int) * 2 ^ e.toNat * 5 ^ (-e).toNat) (-e).toNat).toRat =
          (M : ℚ) * (2 : ℚ) ^ e := by
        rw [toRat_dec, two_zpow_split e]
        have h10 : (10 : ℚ) ^ (-e).toNat = 2 ^ (-e).toNat * 5 ^ (-e).toNat := by
          rw [← mul_pow]
          norm_num
        rw [h10]
        push_cast
        field_simp
        ring
      have hto : (JSNum.fin m k).toDouble =
          JSNum.dec ((M : Int) * 2 ^ e.toNat * 5 ^ (-e).toNat) (-e).toNat := by
        simp only [JSNum.toDouble, hsome]
        rw [if_neg hneg]
      have hdec : JSNum.dec ((M : Int) * 2 ^ e.toNat * 5 ^ (-e).toNat) (-e).toNat =
          .fin (normDec ((M : Int) * 2 ^ e.toNat * 5 ^ (-e).toNat) (-e).toNat).1
            (normDec ((M : Int) * 2 ^ e.toNat * 5 ^ (-e).toNat) (-e).toNat).2 := rfl
      rw [hdec] at hval hto
      refine ⟨_, _, hto, ?_, ?_, ?_⟩
      · apply fin_nonneg_of_toRat _ _
        rw [hval]
        have := two_zpow_pos e
        positivity
      · intro h
        rw [hval]
        exact hrel (h.resolve_left h0)
      · intro t ht
        rw [hval]
        exact hbound t ht

theorem fin_zero_of_toRat (m : Int) (k : Nat) (h : (JSNum.fin m k).toRat = 0) : m = 0 := by
  simp only [JSNum.toRat] at h
  have hp : (10 : ℚ) ^ k ≠ 0 := by positivity
  rcases div_eq_zero_iff.1 h with h1 | h1
  · exact_mod_cast h1
  · exact absurd h1 hp

theorem hundred_toDouble : (JSNum.fin 100 0).toDouble = .fin 100 0 := by decide

/-- The expression `Math.round(amount * 100) / 100` of `parseCurrency` on a
non-negative amount: it is `Infinity` only for an amount above `2 ^ 1015`, and
otherwise `n / 100` for a natural number `n`; when the amount is a whole number
`c` of hundredths below `2 ^ 50`, then `n = c`: the two roundings of the
multiplication cancel. -/
theorem roundCents_spec (m : Int) (k : Nat) (hm : 0 ≤ m) :
    ((mathRound ((JSNum.fin m k).mul (.fin 100 0))).divPow10 2 = .inf false ∧
      (2 : ℚ) ^ 1015 < (JSNum.fin m k).toRat) ∨
    ∃ n : Nat, (mathRound ((JSNum.fin m k).mul (.fin 100 0))).divPow10 2 = JSNum.dec n 2 ∧
      ∀ c : Nat, (JSNum.fin m k).toRat * 100 = c → c < 2 ^ 50 → n = c := by
  have hmul : (JSNum.fin m k).mul (.fin 100 0) =
      (JSNum.fin m k).toDouble.mulDouble (.fin 100 0) := by
    simp only [JSNum.mul]
    rw [hundred_toDouble]
  rw [hmul]
  rcases toDouble_spec m k hm with ⟨hinf, hbig⟩ | ⟨m1, k1, hto, hm1, hrel, hbound⟩
  · left
    rw [hinf]
    refine ⟨by decide, lt_of_lt_of_le ?_ hbig⟩
    norm_num
  · rw [hto]
    have hmd : (JSNum.fin m1 k1).mulDouble (.fin 100 0) =
        (JSNum.fin (normDec (m1 * 100) k1).1 (normDec (m1 * 100) k1).2).toDouble := rfl
    have hyv : (JSNum.fin (normDec (m1 * 100) k1).1 (normDec (m1 * 100) k1).2).toRat =
        (JSNum.fin m1 k1).toRat * 100 := by
      simp only [JSNum.toRat]
      rw [normDec_value]
      push_cast
      ring
    have hd0 : 0 ≤ (JSNum.fin m1 k1).toRat := by
      simp only [JSNum.toRat]
      have : (0 : ℚ) ≤ m1 := by exact_mod_cast hm1
      positivity
    have hy0 : 0 ≤ (normDec (m1 * 100) k1).1 :=
      fin_nonneg_of_toRat _ _ (by rw [hyv]; positivity)
    rw [hmd]
    rcases toDouble_spec _ _ hy0 with ⟨hinf2, hbig2⟩ | ⟨m2, k2, hto2, hm2, hrel2, hbound2⟩
    · left
      rw [hinf2]
      refine ⟨by decide, ?_⟩
      by_contra hc
      have h1 := hbound 1015 (not_lt.1 hc)
      rw [hyv] at hbig2
      have h2 : (2 : ℚ) ^ 1015 * 100 < (2 : ℚ) ^ 1023 := by norm_num
      linarith
    · right
      rw [hto2, mathRound_fin]
      have hp0 : 0 ≤ (JSNum.fin m2 k2).toRat := by
        simp only [JSNum.toRat]
        have : (0 : ℚ) ≤ m2 := by exact_mod_cast hm2
        positivity
      have hfl : 0 ≤ ⌊(JSNum.fin m2 k2).toRat + 1 / 2⌋ :=
        Int.floor_nonneg.2 (by positivity)
      obtain ⟨n, hn⟩ := Int.eq_ofNat_of_zero_le hfl
      refine ⟨n, ?_, ?_⟩
      · rw [hn]
        simp [JSNum.divPow10]
      · intro c hc hlt
        have hcq : (c : ℚ) < 2 ^ 50 := by exact_mod_cast hlt
        have hc0 : (0 : ℚ) ≤ c := by positivity
        have hsmall : (1 : ℚ) / 2 ^ 1022 ≤ 1 / 2 := by norm_num
        have hprem1 : m = 0 ∨ 1 / (2 : ℚ) ^ 1022 ≤ (JSNum.fin m k).toRat := by
          rcases Nat.eq_zero_or_pos c with h0 | h0
          · left
            subst h0
            apply fin_zero_of_toRat m k
            have : (JSNum.fin m k).toRat * 100 = 0 := by simpa using hc
            linarith
          · right
            have : (1 : ℚ) ≤ c := by exact_mod_cast h0
            linarith
        have h1 := abs_le.1 (hrel hprem1)
        have hprem2 : (normDec (m1 * 100) k1).1 = 0 ∨
            1 / (2 : ℚ) ^ 1022 ≤
              (JSNum.fin (normDec (m1 * 100) k1).1 (normDec (m1 * 100) k1).2).toRat := by
          rcases Nat.eq_zero_or_pos c with h0 | h0
          · left
            subst h0
            apply fin_zero_of_toRat _ (normDec (m1 * 100) k1).2
            rw [hyv]
            have : (JSNum.fin m k).toRat * 100 = 0 := by simpa using hc
            have h3 : (JSNum.fin m k).toRat = 0 := by linarith
            rw [h3] at h1
            norm_num at h1
            have h4 : (JSNum.fin m1 k1).toRat = 0 := le_antisymm h1.2 h1.1
            rw [h4]
            ring
          · right
            rw [hyv]
            have : (1 : ℚ) ≤ c := by exact_mod_cast h0
            have h5 : (JSNum.fin m k).toRat / 2 ^ 53 ≤ (JSNum.fin m k).toRat / 2 := by
              apply div_le_div_of_nonneg_left _ (by norm_num) (by norm_num)
              linarith
            linarith [h1.1]
        have h2 := abs_le.1 (hrel2 hprem2)
        rw [hyv] at h2
        have hfloor : ⌊(JSNum.fin m2 k2).toRat + 1 / 2⌋ = (c : Int) := by
          rw [Int.floor_eq_iff]
          push_cast
          constructor
          · linarith [h1.1, h1.2, h2.1, h2.2]
          · linarith [h1.1, h1.2, h2.1, h2.2]
        rw [hfloor] at hn
        exact_mod_cast hn.symm


/-! ## Characters kept by `numericString` -/

theorem isDigit_mem (c : Char) (h : isDigit c = true) :
    c ∈ ['0', '1', '2', '3', '4', '5', '6', '7', '8', '9'] := by
  have h1 : 48 ≤ c.toNat ∧ c.toNat ≤ 57 := by
    simp only [isDigit, Bool.and_eq_true, decide_eq_true_eq] at h
    exact h
  have hc : c = Char.ofNat c.toNat := (Char.ofNat_toNat c).symm
  obtain ⟨n, hn⟩ : ∃ n, c.toNat = n := ⟨_, rfl⟩
  rw [hn] at hc h1
  obtain ⟨h48, h57⟩ := h1
  subst hc
  interval_cases n <;> decide

theorem kept_mem (c : Char) (h : isDigit c = true ∨ c = '.') : c ∈ keptChars := by
  rcases h with h | h
  · have := isDigit_mem c h
    simp only [keptChars, List.mem_cons] at this ⊢
    tauto
  · subst h; decide

theorem numericString_kept (s : String) : ∀ c ∈ numericString s, c ∈ keptChars := by
  intro c hc
  simp only [numericString, List.mem_filter, Bool.or_eq_true, beq_iff_eq, bne_iff_ne] at hc
  obtain ⟨⟨_, h⟩, hne⟩ := hc
  apply kept_mem
  rcases h with (h | h) | h
  · exact Or.inl h
  · exact Or.inr h
  · exact absurd h hne

theorem kept_facts : ∀ c ∈ keptChars,
    isWhiteSpace c = false ∧ c ≠ '-' ∧ c ≠ '+' ∧ c ≠ 'I' ∧ c ≠ 'e' ∧ c ≠ 'E' ∧
      (isDigit c = true ∨ c = '.') := by
  decide

theorem dot_not_digit : isDigit '.' = false := by decide

theorem parseFloatStr_kept (u : List Char) (hu : ∀ c ∈ u, c ∈ keptChars) :
    parseFloatStr u = strDecimalLiteral false u := by
  cases u with
  | nil => decide
  | cons c t =>
    obtain ⟨hws, hm, hp, hI, _, _, _⟩ := kept_facts c (hu c (by simp))
    have h1 : List.dropWhile isWhiteSpace (c :: t) = c :: t := by
      simp [List.dropWhile, hws]
    have h2 : takeSign (c :: t) = (false, c :: t) := by
      unfold takeSign
      split
      · rename_i heq; simp at heq; exact absurd heq.1 hm
      · rename_i heq; simp at heq; exact absurd heq.1 hp
      · rfl
    have h3 : "Infinity".toList.isPrefixOf (c :: t) = false := by
      have : "Infinity".toList = 'I' :: "nfinity".toList := by decide
      rw [this]
      simp [List.isPrefixOf, Ne.symm hI]
    simp only [parseFloatStr, h1, h2, h3]
    simp

theorem dropDigits_kept (u : List Char) (hu : ∀ c ∈ u, c ∈ keptChars) :
    u.dropWhile isDigit = [] ∨
      ∃ r, u.dropWhile isDigit = '.' :: r ∧ ∀ c ∈ r, c ∈ keptChars := by
  cases h : u.dropWhile isDigit with
  | nil => exact Or.inl rfl
  | cons c r =>
    right
    have hsub : ∀ x ∈ c :: r, x ∈ u := by
      intro x hx
      rw [← h] at hx
      exact (List.dropWhile_suffix isDigit).subset hx
    have hnd : isDigit c = false := by
      have := List.head_dropWhile_not isDigit u (by rw [h]; simp)
      simpa [h] using this
    have hc := (kept_facts c (hu c (hsub c (by simp)))).2.2.2.2.2.2
    rcases hc with hc | hc
    · rw [hc] at hnd; cases hnd
    · subst hc
      exact ⟨r, rfl, fun x hx => hu x (hsub x (by simp [hx]))⟩

theorem exponentOf_kept (r : List Char) (hr : r = [] ∨ ∃ t, r = '.' :: t) :
    exponentOf r = 0 := by
  rcases hr with rfl | ⟨t, rfl⟩
  · rfl
  · simp [exponentOf]

theorem toRat_sci_neg (m : Int) (k : Nat) :
    (JSNum.sci m (0 - (k : Int))).toRat = (m : ℚ) / (10 : ℚ) ^ k ∧
      (JSNum.sci m (0 - (k : Int))).isFinite = true := by
  unfold JSNum.sci
  split_ifs with h
  · have hk : k = 0 := by omega
    subst hk
    simp [JSNum.toRat, JSNum.isFinite]
  · have hk : (-(0 - (k : Int))).toNat = k := by omega
    rw [hk]
    exact ⟨toRat_dec m k, rfl⟩

/-! ## `parseFloat` on digits and dots reads the longest numeral -/

theorem takeWhile_digits_all (u : List Char) : ∀ c ∈ u.takeWhile isDigit, isDigit c = true :=
  fun _ hc => List.mem_takeWhile_imp hc

theorem dropWhile_digits_dot (ip t : List Char) (hip : ∀ c ∈ ip, isDigit c = true) :
    (ip ++ '.' :: t).dropWhile isDigit = '.' :: t := by
  rw [List.dropWhile_append_of_pos hip]
  simp [List.dropWhile, dot_not_digit]

theorem takeWhile_digits_dot (ip t : List Char) (hip : ∀ c ∈ ip, isDigit c = true) :
    (ip ++ '.' :: t).takeWhile isDigit = ip := by
  rw [List.takeWhile_append_of_pos hip]
  simp [List.takeWhile, dot_not_digit]

theorem isDecimalNumeral_digits_dot (ip t : List Char)
    (hip : ∀ c ∈ ip, isDigit c = true) :
    isDecimalNumeral (ip ++ '.' :: t) =
      (t.all isDigit && !(ip.isEmpty && t.isEmpty)) := by
  simp [isDecimalNumeral, dropWhile_digits_dot ip t hip, takeWhile_digits_dot ip t hip]

theorem filter_digits_dot (ip fp : List Char)
    (hip : ∀ c ∈ ip, isDigit c = true) (hfp : ∀ c ∈ fp, isDigit c = true) :
    (ip ++ '.' :: fp).filter isDigit = ip ++ fp := by
  rw [List.filter_append, List.filter_cons_of_neg (by simp [dot_not_digit]),
    List.filter_eq_self.2 hip, List.filter_eq_self.2 hfp]

/-- A list of digits and dots is a run of digits, or a run of digits, a dot, a
run of digits, and a rest that is empty or starts with a dot. -/
theorem kept_decompose (u : List Char) (hu : ∀ c ∈ u, c ∈ keptChars) :
    (∀ c ∈ u, isDigit c = true) ∨
    ∃ ip fp r2, (∀ c ∈ ip, isDigit c = true) ∧ (∀ c ∈ fp, isDigit c = true) ∧
      (r2 = [] ∨ ∃ t, r2 = '.' :: t) ∧ u = ip ++ '.' :: (fp ++ r2) := by
  rcases dropDigits_kept u hu with hd | ⟨r, hd, hr⟩
  · left
    exact List.dropWhile_eq_nil_iff.1 hd
  · right
    refine ⟨u.takeWhile isDigit, r.takeWhile isDigit, r.dropWhile isDigit,
      takeWhile_digits_all u, takeWhile_digits_all r, ?_, ?_⟩
    · exact (dropDigits_kept r hr).imp id (fun ⟨t, ht, _⟩ => ⟨t, ht⟩)
    · rw [List.takeWhile_append_dropWhile, ← hd, List.takeWhile_append_dropWhile]

theorem strDecimalLiteral_digits (u : List Char) (hu : ∀ c ∈ u, isDigit c = true) :
    strDecimalLiteral false u =
      if u = [] then .nan else JSNum.sci (digitsToNat 10 u : Int) (0 - ((0 : Nat) : Int)) := by
  have hd : u.dropWhile isDigit = [] := List.dropWhile_eq_nil_iff.2 hu
  have ht : u.takeWhile isDigit = u := List.takeWhile_eq_self_iff.2 hu
  simp [strDecimalLiteral, hd, ht, exponentOf]

theorem strDecimalLiteral_digits_dot (ip fp r2 : List Char)
    (hip : ∀ c ∈ ip, isDigit c = true) (hfp : ∀ c ∈ fp, isDigit c = true)
    (hr2 : r2 = [] ∨ ∃ t, r2 = '.' :: t) :
    strDecimalLiteral false (ip ++ '.' :: (fp ++ r2)) =
      if ip = [] ∧ fp = [] then .nan
      else JSNum.sci (digitsToNat 10 (ip ++ fp) : Int) (0 - (fp.length : Int)) := by
  have hd := dropWhile_digits_dot ip (fp ++ r2) hip
  have ht := takeWhile_digits_dot ip (fp ++ r2) hip
  have hfd : (fp ++ r2).dropWhile isDigit = r2 := by
    rcases hr2 with rfl | ⟨t, rfl⟩
    · simpa using List.dropWhile_eq_nil_iff.2 hfp
    · exact dropWhile_digits_dot fp t hfp
  have hft : (fp ++ r2).takeWhile isDigit = fp := by
    rcases hr2 with rfl | ⟨t, rfl⟩
    · simpa using List.takeWhile_eq_self_iff.2 hfp
    · exact takeWhile_digits_dot fp t hfp
  simp only [strDecimalLiteral, hd, ht, hfd, hft, exponentOf_kept r2 hr2]
  simp

theorem strDecimalLiteral_kept (u : List Char) (hu : ∀ c ∈ u, c ∈ keptChars) :
    (strDecimalLiteral false u = .nan ∧ ∀ p, p <+: u → isDecimalNumeral p = false) ∨
    ∃ p x, p <+: u ∧ isDecimalNumeral p = true ∧
      (∀ q, q <+: u → p.length < q.length → isDecimalNumeral q = false) ∧
      strDecimalLiteral false u = x ∧ x.isFinite = true ∧
      decimalNumeralValue p = some x.toRat := by
  rcases kept_decompose u hu with hall | ⟨ip, fp, r2, hip, hfp, hr2, rfl⟩
  · -- only digits
    have hd : u.dropWhile isDigit = [] := List.dropWhile_eq_nil_iff.2 hall
    rw [strDecimalLiteral_digits u hall]
    by_cases hnil : u = []
    · left
      subst hnil
      refine ⟨by simp, ?_⟩
      intro p hp
      rw [List.prefix_nil] at hp
      subst hp
      decide
    · right
      have hval := toRat_sci_neg (digitsToNat 10 u : Int) 0
      have hnum : isDecimalNumeral u = true := by
        cases u with
        | nil => exact absurd rfl hnil
        | cons c t => simp [isDecimalNumeral, hd]
      refine ⟨u, _, List.prefix_refl u, hnum, ?_, rfl, ?_, ?_⟩
      · intro q hq hlt
        exact absurd (List.IsPrefix.length_le hq) (by omega)
      · rw [if_neg hnil]; exact hval.2
      · rw [if_neg hnil, hval.1]
        simp [decimalNumeralValue, hnum, hd, List.filter_eq_self.2 hall]
  · -- digits, a dot, digits, and a rest
    rw [strDecimalLiteral_digits_dot ip fp r2 hip hfp hr2]
    by_cases hboth : ip = [] ∧ fp = []
    · left
      obtain ⟨rfl, rfl⟩ := hboth
      refine ⟨by simp, ?_⟩
      intro p hp
      simp only [List.nil_append] at hp
      cases p with
      | nil => decide
      | cons c t =>
        obtain ⟨hc, ht⟩ := List.cons_prefix_cons.1 hp
        subst hc
        have := isDecimalNumeral_digits_dot [] t (by simp)
        simp only [List.nil_append] at this
        rw [this]
        cases t with
        | nil => simp
        | cons d t' =>
          rcases hr2 with rfl | ⟨w, rfl⟩
          · simp at ht
          · obtain ⟨hd, _⟩ := List.cons_prefix_cons.1 ht
            subst hd
            simp [dot_not_digit]
    · right
      have hval := toRat_sci_neg (digitsToNat 10 (ip ++ fp) : Int) fp.length
      have hpre : ip ++ '.' :: fp <+: ip ++ '.' :: (fp ++ r2) :=
        ⟨r2, by simp⟩
      have hnum : isDecimalNumeral (ip ++ '.' :: fp) = true := by
        rw [isDecimalNumeral_digits_dot _ _ hip, List.all_eq_true.2 hfp]
        cases ip with
        | nil =>
          cases fp with
          | nil => exact absurd ⟨rfl, rfl⟩ hboth
          | cons d fp' => simp
        | cons c ip' => simp
      refine ⟨_, _, hpre, hnum, ?_, rfl, ?_, ?_⟩
      · intro q hq hlt
        obtain ⟨t, ht⟩ := List.prefix_of_prefix_length_le hpre hq (le_of_lt hlt)
        have ht_ne : t ≠ [] := by
          rintro rfl
          rw [List.append_nil] at ht
          rw [← ht] at hlt
          exact absurd hlt (lt_irrefl _)
        have htpre : t <+: r2 := by
          have h1 : ip ++ '.' :: (fp ++ r2) = (ip ++ '.' :: fp) ++ r2 := by simp
          rw [← ht, h1] at hq
          exact (List.prefix_append_right_inj _).1 hq
        rcases hr2 with hnil | ⟨w, hw⟩
        · rw [hnil, List.prefix_nil] at htpre
          exact absurd htpre ht_ne
        · rw [hw] at htpre
          cases t with
          | nil => exact absurd rfl ht_ne
          | cons c t' =>
            obtain ⟨hc, _⟩ := List.cons_prefix_cons.1 htpre
            subst hc
            rw [← ht]
            have hq' : ip ++ '.' :: fp ++ '.' :: t' = ip ++ '.' :: (fp ++ '.' :: t') := by simp
            rw [hq', isDecimalNumeral_digits_dot _ _ hip]
            simp [dot_not_digit]
      · rw [if_neg hboth]; exact hval.2
      · rw [if_neg hboth, hval.1]
        simp [decimalNumeralValue, hnum, filter_digits_dot _ _ hip hfp,
          dropWhile_digits_dot ip fp hip]

/-! ## The currency parser -/

theorem decimalNumeralValue_eq_none (p : List Char) :
    decimalNumeralValue p = none ↔ isDecimalNumeral p = false := by
  unfold decimalNumeralValue
  split_ifs with h <;> simp [h]

theorem decimalNumeralValue_nonneg (p : List Char) (v : ℚ)
    (h : decimalNumeralValue p = some v) : 0 ≤ v := by
  unfold decimalNumeralValue at h
  split_ifs at h
  simp only [Option.some.injEq] at h
  rw [← h]
  positivity

/-- The body of `parseCurrency` on a string. -/
theorem parseCurrency_str (s : String) :
    parseCurrency (.str s) =
      .ok (if (strDecimalLiteral false (numericString s)).isNaN then .fin 0 0
        else (mathRound ((strDecimalLiteral false (numericString s)).mul
          (.fin 100 0))).divPow10 2) := by
  by_cases h : s = ""
  · subst h; decide
  · simp [parseCurrency, truthy, h, parseFloatStr_kept _ (numericString_kept s)]

theorem digit_value_le (c : Char) (h : isDigit c = true) : (hexVal c).getD 0 ≤ 9 := by
  have hc := isDigit_mem c h
  simp only [List.mem_cons, List.mem_singleton, List.not_mem_nil, or_false] at hc
  rcases hc with h | h | h | h | h | h | h | h | h | h <;> subst h <;> decide

theorem foldl_digits_lt (l : List Char) (hl : ∀ c ∈ l, isDigit c = true) (acc : Nat) :
    l.foldl (fun acc c => 10 * acc + (hexVal c).getD 0) acc + 1 ≤ (acc + 1) * 10 ^ l.length := by
  induction l generalizing acc with
  | nil => simp
  | cons c t ih =>
    have hc := digit_value_le c (hl c (by simp))
    have h1 := ih (fun d hd => hl d (List.mem_cons_of_mem _ hd)) (10 * acc + (hexVal c).getD 0)
    simp only [List.foldl_cons, List.length_cons]
    refine le_trans h1 ?_
    rw [pow_succ]
    have h2 : (10 * acc + (hexVal c).getD 0 + 1) * 10 ^ t.length ≤
        (10 * acc + 10) * 10 ^ t.length := Nat.mul_le_mul_right _ (by omega)
    refine le_trans h2 (le_of_eq ?_)
    ring

theorem digitsToNat_lt (l : List Char) (hl : ∀ c ∈ l, isDigit c = true) :
    digitsToNat 10 l < 10 ^ l.length := by
  have h := foldl_digits_lt l hl 0
  simp only [zero_add, one_mul] at h
  exact h

/-- A numeral of `n` characters is below `10 ^ n`. -/
theorem decimalNumeralValue_lt (p : List Char) (v : ℚ)
    (h : decimalNumeralValue p = some v) : v < (10 : ℚ) ^ p.length := by
  unfold decimalNumeralValue at h
  split_ifs at h
  simp only [Option.some.injEq] at h
  rw [← h]
  have h1 : digitsToNat 10 (p.filter isDigit) < 10 ^ (p.filter isDigit).length :=
    digitsToNat_lt _ (fun c hc => (List.mem_filter.1 hc).2)
  have h2 : (p.filter isDigit).length ≤ p.length := List.length_filter_le _ _
  have h3 : digitsToNat 10 (p.filter isDigit) < 10 ^ p.length :=
    lt_of_lt_of_le h1 (Nat.pow_le_pow_right (by norm_num) h2)
  have h4 : ((digitsToNat 10 (p.filter isDigit) : Nat) : ℚ) < (10 : ℚ) ^ p.length := by
    exact_mod_cast h3
  have h5 : (1 : ℚ) ≤ (10 : ℚ) ^ ((p.dropWhile isDigit).length - 1) :=
    one_le_pow₀ (by norm_num)
  have h6 : (0 : ℚ) ≤ (digitsToNat 10 (p.filter isDigit) : Nat) := by positivity
  calc ((digitsToNat 10 (p.filter isDigit) : Nat) : ℚ) /
        (10 : ℚ) ^ ((p.dropWhile isDigit).length - 1)
      ≤ (digitsToNat 10 (p.filter isDigit) : Nat) := div_le_self h6 h5
    _ < (10 : ℚ) ^ p.length := h4

/-- What `parseCurrency` returns on a string, in terms of the numerals among
the prefixes of the stripped remainder: `0` when there is none; otherwise, with
`v` the value of the longest one, `parseFloat` returns the number `v` and the
result is `Math.round(amount * 100) / 100` in binary64 arithmetic, which is
`Infinity` only for `v` above `2 ^ 1015` and else `n / 100` for a natural
number `n`, with `n = 100 v` when that is a whole number below `2 ^ 50`. -/
theorem parseCurrency_cases (s : String) :
    ((∀ p, p <+: numericString s → isDecimalNumeral p = false) ∧
      parseCurrency (.str s) = .ok (.fin 0 0)) ∨
    ∃ p v, p <+: numericString s ∧ decimalNumeralValue p = some v ∧
      (∀ q, q <+: numericString s → p.length < q.length → isDecimalNumeral q = false) ∧
      (parseFloatStr (numericString s)).isFinite = true ∧
      (parseFloatStr (numericString s)).toRat = v ∧
      parseCurrency (.str s) =
        .ok ((mathRound ((parseFloatStr (numericString s)).mul (.fin 100 0))).divPow10 2) ∧
      ((parseCurrency (.str s) = .ok (.inf false) ∧ (2 : ℚ) ^ 1015 < v) ∨
        ∃ n : Nat, parseCurrency (.str s) = .ok (JSNum.dec n 2) ∧
          ∀ c : Nat, v * 100 = c → c < 2 ^ 50 → n = c) := by
  rw [parseCurrency_str, parseFloatStr_kept _ (numericString_kept s)]
  rcases strDecimalLiteral_kept _ (numericString_kept s) with ⟨hnan, hnone⟩ |
    ⟨p, x, hp, _, hmax, hx, hfin, hval⟩
  · left
    rw [hnan]
    exact ⟨hnone, rfl⟩
  · right
    rw [hx]
    cases x with
    | nan => cases hfin
    | inf a => cases hfin
    | fin m k =>
      have hv0 : 0 ≤ (JSNum.fin m k).toRat := decimalNumeralValue_nonneg p _ hval
      have hm : 0 ≤ m := fin_nonneg_of_toRat m k hv0
      have hres : (if (JSNum.fin m k).isNaN then JSNum.fin 0 0
          else (mathRound ((JSNum.fin m k).mul (.fin 100 0))).divPow10 2) =
          (mathRound ((JSNum.fin m k).mul (.fin 100 0))).divPow10 2 := rfl
      rw [hres]
      refine ⟨p, _, hp, hval, hmax, rfl, rfl, rfl, ?_⟩
      rcases roundCents_spec m k hm with ⟨hinf, hbig⟩ | ⟨n, hn, hc⟩
      · left
        rw [hinf]
        exact ⟨rfl, hbig⟩
      · right
        rw [hn]
        exact ⟨n, rfl, hc⟩

theorem roundTwoDecimals_cents (v : ℚ) (c : Nat) (h : v * 100 = c) :
    roundTwoDecimals v = v := by
  unfold roundTwoDecimals
  have hfl : ⌊v * 100 + 1 / 2⌋ = (c : Int) := by
    rw [Int.floor_eq_iff, h]
    push_cast
    constructor <;> linarith
  rw [hfl]
  push_cast
  rw [← h]
  ring

set_option maxRecDepth 100000 in
theorem parseCurrency_binary_examples :
    parseCurrency (.str "1.005") = .ok (.fin 1 0) ∧
      parseCurrency (.str "9007199254740993") = .ok (.fin 9007199254740992 0) ∧
      parseCurrency (.str "-12.34") = .ok (.fin 1234 2) := by
  decide

set_option maxRecDepth 100000 in
set_option exponentiation.threshold 5000 in
theorem parseCurrency_overflow_example :
    (String.mk ('1' :: List.replicate 309 '0')).length = 310 ∧
      parseCurrency (.str (String.mk ('1' :: List.replicate 309 '0'))) =
        .ok (.inf false) := by
  decide

/-- C4, as amended.  For every string `s`, with `r` the remainder left by the
two `replace` calls: the result is `0` when no prefix of `r` is a valid decimal
numeral; otherwise, with `v` the value of the longest prefix of `r` that is
one, `parseFloat` returns the number `v` and the result is
`Math.round(amount * 100) / 100` in binary64 arithmetic, which is the double
nearest to `v` itself whenever `v` is a whole number `c` of hundredths with
`c < 2 ^ 50`.  So when `r` as a whole is a valid numeral with that property,
the result is its value rounded to two decimals, as in the specification's
algorithm.  Without that property the binary rounding of the multiplication
shows: `"1.005"` gives `1`, not `1.01`, and `"9007199254740993"` gives
`9007199254740992`. -/
theorem parseCurrency_longest_numeral (s : String) :
    (((∀ p, p <+: numericString s → decimalNumeralValue p = none) ∧
        parseCurrency (.str s) = .ok (.fin 0 0)) ∨
      ∃ p v, p <+: numericString s ∧ decimalNumeralValue p = some v ∧
        (∀ q, q <+: numericString s → p.length < q.length →
          decimalNumeralValue q = none) ∧
        (parseFloatStr (numericString s)).isFinite = true ∧
        (parseFloatStr (numericString s)).toRat = v ∧
        parseCurrency (.str s) =
          .ok ((mathRound ((parseFloatStr (numericString s)).mul
            (.fin 100 0))).divPow10 2) ∧
        ∀ c : Nat, v * 100 = c → c < 2 ^ 50 →
          parseCurrency (.str s) = .ok (JSNum.dec c 2) ∧
            (JSNum.dec c 2).toRat = v ∧ roundTwoDecimals v = v) ∧
    (∀ (v : ℚ) (c : Nat), decimalNumeralValue (numericString s) = some v →
      v * 100 = c → c < 2 ^ 50 →
      ∃ x, parseCurrency (.str s) = .ok x ∧ x.isFinite = true ∧
        x.toRat = roundTwoDecimals v ∧ x.toRat = specParseCurrency s) ∧
    (parseCurrency (.str "1.005") = .ok (.fin 1 0) ∧
      decimalNumeralValue "1.005".toList = some (1005 / 1000) ∧
      roundTwoDecimals (1005 / 1000) = 101 / 100) ∧
    parseCurrency (.str "9007199254740993") = .ok (.fin 9007199254740992 0) := by
  have hcents : ∀ (v : ℚ) (c : Nat), v * 100 = c → (JSNum.dec c 2).toRat = v := by
    intro v c hc
    rw [toRat_dec]
    push_cast
    rw [← hc]
    norm_num
  have hex : decimalNumeralValue "1.005".toList = some (1005 / 1000) := by
    rw [decimalNumeralValue, if_pos (by decide)]
    have h1 : digitsToNat 10 ("1.005".toList.filter isDigit) = 1005 := by decide
    have h2 : ("1.005".toList.dropWhile isDigit).length - 1 = 3 := by decide
    rw [h1, h2]
    norm_num
  have hround : roundTwoDecimals (1005 / 1000) = 101 / 100 := by
    unfold roundTwoDecimals
    have hfl : ⌊(1005 / 1000 : ℚ) * 100 + 1 / 2⌋ = 101 := by
      rw [Int.floor_eq_iff]
      norm_num
    rw [hfl]
    norm_num
  refine ⟨?_, ?_, ⟨parseCurrency_binary_examples.1, hex, hround⟩,
    parseCurrency_binary_examples.2.1⟩
  · rcases parseCurrency_cases s with ⟨hnone, hres⟩ |
      ⟨p, v, hp, hv, hmax, hfin, hrat, hres, hcase⟩
    · left
      exact ⟨fun p hp => (decimalNumeralValue_eq_none p).2 (hnone p hp), hres⟩
    · right
      refine ⟨p, v, hp, hv,
        fun q hq hlt => (decimalNumeralValue_eq_none q).2 (hmax q hq hlt),
        hfin, hrat, hres, ?_⟩
      intro c hc hlt
      refine ⟨?_, hcents v c hc, roundTwoDecimals_cents v c hc⟩
      rcases hcase with ⟨_, hbig⟩ | ⟨n, hn, hexact⟩
      · exfalso
        have h1 : (c : ℚ) < 2 ^ 50 := by exact_mod_cast hlt
        have h2 : (2 : ℚ) ^ 50 < 2 ^ 1015 := by norm_num
        have h3 : v ≤ v * 100 := by
          have := decimalNumeralValue_nonneg p v hv
          linarith
        linarith
      · rw [hn, hexact c hc hlt]
  · intro v c hv hc hlt
    have hnum : isDecimalNumeral (numericString s) ≠ false := by
      intro h
      rw [(decimalNumeralValue_eq_none _).2 h] at hv
      cases hv
    rcases parseCurrency_cases s with ⟨hnone, _⟩ |
      ⟨p, w, hp, hw, hmax, _, _, _, hcase⟩
    · exact absurd (hnone _ (List.prefix_refl _)) hnum
    · have hlen : ¬ p.length < (numericString s).length :=
        fun h => hnum (hmax _ (List.prefix_refl _) h)
      have hpeq : p = numericString s :=
        List.IsPrefix.eq_of_length hp (le_antisymm (List.IsPrefix.length_le hp) (not_lt.1 hlen))
      rw [hpeq, hv] at hw
      simp only [Option.some.injEq] at hw
      subst hw
      have hres : parseCurrency (.str s) = .ok (JSNum.dec c 2) := by
        rcases hcase with ⟨_, hbig⟩ | ⟨n, hn, hexact⟩
        · exfalso
          have h1 : (c : ℚ) < 2 ^ 50 := by exact_mod_cast hlt
          have h2 : (2 : ℚ) ^ 50 < 2 ^ 1015 := by norm_num
          have h3 : v ≤ v * 100 := by
            have := decimalNumeralValue_nonneg _ v hv
            linarith
          linarith
        · rw [hn, hexact c hc hlt]
      refine ⟨_, hres, isFinite_dec _ _, ?_, ?_⟩
      · rw [hcents v c hc, roundTwoDecimals_cents v c hc]
      · rw [hcents v c hc, specParseCurrency, hv]
        exact (roundTwoDecimals_cents v c hc).symm

/-- C4, at `"₹1,500.00"`, whose remainder `1500.00` is a valid numeral, of
150000 hundredths. -/
theorem parseCurrency_longest_numeral_witness :
    ∃ x, parseCurrency (.str "₹1,500.00") = .ok x ∧ x.isFinite = true ∧
      x.toRat = roundTwoDecimals 1500 ∧ x.toRat = specParseCurrency "₹1,500.00" := by
  have h : decimalNumeralValue (numericString "₹1,500.00") = some 1500 := by
    rw [decimalNumeralValue, if_pos (by decide)]
    have h1 : digitsToNat 10 ((numericString "₹1,500.00").filter isDigit) = 150000 := by
      decide
    have h2 : ((numericString "₹1,500.00").dropWhile isDigit).length - 1 = 2 := by decide
    rw [h1, h2]
    norm_num
  exact (parseCurrency_longest_numeral "₹1,500.00").2.1 1500 150000 h (by norm_num)
    (by norm_num)

/-- C4 as stated fails at `"Rs. 500.00"`: the remainder `.500.00` has two dots
and is no decimal numeral, so the specification's algorithm gives `0`, but the
code returns `0.5`, the value of the prefix `.500`. -/
theorem parseCurrency_two_dots_counterexample :
    numericString "Rs. 500.00" = ".500.00".toList ∧
      decimalNumeralValue (numericString "Rs. 500.00") = none ∧
      specParseCurrency "Rs. 500.00" = 0 ∧
      parseCurrency (.str "Rs. 500.00") = .ok (.fin 5 1) ∧
      (JSNum.fin 5 1).toRat = 1 / 2 := by
  have h : decimalNumeralValue (numericString "Rs. 500.00") = none := by
    rw [decimalNumeralValue, if_neg (by decide)]
  refine ⟨by decide, h, ?_, by decide, ?_⟩
  · rw [specParseCurrency, h]
  · norm_num [JSNum.toRat]

/-- C5. `parseCurrency` returns 1500 for `"₹1,500.00"` and 0 for the empty
string, for `undefined` and for `"abc"`. -/
theorem parseCurrency_examples :
    parseCurrency (.str "₹1,500.00") = .ok (.fin 1500 0) ∧
      parseCurrency (.str "") = .ok (.fin 0 0) ∧
      parseCurrency .undefined = .ok (.fin 0 0) ∧
      parseCurrency (.str "abc") = .ok (.fin 0 0) := by
  decide

/-- C6, as amended.  For every string, also one with a minus sign,
`parseCurrency` returns `Infinity` or the double nearest to `n / 100` for a
natural number `n`, so a number that is at least 0; it is of the second kind,
finite with at most two decimal digits, whenever the remainder left by the two
`replace` calls has at most 300 characters.  For `"-12.34"` it returns
12.34. -/
theorem parseCurrency_nonneg_two_decimals (s : String) :
    (parseCurrency (.str s) = .ok (.inf false) ∨
      ∃ n : Nat, parseCurrency (.str s) = .ok (JSNum.dec n 2) ∧
        (JSNum.dec n 2).isFinite = true ∧ 0 ≤ (JSNum.dec n 2).toRat ∧
        100 * (JSNum.dec n 2).toRat = n) ∧
    ((numericString s).length ≤ 300 →
      ∃ n : Nat, parseCurrency (.str s) = .ok (JSNum.dec n 2)) ∧
    parseCurrency (.str "-12.34") = .ok (.fin 1234 2) := by
  have hdec : ∀ n : Nat, (JSNum.dec n 2).isFinite = true ∧ 0 ≤ (JSNum.dec n 2).toRat ∧
      100 * (JSNum.dec n 2).toRat = n := by
    intro n
    refine ⟨isFinite_dec _ _, ?_, ?_⟩
    · rw [toRat_dec]
      positivity
    · rw [toRat_dec]
      push_cast
      field_simp
      ring
  refine ⟨?_, ?_, parseCurrency_binary_examples.2.2⟩
  · rcases parseCurrency_cases s with ⟨_, hres⟩ | ⟨p, v, _, _, _, _, _, _, hcase⟩
    · right
      exact ⟨0, hres, hdec 0⟩
    · rcases hcase with ⟨hinf, _⟩ | ⟨n, hn, _⟩
      · exact Or.inl hinf
      · exact Or.inr ⟨n, hn, hdec n⟩
  · intro hlen
    rcases parseCurrency_cases s with ⟨_, hres⟩ | ⟨p, v, hp, hv, _, _, _, _, hcase⟩
    · exact ⟨0, hres⟩
    · rcases hcase with ⟨_, hbig⟩ | ⟨n, hn, _⟩
      · exfalso
        have h1 := decimalNumeralValue_lt p v hv
        have h2 : p.length ≤ 300 := le_trans (List.IsPrefix.length_le hp) hlen
        have h3 : (10 : ℚ) ^ p.length ≤ (10 : ℚ) ^ 300 :=
          pow_le_pow_right₀ (by norm_num) h2
        have h4 : (10 : ℚ) ^ 300 < (2 : ℚ) ^ 1015 := by norm_num
        linarith
      · exact ⟨n, hn⟩

/-- C6, at the string `"-12.34"`, whose remainder `12.34` has five
characters. -/
theorem parseCurrency_nonneg_two_decimals_witness :
    ∃ n : Nat, parseCurrency (.str "-12.34") = .ok (JSNum.dec n 2) :=
  (parseCurrency_nonneg_two_decimals "-12.34").2.1 (by decide)

/-- C6 as stated fails at the numeral `1` followed by 309 zeros: it is above
every finite double, so `amount` is `Infinity` and so is the result, and 100
times `Infinity` is no integer. -/
theorem parseCurrency_overflow_counterexample :
    (String.mk ('1' :: List.replicate 309 '0')).length = 310 ∧
      parseCurrency (.str (String.mk ('1' :: List.replicate 309 '0'))) =
        .ok (.inf false) ∧
      (JSNum.inf false).isFinite = false := by
  exact ⟨parseCurrency_overflow_example.1, parseCurrency_overflow_example.2, rfl⟩

/-- C7. On every input it can be given (`undefined`, `null`, or any string,
the empty one included) `parseCurrency` returns a number, not `NaN`, and does
not throw; the number is 0 for `undefined`, `null`, and every string whose
remainder has no prefix that is a decimal numeral (for instance a string
without digits). -/
theorem parseCurrency_never_raises (v : JSValue)
    (hv : v = .undefined ∨ v = .null ∨ ∃ s, v = .str s) :
    ∃ x, parseCurrency v = .ok x ∧ x.isNaN = false ∧
      ((∀ s, v = .str s → ∀ p, p <+: numericString s → isDecimalNumeral p = false) →
        x = .fin 0 0) := by
  rcases hv with rfl | rfl | ⟨s, rfl⟩
  · exact ⟨_, rfl, rfl, fun _ => rfl⟩
  · exact ⟨_, rfl, rfl, fun _ => rfl⟩
  · rcases parseCurrency_cases s with ⟨_, hres⟩ | ⟨p, w, hp, hw, _, _, _, _, hcase⟩
    · exact ⟨_, hres, rfl, fun _ => rfl⟩
    · have hno : (∀ t, JSValue.str s = .str t →
          ∀ q, q <+: numericString t → isDecimalNumeral q = false) → False := by
        intro hno
        have := (decimalNumeralValue_eq_none p).2 (hno s rfl p hp)
        rw [this] at hw
        cases hw
      rcases hcase with ⟨hinf, _⟩ | ⟨n, hn, _⟩
      · exact ⟨_, hinf, rfl, fun h => (hno h).elim⟩
      · exact ⟨_, hn, rfl, fun h => (hno h).elim⟩

/-- C7, at the string `"abc"`. -/
theorem parseCurrency_never_raises_witness :
    ∃ x, parseCurrency (.str "abc") = .ok x ∧ x.isNaN = false ∧
      ((∀ s, JSValue.str "abc" = .str s →
          ∀ p, p <+: numericString s → isDecimalNumeral p = false) →
        x = .fin 0 0) :=
  parseCurrency_never_raises (.str "abc") (Or.inr (Or.inr ⟨"abc", rfl⟩))

/-! ## The retry loop -/

/-- C8. With the default `maxRetries = 3`, for every sequence of model outcomes
`callGeminiWithRetry` returns a record and never throws, calls the model at
most 3 times, returns the object parsed at the first attempt that yields one
after exactly that many calls, and after 3 calls returns the fallback record
when all three attempts fail: merchant "Unknown Merchant", the three amounts
"₹0.00", today's date, category "Other", not tax deductible, confidence 0.1,
leakage risk 5, and the two fixed texts. -/
theorem callGeminiWithRetry_default (model : Nat → Outcome)
    (jsonParse : String → Option Record) (today : String) :
    (callsOf (callGeminiWithRetry model jsonParse today defaultMaxRetries).2).length ≤ 3 ∧
    (∃ r, (callGeminiWithRetry model jsonParse today defaultMaxRetries).1 = some r) ∧
    (∀ j r, 1 ≤ j → j ≤ 3 → attemptOnce jsonParse (model j) = some r →
      (∀ i, 1 ≤ i → i < j → attemptOnce jsonParse (model i) = none) →
      (callGeminiWithRetry model jsonParse today defaultMaxRetries).1 = some r ∧
        callsOf (callGeminiWithRetry model jsonParse today defaultMaxRetries).2 =
          List.range' 1 j) ∧
    ((∀ i, 1 ≤ i → i ≤ 3 → attemptOnce jsonParse (model i) = none) →
      (callGeminiWithRetry model jsonParse today defaultMaxRetries).1 =
          some [("merchant", .str "Unknown Merchant"),
            ("totalAmountStr", .str "₹0.00"),
            ("date", .str today),
            ("category", .str "Other"),
            ("gstAmountStr", .str "₹0.00"),
            ("otherTaxAmountStr", .str "₹0.00"),
            ("taxDeductible", .bool false),
            ("confidenceScore", .num (.fin 1 1)),
            ("leakageRiskScore", .num (.fin 5 0)),
            ("flagReason", .str "Unable to analyze receipt image"),
            ("savingsInsight", .str "Please verify expense details manually")] ∧
        callsOf (callGeminiWithRetry model jsonParse today defaultMaxRetries).2 =
          [1, 2, 3]) := by
  refine ⟨?_, ?_, ?_, ?_⟩
  · cases h1 : attemptOnce jsonParse (model 1) <;>
      cases h2 : attemptOnce jsonParse (model 2) <;>
      cases h3 : attemptOnce jsonParse (model 3) <;>
      simp [callGeminiWithRetry, retryFrom, defaultMaxRetries, callsOf, h1, h2, h3]
  · cases h1 : attemptOnce jsonParse (model 1) <;>
      cases h2 : attemptOnce jsonParse (model 2) <;>
      cases h3 : attemptOnce jsonParse (model 3) <;>
      simp [callGeminiWithRetry, retryFrom, defaultMaxRetries, h1, h2, h3]
  · intro j r hj1 hj3 hsucc hprev
    interval_cases j
    · simp [callGeminiWithRetry, retryFrom, defaultMaxRetries, callsOf, hsucc, List.range']
    · have h1 := hprev 1 (by omega) (by omega)
      simp [callGeminiWithRetry, retryFrom, defaultMaxRetries, callsOf, hsucc, h1, List.range']
    · have h1 := hprev 1 (by omega) (by omega)
      have h2 := hprev 2 (by omega) (by omega)
      simp [callGeminiWithRetry, retryFrom, defaultMaxRetries, callsOf, hsucc, h1, h2,
        List.range']
  · intro hall
    have h1 := hall 1 (by omega) (by omega)
    have h2 := hall 2 (by omega) (by omega)
    have h3 := hall 3 (by omega) (by omega)
    simp [callGeminiWithRetry, retryFrom, defaultMaxRetries, callsOf, h1, h2, h3,
      getFallbackResponse]

/-- C8, for a model that fails once and then answers with a JSON text, and for
a model that fails three times. -/
theorem callGeminiWithRetry_default_witness :
    ((callGeminiWithRetry
        (fun n => if n = 1 then .failure else .text "ok \x7b\"a\":1\x7d")
        (fun s => if s = "\x7b\"a\":1\x7d" then some [("a", .num (.fin 1 0))] else none)
        "2024-03-09" defaultMaxRetries).1 = some [("a", .num (.fin 1 0))] ∧
      callsOf (callGeminiWithRetry
        (fun n => if n = 1 then .failure else .text "ok \x7b\"a\":1\x7d")
        (fun s => if s = "\x7b\"a\":1\x7d" then some [("a", .num (.fin 1 0))] else none)
        "2024-03-09" defaultMaxRetries).2 = List.range' 1 2) ∧
    ((callGeminiWithRetry (fun _ => .failure) (fun _ => none) "2024-03-09"
        defaultMaxRetries).1 =
          some [("merchant", .str "Unknown Merchant"),
            ("totalAmountStr", .str "₹0.00"),
            ("date", .str "2024-03-09"),
            ("category", .str "Other"),
            ("gstAmountStr", .str "₹0.00"),
            ("otherTaxAmountStr", .str "₹0.00"),
            ("taxDeductible", .bool false),
            ("confidenceScore", .num (.fin 1 1)),
            ("leakageRiskScore", .num (.fin 5 0)),
            ("flagReason", .str "Unable to analyze receipt image"),
            ("savingsInsight", .str "Please verify expense details manually")] ∧
      callsOf (callGeminiWithRetry (fun _ => .failure) (fun _ => none) "2024-03-09"
        defaultMaxRetries).2 = [1, 2, 3]) :=
  ⟨(callGeminiWithRetry_default
      (fun n => if n = 1 then .failure else .text "ok \x7b\"a\":1\x7d")
      (fun s => if s = "\x7b\"a\":1\x7d" then some [("a", .num (.fin 1 0))] else none)
      "2024-03-09").2.2.1 2 [("a", .num (.fin 1 0))] (by decide) (by decide) (by decide)
    (by
      intro i h1 h2
      have hi : i = 1 := by omega
      subst hi
      decide),
    (callGeminiWithRetry_default (fun _ => .failure) (fun _ => none)
      "2024-03-09").2.2.2 (fun _ _ _ => rfl)⟩

theorem waitsOf_backoffSchedule (a j : Nat) :
    waitsOf (backoffSchedule a j) = (List.range' a (j - 1)).map (fun k => 2 ^ k * 1000) := by
  induction j generalizing a with
  | zero => rfl
  | succ j ih =>
    cases j with
    | zero => rfl
    | succ j =>
      have := ih (a + 1)
      simp only [Nat.add_sub_cancel] at this
      simp [backoffSchedule, waitsOf, this, List.range']

theorem callsOf_backoffSchedule (a j : Nat) :
    callsOf (backoffSchedule a j) = List.range' a j := by
  induction j generalizing a with
  | zero => rfl
  | succ j ih =>
    cases j with
    | zero => rfl
    | succ j =>
      have := ih (a + 1)
      simp [backoffSchedule, callsOf, this, List.range']

/-- The trace of the loop is a schedule: calls from `attempt` on, each but the
last followed by its wait. -/
theorem retryFrom_trace (model : Nat → Outcome) (jsonParse : String → Option Record)
    (today : String) (maxRetries : Nat) (fuel attempt : Nat)
    (hinv : attempt + fuel = maxRetries + 1) :
    ∃ j, j ≤ fuel ∧ (1 ≤ fuel → 1 ≤ j) ∧
      (retryFrom model jsonParse today maxRetries fuel attempt).2 =
        backoffSchedule attempt j := by
  induction fuel generalizing attempt with
  | zero => exact ⟨0, le_refl _, fun h => absurd h (by omega), rfl⟩
  | succ fuel ih =>
    unfold retryFrom
    cases h : attemptOnce jsonParse (model attempt) with
    | some r => exact ⟨1, by omega, fun _ => le_refl _, rfl⟩
    | none =>
      by_cases hlast : attempt = maxRetries
      · exact ⟨1, by omega, fun _ => le_refl _, by simp [hlast, backoffSchedule]⟩
      · obtain ⟨j, hj, hj1, htr⟩ := ih (attempt + 1) (by omega)
        have hfuel : 1 ≤ fuel := by omega
        obtain ⟨j', rfl⟩ : ∃ j', j = j' + 1 := ⟨j - 1, by have := hj1 hfuel; omega⟩
        refine ⟨j' + 2, by omega, fun _ => by omega, ?_⟩
        simp [hlast, htr, backoffSchedule]

/-- C10. For every `maxRetries` and every sequence of model outcomes the loop
follows the backoff schedule: it makes some `j ≤ maxRetries` calls, waits
`2 ^ k * 1000` ms after each failed attempt `k < j` and nothing after the last
call, so each wait is twice the one before; when all attempts fail with the
default of 3 the waits are 2000 ms and 4000 ms, 6000 ms in total. -/
theorem callGeminiWithRetry_backoff (model : Nat → Outcome)
    (jsonParse : String → Option Record) (today : String) (maxRetries : Nat) :
    (∃ j, j ≤ maxRetries ∧
      (callGeminiWithRetry model jsonParse today maxRetries).2 = backoffSchedule 1 j ∧
      waitsOf (callGeminiWithRetry model jsonParse today maxRetries).2 =
        (List.range' 1 (j - 1)).map (fun k => 2 ^ k * 1000)) ∧
    (∀ i w, (waitsOf (callGeminiWithRetry model jsonParse today maxRetries).2)[i]? = some w →
      w = 2 ^ (i + 1) * 1000 ∧ i + 1 < maxRetries ∧
      (i + 1 < (waitsOf (callGeminiWithRetry model jsonParse today maxRetries).2).length →
        (waitsOf (callGeminiWithRetry model jsonParse today maxRetries).2)[i + 1]? =
          some (2 * w))) ∧
    ((∀ i, 1 ≤ i → i ≤ 3 → attemptOnce jsonParse (model i) = none) →
      waitsOf (callGeminiWithRetry model jsonParse today defaultMaxRetries).2 =
          [2000, 4000] ∧
        (waitsOf (callGeminiWithRetry model jsonParse today defaultMaxRetries).2).sum =
          6000) := by
  obtain ⟨j, hj, _, htr⟩ :=
    retryFrom_trace model jsonParse today maxRetries maxRetries 1 (by omega)
  have hw : waitsOf (callGeminiWithRetry model jsonParse today maxRetries).2 =
      (List.range' 1 (j - 1)).map (fun k => 2 ^ k * 1000) := by
    unfold callGeminiWithRetry
    rw [htr, waitsOf_backoffSchedule]
  refine ⟨⟨j, hj, htr, hw⟩, ?_, ?_⟩
  · intro i w hiw
    rw [hw] at hiw ⊢
    obtain ⟨hlen, hval⟩ := List.getElem?_eq_some_iff.1 hiw
    simp only [List.length_map, List.length_range'] at hlen
    simp only [List.getElem_map, List.getElem_range', Nat.one_mul] at hval
    refine ⟨by rw [← hval, Nat.add_comm], by omega, ?_⟩
    intro hi1
    simp only [List.length_map, List.length_range'] at hi1
    rw [List.getElem?_eq_some_iff]
    refine ⟨by simpa using hi1, ?_⟩
    simp only [List.getElem_map, List.getElem_range', Nat.one_mul]
    rw [← hval]
    ring
  · intro hall
    have h1 := hall 1 (by omega) (by omega)
    have h2 := hall 2 (by omega) (by omega)
    have h3 := hall 3 (by omega) (by omega)
    simp [callGeminiWithRetry, retryFrom, defaultMaxRetries, waitsOf, h1, h2, h3]

/-- C10, for a model that fails on every call. -/
theorem callGeminiWithRetry_backoff_witness :
    waitsOf (callGeminiWithRetry (fun _ => .failure) (fun _ => none) "2024-03-09"
        defaultMaxRetries).2 = [2000, 4000] ∧
      (waitsOf (callGeminiWithRetry (fun _ => .failure) (fun _ => none) "2024-03-09"
        defaultMaxRetries).2).sum = 6000 :=
  (callGeminiWithRetry_backoff (fun _ => .failure) (fun _ => none) "2024-03-09" 3).2.2
    (fun _ _ _ => rfl)

/-! ## The pattern match -/

theorem greedyClose_eq_none (cs : List Char) :
    greedyClose cs = none ↔ '\x7d' ∉ cs := by
  induction cs with
  | nil => simp [greedyClose]
  | cons c cs ih =>
    unfold greedyClose
    cases h : greedyClose cs with
    | some m =>
      have : ¬ '\x7d' ∉ cs := fun hn => by rw [ih.2 hn] at h; cases h
      simp only [List.mem_cons, not_or]
      constructor
      · intro h'; cases h'
      · intro h'; exact absurd h'.2 this
    | none =>
      have hcs := ih.1 h
      by_cases hc : c = '\x7d'
      · simp [hc]
      · simp [hc, hcs, Ne.symm hc]

theorem greedyClose_some (cs m : List Char) (h : greedyClose cs = some m) :
    ∃ mid post, m = mid ++ ['\x7d'] ∧ cs = m ++ post ∧ '\x7d' ∉ post := by
  induction cs generalizing m with
  | nil => simp [greedyClose] at h
  | cons c cs ih =>
    unfold greedyClose at h
    cases hg : greedyClose cs with
    | some m' =>
      rw [hg] at h
      simp only [Option.some.injEq] at h
      obtain ⟨mid, post, hm, hcs, hpost⟩ := ih m' hg
      refine ⟨c :: mid, post, ?_, ?_, hpost⟩
      · rw [← h, hm]; rfl
      · rw [← h, List.cons_append, ← hcs]
    | none =>
      rw [hg] at h
      by_cases hc : c = '\x7d'
      · simp only [hc, if_true, Option.some.injEq] at h
        refine ⟨[], cs, ?_, ?_, (greedyClose_eq_none cs).1 hg⟩
        · rw [← h]; rfl
        · rw [← h, hc]; rfl
      · simp [hc] at h

theorem greedyClose_append (mid post : List Char) (hpost : '\x7d' ∉ post) :
    greedyClose (mid ++ '\x7d' :: post) = some (mid ++ ['\x7d']) := by
  induction mid with
  | nil =>
    simp only [List.nil_append]
    unfold greedyClose
    rw [(greedyClose_eq_none post).2 hpost]
    simp
  | cons c mid ih =>
    simp only [List.cons_append]
    unfold greedyClose
    rw [ih]

/-- Before the first opening brace nothing matches; at it, the tail of the
pattern decides. -/
theorem jsonMatch_first_brace (pre rest : List Char) (hpre : '\x7b' ∉ pre) :
    jsonMatch (pre ++ '\x7b' :: rest) = (greedyClose rest).map ('\x7b' :: ·) := by
  induction pre with
  | nil =>
    simp only [List.nil_append]
    unfold jsonMatch
    cases h : greedyClose rest with
    | some m => simp
    | none =>
      simp only [if_true, Option.map_none']
      have hno := (greedyClose_eq_none rest).1 h
      clear h
      induction rest with
      | nil => rfl
      | cons d rest ih2 =>
        unfold jsonMatch
        have hrest : '\x7d' ∉ rest := fun hmem => hno (List.mem_cons_of_mem _ hmem)
        rw [(greedyClose_eq_none rest).2 hrest]
        simp only [ite_self]
        exact ih2 hrest
  | cons c pre ih =>
    have hc : c ≠ '\x7b' := fun h => hpre (by simp [h])
    have hpre' : '\x7b' ∉ pre := fun h => hpre (List.mem_cons_of_mem _ h)
    simp only [List.cons_append]
    unfold jsonMatch
    simp only [hc, if_false]
    exact ih hpre'

theorem jsonMatch_no_brace (text : List Char) (h : '\x7b' ∉ text) : jsonMatch text = none := by
  induction text with
  | nil => rfl
  | cons c cs ih =>
    have hc : c ≠ '\x7b' := fun hc => h (by simp [hc])
    unfold jsonMatch
    simp only [hc, if_false]
    exact ih (fun hm => h (List.mem_cons_of_mem _ hm))

theorem split_first_brace (text : List Char) (h : '\x7b' ∈ text) :
    ∃ pre rest, text = pre ++ '\x7b' :: rest ∧ '\x7b' ∉ pre ∧
      text.dropWhile (fun c => c != '\x7b') = '\x7b' :: rest := by
  induction text with
  | nil => simp at h
  | cons c cs ih =>
    by_cases hc : c = '\x7b'
    · subst hc
      exact ⟨[], cs, rfl, by simp, by simp [List.dropWhile]⟩
    · have hmem : '\x7b' ∈ cs := by
        rcases List.mem_cons.1 h with h1 | h1
        · exact absurd h1.symm hc
        · exact h1
      obtain ⟨pre, rest, hcs, hpre, hdw⟩ := ih hmem
      refine ⟨c :: pre, rest, by rw [hcs]; rfl, ?_, ?_⟩
      · simp only [List.mem_cons, not_or]
        exact ⟨Ne.symm hc, hpre⟩
      · have hb : (c != '\x7b') = true := by simpa using hc
        rw [List.dropWhile_cons_of_pos (p := fun c => c != '\x7b') (a := c) hb]
        exact hdw

theorem braceMatchedFrom_some (depth : Nat) (cs o : List Char)
    (h : braceMatchedFrom depth cs = some o) :
    ∃ mid post, o = mid ++ ['\x7d'] ∧ cs = o ++ post := by
  induction cs generalizing depth o with
  | nil => simp [braceMatchedFrom] at h
  | cons c cs ih =>
    unfold braceMatchedFrom at h
    have step : ∀ d o', braceMatchedFrom d cs = some o' → o = c :: o' →
        ∃ mid post, o = mid ++ ['\x7d'] ∧ c :: cs = o ++ post := by
      intro d o' ho' ho
      obtain ⟨mid, post, hm, hcs⟩ := ih d o' ho'
      exact ⟨c :: mid, post, by rw [ho, hm]; rfl, by rw [ho, List.cons_append, ← hcs]⟩
    split_ifs at h with h1 h2 h3
    · obtain ⟨o', ho', ho⟩ := Option.map_eq_some'.1 h
      exact step _ o' ho' ho.symm
    · simp only [Option.some.injEq] at h
      exact ⟨[], cs, by rw [← h, h2]; rfl, by rw [← h]; rfl⟩
    · obtain ⟨o', ho', ho⟩ := Option.map_eq_some'.1 h
      exact step _ o' ho' ho.symm
    · obtain ⟨o', ho', ho⟩ := Option.map_eq_some'.1 h
      exact step _ o' ho' ho.symm

theorem specFirstObject_some (text o : List Char) (h : specFirstObject text = some o) :
    ∃ pre mid post, text = pre ++ o ++ post ∧ o = '\x7b' :: (mid ++ ['\x7d']) ∧
      '\x7b' ∉ pre := by
  by_cases hmem : '\x7b' ∈ text
  · obtain ⟨pre, rest, htext, hpre, hdw⟩ := split_first_brace text hmem
    unfold specFirstObject at h
    rw [hdw] at h
    obtain ⟨o', ho', ho⟩ := Option.map_eq_some'.1 h
    obtain ⟨mid, post, hm, hrest⟩ := braceMatchedFrom_some 1 rest o' ho'
    refine ⟨pre, mid, post, ?_, by rw [← ho, hm], hpre⟩
    rw [htext, ← ho, hrest]
    simp
  · have hdw : text.dropWhile (fun c => c != '\x7b') = [] := by
      rw [List.dropWhile_eq_nil_iff]
      intro c hc
      have : c ≠ '\x7b' := fun hcc => hmem (hcc ▸ hc)
      simpa using this
    unfold specFirstObject at h
    rw [hdw] at h
    cases h

theorem jsonMatch_some_of_braces (a b c : List Char) :
    ∃ m, jsonMatch (a ++ '\x7b' :: (b ++ '\x7d' :: c)) = some m := by
  induction a with
  | nil =>
    have hmem : '\x7d' ∈ b ++ '\x7d' :: c := by simp
    cases hg : greedyClose (b ++ '\x7d' :: c) with
    | none => exact absurd hmem ((greedyClose_eq_none _).1 hg)
    | some m =>
      refine ⟨'\x7b' :: m, ?_⟩
      simp only [List.nil_append]
      unfold jsonMatch
      simp [hg]
  | cons x a ih =>
    obtain ⟨m, hm⟩ := ih
    simp only [List.cons_append]
    unfold jsonMatch
    cases hx : (if x = '\x7b' then greedyClose (a ++ '\x7b' :: (b ++ '\x7d' :: c))
        else none) with
    | some m' => exact ⟨x :: m', rfl⟩
    | none => exact ⟨m, hm⟩

/-- C9, as amended.  Every response text with an opening brace followed later
by a closing brace yields a match, and the substring an attempt hands to
`JSON.parse` starts at the first opening brace of the response text and ends
at the last closing brace of the text.  It is the brace-matched first object
exactly when no closing brace occurs in the text after that object. -/
theorem jsonMatch_first_to_last_brace (text : List Char) :
    (∀ a b c, text = a ++ '\x7b' :: (b ++ '\x7d' :: c) →
      ∃ pre mid post, text = pre ++ '\x7b' :: (mid ++ '\x7d' :: post) ∧
        '\x7b' ∉ pre ∧ '\x7d' ∉ post ∧
        jsonMatch text = some ('\x7b' :: (mid ++ ['\x7d'])) ∧
        ∀ (jsonParse : String → Option Record) (t : String), t.toList = text →
          attemptOnce jsonParse (.text t) =
            jsonParse (String.mk ('\x7b' :: (mid ++ ['\x7d'])))) ∧
    (∀ m, jsonMatch text = some m →
      ∃ pre mid post, text = pre ++ m ++ post ∧ m = '\x7b' :: (mid ++ ['\x7d']) ∧
        '\x7b' ∉ pre ∧ '\x7d' ∉ post) ∧
    (∀ o pre post, specFirstObject text = some o → text = pre ++ o ++ post →
      '\x7b' ∉ pre → (jsonMatch text = some o ↔ '\x7d' ∉ post)) ∧
    (∀ (jsonParse : String → Option Record) (t : String) (m : List Char),
      t.toList = text → jsonMatch text = some m →
      attemptOnce jsonParse (.text t) = jsonParse (String.mk m)) := by
  have hshape : ∀ m, jsonMatch text = some m →
      ∃ pre mid post, text = pre ++ m ++ post ∧ m = '\x7b' :: (mid ++ ['\x7d']) ∧
        '\x7b' ∉ pre ∧ '\x7d' ∉ post := by
    intro m hm
    by_cases hmem : '\x7b' ∈ text
    · obtain ⟨pre, rest, htext, hpre, _⟩ := split_first_brace text hmem
      rw [htext, jsonMatch_first_brace pre rest hpre] at hm
      obtain ⟨m', hm', hmm⟩ := Option.map_eq_some'.1 hm
      obtain ⟨mid, post, hmid, hrest, hpost⟩ := greedyClose_some rest m' hm'
      refine ⟨pre, mid, post, ?_, by rw [← hmm, hmid], hpre, hpost⟩
      rw [htext, ← hmm, hrest]
      simp
    · rw [jsonMatch_no_brace text hmem] at hm
      cases hm
  refine ⟨?_, hshape, ?_, ?_⟩
  · intro a b c habc
    obtain ⟨m, hm⟩ := jsonMatch_some_of_braces a b c
    rw [← habc] at hm
    obtain ⟨pre, mid, post, htext, hmid, hpre, hpost⟩ := hshape m hm
    refine ⟨pre, mid, post, ?_, hpre, hpost, by rw [hm, hmid], ?_⟩
    · rw [htext, hmid]
      simp
    · intro jsonParse t ht
      simp only [attemptOnce, ht, hm, hmid]
  · intro o pre post ho htext hpre
    obtain ⟨_, mid, _, _, hobj, _⟩ := specFirstObject_some text o ho
    have htext' : text = pre ++ '\x7b' :: (mid ++ '\x7d' :: post) := by
      rw [htext, hobj]; simp
    rw [htext', jsonMatch_first_brace pre _ hpre, hobj]
    constructor
    · intro h
      obtain ⟨m', hm', hmm⟩ := Option.map_eq_some'.1 h
      simp only [List.cons.injEq, true_and] at hmm
      subst hmm
      obtain ⟨_, post', _, hrest, hpost'⟩ := greedyClose_some _ _ hm'
      have : post' = post := by
        have h1 : mid ++ '\x7d' :: post = (mid ++ ['\x7d']) ++ post := by simp
        rw [h1] at hrest
        exact (List.append_cancel_left hrest).symm
      rw [← this]
      exact hpost'
    · intro hpost
      rw [greedyClose_append mid post hpost]
      rfl
  · intro jsonParse t m ht hm
    simp only [attemptOnce, ht, hm]

/-- C9, at a response whose only braces are those of one object. -/
theorem jsonMatch_first_to_last_brace_witness :
    jsonMatch "Result: \x7b\"a\":1\x7d done".toList = some "\x7b\"a\":1\x7d".toList ↔
      '\x7d' ∉ " done".toList :=
  (jsonMatch_first_to_last_brace "Result: \x7b\"a\":1\x7d done".toList).2.2.1
    "\x7b\"a\":1\x7d".toList "Result: ".toList " done".toList
    (by decide) (by decide) (by decide)

/-- C9 as stated fails at a response with a second object after the first: the
brace-matched first object is the text up to the first closing brace, but the
code extracts everything up to the last closing brace, which is no JSON text,
so a `JSON.parse` that accepts only the first object gives the attempt
nothing. -/
theorem jsonMatch_second_object_counterexample :
    specFirstObject "\x7b\"a\":1\x7d \x7b\"b\":2\x7d".toList =
        some "\x7b\"a\":1\x7d".toList ∧
      jsonMatch "\x7b\"a\":1\x7d \x7b\"b\":2\x7d".toList =
        some "\x7b\"a\":1\x7d \x7b\"b\":2\x7d".toList ∧
      attemptOnce
        (fun s => if s = "\x7b\"a\":1\x7d" then some [("a", .num (.fin 1 0))] else none)
        (.text "\x7b\"a\":1\x7d \x7b\"b\":2\x7d") = none := by
  decide

/-! ## The receipt route -/

theorem validateExtractedData_fallback (today : String) :
    validateExtractedData (getFallbackResponse today) = .ok (getFallbackResponse today) := by
  rfl

theorem buildInsertRow_fallback (user : User) (today : String) :
    buildInsertRow user (getFallbackResponse today) = .ok (fallbackInsertRow user today) := by
  rfl

theorem callGeminiWithRetry_exhausted (model : Nat → Outcome)
    (jsonParse : String → Option Record) (today : String)
    (hfail : ∀ i, 1 ≤ i → i ≤ 3 → attemptOnce jsonParse (model i) = none) :
    callGeminiWithRetry model jsonParse today defaultMaxRetries =
      (some (getFallbackResponse today), backoffSchedule 1 3) := by
  have h1 := hfail 1 (by omega) (by omega)
  have h2 := hfail 2 (by omega) (by omega)
  have h3 := hfail 3 (by omega) (by omega)
  simp [callGeminiWithRetry, retryFrom, defaultMaxRetries, backoffSchedule, h1, h2, h3]

/-- C11. When the extraction fails on all three attempts of an authenticated
request with an image, the fallback record passes `validateExtractedData`
unchanged, its three amount strings parse to 0, and, the insert reporting no
error, the route hands the database one row with merchant "Unknown Merchant",
`total_amount_numeric` 0, `leakage_risk_score` 5 and `confidence_score` 0.1 and
answers with status 200 and the success body. -/
theorem processReceipt_fallback (getUser : String → ProviderOutcome) (model : Nat → Outcome)
    (jsonParse : String → Option Record) (dbInsert : InsertRow → InsertOutcome)
    (nodeEnv today authHeader : String) (imageBase64 : JSValue) (user : User)
    (id created_at : String)
    (hheader : authHeader ≠ "")
    (hauth : getUser (bearerToken authHeader) = .result (some user) none)
    (himage : truthy imageBase64 = true)
    (hfail : ∀ i, 1 ≤ i → i ≤ 3 → attemptOnce jsonParse (model i) = none)
    (hdb : ∀ row, dbInsert row = .stored id created_at) :
    validateExtractedData (getFallbackResponse today) = .ok (getFallbackResponse today) ∧
    parseCurrency (getField (getFallbackResponse today) "totalAmountStr") = .ok (.fin 0 0) ∧
    parseCurrency (getField (getFallbackResponse today) "gstAmountStr") = .ok (.fin 0 0) ∧
    parseCurrency (getField (getFallbackResponse today) "otherTaxAmountStr") =
      .ok (.fin 0 0) ∧
    ∃ row : InsertRow,
      processReceipt getUser model jsonParse dbInsert nodeEnv today (some authHeader)
          imageBase64 =
        ⟨200, .success id created_at row "Receipt processed successfully",
          backoffSchedule 1 3, [row]⟩ ∧
      row.user_id = user.id ∧
      row.merchant = .str "Unknown Merchant" ∧
      row.total_amount_numeric = .fin 0 0 ∧
      row.gst_amount_numeric = .fin 0 0 ∧
      row.other_tax_amount_numeric = .fin 0 0 ∧
      row.leakage_risk_score = .num (.fin 5 0) ∧
      row.confidence_score = .num (.fin 1 1) := by
  refine ⟨validateExtractedData_fallback today, rfl, rfl, rfl, fallbackInsertRow user today,
    ?_, rfl, rfl, rfl, rfl, rfl, rfl, rfl⟩
  simp only [processReceipt, hheader, if_false, hauth, himage, Bool.not_true,
    callGeminiWithRetry_exhausted model jsonParse today hfail,
    validateExtractedData_fallback, buildInsertRow_fallback, hdb]
  rfl

/-- C11, for the caller of token `tok-a` and a vision model that fails on every
call. -/
theorem processReceipt_fallback_witness :
    ∃ row : InsertRow,
      processReceipt sampleGetUser (fun _ => .failure) (fun _ => none) sampleInsert
          "production" "2024-03-09" (some "Bearer tok-a") (.str "aGVsbG8=") =
        ⟨200, .success "e-1" "2024-03-09T10:00:00Z" row "Receipt processed successfully",
          backoffSchedule 1 3, [row]⟩ ∧
      row.user_id = sampleUser.id ∧
      row.merchant = .str "Unknown Merchant" ∧
      row.total_amount_numeric = .fin 0 0 ∧
      row.gst_amount_numeric = .fin 0 0 ∧
      row.other_tax_amount_numeric = .fin 0 0 ∧
      row.leakage_risk_score = .num (.fin 5 0) ∧
      row.confidence_score = .num (.fin 1 1) :=
  (processReceipt_fallback sampleGetUser (fun _ => .failure) (fun _ => none) sampleInsert
    "production" "2024-03-09" "Bearer tok-a" (.str "aGVsbG8=") sampleUser "e-1"
    "2024-03-09T10:00:00Z" (by decide) (by decide) (by decide) (fun _ _ _ => rfl)
    (fun _ => rfl)).2.2.2.2

theorem validateExtractedData_ok_ranges (data out : Record)
    (h : validateExtractedData data = .ok out) :
    (∃ n : Nat, n ≤ 10 ∧ getField out "leakageRiskScore" = .num (.fin n 0)) ∧
    (∃ c : JSNum, getField out "confidenceScore" = .num c ∧ c.isFinite = true ∧
      0 ≤ c.toRat ∧ c.toRat ≤ 1) := by
  obtain ⟨_, s1, s2, _, _, rfl⟩ := validateExtractedData_ok_inv data out h
  have hne : ("leakageRiskScore" : String) ≠ "confidenceScore" := by decide
  constructor
  · obtain ⟨n, hn, hv⟩ := clampLeakage_range _ (parseIntStr_cases s1.toList)
    exact ⟨n, hn, by rw [getField_setField_other _ _ _ _ hne, getField_setField_same, hv]⟩
  · obtain ⟨m, k, h0, h1, hv⟩ := clampConfidence_range (parseFloatStr s2.toList)
    refine ⟨.fin m k, by rw [getField_setField_same, hv], rfl, ?_, ?_⟩
    · exact div_nonneg (by exact_mod_cast h0) (by positivity)
    · have h1q : (m : ℚ) ≤ (10 : ℚ) ^ k := by exact_mod_cast h1
      exact (div_le_one (by positivity)).2 h1q

/-- The validator leaves every field other than the two scores as it was. -/
theorem validateExtractedData_other_fields (data out : Record)
    (h : validateExtractedData data = .ok out) (f : String)
    (hl : f ≠ "leakageRiskScore") (hc : f ≠ "confidenceScore") :
    getField out f = getField data f := by
  obtain ⟨_, s1, s2, _, _, rfl⟩ := validateExtractedData_ok_inv data out h
  rw [getField_setField_other _ _ _ _ hc, getField_setField_other _ _ _ _ hl]

theorem validateExtractedData_ok_present (data out : Record)
    (h : validateExtractedData data = .ok out) (f : String) (hf : f ∈ required) :
    getField data f ≠ .undefined ∧ getField data f ≠ .null := by
  obtain ⟨hc, _⟩ := validateExtractedData_ok_inv data out h
  have := (checkRequired_ok_iff data required).1 hc f hf
  constructor
  · intro hu
    rw [(isAbsent_iff _).2 (Or.inl hu)] at this
    cases this
  · intro hn
    rw [(isAbsent_iff _).2 (Or.inr hn)] at this
    cases this

theorem buildInsertRow_ok_inv (user : User) (validated : Record) (row : InsertRow)
    (h : buildInsertRow user validated = .ok row) :
    row.user_id = user.id ∧
    row.category = getField validated "category" ∧
    row.total_amount_str = getField validated "totalAmountStr" ∧
    row.gst_amount_str = getField validated "gstAmountStr" ∧
    row.other_tax_amount_str = getField validated "otherTaxAmountStr" ∧
    row.leakage_risk_score = getField validated "leakageRiskScore" ∧
    row.confidence_score = getField validated "confidenceScore" ∧
    parseCurrency row.total_amount_str = .ok row.total_amount_numeric ∧
    parseCurrency row.gst_amount_str = .ok row.gst_amount_numeric ∧
    parseCurrency row.other_tax_amount_str = .ok row.other_tax_amount_numeric := by
  unfold buildInsertRow at h
  cases h1 : parseCurrency (getField validated "totalAmountStr") with
  | error e => simp [h1, bind, Except.bind] at h
  | ok a =>
    cases h2 : parseCurrency (getField validated "gstAmountStr") with
    | error e => simp [h1, h2, bind, Except.bind] at h
    | ok b =>
      cases h3 : parseCurrency (getField validated "otherTaxAmountStr") with
      | error e => simp [h1, h2, h3, bind, Except.bind] at h
      | ok c =>
        simp only [h1, h2, h3, bind, Except.bind, pure, Except.pure, Except.ok.injEq] at h
        subst h
        exact ⟨rfl, rfl, rfl, rfl, rfl, rfl, rfl, h1, h2, h3⟩

/-- A row reaches the database only at the end of the pipeline. -/
theorem processReceipt_inserted (getUser : String → ProviderOutcome) (model : Nat → Outcome)
    (jsonParse : String → Option Record) (dbInsert : InsertRow → InsertOutcome)
    (nodeEnv today : String) (authorization : Option String) (imageBase64 : JSValue)
    (row : InsertRow)
    (hrow : row ∈ (processReceipt getUser model jsonParse dbInsert nodeEnv today
      authorization imageBase64).inserted) :
    ∃ authHeader user extracted validated,
      authorization = some authHeader ∧ authHeader ≠ "" ∧
      getUser (bearerToken authHeader) = .result (some user) none ∧
      truthy imageBase64 = true ∧
      (callGeminiWithRetry model jsonParse today defaultMaxRetries).1 = some extracted ∧
      validateExtractedData extracted = .ok validated ∧
      buildInsertRow user validated = .ok row := by
  unfold processReceipt at hrow
  cases authorization with
  | none => simp at hrow
  | some authHeader =>
    by_cases hh : authHeader = ""
    · simp [hh] at hrow
    · simp only [hh, if_false] at hrow
      cases hg : getUser (bearerToken authHeader) with
      | throws m => simp [hg, receiptCatch] at hrow
      | result u e =>
        cases u with
        | none => simp [hg] at hrow
        | some user =>
          cases e with
          | some err => simp [hg] at hrow
          | none =>
            simp only [hg] at hrow
            by_cases hi : truthy imageBase64 = true
            · simp only [hi, Bool.not_true, Bool.false_eq_true, if_false] at hrow
              cases hr : (callGeminiWithRetry model jsonParse today defaultMaxRetries).1 with
              | none => simp [hr, receiptCatch] at hrow
              | some extracted =>
                simp only [hr] at hrow
                cases hv : validateExtractedData extracted with
                | error e => simp [hv, receiptCatch] at hrow
                | ok validated =>
                  simp only [hv] at hrow
                  cases hb : buildInsertRow user validated with
                  | error e => simp [hb, receiptCatch] at hrow
                  | ok row' =>
                    simp only [hb] at hrow
                    have hmem : row = row' := by
                      cases hd : dbInsert row' with
                      | stored i c => simpa [hd] using hrow
                      | failed m => simpa [hd] using hrow
                    subst hmem
                    exact ⟨authHeader, user, extracted, validated, rfl, hh, hg, hi, rfl, hv, hb⟩
            · simp [hi] at hrow

/-- C18. Every row `POST /process-receipt` hands to the database is derived
from the validated record and the caller: `user_id` is the id of the user the
token resolves to, each numeric amount is `parseCurrency` of the amount string
stored beside it, and the two scores are those of the validated record, an
integer between 0 and 10 and a finite number between 0 and 1. -/
theorem processReceipt_row_derived (getUser : String → ProviderOutcome)
    (model : Nat → Outcome) (jsonParse : String → Option Record)
    (dbInsert : InsertRow → InsertOutcome) (nodeEnv today : String)
    (authorization : Option String) (imageBase64 : JSValue) (row : InsertRow)
    (hrow : row ∈ (processReceipt getUser model jsonParse dbInsert nodeEnv today
      authorization imageBase64).inserted) :
    (∃ authHeader user, authorization = some authHeader ∧
      getUser (bearerToken authHeader) = .result (some user) none ∧
      row.user_id = user.id) ∧
    parseCurrency row.total_amount_str = .ok row.total_amount_numeric ∧
    parseCurrency row.gst_amount_str = .ok row.gst_amount_numeric ∧
    parseCurrency row.other_tax_amount_str = .ok row.other_tax_amount_numeric ∧
    (∃ extracted validated,
      (callGeminiWithRetry model jsonParse today defaultMaxRetries).1 = some extracted ∧
      validateExtractedData extracted = .ok validated ∧
      row.total_amount_str = getField validated "totalAmountStr" ∧
      row.gst_amount_str = getField validated "gstAmountStr" ∧
      row.other_tax_amount_str = getField validated "otherTaxAmountStr" ∧
      row.leakage_risk_score = getField validated "leakageRiskScore" ∧
      row.confidence_score = getField validated "confidenceScore") ∧
    (∃ n : Nat, n ≤ 10 ∧ row.leakage_risk_score = .num (.fin n 0)) ∧
    (∃ c : JSNum, row.confidence_score = .num c ∧ c.isFinite = true ∧
      0 ≤ c.toRat ∧ c.toRat ≤ 1) := by
  obtain ⟨authHeader, user, extracted, validated, hauth, _, hget, _, hrun, hval, hbuild⟩ :=
    processReceipt_inserted getUser model jsonParse dbInsert nodeEnv today authorization
      imageBase64 row hrow
  obtain ⟨hid, _, hts, hgs, hos, hls, hcs, hpt, hpg, hpo⟩ :=
    buildInsertRow_ok_inv user validated row hbuild
  obtain ⟨⟨n, hn, hleak⟩, ⟨c, hconf, hfin, h0, h1⟩⟩ :=
    validateExtractedData_ok_ranges extracted validated hval
  exact ⟨⟨authHeader, user, hauth, hget, hid⟩, hpt, hpg, hpo,
    ⟨extracted, validated, hrun, hval, hts, hgs, hos, hls, hcs⟩,
    ⟨n, hn, by rw [hls, hleak]⟩, ⟨c, by rw [hcs, hconf], hfin, h0, h1⟩⟩

set_option maxRecDepth 20000 in
/-- C18, for the sample caller and a vision model that answers with a complete
record at the first call. -/
theorem processReceipt_row_derived_witness :
    groceriesRow ∈ (processReceipt sampleGetUser (fun _ => .text groceriesText)
        groceriesParse sampleInsert "production" "2024-03-09" (some "Bearer tok-a")
        (.str "aGVsbG8=")).inserted ∧
      parseCurrency groceriesRow.total_amount_str = .ok groceriesRow.total_amount_numeric ∧
      (∃ n : Nat, n ≤ 10 ∧ groceriesRow.leakage_risk_score = .num (.fin n 0)) ∧
      (∃ c : JSNum, groceriesRow.confidence_score = .num c ∧ c.isFinite = true ∧
        0 ≤ c.toRat ∧ c.toRat ≤ 1) :=
  have h := processReceipt_row_derived sampleGetUser (fun _ => .text groceriesText)
    groceriesParse sampleInsert "production" "2024-03-09" (some "Bearer tok-a")
    (.str "aGVsbG8=") groceriesRow (by decide)
  ⟨by decide, h.2.1, h.2.2.2.2.2.1, h.2.2.2.2.2.2⟩

/-- C19, as amended.  The category of every row `POST /process-receipt` hands
to the database is the `category` of the record the extraction returned,
unchanged; it is neither `undefined` nor `null`.  It is therefore one of the
enumerated categories when the extraction's category is, as it is for the
fallback record. -/
theorem processReceipt_category_unchecked (getUser : String → ProviderOutcome)
    (model : Nat → Outcome) (jsonParse : String → Option Record)
    (dbInsert : InsertRow → InsertOutcome) (nodeEnv today : String)
    (authorization : Option String) (imageBase64 : JSValue) (row : InsertRow)
    (hrow : row ∈ (processReceipt getUser model jsonParse dbInsert nodeEnv today
      authorization imageBase64).inserted) :
    (∃ extracted,
      (callGeminiWithRetry model jsonParse today defaultMaxRetries).1 = some extracted ∧
      row.category = getField extracted "category") ∧
    row.category ≠ .undefined ∧ row.category ≠ .null ∧
    ((∀ i, 1 ≤ i → i ≤ 3 → attemptOnce jsonParse (model i) = none) →
      row.category = .str "Other" ∧ "Other" ∈ expenseCategories) := by
  obtain ⟨authHeader, user, extracted, validated, _, _, _, _, hrun, hval, hbuild⟩ :=
    processReceipt_inserted getUser model jsonParse dbInsert nodeEnv today authorization
      imageBase64 row hrow
  obtain ⟨_, hcat, _⟩ := buildInsertRow_ok_inv user validated row hbuild
  have hframe := validateExtractedData_other_fields extracted validated hval "category"
    (by decide) (by decide)
  have hpres := validateExtractedData_ok_present extracted validated hval "category"
    (by decide)
  have hrc : row.category = getField extracted "category" := by rw [hcat, hframe]
  refine ⟨⟨extracted, hrun, hrc⟩, by rw [hrc]; exact hpres.1, by rw [hrc]; exact hpres.2, ?_⟩
  intro hfail
  rw [callGeminiWithRetry_exhausted model jsonParse today hfail] at hrun
  simp only [Option.some.injEq] at hrun
  subst hrun
  exact ⟨hrc, by decide⟩

set_option maxRecDepth 20000 in
/-- C19, for the sample caller and a vision model that answers with a record
of category "Groceries". -/
theorem processReceipt_category_unchecked_witness :
    (∃ extracted,
      (callGeminiWithRetry (fun _ => .text groceriesText) groceriesParse "2024-03-09"
        defaultMaxRetries).1 = some extracted ∧
      groceriesRow.category = getField extracted "category") ∧
    groceriesRow.category ≠ .undefined ∧ groceriesRow.category ≠ .null :=
  have h := processReceipt_category_unchecked sampleGetUser (fun _ => .text groceriesText)
    groceriesParse sampleInsert "production" "2024-03-09" (some "Bearer tok-a")
    (.str "aGVsbG8=") groceriesRow (by decide)
  ⟨h.1, h.2.1, h.2.2.1⟩

set_option maxRecDepth 20000 in
/-- C19 as stated fails when the vision model answers with a category outside
the enumerated set: the record passes validation and the row is stored with
the category "Groceries". -/
theorem processReceipt_category_counterexample :
    jsonMatch groceriesText.toList = some groceriesText.toList ∧
    processReceipt sampleGetUser (fun _ => .text groceriesText) groceriesParse sampleInsert
        "production" "2024-03-09" (some "Bearer tok-a") (.str "aGVsbG8=") =
      ⟨200, .success "e-1" "2024-03-09T10:00:00Z" groceriesRow
        "Receipt processed successfully", [.call 1], [groceriesRow]⟩ ∧
    groceriesRow.category = .str "Groceries" ∧
    expenseCategories.contains "Groceries" = false := by
  decide

/-! ## Delete and list -/

theorem mem_selectRows (store : List Expense) (filters : List Filter) (e : Expense) :
    e ∈ selectRows store filters ↔ e ∈ store ∧ ∀ f ∈ filters, f.holds e = true := by
  simp [selectRows, List.mem_filter, List.all_eq_true]

theorem mem_deleteRows (store : List Expense) (filters : List Filter) (e : Expense) :
    e ∈ deleteRows store filters ↔ e ∈ store ∧ ¬ ∀ f ∈ filters, f.holds e = true := by
  simp [deleteRows, List.mem_filter, List.all_eq_true]

/-- C12. The delete handler never answers 404: when the database reports no
error it answers 204, whether or not a row matched, and when it reports an
error it answers 500; the branch for the code `PGRST116` comes after the
`throw` for any error and is not reached.  Deleting an expense and then
deleting the same id again gives 204 both times. -/
theorem deleteExpense_never_not_found (store : List Expense) (id userId : String) :
    (deleteExpense store none id userId).2 = ⟨204, none⟩ ∧
    (∀ e, (deleteExpense store (some e) id userId).2 =
      ⟨500, some "Failed to delete expense"⟩) ∧
    (∀ failure, (deleteExpense store failure id userId).2.status ≠ 404) ∧
    deleteExpense [] none "e-1" "user-a" = ([], ⟨204, none⟩) ∧
    deleteExpense [expenseOfA] none "e-1" "user-a" = ([], ⟨204, none⟩) ∧
    deleteExpense (deleteExpense [expenseOfA] none "e-1" "user-a").1 none "e-1" "user-a" =
      ([], ⟨204, none⟩) := by
  refine ⟨rfl, fun e => rfl, ?_, by decide, by decide, by decide⟩
  intro failure
  cases failure with
  | none => simp [deleteExpense]
  | some e => simp [deleteExpense]

/-- C13. The delete issued by caller `userId` for `id` removes exactly the rows
whose id is `id` and whose owner is `userId`, keeps every other row as it is
and in the same order, and removes nothing when the database reports an error.
A row of another owner is still in the table afterwards and is still returned
by its owner's list call. -/
theorem deleteExpense_frame (store : List Expense) (failure : Option DbError)
    (id userId : String) :
    (deleteExpense store none id userId).1 =
      store.filter (fun e => !(decide (e.id = id) && decide (e.user_id = userId))) ∧
    (∀ e, e ∈ (deleteExpense store none id userId).1 ↔
      e ∈ store ∧ ¬ (e.id = id ∧ e.user_id = userId)) ∧
    (∀ err, (deleteExpense store (some err) id userId).1 = store) ∧
    (deleteExpense store failure id userId).1.Sublist store ∧
    (∀ e ∈ store, e.user_id ≠ userId →
      e ∈ (deleteExpense store failure id userId).1 ∧
      e ∈ listExpenses (deleteExpense store failure id userId).1 e.user_id) := by
  have hnone : (deleteExpense store none id userId).1 =
      store.filter (fun e => !(decide (e.id = id) && decide (e.user_id = userId))) := by
    simp [deleteExpense, deleteRows, Filter.holds]
  refine ⟨hnone, ?_, fun err => rfl, ?_, ?_⟩
  · intro e
    rw [hnone]
    simp only [List.mem_filter, Bool.not_eq_true', Bool.and_eq_false_iff, decide_eq_false_iff_not,
      not_and]
    tauto
  · cases failure with
    | none => rw [hnone]; exact List.filter_sublist _
    | some err => exact List.Sublist.refl _
  · intro e he hne
    have hmem : e ∈ (deleteExpense store failure id userId).1 := by
      cases failure with
      | none =>
        rw [hnone]
        simp [List.mem_filter, he, hne]
      | some err => exact he
    refine ⟨hmem, ?_⟩
    rw [listExpenses, List.mem_insertionSort, mem_selectRows]
    exact ⟨hmem, by simp [Filter.holds]⟩

/-- C13, for user B asking to delete the expense `e-1` of user A. -/
theorem deleteExpense_frame_witness :
    expenseOfA ∈ (deleteExpense [expenseOfA, expenseOfB] none "e-1" "user-b").1 ∧
      expenseOfA ∈
        listExpenses (deleteExpense [expenseOfA, expenseOfB] none "e-1" "user-b").1
          expenseOfA.user_id :=
  (deleteExpense_frame [expenseOfA, expenseOfB] none "e-1" "user-b").2.2.2.2 expenseOfA
    (by decide) (by decide)

/-! ## The auth gate -/

/-- C20. `authenticateUser` sets `req.user` and calls the next handler exactly
when the Authorization header is there (and not empty) and the auth provider
resolves its token to a user without an error, and `req.user` is then that
user.  Without a header it answers 401 "No authorization header"; when the
provider gives an error or no user, 401 "Invalid authentication token"; when
the provider throws, 401 "Authentication failed"; it never does both, so a
rejected request does not reach the next handler. -/
theorem authenticateUser_gate (getUser : String → ProviderOutcome)
    (authorization : Option String) :
    (∀ user, authenticateUser getUser authorization = .next user ↔
      ∃ authHeader, authorization = some authHeader ∧ authHeader ≠ "" ∧
        getUser (bearerToken authHeader) = .result (some user) none) ∧
    (authorization = none →
      authenticateUser getUser authorization = .respond 401 "No authorization header") ∧
    (∀ authHeader user error, authorization = some authHeader → authHeader ≠ "" →
      getUser (bearerToken authHeader) = .result user error →
      (user = none ∨ error ≠ none) →
      authenticateUser getUser authorization =
        .respond 401 "Invalid authentication token") ∧
    (∀ authHeader message, authorization = some authHeader → authHeader ≠ "" →
      getUser (bearerToken authHeader) = .throws message →
      authenticateUser getUser authorization = .respond 401 "Authentication failed") ∧
    ((∃ user, authenticateUser getUser authorization = .next user) ∨
      authenticateUser getUser authorization = .respond 401 "No authorization header" ∨
      authenticateUser getUser authorization =
        .respond 401 "Invalid authentication token" ∨
      authenticateUser getUser authorization = .respond 401 "Authentication failed") := by
  cases authorization with
  | none =>
    refine ⟨fun user => ?_, fun _ => rfl, ?_, ?_, Or.inr (Or.inl rfl)⟩
    · simp [authenticateUser]
    · intro a u e h; cases h
    · intro a m h; cases h
  | some authHeader =>
    by_cases hh : authHeader = ""
    · subst hh
      refine ⟨fun user => ?_, (fun h => by cases h), ?_, ?_, Or.inr (Or.inl rfl)⟩
      · simp [authenticateUser]
      · intro a u e h hne
        simp only [Option.some.injEq] at h
        exact absurd h.symm hne
      · intro a m h hne
        simp only [Option.some.injEq] at h
        exact absurd h.symm hne
    · cases hg : getUser (bearerToken authHeader) with
      | throws m =>
        refine ⟨fun user => ?_, (fun h => by cases h), ?_, ?_, ?_⟩
        · simp [authenticateUser, hh, hg]
        · intro a u e h _ hga
          simp only [Option.some.injEq] at h
          subst h
          rw [hg] at hga
          cases hga
        · intro a m' h _ _
          simp [authenticateUser, hh, hg]
        · right; right; right
          simp [authenticateUser, hh, hg]
      | result u e =>
        cases u with
        | none =>
          refine ⟨fun user => ?_, (fun h => by cases h), ?_, ?_, ?_⟩
          · simp [authenticateUser, hh, hg]
          · intro a u' e' h _ _ _
            simp [authenticateUser, hh, hg]
          · intro a m' h _ hga
            simp only [Option.some.injEq] at h
            subst h
            rw [hg] at hga
            cases hga
          · right; right; left
            simp [authenticateUser, hh, hg]
        | some user0 =>
          cases e with
          | some err =>
            refine ⟨fun user => ?_, (fun h => by cases h), ?_, ?_, ?_⟩
            · simp [authenticateUser, hh, hg]
            · intro a u' e' h _ _ _
              simp [authenticateUser, hh, hg]
            · intro a m' h _ hga
              simp only [Option.some.injEq] at h
              subst h
              rw [hg] at hga
              cases hga
            · right; right; left
              simp [authenticateUser, hh, hg]
          | none =>
            refine ⟨fun user => ?_, (fun h => by cases h), ?_, ?_, ?_⟩
            · simp [authenticateUser, hh, hg]
            · intro a u' e' h _ hga hor
              simp only [Option.some.injEq] at h
              subst h
              rw [hg] at hga
              simp only [ProviderOutcome.result.injEq] at hga
              rcases hor with h1 | h1
              · rw [h1] at hga; cases hga.1
              · exact absurd hga.2.symm h1
            · intro a m' h _ hga
              simp only [Option.some.injEq] at h
              subst h
              rw [hg] at hga
              cases hga
            · left
              exact ⟨user0, by simp [authenticateUser, hh, hg]⟩

/-- C20, for the sample provider: the token `tok-a` passes, another is
rejected. -/
theorem authenticateUser_gate_witness :
    authenticateUser sampleGetUser (some "Bearer tok-a") = .next sampleUser ∧
      authenticateUser sampleGetUser (some "Bearer tok-x") =
        .respond 401 "Invalid authentication token" :=
  ⟨((authenticateUser_gate sampleGetUser (some "Bearer tok-a")).1 sampleUser).2
      ⟨"Bearer tok-a", rfl, by decide, by decide⟩,
    (authenticateUser_gate sampleGetUser (some "Bearer tok-x")).2.2.1 "Bearer tok-x" none
      (some "invalid JWT") rfl (by decide) (by decide) (Or.inl rfl)⟩

/-! ## The dashboard totals -/

theorem add_fin_fin (a : Int) (j : Nat) (b : Int) (k : Nat) :
    (JSNum.fin a j).add (.fin b k) = JSNum.dec (a * 10 ^ k + b * 10 ^ j) (j + k) := rfl

theorem toRat_add_fin (a : Int) (j : Nat) (b : Int) (k : Nat) :
    ((JSNum.fin a j).add (.fin b k)).toRat = (JSNum.fin a j).toRat + (JSNum.fin b k).toRat := by
  rw [add_fin_fin, toRat_dec]
  simp only [JSNum.toRat]
  push_cast
  rw [pow_add]
  field_simp

/-- A `reduce` that adds a numeric column to a finite start value gives the
exact sum. -/
theorem foldl_add_column (g : Expense → Dec) (rows : List Expense) (start : JSNum)
    (hstart : start.isFinite = true) :
    (rows.foldl (fun sum exp => sum.add (g exp).num) start).isFinite = true ∧
    (rows.foldl (fun sum exp => sum.add (g exp).num) start).toRat =
      start.toRat + (rows.map (fun e => (g e).toRat)).sum := by
  induction rows generalizing start with
  | nil => simp [hstart]
  | cons e rest ih =>
    cases start with
    | nan => cases hstart
    | inf a => cases hstart
    | fin m k =>
      have hstep : (JSNum.fin m k).add (g e).num =
          JSNum.dec (m * 10 ^ (g e).scale + (g e).mant * 10 ^ k) (k + (g e).scale) := rfl
      obtain ⟨h1, h2⟩ := ih ((JSNum.fin m k).add (g e).num) (by rw [hstep]; rfl)
      refine ⟨h1, ?_⟩
      rw [List.foldl_cons, h2]
      have : ((JSNum.fin m k).add (g e).num).toRat = (JSNum.fin m k).toRat + (g e).toRat := by
        have := toRat_add_fin m k (g e).mant (g e).scale
        simpa [Dec.num, Dec.toRat, JSNum.toRat] using this
      rw [this]
      simp only [List.map_cons, List.sum_cons]
      ring

theorem date_in_year (d : Date) (currentYear : Nat) (hd : d.valid = true) :
    ((yearStart currentYear).le d && d.le (yearEnd currentYear)) =
      decide (d.year = currentYear) := by
  simp only [Date.valid, Bool.and_eq_true, decide_eq_true_eq] at hd
  obtain ⟨⟨⟨h1, h2⟩, h3⟩, h4⟩ := hd
  rw [Bool.eq_iff_iff]
  simp only [Date.le, yearStart, yearEnd, Bool.and_eq_true, Bool.or_eq_true, decide_eq_true_eq]
  constructor
  · rintro ⟨ha | ha, hb | hb⟩ <;> omega
  · intro h
    subst h
    refine ⟨Or.inr ⟨rfl, ?_⟩, Or.inr ⟨rfl, ?_⟩⟩ <;> omega

theorem ytdRows_eq_filter (store : List Expense) (userId : String) (currentYear : Nat)
    (hvalid : ∀ e ∈ store, e.date.valid = true) :
    ytdRows store userId currentYear =
      store.filter (fun e => decide (e.user_id = userId) && decide (e.date.year = currentYear)) := by
  unfold ytdRows selectRows
  apply List.filter_congr
  intro e he
  have := date_in_year e.date currentYear (hvalid e he)
  simp only [List.all_cons, List.all_nil, Bool.and_true, Filter.holds]
  rw [← this]

/-! ## Printing and reading back a number with two decimals -/

theorem digitChar_digit (k : Nat) (hk : k < 10) :
    hexVal (Nat.digitChar k) = some k ∧ isDigit (Nat.digitChar k) = true := by
  interval_cases k <;> decide

theorem digitsToNat_append_singleton (l : List Char) (c : Char) :
    digitsToNat 10 (l ++ [c]) = 10 * digitsToNat 10 l + (hexVal c).getD 0 := by
  simp [digitsToNat, List.foldl_append]

theorem toDigitsCore_spec (fuel n : Nat) (ds : List Char) (h : n < fuel) :
    ∃ pre, Nat.toDigitsCore 10 fuel n ds = pre ++ ds ∧ pre ≠ [] ∧
      (∀ c ∈ pre, isDigit c = true) ∧ digitsToNat 10 pre = n := by
  induction fuel generalizing n ds with
  | zero => omega
  | succ fuel ih =>
    unfold Nat.toDigitsCore
    obtain ⟨hval, hdig⟩ := digitChar_digit (n % 10) (Nat.mod_lt _ (by norm_num))
    by_cases h0 : n / 10 = 0
    · refine ⟨[Nat.digitChar (n % 10)], by simp [h0], by simp, by simpa using hdig, ?_⟩
      have hn : n % 10 = n := Nat.mod_eq_of_lt (by omega)
      simp only [digitsToNat, List.foldl_cons, List.foldl_nil, hval, Option.getD_some]
      omega
    · obtain ⟨pre, hpre, _, hall, hnat⟩ :=
        ih (n / 10) (Nat.digitChar (n % 10) :: ds) (by omega)
      refine ⟨pre ++ [Nat.digitChar (n % 10)], by simp [h0, hpre], by simp, ?_, ?_⟩
      · intro c hc
        rcases List.mem_append.1 hc with hc | hc
        · exact hall c hc
        · simp only [List.mem_singleton] at hc
          rw [hc]; exact hdig
      · rw [digitsToNat_append_singleton, hnat, hval]
        simp only [Option.getD_some]
        omega

theorem toDigits_spec (n : Nat) :
    Nat.toDigits 10 n ≠ [] ∧ (∀ c ∈ Nat.toDigits 10 n, isDigit c = true) ∧
      digitsToNat 10 (Nat.toDigits 10 n) = n := by
  obtain ⟨pre, hpre, hne, hall, hnat⟩ := toDigitsCore_spec (n + 1) n [] (by omega)
  rw [List.append_nil] at hpre
  unfold Nat.toDigits
  rw [hpre]
  exact ⟨hne, hall, hnat⟩

theorem digitsToNat_replicate_zero (z : Nat) (l : List Char) :
    digitsToNat 10 (List.replicate z '0' ++ l) = digitsToNat 10 l := by
  induction z with
  | zero => simp
  | succ z ih =>
    have hz : hexVal '0' = some 0 := by decide
    simp only [digitsToNat, List.replicate_succ, List.cons_append, List.foldl_cons, hz,
      Option.getD_some] at ih ⊢
    simpa using ih

/-- The shape of `x.toFixed(2)`: an optional minus sign, at least one digit, a
dot, and two digits; read without the dot the digits are the rounded
hundredths. -/
theorem toFixed_two (num : Int) (den : Nat) :
    ∃ a b : List Char,
      (toFixed num den 2).toList = (if num < 0 then ['-'] else []) ++ (a ++ '.' :: b) ∧
      a ≠ [] ∧ (∀ c ∈ a, isDigit c = true) ∧ (∀ c ∈ b, isDigit c = true) ∧ b.length = 2 ∧
      digitsToNat 10 (a ++ b) = (2 * num.natAbs * 10 ^ 2 + den) / (2 * den) := by
  obtain ⟨m, hm⟩ : ∃ m : List Char, m =
      (if (2 * num.natAbs * 10 ^ 2 + den) / (2 * den) = 0 then ['0']
        else Nat.toDigits 10 ((2 * num.natAbs * 10 ^ 2 + den) / (2 * den))) := ⟨_, rfl⟩
  have hmspec : m ≠ [] ∧ (∀ c ∈ m, isDigit c = true) ∧
      digitsToNat 10 m = (2 * num.natAbs * 10 ^ 2 + den) / (2 * den) := by
    rw [hm]
    split_ifs with h0
    · refine ⟨by simp, by decide, ?_⟩
      rw [h0]; decide
    · exact toDigits_spec _
  obtain ⟨hmne, hmall, hmval⟩ := hmspec
  obtain ⟨padded, hp⟩ : ∃ p : List Char, p = List.replicate (2 + 1 - m.length) '0' ++ m :=
    ⟨_, rfl⟩
  have hplen : 3 ≤ padded.length := by
    rw [hp, List.length_append, List.length_replicate]
    omega
  have hpall : ∀ c ∈ padded, isDigit c = true := by
    intro c hc
    rw [hp] at hc
    rcases List.mem_append.1 hc with hc | hc
    · rw [List.eq_of_mem_replicate hc]; decide
    · exact hmall c hc
  have hpval : digitsToNat 10 padded = (2 * num.natAbs * 10 ^ 2 + den) / (2 * den) := by
    rw [hp, digitsToNat_replicate_zero, hmval]
  refine ⟨padded.take (padded.length - 2), padded.drop (padded.length - 2), ?_, ?_, ?_, ?_, ?_,
    ?_⟩
  · simp only [toFixed, ← hm, ← hp]
    simp
  · intro h
    have := congrArg List.length h
    simp only [List.length_take, List.length_nil] at this
    omega
  · intro c hc
    exact hpall c (List.mem_of_mem_take hc)
  · intro c hc
    exact hpall c (List.mem_of_mem_drop hc)
  · simp only [List.length_drop]
    omega
  · rw [List.take_append_drop, hpval]

theorem strDecimalLiteral_signed (neg : Bool) (a b : List Char)
    (ha : ∀ c ∈ a, isDigit c = true) (hb : ∀ c ∈ b, isDigit c = true) (hne : a ≠ []) :
    strDecimalLiteral neg (a ++ '.' :: b) =
      JSNum.sci (if neg then -(digitsToNat 10 (a ++ b) : Int) else (digitsToNat 10 (a ++ b) : Int))
        (0 - (b.length : Int)) := by
  have hd := dropWhile_digits_dot a b ha
  have ht := takeWhile_digits_dot a b ha
  have hfd : b.dropWhile isDigit = [] := List.dropWhile_eq_nil_iff.2 hb
  have hft : b.takeWhile isDigit = b := List.takeWhile_eq_self_iff.2 hb
  simp only [strDecimalLiteral, hd, ht, hfd, hft, exponentOf]
  simp [hne]

/-- Reading back what `toFixed(2)` printed gives the rounded hundredths, with
the sign of the number printed. -/
theorem parseFloatStr_toFixed_two (num : Int) (den : Nat) :
    parseFloatStr (toFixed num den 2).toList =
      JSNum.dec
        (if num < 0 then -(((2 * num.natAbs * 10 ^ 2 + den) / (2 * den) : Nat) : Int)
          else (((2 * num.natAbs * 10 ^ 2 + den) / (2 * den) : Nat) : Int)) 2 := by
  obtain ⟨a, b, hshape, hane, ha, hb, hblen, hval⟩ := toFixed_two num den
  rw [hshape]
  have hsci : ∀ m : Int, JSNum.sci m (0 - (b.length : Int)) = JSNum.dec m 2 := by
    intro m
    rw [hblen]
    rfl
  obtain ⟨c, t, hct⟩ : ∃ c t, a = c :: t := by
    cases a with
    | nil => exact absurd rfl hane
    | cons c t => exact ⟨c, t, rfl⟩
  have hc : isDigit c = true := ha c (by rw [hct]; simp)
  obtain ⟨hws, hm, hp, hI, _, _, _⟩ := kept_facts c (kept_mem c (Or.inl hc))
  have hInf : "Infinity".toList.isPrefixOf (a ++ '.' :: b) = false := by
    have : "Infinity".toList = 'I' :: "nfinity".toList := by decide
    rw [this, hct]
    simp [List.isPrefixOf, Ne.symm hI]
  by_cases hneg : num < 0
  · simp only [hneg, if_true]
    have h1 : List.dropWhile isWhiteSpace (['-'] ++ (a ++ '.' :: b)) =
        '-' :: (a ++ '.' :: b) := by
      have : isWhiteSpace '-' = false := by decide
      simp [List.dropWhile, this]
    have h2 : takeSign ('-' :: (a ++ '.' :: b)) = (true, a ++ '.' :: b) := rfl
    simp only [parseFloatStr, h1, h2, hInf]
    rw [strDecimalLiteral_signed true a b ha hb hane, hsci, hval]
    simp
  · simp only [hneg, if_false, List.nil_append]
    have hkept : ∀ x ∈ a ++ '.' :: b, x ∈ keptChars := by
      intro x hx
      rcases List.mem_append.1 hx with hx | hx
      · exact kept_mem x (Or.inl (ha x hx))
      · rcases List.mem_cons.1 hx with hx | hx
        · exact kept_mem x (Or.inr hx)
        · exact kept_mem x (Or.inl (hb x hx))
    rw [parseFloatStr_kept _ hkept, strDecimalLiteral_signed false a b ha hb hane, hsci, hval]
    simp

/-! ## The risk score average -/

theorem foldl_add_scores (rows : List Expense) (start : Int) :
    rows.foldl (fun sum exp => sum + exp.leakage_risk_score) start =
      start + (rows.map (fun e => e.leakage_risk_score)).sum := by
  induction rows generalizing start with
  | nil => simp
  | cons e rest ih =>
    rw [List.foldl_cons, ih]
    simp only [List.map_cons, List.sum_cons]
    ring

/-- Rounding a quotient to hundredths as `toFixed(2)` does stays within half a
hundredth of it. -/
theorem rounded_hundredths_close (s : Int) (len : Nat) (hlen : 0 < len) :
    |(((if s < 0 then -(((2 * s.natAbs * 10 ^ 2 + len) / (2 * len) : Nat) : Int)
          else (((2 * s.natAbs * 10 ^ 2 + len) / (2 * len) : Nat) : Int)) : Int) : ℚ) / 100 -
        (s : ℚ) / (len : ℚ)| ≤ 1 / 200 := by
  obtain ⟨q, hq⟩ : ∃ q : Nat, q = (2 * s.natAbs * 10 ^ 2 + len) / (2 * len) := ⟨_, rfl⟩
  rw [← hq]
  have h1 : 2 * len * q ≤ 2 * s.natAbs * 10 ^ 2 + len := by
    rw [hq]; exact Nat.mul_div_le _ _
  have h2 : 2 * s.natAbs * 10 ^ 2 + len < 2 * len * (q + 1) := by
    rw [hq]; exact Nat.lt_mul_div_succ _ (by omega)
  have h1q : (2 * len * q : ℚ) ≤ 2 * (s.natAbs : ℚ) * 10 ^ 2 + len := by exact_mod_cast h1
  have h2q : (2 * (s.natAbs : ℚ) * 10 ^ 2 + len : ℚ) < 2 * len * (q + 1) := by
    exact_mod_cast h2
  have hL : (0 : ℚ) < len := by exact_mod_cast hlen
  have habs : (s : ℚ) = if s < 0 then -(s.natAbs : ℚ) else (s.natAbs : ℚ) := by
    split_ifs with hs
    · have : (s.natAbs : Int) = -s := by omega
      have h' : ((s.natAbs : Int) : ℚ) = -(s : ℚ) := by exact_mod_cast this
      simp only [Int.cast_natCast] at h'
      linarith
    · have : (s.natAbs : Int) = s := by omega
      have h' : ((s.natAbs : Int) : ℚ) = (s : ℚ) := by exact_mod_cast this
      simp only [Int.cast_natCast] at h'
      linarith
  rw [abs_le]
  by_cases hs : s < 0
  · simp only [hs, if_true] at habs ⊢
    rw [habs]
    push_cast
    constructor
    · rw [neg_div, neg_div, sub_neg_eq_add, ← sub_nonneg]
      have : -((q : ℚ) / 100) + (s.natAbs : ℚ) / len - -(1 / 200) =
          (2 * (s.natAbs : ℚ) * 10 ^ 2 + len - 2 * len * q) / (200 * len) := by
        field_simp
        ring
      rw [this]
      exact div_nonneg (by linarith) (by positivity)
    · rw [neg_div, neg_div, sub_neg_eq_add, ← sub_nonneg]
      have : 1 / 200 - (-((q : ℚ) / 100) + (s.natAbs : ℚ) / len) =
          (2 * len * (q + 1) - (2 * (s.natAbs : ℚ) * 10 ^ 2 + len)) / (200 * len) := by
        field_simp
        ring
      rw [this]
      exact div_nonneg (by linarith) (by positivity)
  · simp only [hs, if_false] at habs ⊢
    rw [habs]
    push_cast
    constructor
    · rw [← sub_nonneg]
      have : (q : ℚ) / 100 - (s.natAbs : ℚ) / len - -(1 / 200) =
          (2 * len * (q + 1) - (2 * (s.natAbs : ℚ) * 10 ^ 2 + len)) / (200 * len) := by
        field_simp
        ring
      rw [this]
      exact div_nonneg (by linarith) (by positivity)
    · rw [← sub_nonneg]
      have : 1 / 200 - ((q : ℚ) / 100 - (s.natAbs : ℚ) / len) =
          (2 * (s.natAbs : ℚ) * 10 ^ 2 + len - 2 * len * q) / (200 * len) := by
        field_simp
        ring
      rw [this]
      exact div_nonneg (by linarith) (by positivity)

theorem riskScoreAverage_close (rows : List Expense) (hrows : rows ≠ []) :
    ∃ n : Int, riskScoreAverage rows = JSNum.dec n 2 ∧
      |(n : ℚ) / 100 -
        ((rows.map (fun e => e.leakage_risk_score)).sum : ℚ) / (rows.length : ℚ)| ≤ 1 / 200 := by
  have hlen : 0 < rows.length := List.length_pos.2 hrows
  have hparse := parseFloatStr_toFixed_two
    (rows.foldl (fun sum exp => sum + exp.leakage_risk_score) 0) rows.length
  have hclose := rounded_hundredths_close
    (rows.foldl (fun sum exp => sum + exp.leakage_risk_score) 0) rows.length hlen
  have havg : riskScoreAverage rows = parseFloatStr
      (toFixed (rows.foldl (fun sum exp => sum + exp.leakage_risk_score) 0)
        rows.length 2).toList := by
    simp only [riskScoreAverage, hlen, if_true]
  have hsum : ((rows.foldl (fun sum exp => sum + exp.leakage_risk_score) 0 : Int) : ℚ) =
      ((rows.map (fun e => e.leakage_risk_score)).sum : ℚ) := by
    rw [foldl_add_scores, zero_add, Int.cast_list_sum, List.map_map]
    rfl
  rw [← havg] at hparse
  rw [hsum] at hclose
  exact ⟨_, hparse, hclose⟩

/-- C15. The dashboard's `riskScoreAverage` is a number with at most two
decimal digits, `n / 100` for an integer `n`; when the caller has current-year
rows it is within 0.005 of the exact mean of their `leakage_risk_score`, and
when there are none it is 0.  For two rows with scores 8 and 3 it is 5.5. -/
theorem dashboard_riskScoreAverage (store : List Expense) (userId : String)
    (currentYear : Nat) :
    (∃ n : Int, (dashboard store userId currentYear).riskScoreAverage = JSNum.dec n 2 ∧
      (JSNum.dec n 2).toRat = (n : ℚ) / 100 ∧
      (ytdRows store userId currentYear ≠ [] →
        |(n : ℚ) / 100 -
          (((ytdRows store userId currentYear).map (fun e => e.leakage_risk_score)).sum : ℚ) /
            ((ytdRows store userId currentYear).length : ℚ)| ≤ 1 / 200)) ∧
    (ytdRows store userId currentYear = [] →
      (dashboard store userId currentYear).riskScoreAverage = .fin 0 0) ∧
    (dashboard [expenseOfA, expenseOfB, lastYearOfA, secondOfA] "user-a" 2024).riskScoreAverage
      = .fin 55 1 := by
  refine ⟨?_, ?_, by decide⟩
  · by_cases hrows : ytdRows store userId currentYear = []
    · refine ⟨0, ?_, by rw [toRat_dec]; norm_num, fun h => absurd hrows h⟩
      simp only [dashboard, riskScoreAverage, hrows, List.length_nil, lt_irrefl, if_false]
      decide
    · obtain ⟨n, hn, hclose⟩ := riskScoreAverage_close _ hrows
      exact ⟨n, hn, by rw [toRat_dec]; norm_num, fun _ => hclose⟩
  · intro hrows
    simp only [dashboard, riskScoreAverage, hrows, List.length_nil, lt_irrefl, if_false]
    decide

/-- C15, for the table with scores 8 and 3 among the caller's current-year
rows. -/
theorem dashboard_riskScoreAverage_witness :
    ∃ n : Int, (dashboard [expenseOfA, expenseOfB, lastYearOfA, secondOfA] "user-a"
        2024).riskScoreAverage = JSNum.dec n 2 ∧
      (JSNum.dec n 2).toRat = (n : ℚ) / 100 ∧
      (ytdRows [expenseOfA, expenseOfB, lastYearOfA, secondOfA] "user-a" 2024 ≠ [] →
        |(n : ℚ) / 100 -
          (((ytdRows [expenseOfA, expenseOfB, lastYearOfA, secondOfA] "user-a" 2024).map
            (fun e => e.leakage_risk_score)).sum : ℚ) /
            ((ytdRows [expenseOfA, expenseOfB, lastYearOfA, secondOfA] "user-a"
              2024).length : ℚ)| ≤ 1 / 200) :=
  (dashboard_riskScoreAverage [expenseOfA, expenseOfB, lastYearOfA, secondOfA] "user-a" 2024).1

/-! ## The top leakage categories -/

theorem any_key_iff (t : Record) (c : String) :
    t.any (fun p => p.1 == c) = true ↔ c ∈ t.map Prod.fst := by
  simp only [List.any_eq_true, beq_iff_eq, List.mem_map]

theorem keys_setField (t : Record) (c : String) (v : JSValue) :
    (setField t c v).map Prod.fst =
      if c ∈ t.map Prod.fst then t.map Prod.fst else t.map Prod.fst ++ [c] := by
  induction t with
  | nil => simp [setField]
  | cons p rest ih =>
    obtain ⟨k, w⟩ := p
    by_cases hk : k = c
    · subst hk
      simp [setField]
    · have hck : ¬ c = k := fun h => hk h.symm
      simp only [setField, hk, if_false, List.map_cons, ih, List.mem_cons, hck, false_or]
      by_cases hmem : c ∈ rest.map Prod.fst
      · simp [hmem]
      · simp [hmem]

theorem mem_setField (t : Record) (c : String) (v : JSValue) (p : String × JSValue)
    (hp : p ∈ setField t c v) : p ∈ t ∨ p = (c, v) := by
  induction t with
  | nil =>
    simp only [setField, List.mem_singleton] at hp
    exact Or.inr hp
  | cons q rest ih =>
    obtain ⟨k, w⟩ := q
    by_cases hk : k = c
    · subst hk
      simp only [setField, if_true, List.mem_cons] at hp
      rcases hp with hp | hp
      · exact Or.inr hp
      · exact Or.inl (List.mem_cons_of_mem _ hp)
    · simp only [setField, hk, if_false, List.mem_cons] at hp
      rcases hp with hp | hp
      · exact Or.inl (by rw [hp]; exact List.mem_cons_self _ _)
      · rcases ih hp with h | h
        · exact Or.inl (List.mem_cons_of_mem _ h)
        · exact Or.inr h

theorem setField_setField_same (t : Record) (c : String) (v w : JSValue) :
    setField (setField t c v) c w = setField t c w := by
  induction t with
  | nil => simp [setField]
  | cons p rest ih =>
    obtain ⟨k, u⟩ := p
    by_cases hk : k = c
    · subst hk
      simp [setField]
    · simp [setField, hk, ih]

theorem getField_of_not_mem (t : Record) (c : String) (h : c ∉ t.map Prod.fst) :
    getField t c = .undefined := by
  induction t with
  | nil => rfl
  | cons p rest ih =>
    obtain ⟨k, w⟩ := p
    simp only [List.map_cons, List.mem_cons, not_or] at h
    have hk : ¬ k = c := fun hk => h.1 hk.symm
    simp [getField, hk, ih h.2]

theorem getField_mem (t : Record) (c : String) (h : c ∈ t.map Prod.fst) :
    (c, getField t c) ∈ t := by
  induction t with
  | nil => simp at h
  | cons p rest ih =>
    obtain ⟨k, w⟩ := p
    by_cases hk : k = c
    · subst hk
      simp [getField]
    · have hc : c ∈ rest.map Prod.fst := by
        simp only [List.map_cons, List.mem_cons] at h
        rcases h with h | h
        · exact absurd h.symm hk
        · exact h
      simp only [getField, hk, if_false]
      exact List.mem_cons_of_mem _ (ih hc)

theorem inherited_none_ne_proto (c : String) (h : inheritedMember c = none) :
    c ≠ "__proto__" := by
  rintro rfl
  revert h
  decide

theorem readProperty_mem (t : Record) (c : String) (h : c ∈ t.map Prod.fst) :
    readProperty t c = getField t c := by
  simp [readProperty, (any_key_iff t c).2 h]

theorem readProperty_not_mem (t : Record) (c : String) (h : c ∉ t.map Prod.fst)
    (hc : inheritedMember c = none) : readProperty t c = .undefined := by
  have hany : t.any (fun p => p.1 == c) = false := by
    rw [Bool.eq_false_iff]
    exact fun h' => h ((any_key_iff t c).1 h')
  simp [readProperty, hany, hc]

theorem readProperty_setField_same (t : Record) (c : String) (v : JSValue) :
    readProperty (setField t c v) c = v := by
  have hmem : c ∈ (setField t c v).map Prod.fst := by
    rw [keys_setField]
    split_ifs with h
    · exact h
    · simp
  rw [readProperty_mem _ _ hmem, getField_setField_same]

/-- One step of the `forEach` for an ordinary label whose total so far is a
finite number or not there: the total becomes the sum. -/
theorem addToCategory_spec (t : Record) (e : Expense)
    (hinv : ∀ p ∈ t, ∃ x : JSNum, p.2 = .num x ∧ x.isFinite = true)
    (hc : inheritedMember e.category = none) :
    ∃ y : JSNum, y.isFinite = true ∧
      y.toRat = amountOf (getField t e.category) + e.total_amount_numeric.toRat ∧
      addToCategory t e = setField t e.category (.num y) := by
  have hproto := inherited_none_ne_proto _ hc
  have hzero : ∀ s : Record,
      setField (setField s e.category (.num (.fin 0 0))) e.category
        (plusNumber (readProperty (setField s e.category (.num (.fin 0 0))) e.category)
          e.total_amount_numeric.num) =
      setField s e.category (.num ((JSNum.fin 0 0).add e.total_amount_numeric.num)) := by
    intro s
    rw [readProperty_setField_same, setField_setField_same]
    rfl
  have hval0 : ((JSNum.fin 0 0).add e.total_amount_numeric.num).toRat =
      e.total_amount_numeric.toRat := by
    have := toRat_add_fin 0 0 e.total_amount_numeric.mant e.total_amount_numeric.scale
    simp only [Dec.num, Dec.toRat] at this ⊢
    rw [this]
    simp [JSNum.toRat]
  by_cases hmem : e.category ∈ t.map Prod.fst
  · have hread := readProperty_mem t e.category hmem
    obtain ⟨x, hx, hfin⟩ := hinv _ (getField_mem t e.category hmem)
    simp only at hx
    cases x with
    | nan => cases hfin
    | inf a => cases hfin
    | fin m s =>
      by_cases hm : m = 0
      · subst hm
        refine ⟨(JSNum.fin 0 0).add e.total_amount_numeric.num, rfl, ?_, ?_⟩
        · rw [hval0, hx]
          simp [amountOf, JSNum.toRat]
        · have htr : truthy (readProperty t e.category) = false := by
            rw [hread, hx]; rfl
          simp only [addToCategory, htr, Bool.not_false, if_true, writeProperty, hproto,
            if_false]
          exact hzero t
      · refine ⟨(JSNum.fin m s).add e.total_amount_numeric.num, rfl, ?_, ?_⟩
        · have := toRat_add_fin m s e.total_amount_numeric.mant e.total_amount_numeric.scale
          simp only [Dec.num, Dec.toRat, amountOf, hx] at this ⊢
          exact this
        · have htr : truthy (JSValue.num (JSNum.fin m s)) = true := by
            simp [truthy, JSNum.truthy, hm]
          simp only [addToCategory, hread, hx, htr, Bool.not_true, Bool.false_eq_true, if_false,
            writeProperty, hproto, plusNumber]
  · have hread := readProperty_not_mem t e.category hmem hc
    have hget := getField_of_not_mem t e.category hmem
    refine ⟨(JSNum.fin 0 0).add e.total_amount_numeric.num, rfl, ?_, ?_⟩
    · rw [hval0, hget]
      simp [amountOf]
    · have htr : truthy (readProperty t e.category) = false := by
        rw [hread]; rfl
      simp only [addToCategory, htr, Bool.not_false, if_true, writeProperty, hproto, if_false]
      exact hzero t

/-- The object `categoryTotals` while the rows have ordinary labels: every
total is a finite number, keys are only added at the end and never twice, the
keys are the labels met, and each total is the exact sum of the amounts of the
rows with that label. -/
theorem categoryTotals_fold (rows : List Expense) (t : Record)
    (hrows : ∀ e ∈ rows, inheritedMember e.category = none)
    (hinv : ∀ p ∈ t, ∃ x : JSNum, p.2 = .num x ∧ x.isFinite = true) :
    (∀ p ∈ rows.foldl addToCategory t, ∃ x : JSNum, p.2 = .num x ∧ x.isFinite = true) ∧
    (t.map Prod.fst <+: (rows.foldl addToCategory t).map Prod.fst) ∧
    (∀ c, c ∈ (rows.foldl addToCategory t).map Prod.fst ↔
      c ∈ t.map Prod.fst ∨ ∃ e ∈ rows, e.category = c) ∧
    ((t.map Prod.fst).Nodup → ((rows.foldl addToCategory t).map Prod.fst).Nodup) ∧
    (∀ c, amountOf (getField (rows.foldl addToCategory t) c) =
      amountOf (getField t c) +
        ((rows.filter (fun e => decide (e.category = c))).map
          (fun e => e.total_amount_numeric.toRat)).sum) := by
  induction rows generalizing t with
  | nil =>
    refine ⟨hinv, List.prefix_refl _, fun c => by simp, fun h => h, fun c => by simp⟩
  | cons e rest ih =>
    obtain ⟨y, hyfin, hyval, hstep⟩ :=
      addToCategory_spec t e hinv (hrows e (List.mem_cons_self _ _))
    have hinv' : ∀ p ∈ addToCategory t e, ∃ x : JSNum, p.2 = .num x ∧ x.isFinite = true := by
      intro p hp
      rw [hstep] at hp
      rcases mem_setField _ _ _ _ hp with h | h
      · exact hinv p h
      · exact ⟨y, by rw [h], hyfin⟩
    obtain ⟨h1, h2, h3, h4, h5⟩ :=
      ih (addToCategory t e) (fun e' he' => hrows e' (List.mem_cons_of_mem _ he')) hinv'
    have hkeys : (addToCategory t e).map Prod.fst =
        if e.category ∈ t.map Prod.fst then t.map Prod.fst
        else t.map Prod.fst ++ [e.category] := by
      rw [hstep, keys_setField]
    simp only [List.foldl_cons]
    refine ⟨h1, ?_, ?_, ?_, ?_⟩
    · refine List.IsPrefix.trans ?_ h2
      rw [hkeys]
      split_ifs
      · exact List.prefix_refl _
      · exact List.prefix_append _ _
    · intro c
      rw [h3 c, hkeys]
      split_ifs with hmem
      · constructor
        · rintro (h | ⟨e', he', hc⟩)
          · exact Or.inl h
          · exact Or.inr ⟨e', List.mem_cons_of_mem _ he', hc⟩
        · rintro (h | ⟨e', he', hc⟩)
          · exact Or.inl h
          · rcases List.mem_cons.1 he' with h | h
            · subst h; subst hc; exact Or.inl hmem
            · exact Or.inr ⟨e', h, hc⟩
      · constructor
        · rintro (h | ⟨e', he', hc⟩)
          · rcases List.mem_append.1 h with h | h
            · exact Or.inl h
            · simp only [List.mem_singleton] at h
              exact Or.inr ⟨e, List.mem_cons_self _ _, h.symm⟩
          · exact Or.inr ⟨e', List.mem_cons_of_mem _ he', hc⟩
        · rintro (h | ⟨e', he', hc⟩)
          · exact Or.inl (List.mem_append_left _ h)
          · rcases List.mem_cons.1 he' with h | h
            · subst h; subst hc
              exact Or.inl (List.mem_append_right _ (List.mem_singleton_self _))
            · exact Or.inr ⟨e', h, hc⟩
    · intro hnd
      apply h4
      rw [hkeys]
      split_ifs with hmem
      · exact hnd
      · rw [List.nodup_append]
        refine ⟨hnd, List.nodup_singleton _, ?_⟩
        intro a ha hb
        simp only [List.mem_singleton] at hb
        subst hb
        exact hmem ha
    · intro c
      rw [h5 c, hstep]
      by_cases hc : e.category = c
      · subst hc
        rw [getField_setField_same]
        simp only [amountOf, hyval, List.filter_cons, decide_True, if_true, List.map_cons,
          List.sum_cons]
        ring
      · rw [getField_setField_other _ _ _ _ (Ne.symm hc)]
        simp [List.filter_cons, hc]

/-- The object `categoryTotals` after the `forEach`, for ordinary labels. -/
theorem categoryTotals_spec (rows : List Expense)
    (hrows : ∀ e ∈ rows, inheritedMember e.category = none) :
    (∀ p ∈ categoryTotals rows, ∃ x : JSNum, p.2 = .num x ∧ x.isFinite = true) ∧
    (∀ c, c ∈ (categoryTotals rows).map Prod.fst ↔ ∃ e ∈ rows, e.category = c) ∧
    ((categoryTotals rows).map Prod.fst).Nodup ∧
    (∀ c, amountOf (getField (categoryTotals rows) c) =
      ((rows.filter (fun e => decide (e.category = c))).map
        (fun e => e.total_amount_numeric.toRat)).sum) := by
  obtain ⟨h1, _, h3, h4, h5⟩ := categoryTotals_fold rows [] hrows (by simp)
  refine ⟨h1, fun c => ?_, h4 List.nodup_nil, fun c => ?_⟩
  · rw [categoryTotals, h3 c]
    simp
  · rw [categoryTotals, h5 c]
    simp [getField, amountOf]

/-- A label that occurs in the rows before another label's first occurrence
gets its key earlier. -/
theorem categoryTotals_first_occurrence (rows : List Expense) (t : Record) (c1 c2 : String)
    (hrows : ∀ e ∈ rows, inheritedMember e.category = none)
    (hinv : ∀ p ∈ t, ∃ x : JSNum, p.2 = .num x ∧ x.isFinite = true)
    (hc2 : c2 ∉ t.map Prod.fst)
    (hmem2 : c2 ∈ rows.map (fun e => e.category))
    (hfirst : (rows.map (fun e => e.category)).indexOf c1 <
      (rows.map (fun e => e.category)).indexOf c2) :
    List.Sublist [c1, c2] ((rows.foldl addToCategory t).map Prod.fst) := by
  induction rows generalizing t with
  | nil => simp at hmem2
  | cons e rest ih =>
    obtain ⟨y, hyfin, _, hstep⟩ :=
      addToCategory_spec t e hinv (hrows e (List.mem_cons_self _ _))
    have hrest : ∀ e' ∈ rest, inheritedMember e'.category = none :=
      fun e' he' => hrows e' (List.mem_cons_of_mem _ he')
    have hinv' : ∀ p ∈ addToCategory t e, ∃ x : JSNum, p.2 = .num x ∧ x.isFinite = true := by
      intro p hp
      rw [hstep] at hp
      rcases mem_setField _ _ _ _ hp with h | h
      · exact hinv p h
      · exact ⟨y, by rw [h], hyfin⟩
    have hkeys : (addToCategory t e).map Prod.fst =
        if e.category ∈ t.map Prod.fst then t.map Prod.fst
        else t.map Prod.fst ++ [e.category] := by
      rw [hstep, keys_setField]
    simp only [List.map_cons, List.indexOf_cons] at hfirst
    have he2 : e.category ≠ c2 := by
      intro h
      simp [h] at hfirst
    have hc2' : c2 ∉ (addToCategory t e).map Prod.fst := by
      rw [hkeys]
      split_ifs
      · exact hc2
      · simp only [List.mem_append, List.mem_singleton, not_or]
        exact ⟨hc2, Ne.symm he2⟩
    have hmem2' : c2 ∈ rest.map (fun e => e.category) := by
      simp only [List.map_cons, List.mem_cons] at hmem2
      rcases hmem2 with h | h
      · exact absurd h.symm he2
      · exact h
    simp only [List.foldl_cons]
    by_cases he1 : e.category = c1
    · obtain ⟨_, hpre, hall, _, _⟩ := categoryTotals_fold rest (addToCategory t e) hrest hinv'
      obtain ⟨suffix, hsuf⟩ := hpre
      have hc1mem : c1 ∈ (addToCategory t e).map Prod.fst := by
        rw [hkeys, ← he1]
        split_ifs with h
        · exact h
        · simp
      have hc2fin : c2 ∈ (rest.foldl addToCategory (addToCategory t e)).map Prod.fst := by
        rw [hall]
        right
        obtain ⟨e', he', hc⟩ := List.mem_map.1 hmem2'
        exact ⟨e', he', hc⟩
      rw [← hsuf] at hc2fin ⊢
      have hc2suf : c2 ∈ suffix := by
        rcases List.mem_append.1 hc2fin with h | h
        · exact absurd h hc2'
        · exact h
      have h1 : List.Sublist [c1] ((addToCategory t e).map Prod.fst) :=
        List.singleton_sublist.2 hc1mem
      have h2 : List.Sublist [c2] suffix := List.singleton_sublist.2 hc2suf
      exact List.Sublist.append h1 h2
    · have he1' : ¬ (e.category == c1) = true := by simpa using he1
      have he2' : ¬ (e.category == c2) = true := by simpa using he2
      simp only [he1', he2', cond_false, Bool.false_eq_true] at hfirst
      exact ih (addToCategory t e) hrest hinv' hc2' hmem2' (by simpa using hfirst)

/-! ## Ties among the top leakage categories -/

theorem getField_of_mem_nodup (t : Record) (hnd : (t.map Prod.fst).Nodup) (c : String)
    (v : JSValue) (h : (c, v) ∈ t) : getField t c = v := by
  induction t with
  | nil => simp at h
  | cons p rest ih =>
    obtain ⟨k, w⟩ := p
    simp only [List.map_cons, List.nodup_cons] at hnd
    rcases List.mem_cons.1 h with h | h
    · simp only [Prod.mk.injEq] at h
      simp [getField, h.1, h.2]
    · have hk : ¬ k = c := by
        intro hk
        subst hk
        exact hnd.1 (List.mem_map.2 ⟨(k, v), h, rfl⟩)
      simp only [getField, hk, if_false]
      exact ih hnd.2 h

theorem entries_sublist_of_keys (t : Record) (hnd : (t.map Prod.fst).Nodup) (c1 c2 : String)
    (h : List.Sublist [c1, c2] (t.map Prod.fst)) :
    List.Sublist [(c1, getField t c1), (c2, getField t c2)] t := by
  obtain ⟨l, hl, hmap⟩ := List.sublist_map_iff.1 h
  match l, hl, hmap with
  | [p, q], hl, hmap =>
    simp only [List.map_cons, List.map_nil, List.cons.injEq, and_true] at hmap
    have hp : p ∈ t := hl.subset (by simp)
    have hq : q ∈ t := hl.subset (by simp)
    have h1 : getField t c1 = p.2 :=
      getField_of_mem_nodup t hnd c1 p.2 (by rw [hmap.1]; exact hp)
    have h2 : getField t c2 = q.2 :=
      getField_of_mem_nodup t hnd c2 q.2 (by rw [hmap.2]; exact hq)
    rw [h1, h2, hmap.1, hmap.2]
    exact hl

theorem objectEntries_perm (t : Record) : (objectEntries t).Perm t := by
  unfold objectEntries
  refine (List.Perm.append_right _ (List.perm_insertionSort _ _)).trans ?_
  have := List.filter_append_perm (fun p : String × JSValue => (arrayIndex p.1).isSome) t
  have hnot : (fun p : String × JSValue => (arrayIndex p.1).isNone) =
      (fun p => !(arrayIndex p.1).isSome) := by
    funext p
    cases arrayIndex p.1 <;> rfl
  rw [hnot]
  exact this

theorem objectEntries_plain_pair (t : Record) (e1 e2 : String × JSValue)
    (h1 : arrayIndex e1.1 = none) (h2 : arrayIndex e2.1 = none)
    (h : List.Sublist [e1, e2] t) : List.Sublist [e1, e2] (objectEntries t) := by
  unfold objectEntries
  refine List.Sublist.trans ?_ (List.sublist_append_right _ _)
  have := List.Sublist.filter (fun p : String × JSValue => (arrayIndex p.1).isNone) h
  simpa [h1, h2] using this

theorem objectEntries_index_first (t : Record) (e1 e2 : String × JSValue)
    (h1 : arrayIndex e1.1 ≠ none) (h2 : arrayIndex e2.1 = none)
    (hm1 : e1 ∈ t) (hm2 : e2 ∈ t) : List.Sublist [e1, e2] (objectEntries t) := by
  unfold objectEntries
  have ha : List.Sublist [e1] ((t.filter (fun p => (arrayIndex p.1).isSome)).insertionSort
      (fun p q => (arrayIndex p.1).getD 0 ≤ (arrayIndex q.1).getD 0)) := by
    rw [List.singleton_sublist, List.mem_insertionSort, List.mem_filter]
    exact ⟨hm1, by simpa [Option.isSome_iff_ne_none] using h1⟩
  have hb : List.Sublist [e2] (t.filter (fun p => (arrayIndex p.1).isNone)) := by
    rw [List.singleton_sublist, List.mem_filter]
    exact ⟨hm2, by simp [h2]⟩
  exact List.Sublist.append ha hb

theorem pair_sublist_of_sorted {α : Type} (r : α → α → Prop) (hrefl : ∀ a, r a a)
    (l : List α) (hs : l.Pairwise r) (a b : α) (ha : a ∈ l) (hb : b ∈ l) (hab : ¬ r b a) :
    List.Sublist [a, b] l := by
  induction l with
  | nil => simp at ha
  | cons x rest ih =>
    obtain ⟨hx, hrest⟩ := List.pairwise_cons.1 hs
    rcases List.mem_cons.1 ha with hax | harest
    · rcases List.mem_cons.1 hb with hbx | hbrest
      · rw [hax, hbx] at hab
        exact absurd (hrefl _) hab
      · rw [hax]
        exact List.Sublist.cons₂ _ (List.singleton_sublist.2 hbrest)
    · rcases List.mem_cons.1 hb with hbx | hbrest
      · rw [hbx] at hab
        exact absurd (hx a harest) hab
      · exact List.Sublist.cons _ (ih hrest harest hbrest)

theorem objectEntries_index_ascending (t : Record) (e1 e2 : String × JSValue) (n1 n2 : Nat)
    (h1 : arrayIndex e1.1 = some n1) (h2 : arrayIndex e2.1 = some n2) (hlt : n1 < n2)
    (hm1 : e1 ∈ t) (hm2 : e2 ∈ t) : List.Sublist [e1, e2] (objectEntries t) := by
  unfold objectEntries
  refine List.Sublist.trans ?_ (List.sublist_append_left _ _)
  haveI : IsTotal (String × JSValue)
      (fun p q => (arrayIndex p.1).getD 0 ≤ (arrayIndex q.1).getD 0) :=
    ⟨fun p q => le_total _ _⟩
  haveI : IsTrans (String × JSValue)
      (fun p q => (arrayIndex p.1).getD 0 ≤ (arrayIndex q.1).getD 0) :=
    ⟨fun p q s hpq hqs => le_trans hpq hqs⟩
  have hsorted := List.sorted_insertionSort
    (fun p q : String × JSValue => (arrayIndex p.1).getD 0 ≤ (arrayIndex q.1).getD 0)
    (t.filter (fun p => (arrayIndex p.1).isSome))
  refine pair_sublist_of_sorted
    (fun p q : String × JSValue => (arrayIndex p.1).getD 0 ≤ (arrayIndex q.1).getD 0)
    (fun a => le_refl _) _ hsorted e1 e2 ?_ ?_ ?_
  · rw [List.mem_insertionSort, List.mem_filter]
    exact ⟨hm1, by simp [h1]⟩
  · rw [List.mem_insertionSort, List.mem_filter]
    exact ⟨hm2, by simp [h2]⟩
  · simp only [h1, h2, Option.getD_some]
    omega

theorem lt_fin_iff (a : Int) (j : Nat) (b : Int) (k : Nat) :
    (JSNum.fin a j).lt (.fin b k) = true ↔ (JSNum.fin a j).toRat < (JSNum.fin b k).toRat := by
  simp only [JSNum.lt, decide_eq_true_eq, JSNum.toRat]
  rw [div_lt_div_iff₀ (by positivity) (by positivity)]
  constructor
  · intro h
    exact_mod_cast h
  · intro h
    exact_mod_cast h

theorem amountLess_iff (x y : JSNum) (hx : x.isFinite = true) (hy : y.isFinite = true) :
    amountLess (.num x) (.num y) = true ↔ x.toRat < y.toRat := by
  cases x with
  | nan => cases hx
  | inf a => cases hx
  | fin a j =>
    cases y with
    | nan => cases hy
    | inf b => cases hy
    | fin b k => exact lt_fin_iff a j b k

theorem take_mem_of_pair_sublist {α : Type} (l : List α) (hnd : l.Nodup) (a b : α) (n : Nat)
    (h : List.Sublist [a, b] l) (hb : b ∈ l.take n) : a ∈ l.take n := by
  have hsplit : l = l.take n ++ l.drop n := (List.take_append_drop n l).symm
  rw [hsplit] at h hnd
  obtain ⟨s1, s2, hs, h1, h2⟩ := List.sublist_append_iff.1 h
  have hbnot : b ∉ l.drop n := fun hd => (List.nodup_append.1 hnd).2.2 hb hd
  match s1, s2, hs, h1, h2 with
  | [], s2, hs, _, h2 =>
    simp only [List.nil_append] at hs
    subst hs
    exact absurd (h2.subset (by simp)) hbnot
  | [x], s2, hs, _, h2 =>
    simp only [List.singleton_append, List.cons.injEq] at hs
    obtain ⟨_, hs2⟩ := hs
    subst hs2
    exact absurd (h2.subset (by simp)) hbnot
  | [x, y], s2, hs, h1, _ =>
    simp only [List.cons_append, List.nil_append, List.cons.injEq] at hs
    obtain ⟨hx, _, _⟩ := hs
    subst hx
    exact h1.subset (by simp)
  | x :: y :: z :: s, s2, hs, _, _ =>
    simp at hs
/-- C17 as stated fails for labels that are numerals: with one high-risk row of
category "10" followed by one of category "9", both of amount 50, the list
starts with "9", because `Object.entries` lists array-index keys first and in
ascending order. -/
theorem topLeakageCategories_numeral_counterexample :
    ([categoryTen, categoryNine].map (fun e => e.category)).indexOf "10" = 0 ∧
      ([categoryTen, categoryNine].map (fun e => e.category)).indexOf "9" = 1 ∧
      categoryTotals [categoryTen, categoryNine] =
        [("10", .num (.fin 50 0)), ("9", .num (.fin 50 0))] ∧
      topLeakageCategories [categoryTen, categoryNine] =
        [("9", .num (.fin 50 0)), ("10", .num (.fin 50 0))] := by
  decide

/-! ## The sorted totals -/

theorem amountLess_false_iff (v w : JSValue)
    (hv : ∃ x : JSNum, v = .num x ∧ x.isFinite = true)
    (hw : ∃ x : JSNum, w = .num x ∧ x.isFinite = true) :
    amountLess v w = false ↔ amountOf w ≤ amountOf v := by
  obtain ⟨x, rfl, hx⟩ := hv
  obtain ⟨y, rfl, hy⟩ := hw
  rw [Bool.eq_false_iff, Ne, amountLess_iff x y hx hy]
  simp only [amountOf, not_lt]

/-- Inserting an entry into a list in descending order of amount keeps the
order, when all totals are finite numbers. -/
theorem orderedInsert_descending (a : String × JSValue) (s : List (String × JSValue))
    (ha : ∃ x : JSNum, a.2 = .num x ∧ x.isFinite = true)
    (hs : ∀ p ∈ s, ∃ x : JSNum, p.2 = .num x ∧ x.isFinite = true)
    (hsorted : s.Pairwise (fun p q => amountOf q.2 ≤ amountOf p.2)) :
    (s.orderedInsert (fun p q => amountLess p.2 q.2 = false) a).Pairwise
      (fun p q => amountOf q.2 ≤ amountOf p.2) := by
  induction s with
  | nil => simp
  | cons b s ih =>
    have hb := hs b (List.mem_cons_self _ _)
    have hs' : ∀ p ∈ s, ∃ x : JSNum, p.2 = .num x ∧ x.isFinite = true :=
      fun p hp => hs p (List.mem_cons_of_mem _ hp)
    rw [List.pairwise_cons] at hsorted
    by_cases hab : amountLess a.2 b.2 = false
    · rw [List.orderedInsert, if_pos hab, List.pairwise_cons, List.pairwise_cons]
      have hle := (amountLess_false_iff _ _ ha hb).1 hab
      refine ⟨fun c hc => ?_, hsorted.1, hsorted.2⟩
      rcases List.mem_cons.1 hc with rfl | hc
      · exact hle
      · exact le_trans (hsorted.1 c hc) hle
    · rw [List.orderedInsert, if_neg hab, List.pairwise_cons]
      refine ⟨fun c hc => ?_, ih hs' hsorted.2⟩
      rcases (List.mem_orderedInsert _).1 hc with rfl | hc
      · have hnle : ¬ amountOf b.2 ≤ amountOf c.2 :=
          fun h => hab ((amountLess_false_iff _ _ ha hb).2 h)
        exact le_of_lt (not_le.1 hnle)
      · exact hsorted.1 c hc

/-- The sort puts the entries in descending order of amount, when all totals
are finite numbers. -/
theorem insertionSort_descending (l : List (String × JSValue))
    (hl : ∀ p ∈ l, ∃ x : JSNum, p.2 = .num x ∧ x.isFinite = true) :
    (l.insertionSort (fun p q => amountLess p.2 q.2 = false)).Pairwise
      (fun p q => amountOf q.2 ≤ amountOf p.2) := by
  induction l with
  | nil => simp
  | cons a l ih =>
    rw [List.insertionSort]
    refine orderedInsert_descending a _ (hl a (List.mem_cons_self _ _)) ?_
      (ih (fun p hp => hl p (List.mem_cons_of_mem _ hp)))
    intro p hp
    exact hl p (List.mem_cons_of_mem _ ((List.mem_insertionSort _).1 hp))

theorem sortedCategoryTotals_perm (rows : List Expense) :
    (sortedCategoryTotals rows).Perm (categoryTotals rows) :=
  (List.perm_insertionSort _ _).trans (objectEntries_perm _)

/-- The list `topLeakageCategories` for high-risk rows with ordinary labels: at
most five entries, with distinct categories that occur in the rows, each with
the sum of its rows' amounts, in descending order of amount, and no category
left out has a larger sum than a listed one. -/
theorem topLeakageCategories_spec (rows : List Expense)
    (hrows : ∀ e ∈ rows, inheritedMember e.category = none) :
    (topLeakageCategories rows).length ≤ 5 ∧
    ((topLeakageCategories rows).map Prod.fst).Nodup ∧
    (∀ p ∈ topLeakageCategories rows,
      (∃ e ∈ rows, e.category = p.1) ∧
      (∃ x : JSNum, p.2 = .num x ∧ x.isFinite = true) ∧
      amountOf p.2 = ((rows.filter (fun e => decide (e.category = p.1))).map
        (fun e => e.total_amount_numeric.toRat)).sum) ∧
    (topLeakageCategories rows).Pairwise (fun p q => amountOf q.2 ≤ amountOf p.2) ∧
    (∀ e ∈ rows, e.category ∉ (topLeakageCategories rows).map Prod.fst →
      ∀ p ∈ topLeakageCategories rows,
        ((rows.filter (fun r => decide (r.category = e.category))).map
          (fun r => r.total_amount_numeric.toRat)).sum ≤ amountOf p.2) := by
  obtain ⟨hinv, hkeys, hnd, hsum⟩ := categoryTotals_spec rows hrows
  have hperm := sortedCategoryTotals_perm rows
  have hmem : ∀ p, p ∈ sortedCategoryTotals rows ↔ p ∈ categoryTotals rows :=
    fun p => hperm.mem_iff
  have hndkeys : ((sortedCategoryTotals rows).map Prod.fst).Nodup :=
    (hperm.map Prod.fst).nodup_iff.2 hnd
  have hdesc : (sortedCategoryTotals rows).Pairwise
      (fun p q => amountOf q.2 ≤ amountOf p.2) := by
    refine insertionSort_descending _ (fun p hp => ?_)
    exact hinv p ((objectEntries_perm _).mem_iff.1 hp)
  have htake : List.Sublist (topLeakageCategories rows) (sortedCategoryTotals rows) :=
    List.take_sublist _ _
  refine ⟨?_, ?_, ?_, ?_, ?_⟩
  · simp only [topLeakageCategories, List.length_take]
    exact Nat.min_le_left _ _
  · exact (htake.map Prod.fst).nodup hndkeys
  · intro p hp
    have hp' : p ∈ categoryTotals rows := (hmem p).1 (htake.subset hp)
    refine ⟨(hkeys p.1).1 (List.mem_map_of_mem _ hp'), hinv p hp', ?_⟩
    rw [← hsum p.1, getField_of_mem_nodup _ hnd p.1 p.2 hp']
  · exact hdesc.sublist htake
  · intro e he hout p hp
    have hk : e.category ∈ (categoryTotals rows).map Prod.fst := (hkeys _).2 ⟨e, he, rfl⟩
    have hentry : (e.category, getField (categoryTotals rows) e.category) ∈
        sortedCategoryTotals rows := (hmem _).2 (getField_mem _ _ hk)
    have hsplit : sortedCategoryTotals rows =
        topLeakageCategories rows ++ (sortedCategoryTotals rows).drop 5 :=
      (List.take_append_drop 5 _).symm
    rw [hsplit] at hentry hdesc
    rcases List.mem_append.1 hentry with hin | hin
    · exact absurd (List.mem_map_of_mem Prod.fst hin) hout
    · have := (List.pairwise_append.1 hdesc).2.2 p hp _ hin
      simp only at this
      rw [hsum] at this
      exact this
/-- The rows of the fifth dashboard query: the caller's rows of the year with
a risk score of at least 7. -/
theorem mem_leakageRows (store : List Expense) (userId : String) (currentYear : Nat)
    (e : Expense) :
    e ∈ leakageRows store userId currentYear ↔
      e ∈ store ∧ e.user_id = userId ∧ 7 ≤ e.leakage_risk_score ∧
        (yearStart currentYear).le e.date = true ∧ e.date.le (yearEnd currentYear) = true := by
  rw [leakageRows, mem_selectRows]
  simp [Filter.holds]

/-- C16. When no category label of the caller's high-risk rows of the year is
the name of a member an object inherits, `topLeakageCategories` is as claimed:
at most five entries with pairwise distinct categories, each the category of
some row of the caller with a score of at least 7, each amount the sum of
`total_amount_numeric` over the high-risk rows of that category, in descending
order of amount, and no category left out has a larger sum than a listed one.
For a high-risk row whose category is "constructor" the entry does not carry
the summed amount: `categoryTotals` is an object literal,
`categoryTotals["constructor"]` is the inherited function `Object`, so the
total is never set to 0 and `+=` appends the amount to the text of that
function.  For the rows of the specification's scenario the list has the one
entry of the high-risk row's category with its amount. -/
theorem topLeakageCategories_inherited_name :
    (∀ (store : List Expense) (userId : String) (currentYear : Nat),
      (∀ e ∈ leakageRows store userId currentYear, inheritedMember e.category = none) →
      (dashboard store userId currentYear).topLeakageCategories.length ≤ 5 ∧
      ((dashboard store userId currentYear).topLeakageCategories.map Prod.fst).Nodup ∧
      (∀ p ∈ (dashboard store userId currentYear).topLeakageCategories,
        (∃ e ∈ store, e.user_id = userId ∧ 7 ≤ e.leakage_risk_score ∧ e.category = p.1) ∧
        (∃ x : JSNum, p.2 = .num x ∧ x.isFinite = true) ∧
        amountOf p.2 =
          (((leakageRows store userId currentYear).filter
            (fun e => decide (e.category = p.1))).map
              (fun e => e.total_amount_numeric.toRat)).sum) ∧
      (dashboard store userId currentYear).topLeakageCategories.Pairwise
        (fun p q => amountOf q.2 ≤ amountOf p.2) ∧
      (∀ e ∈ leakageRows store userId currentYear,
        e.category ∉ (dashboard store userId currentYear).topLeakageCategories.map Prod.fst →
        ∀ p ∈ (dashboard store userId currentYear).topLeakageCategories,
          (((leakageRows store userId currentYear).filter
            (fun r => decide (r.category = e.category))).map
              (fun r => r.total_amount_numeric.toRat)).sum ≤ amountOf p.2)) ∧
    topLeakageCategories [constructorExpense] =
      [("constructor", .str "function Object() \x7b [native code] \x7d100")] ∧
    (dashboard [expenseOfA, constructorExpense] "user-a" 2024).topLeakageCategories =
      [("Meals", .num (.fin 100 0)),
        ("constructor", .str "function Object() \x7b [native code] \x7d100")] ∧
    (dashboard [expenseOfA, expenseOfB, lastYearOfA, secondOfA] "user-a"
      2024).topLeakageCategories = [("Meals", .num (.fin 100 0))] := by
  refine ⟨fun store userId currentYear hrows => ?_, by decide, by decide, by decide⟩
  obtain ⟨h1, h2, h3, h4, h5⟩ :=
    topLeakageCategories_spec (leakageRows store userId currentYear) hrows
  refine ⟨h1, h2, fun p hp => ?_, h4, h5⟩
  obtain ⟨⟨e, he, hc⟩, hx, hs⟩ := h3 p hp
  obtain ⟨hst, hu, hscore, _, _⟩ := (mem_leakageRows store userId currentYear e).1 he
  exact ⟨⟨e, hst, hu, hscore, hc⟩, hx, hs⟩

/-! ## The list routes -/

theorem Date.le_total (a b : Date) : a.le b = true ∨ b.le a = true := by
  simp only [Date.le, Bool.or_eq_true, Bool.and_eq_true, decide_eq_true_eq]
  omega

theorem Date.le_trans (a b c : Date) (hab : a.le b = true) (hbc : b.le c = true) :
    a.le c = true := by
  simp only [Date.le, Bool.or_eq_true, Bool.and_eq_true, decide_eq_true_eq] at hab hbc ⊢
  omega

theorem selectRows_eq_filter_user (store : List Expense) (userId : String) :
    selectRows store [.eqUserId userId] =
      store.filter (fun e => decide (e.user_id = userId)) := by
  simp [selectRows, Filter.holds]

theorem selectRows_eq_filter_flagged (store : List Expense) (userId : String) :
    selectRows store [.eqUserId userId, .gteRisk 7] =
      store.filter (fun e => decide (e.user_id = userId ∧ 7 ≤ e.leakage_risk_score)) := by
  simp only [selectRows, Filter.holds, List.all_cons, List.all_nil, Bool.and_true]
  congr 1
  funext e
  simp [Bool.decide_and]

/-- C21. `GET /expenses` returns exactly the caller's rows (each as often as
the table holds it), latest date first; `GET /expenses/flagged` returns exactly
the caller's rows with a risk score of at least 7, latest creation time first.
Neither returns a row of another owner, and the flagged list holds no row with
a score below 7. -/
theorem list_routes_filter_then_sort (store : List Expense) (userId : String) :
    (listExpenses store userId).Perm
      (store.filter (fun e => decide (e.user_id = userId))) ∧
    (listExpenses store userId).Pairwise (fun a b => b.date.le a.date = true) ∧
    (∀ e, e ∈ listExpenses store userId ↔ e ∈ store ∧ e.user_id = userId) ∧
    (listFlagged store userId).Perm
      (store.filter (fun e => decide (e.user_id = userId ∧ 7 ≤ e.leakage_risk_score))) ∧
    (listFlagged store userId).Pairwise (fun a b => b.created_at ≤ a.created_at) ∧
    (∀ e, e ∈ listFlagged store userId ↔
      e ∈ store ∧ e.user_id = userId ∧ 7 ≤ e.leakage_risk_score) := by
  haveI hdt : IsTotal Expense (fun a b => b.date.le a.date = true) :=
    ⟨fun a b => Date.le_total b.date a.date⟩
  haveI hdtr : IsTrans Expense (fun a b => b.date.le a.date = true) :=
    ⟨fun a b c hab hbc => Date.le_trans c.date b.date a.date hbc hab⟩
  haveI hct : IsTotal Expense (fun a b => b.created_at ≤ a.created_at) :=
    ⟨fun a b => Nat.le_total b.created_at a.created_at⟩
  haveI hctr : IsTrans Expense (fun a b => b.created_at ≤ a.created_at) :=
    ⟨fun a b c hab hbc => Nat.le_trans hbc hab⟩
  refine ⟨?_, ?_, fun e => ?_, ?_, ?_, fun e => ?_⟩
  · rw [listExpenses, selectRows_eq_filter_user]
    exact List.perm_insertionSort _ _
  · exact List.sorted_insertionSort _ _
  · rw [listExpenses, List.mem_insertionSort, selectRows_eq_filter_user]
    simp [List.mem_filter]
  · rw [listFlagged, selectRows_eq_filter_flagged]
    exact List.perm_insertionSort _ _
  · exact List.sorted_insertionSort _ _
  · rw [listFlagged, List.mem_insertionSort, selectRows_eq_filter_flagged]
    simp [List.mem_filter]

/-- C21, for a table with rows of two owners: user A's list has A's rows only,
the latest date first, and A's flagged list has A's two rows with a score of
at least 7, the one created last first. -/
theorem list_routes_filter_then_sort_witness :
    (listExpenses [expenseOfA, expenseOfB, lastYearOfA, secondOfA] "user-a").Perm
      ([expenseOfA, expenseOfB, lastYearOfA, secondOfA].filter
        (fun e => decide (e.user_id = "user-a"))) ∧
    listExpenses [expenseOfA, expenseOfB, lastYearOfA, secondOfA] "user-a" =
      [secondOfA, expenseOfA, lastYearOfA] ∧
    listFlagged [expenseOfA, expenseOfB, lastYearOfA, secondOfA] "user-a" =
      [expenseOfA, lastYearOfA] :=
  ⟨(list_routes_filter_then_sort [expenseOfA, expenseOfB, lastYearOfA, secondOfA] "user-a").1,
    by decide, by decide⟩

/-! ## Preconditions and failures of the receipt route -/

/-- The handler after its three precondition checks have passed and the
extraction has returned a record. -/
theorem processReceipt_extracted (getUser : String → ProviderOutcome) (model : Nat → Outcome)
    (jsonParse : String → Option Record) (dbInsert : InsertRow → InsertOutcome)
    (nodeEnv today authHeader : String) (imageBase64 : JSValue) (user : User)
    (extractedData : Record)
    (hheader : authHeader ≠ "")
    (hauth : getUser (bearerToken authHeader) = .result (some user) none)
    (himage : truthy imageBase64 = true)
    (hrun : (callGeminiWithRetry model jsonParse today defaultMaxRetries).1 =
      some extractedData) :
    processReceipt getUser model jsonParse dbInsert nodeEnv today (some authHeader)
        imageBase64 =
      match validateExtractedData extractedData with
      | .error e =>
        receiptCatch nodeEnv today e
          (callGeminiWithRetry model jsonParse today defaultMaxRetries).2
      | .ok validatedData =>
        match buildInsertRow user validatedData with
        | .error e =>
          receiptCatch nodeEnv today e
            (callGeminiWithRetry model jsonParse today defaultMaxRetries).2
        | .ok row =>
          match dbInsert row with
          | .failed _ =>
            ⟨500, .error "Failed to save expense",
              (callGeminiWithRetry model jsonParse today defaultMaxRetries).2, [row]⟩
          | .stored id created_at =>
            ⟨200, .success id created_at row "Receipt processed successfully",
              (callGeminiWithRetry model jsonParse today defaultMaxRetries).2, [row]⟩ := by
  simp only [processReceipt, hheader, if_false, hauth, himage, Bool.not_true, hrun]
  rfl

/-- C22. The handler checks the Authorization header first, then the token,
then the body: without a header (or with an empty one) it answers 401
"No authorization header" and with a token for which the provider gives an
error or no user 401 "Invalid authentication token", whatever the body is; for
an authenticated caller whose `imageBase64` is missing or empty (or otherwise
falsy) it answers 400 "No image data provided".  In each of these cases the
vision model is not called and nothing is handed to the database. -/
theorem processReceipt_preconditions (getUser : String → ProviderOutcome)
    (model : Nat → Outcome) (jsonParse : String → Option Record)
    (dbInsert : InsertRow → InsertOutcome) (nodeEnv today : String)
    (authorization : Option String) (imageBase64 : JSValue) :
    ((authorization = none ∨ authorization = some "") →
      processReceipt getUser model jsonParse dbInsert nodeEnv today authorization
          imageBase64 = ⟨401, .error "No authorization header", [], []⟩) ∧
    (∀ authHeader user error, authorization = some authHeader → authHeader ≠ "" →
      getUser (bearerToken authHeader) = .result user error →
      (user = none ∨ error ≠ none) →
      processReceipt getUser model jsonParse dbInsert nodeEnv today authorization
          imageBase64 = ⟨401, .error "Invalid authentication token", [], []⟩) ∧
    (∀ authHeader user, authorization = some authHeader → authHeader ≠ "" →
      getUser (bearerToken authHeader) = .result (some user) none →
      (imageBase64 = .undefined ∨ imageBase64 = .str "" ∨ truthy imageBase64 = false) →
      processReceipt getUser model jsonParse dbInsert nodeEnv today authorization
          imageBase64 = ⟨400, .error "No image data provided", [], []⟩) := by
  refine ⟨?_, ?_, ?_⟩
  · rintro (rfl | rfl) <;> simp [processReceipt]
  · rintro authHeader user error rfl hne hg hrej
    simp only [processReceipt, hne, if_false, hg]
    cases user with
    | none => rfl
    | some u =>
      cases error with
      | none => simp at hrej
      | some e => rfl
  · rintro authHeader user rfl hne hg himage
    have hfalsy : truthy imageBase64 = false := by
      rcases himage with rfl | rfl | h
      · rfl
      · rfl
      · exact h
    simp [processReceipt, hne, hg, hfalsy]

/-- C22, for the sample provider: no header, an unknown token with an image in
the body, and the known token with an empty image. -/
theorem processReceipt_preconditions_witness :
    processReceipt sampleGetUser (fun _ => .text groceriesText) groceriesParse sampleInsert
        "production" "2024-03-09" none (.str "aGVsbG8=") =
      ⟨401, .error "No authorization header", [], []⟩ ∧
    processReceipt sampleGetUser (fun _ => .text groceriesText) groceriesParse sampleInsert
        "production" "2024-03-09" (some "Bearer tok-x") (.str "aGVsbG8=") =
      ⟨401, .error "Invalid authentication token", [], []⟩ ∧
    processReceipt sampleGetUser (fun _ => .text groceriesText) groceriesParse sampleInsert
        "production" "2024-03-09" (some "Bearer tok-a") (.str "") =
      ⟨400, .error "No image data provided", [], []⟩ :=
  ⟨(processReceipt_preconditions sampleGetUser (fun _ => .text groceriesText) groceriesParse
      sampleInsert "production" "2024-03-09" none (.str "aGVsbG8=")).1 (Or.inl rfl),
    (processReceipt_preconditions sampleGetUser (fun _ => .text groceriesText) groceriesParse
      sampleInsert "production" "2024-03-09" (some "Bearer tok-x") (.str "aGVsbG8=")).2.1
      "Bearer tok-x" none (some "invalid JWT") rfl (by decide) (by decide) (Or.inl rfl),
    (processReceipt_preconditions sampleGetUser (fun _ => .text groceriesText) groceriesParse
      sampleInsert "production" "2024-03-09" (some "Bearer tok-a") (.str "")).2.2
      "Bearer tok-a" sampleUser rfl (by decide) (by decide) (Or.inr (Or.inl rfl))⟩

/-- C23. When the record the extraction returns lacks a required field (the
field is `undefined` or `null`), the handler answers with status 500, the
error "Failed to process receipt" and as `details` the validator's message
"Missing required field: " followed by the name of a required field the
record lacks; it includes the fallback record exactly when `NODE_ENV` is
"development", and hands nothing to the database. -/
theorem processReceipt_missing_field (getUser : String → ProviderOutcome)
    (model : Nat → Outcome) (jsonParse : String → Option Record)
    (dbInsert : InsertRow → InsertOutcome) (nodeEnv today authHeader : String)
    (imageBase64 : JSValue) (user : User) (extractedData : Record) (field : String)
    (hheader : authHeader ≠ "")
    (hauth : getUser (bearerToken authHeader) = .result (some user) none)
    (himage : truthy imageBase64 = true)
    (hrun : (callGeminiWithRetry model jsonParse today defaultMaxRetries).1 =
      some extractedData)
    (hfield : field ∈ required)
    (hmissing : getField extractedData field = .undefined ∨
      getField extractedData field = .null) :
    ∃ f ∈ required,
      (getField extractedData f = .undefined ∨ getField extractedData f = .null) ∧
      validateExtractedData extractedData =
        .error (.error ("Missing required field: " ++ f)) ∧
      processReceipt getUser model jsonParse dbInsert nodeEnv today (some authHeader)
          imageBase64 =
        ⟨500,
          .failure "Failed to process receipt" ("Missing required field: " ++ f)
            (if nodeEnv = "development" then some (getFallbackResponse today) else none),
          (callGeminiWithRetry model jsonParse today defaultMaxRetries).2, []⟩ := by
  rcases checkRequired_cases extractedData required with hok | ⟨f, hf, ha, he⟩
  · have := (checkRequired_ok_iff extractedData required).1 hok field hfield
    rw [(isAbsent_iff _).2 hmissing] at this
    cases this
  · have hval : validateExtractedData extractedData =
        .error (.error ("Missing required field: " ++ f)) := by
      rw [validateExtractedData_unfold, he]
    refine ⟨f, hf, (isAbsent_iff _).1 ha, hval, ?_⟩
    rw [processReceipt_extracted getUser model jsonParse dbInsert nodeEnv today authHeader
      imageBase64 user extractedData hheader hauth himage hrun, hval]
    rfl
/-- C23, for a model that answers with an empty object, in development and in
production. -/
theorem processReceipt_missing_field_witness :
    (∃ f ∈ required,
      (getField [] f = .undefined ∨ getField [] f = .null) ∧
      validateExtractedData [] = .error (.error ("Missing required field: " ++ f)) ∧
      processReceipt sampleGetUser (fun _ => .text "\x7b\x7d") emptyObjectParse sampleInsert
          "development" "2024-03-09" (some "Bearer tok-a") (.str "aGVsbG8=") =
        ⟨500,
          .failure "Failed to process receipt" ("Missing required field: " ++ f)
            (if "development" = "development" then some (getFallbackResponse "2024-03-09")
              else none),
          (callGeminiWithRetry (fun _ => .text "\x7b\x7d") emptyObjectParse "2024-03-09"
            defaultMaxRetries).2, []⟩) ∧
    processReceipt sampleGetUser (fun _ => .text "\x7b\x7d") emptyObjectParse sampleInsert
        "production" "2024-03-09" (some "Bearer tok-a") (.str "aGVsbG8=") =
      ⟨500, .failure "Failed to process receipt" "Missing required field: merchant" none,
        [.call 1], []⟩ :=
  ⟨processReceipt_missing_field sampleGetUser (fun _ => .text "\x7b\x7d") emptyObjectParse
      sampleInsert "development" "2024-03-09" "Bearer tok-a" (.str "aGVsbG8=") sampleUser []
      "merchant" (by decide) (by decide) (by decide) (by decide) (by decide) (Or.inl rfl),
    by decide⟩

/-! ## Amounts that are not strings -/

theorem parseCurrency_not_string (v : JSValue) (ht : truthy v = true)
    (hns : ∀ s, v ≠ .str s) :
    parseCurrency v = .error (.typeError "amountStr.replace is not a function") := by
  cases v with
  | str s => exact absurd rfl (hns s)
  | undefined => cases ht
  | null => cases ht
  | bool b => simp [parseCurrency, ht]
  | num n => simp [parseCurrency, ht]
  | obj c => simp [parseCurrency, ht]

theorem parseCurrency_falsy (v : JSValue) (hf : truthy v = false) :
    parseCurrency v = .ok (.fin 0 0) := by
  simp [parseCurrency, hf]

theorem parseCurrency_ok_of (v : JSValue)
    (hv : truthy v = false ∨ ∃ s, v = .str s) : ∃ x, parseCurrency v = .ok x := by
  rcases hv with hf | ⟨s, rfl⟩
  · exact ⟨_, parseCurrency_falsy v hf⟩
  · exact ⟨_, parseCurrency_str s⟩

theorem parseCurrency_ok_or (v : JSValue) :
    (∃ x, parseCurrency v = .ok x) ∨
      parseCurrency v = .error (.typeError "amountStr.replace is not a function") := by
  by_cases ht : truthy v = true
  · by_cases hs : ∃ s, v = .str s
    · exact Or.inl (parseCurrency_ok_of v (Or.inr hs))
    · exact Or.inr (parseCurrency_not_string v ht (fun s h => hs ⟨s, h⟩))
  · exact Or.inl (parseCurrency_ok_of v (Or.inl (by simpa using ht)))

/-- The three `parseCurrency` calls before the insert: the first one that
throws ends the `try` block. -/
theorem buildInsertRow_error (user : User) (validatedData : Record)
    (h : parseCurrency (getField validatedData "totalAmountStr") =
        .error (.typeError "amountStr.replace is not a function") ∨
      parseCurrency (getField validatedData "gstAmountStr") =
        .error (.typeError "amountStr.replace is not a function") ∨
      parseCurrency (getField validatedData "otherTaxAmountStr") =
        .error (.typeError "amountStr.replace is not a function")) :
    buildInsertRow user validatedData =
      .error (.typeError "amountStr.replace is not a function") := by
  unfold buildInsertRow
  rcases parseCurrency_ok_or (getField validatedData "totalAmountStr") with ⟨a, h1⟩ | h1
  · rcases parseCurrency_ok_or (getField validatedData "gstAmountStr") with ⟨b, h2⟩ | h2
    · rcases parseCurrency_ok_or (getField validatedData "otherTaxAmountStr") with
        ⟨c, h3⟩ | h3
      · rw [h1, h2, h3] at h
        simp at h
      · simp [h1, h2, h3, bind, Except.bind]
    · simp [h1, h2, bind, Except.bind]
  · simp [h1, bind, Except.bind]

theorem buildInsertRow_ok (user : User) (validatedData : Record) (a b c : JSNum)
    (h1 : parseCurrency (getField validatedData "totalAmountStr") = .ok a)
    (h2 : parseCurrency (getField validatedData "gstAmountStr") = .ok b)
    (h3 : parseCurrency (getField validatedData "otherTaxAmountStr") = .ok c) :
    ∃ row, buildInsertRow user validatedData = .ok row ∧
      row.total_amount_str = getField validatedData "totalAmountStr" ∧
      row.total_amount_numeric = a ∧
      row.gst_amount_str = getField validatedData "gstAmountStr" ∧
      row.gst_amount_numeric = b ∧
      row.other_tax_amount_str = getField validatedData "otherTaxAmountStr" ∧
      row.other_tax_amount_numeric = c := by
  unfold buildInsertRow
  simp only [h1, h2, h3, bind, Except.bind, pure, Except.pure]
  exact ⟨_, rfl, rfl, rfl, rfl, rfl, rfl, rfl⟩

/-- The validator looks at an amount field only to see that it is there: a
record that passes still passes when the field is given any other value that
is not `undefined` or `null`. -/
theorem validateExtractedData_amount_any (data out : Record) (f : String) (v : JSValue)
    (hf : f = "totalAmountStr" ∨ f = "gstAmountStr" ∨ f = "otherTaxAmountStr")
    (hu : v ≠ .undefined) (hn : v ≠ .null)
    (h : validateExtractedData data = .ok out) :
    ∃ out1, validateExtractedData (setField data f v) = .ok out1 ∧ getField out1 f = v := by
  have hl : f ≠ "leakageRiskScore" := by rcases hf with rfl | rfl | rfl <;> decide
  have hc : f ≠ "confidenceScore" := by rcases hf with rfl | rfl | rfl <;> decide
  obtain ⟨hreq, s1, s2, hs1, hs2, _⟩ := validateExtractedData_ok_inv data out h
  have hreq1 : checkRequired (setField data f v) required = .ok () := by
    refine checkRequired_ok_of_present _ (fun g hg => ?_)
    by_cases hgf : g = f
    · rw [hgf, getField_setField_same]
      exact ⟨hu, hn⟩
    · rw [getField_setField_other _ _ _ _ hgf]
      exact validateExtractedData_ok_present data out h g hg
  have h1 : getField (setField data f v) "leakageRiskScore" ≠ .obj none := by
    rw [getField_setField_other _ _ _ _ (Ne.symm hl)]
    intro hobj
    rw [hobj] at hs1
    cases hs1
  have h2 : getField (setField data f v) "confidenceScore" ≠ .obj none := by
    rw [getField_setField_other _ _ _ _ (Ne.symm hc)]
    intro hobj
    rw [hobj] at hs2
    cases hs2
  obtain ⟨out1, hout1⟩ := validateExtractedData_ok_of _ hreq1 h1 h2
  refine ⟨out1, hout1, ?_⟩
  rw [validateExtractedData_other_fields _ _ hout1 f hl hc, getField_setField_same]

/-- C27. `validateExtractedData` only checks that an amount field is there: a
record that passes still passes when `totalAmountStr`, `gstAmountStr` or
`otherTaxAmountStr` is given a truthy value that is not a string, and the
validated record holds that value.  `parseCurrency` throws a `TypeError` on
such a value, and the handler then answers with status 500 and the error
"Failed to process receipt" and hands nothing to the database.  On the number
0 (or another falsy value) `parseCurrency` returns 0, and when each of the
three amounts is falsy or a string the handler hands the database one row,
with the numeric amount 0 for an amount that is falsy. -/
theorem processReceipt_amount_not_string (getUser : String → ProviderOutcome)
    (model : Nat → Outcome) (jsonParse : String → Option Record)
    (dbInsert : InsertRow → InsertOutcome) (nodeEnv today authHeader : String)
    (imageBase64 : JSValue) (user : User) (extractedData validatedData : Record)
    (hheader : authHeader ≠ "")
    (hauth : getUser (bearerToken authHeader) = .result (some user) none)
    (himage : truthy imageBase64 = true)
    (hrun : (callGeminiWithRetry model jsonParse today defaultMaxRetries).1 =
      some extractedData)
    (hvalid : validateExtractedData extractedData = .ok validatedData) :
    (∀ f v, (f = "totalAmountStr" ∨ f = "gstAmountStr" ∨ f = "otherTaxAmountStr") →
      truthy v = true →
      ∃ out, validateExtractedData (setField extractedData f v) = .ok out ∧
        getField out f = v) ∧
    (∀ v, truthy v = true → (∀ s, v ≠ .str s) →
      parseCurrency v = .error (.typeError "amountStr.replace is not a function")) ∧
    (∀ v, truthy v = false → parseCurrency v = .ok (.fin 0 0)) ∧
    ((∃ f, (f = "totalAmountStr" ∨ f = "gstAmountStr" ∨ f = "otherTaxAmountStr") ∧
        truthy (getField extractedData f) = true ∧
        ∀ s, getField extractedData f ≠ .str s) →
      processReceipt getUser model jsonParse dbInsert nodeEnv today (some authHeader)
          imageBase64 =
        ⟨500,
          .failure "Failed to process receipt" "amountStr.replace is not a function"
            (if nodeEnv = "development" then some (getFallbackResponse today) else none),
          (callGeminiWithRetry model jsonParse today defaultMaxRetries).2, []⟩) ∧
    ((∀ f, (f = "totalAmountStr" ∨ f = "gstAmountStr" ∨ f = "otherTaxAmountStr") →
        truthy (getField extractedData f) = false ∨
          ∃ s, getField extractedData f = .str s) →
      ∃ row,
        (processReceipt getUser model jsonParse dbInsert nodeEnv today (some authHeader)
          imageBase64).inserted = [row] ∧
        row.total_amount_str = getField extractedData "totalAmountStr" ∧
        row.gst_amount_str = getField extractedData "gstAmountStr" ∧
        row.other_tax_amount_str = getField extractedData "otherTaxAmountStr" ∧
        (truthy row.total_amount_str = false → row.total_amount_numeric = .fin 0 0) ∧
        (truthy row.gst_amount_str = false → row.gst_amount_numeric = .fin 0 0) ∧
        (truthy row.other_tax_amount_str = false →
          row.other_tax_amount_numeric = .fin 0 0)) := by
  have hne1 : ("totalAmountStr" : String) ≠ "leakageRiskScore" ∧
      ("totalAmountStr" : String) ≠ "confidenceScore" := by decide
  have hne2 : ("gstAmountStr" : String) ≠ "leakageRiskScore" ∧
      ("gstAmountStr" : String) ≠ "confidenceScore" := by decide
  have hne3 : ("otherTaxAmountStr" : String) ≠ "leakageRiskScore" ∧
      ("otherTaxAmountStr" : String) ≠ "confidenceScore" := by decide
  have hf1 := validateExtractedData_other_fields _ _ hvalid "totalAmountStr" hne1.1 hne1.2
  have hf2 := validateExtractedData_other_fields _ _ hvalid "gstAmountStr" hne2.1 hne2.2
  have hf3 := validateExtractedData_other_fields _ _ hvalid "otherTaxAmountStr" hne3.1 hne3.2
  have hroute := processReceipt_extracted getUser model jsonParse dbInsert nodeEnv today
    authHeader imageBase64 user extractedData hheader hauth himage hrun
  rw [hvalid] at hroute
  refine ⟨fun f v hf ht => ?_, parseCurrency_not_string, parseCurrency_falsy, ?_, ?_⟩
  · refine validateExtractedData_amount_any extractedData validatedData f v hf ?_ ?_ hvalid
    · rintro rfl; cases ht
    · rintro rfl; cases ht
  · rintro ⟨f, hf, ht, hns⟩
    have herr := parseCurrency_not_string _ ht hns
    have hbuild : buildInsertRow user validatedData =
        .error (.typeError "amountStr.replace is not a function") := by
      refine buildInsertRow_error user validatedData ?_
      rcases hf with rfl | rfl | rfl
      · exact Or.inl (by rw [hf1]; exact herr)
      · exact Or.inr (Or.inl (by rw [hf2]; exact herr))
      · exact Or.inr (Or.inr (by rw [hf3]; exact herr))
    rw [hroute]
    simp only [hbuild]
    rfl
  · intro hall
    obtain ⟨a, ha⟩ := parseCurrency_ok_of _ (hall "totalAmountStr" (Or.inl rfl))
    obtain ⟨b, hb⟩ := parseCurrency_ok_of _ (hall "gstAmountStr" (Or.inr (Or.inl rfl)))
    obtain ⟨c, hc⟩ := parseCurrency_ok_of _ (hall "otherTaxAmountStr" (Or.inr (Or.inr rfl)))
    rw [← hf1] at ha
    rw [← hf2] at hb
    rw [← hf3] at hc
    obtain ⟨row, hrow, hs1, hn1, hs2, hn2, hs3, hn3⟩ :=
      buildInsertRow_ok user validatedData a b c ha hb hc
    refine ⟨row, ?_, hs1.trans hf1, hs2.trans hf2, hs3.trans hf3, ?_, ?_, ?_⟩
    · rw [hroute]
      simp only [hrow]
      cases dbInsert row <;> rfl
    · intro hfalsy
      rw [hs1] at hfalsy
      rw [parseCurrency_falsy _ hfalsy] at ha
      rw [hn1]
      exact (Except.ok.inj ha).symm
    · intro hfalsy
      rw [hs2] at hfalsy
      rw [parseCurrency_falsy _ hfalsy] at hb
      rw [hn2]
      exact (Except.ok.inj hb).symm
    · intro hfalsy
      rw [hs3] at hfalsy
      rw [parseCurrency_falsy _ hfalsy] at hc
      rw [hn3]
      exact (Except.ok.inj hc).symm

/-- C27, for a model whose record has the number 1500 as total amount, and for
one whose record has the number 0 there: the first request is answered with
500 and nothing is stored, the second is stored with the numeric amount 0. -/
theorem processReceipt_amount_not_string_witness :
    processReceipt sampleGetUser (fun _ => .text "\x7b\x7d") (fun _ => some numericAmountRecord)
        sampleInsert "production" "2024-03-09" (some "Bearer tok-a") (.str "aGVsbG8=") =
      ⟨500,
        .failure "Failed to process receipt" "amountStr.replace is not a function"
          (if "production" = "development" then some (getFallbackResponse "2024-03-09")
            else none),
        (callGeminiWithRetry (fun _ => .text "\x7b\x7d") (fun _ => some numericAmountRecord)
          "2024-03-09" defaultMaxRetries).2, []⟩ ∧
    (processReceipt sampleGetUser (fun _ => .text "\x7b\x7d") (fun _ => some zeroAmountRecord)
        sampleInsert "production" "2024-03-09" (some "Bearer tok-a")
        (.str "aGVsbG8=")).status = 200 ∧
    ((processReceipt sampleGetUser (fun _ => .text "\x7b\x7d") (fun _ => some zeroAmountRecord)
        sampleInsert "production" "2024-03-09" (some "Bearer tok-a")
        (.str "aGVsbG8=")).inserted.map (fun row => row.total_amount_numeric)) =
      [.fin 0 0] :=
  ⟨(processReceipt_amount_not_string sampleGetUser (fun _ => .text "\x7b\x7d")
      (fun _ => some numericAmountRecord) sampleInsert "production" "2024-03-09"
      "Bearer tok-a" (.str "aGVsbG8=") sampleUser numericAmountRecord numericAmountRecord
      (by decide) (by decide) (by decide) (by decide) (by decide)).2.2.2.1
      ⟨"totalAmountStr", Or.inl rfl, by decide, by
        intro s h
        have hnum : getField numericAmountRecord "totalAmountStr" = .num (.fin 1500 0) := by
          decide
        rw [hnum] at h
        cases h⟩,
    by decide, by decide⟩

/-! ## What the validator leaves alone -/

theorem setField_keys_of_present (t : Record) (c : String) (v : JSValue)
    (h : getField t c ≠ .undefined) : (setField t c v).map Prod.fst = t.map Prod.fst := by
  rw [keys_setField]
  by_cases hmem : c ∈ t.map Prod.fst
  · rw [if_pos hmem]
  · exact absurd (getField_of_not_mem t c hmem) h

/-- C24. A record that passes `validateExtractedData` comes back with the same
fields in the same order, and every field other than `leakageRiskScore` and
`confidenceScore` (the merchant, the three amount strings, the date, the
category, `taxDeductible`, `flagReason`, `savingsInsight` and any other field)
holds the value it was given. -/
theorem validateExtractedData_frame (data out : Record)
    (h : validateExtractedData data = .ok out) :
    out.map Prod.fst = data.map Prod.fst ∧
    (∀ f, f ≠ "leakageRiskScore" → f ≠ "confidenceScore" →
      getField out f = getField data f) ∧
    (∀ p ∈ out, p.1 ≠ "leakageRiskScore" → p.1 ≠ "confidenceScore" → p ∈ data) := by
  refine ⟨?_, fun f hl hc => validateExtractedData_other_fields data out h f hl hc, ?_⟩
  · have h1 := (validateExtractedData_ok_present data out h "leakageRiskScore"
      (by decide)).1
    have h2 := (validateExtractedData_ok_present data out h "confidenceScore"
      (by decide)).1
    obtain ⟨_, s1, s2, _, _, rfl⟩ := validateExtractedData_ok_inv data out h
    have hne : ("confidenceScore" : String) ≠ "leakageRiskScore" := by decide
    rw [setField_keys_of_present _ _ _
      (by rw [getField_setField_other _ _ _ _ hne]; exact h2),
      setField_keys_of_present _ _ _ h1]
  · intro p hp hl hc
    obtain ⟨_, s1, s2, _, _, rfl⟩ := validateExtractedData_ok_inv data out h
    rcases mem_setField _ _ _ p hp with hp1 | rfl
    · rcases mem_setField _ _ _ p hp1 with hp2 | rfl
      · exact hp2
      · exact absurd rfl hl
    · exact absurd rfl hc

/-- C24, for a record with scores out of range and a field the validator does
not know: the scores are clamped, everything else is as given. -/
theorem validateExtractedData_frame_witness :
    validateExtractedData (annotatedRecord (.num (.fin 15 0)) (.num (.fin (-1) 0))) =
      .ok (annotatedRecord (.num (.fin 10 0)) (.num (.fin 0 0))) ∧
    (annotatedRecord (.num (.fin 10 0)) (.num (.fin 0 0))).map Prod.fst =
      (annotatedRecord (.num (.fin 15 0)) (.num (.fin (-1) 0))).map Prod.fst ∧
    (∀ f, f ≠ "leakageRiskScore" → f ≠ "confidenceScore" →
      getField (annotatedRecord (.num (.fin 10 0)) (.num (.fin 0 0))) f =
        getField (annotatedRecord (.num (.fin 15 0)) (.num (.fin (-1) 0))) f) :=
  ⟨by decide,
    (validateExtractedData_frame (annotatedRecord (.num (.fin 15 0)) (.num (.fin (-1) 0)))
      (annotatedRecord (.num (.fin 10 0)) (.num (.fin 0 0))) (by decide)).1,
    (validateExtractedData_frame (annotatedRecord (.num (.fin 15 0)) (.num (.fin (-1) 0)))
      (annotatedRecord (.num (.fin 10 0)) (.num (.fin 0 0))) (by decide)).2.1⟩

/-! ## The scanner page and the body limit -/

/-- C28. The scanner page accepts files that the backend's body parser
refuses: a file of 8 * 1024 * 1024 bytes passes the size check of
`processFile`, its base64 text has 11184812 characters and the request body
11184830 bytes, more than the limit of 10485760 bytes.  The body fits the
limit exactly for files of at most 7864305 bytes; every larger file up to the
page's own limit is accepted by the page and refused by the body parser. -/
theorem scanner_accepts_oversized_image :
    acceptsFileSize (8 * 1024 * 1024) = true ∧
    base64Length (8 * 1024 * 1024) = 11184812 ∧
    requestBodyLength (8 * 1024 * 1024) = 11184830 ∧
    jsonBodyLimit = 10485760 ∧
    bodyWithinLimit (requestBodyLength (8 * 1024 * 1024)) = false ∧
    (∀ size, acceptsFileSize size = true ↔ size ≤ 8 * 1024 * 1024) ∧
    (∀ size, bodyWithinLimit (requestBodyLength size) = true ↔ size ≤ 7864305) ∧
    (∀ size, 7864305 < size → size ≤ 8 * 1024 * 1024 →
      acceptsFileSize size = true ∧ bodyWithinLimit (requestBodyLength size) = false) := by
  have hpre : "\x7b\"imageBase64\":\"".length = 16 := by decide
  have hpost : "\"\x7d".length = 2 := by decide
  have haccept : ∀ size, acceptsFileSize size = true ↔ size ≤ 8 * 1024 * 1024 := by
    intro size
    simp only [acceptsFileSize, MAX_SIZE_MB, Bool.not_eq_true', decide_eq_false_iff_not]
    omega
  have hfits : ∀ size, bodyWithinLimit (requestBodyLength size) = true ↔ size ≤ 7864305 := by
    intro size
    simp only [bodyWithinLimit, requestBodyLength, base64Length, jsonBodyLimit, hpre, hpost,
      decide_eq_true_eq]
    omega
  refine ⟨(haccept _).2 (le_refl _), ?_, ?_, rfl, ?_, haccept, hfits, ?_⟩
  · simp only [base64Length]
  · simp only [requestBodyLength, base64Length, hpre, hpost]
  · rw [Bool.eq_false_iff, Ne, hfits]
    omega
  · intro size h1 h2
    refine ⟨(haccept size).2 h2, ?_⟩
    rw [Bool.eq_false_iff, Ne, hfits]
    omega

/-! ## The token handed to the auth provider -/

theorem replaceFirst_at_start (pat rep post : List Char) (hpat : pat ≠ []) :
    replaceFirst pat rep (pat ++ post) = rep ++ post := by
  cases pat with
  | nil => exact absurd rfl hpat
  | cons c cs =>
    have hpre : (c :: cs).isPrefixOf (c :: (cs ++ post)) = true := by
      rw [List.isPrefixOf_iff_prefix]
      exact ⟨post, rfl⟩
    simp only [List.cons_append, replaceFirst, hpre, if_true]
    simp

/-- The call `s.replace(pat, rep)` replaces the first occurrence of `pat`. -/
theorem replaceFirst_first (pat rep pre post : List Char) (hpat : pat ≠ [])
    (hfirst : ∀ u v, u.length < pre.length → pre ++ pat ++ post ≠ u ++ pat ++ v) :
    replaceFirst pat rep (pre ++ pat ++ post) = pre ++ rep ++ post := by
  induction pre with
  | nil => simpa using replaceFirst_at_start pat rep post hpat
  | cons x pre ih =>
    have hno : pat.isPrefixOf (x :: (pre ++ pat ++ post)) = false := by
      rw [Bool.eq_false_iff, Ne, List.isPrefixOf_iff_prefix]
      rintro ⟨v, hv⟩
      exact hfirst [] v (by simp) (by simpa using hv.symm)
    have ih1 := ih (fun u v hu heq =>
      hfirst (x :: u) v (by simpa using hu) (by simp [heq]))
    simp only [List.cons_append, List.append_assoc] at hno ih1 ⊢
    rw [replaceFirst]
    simp only [hno, Bool.false_eq_true, if_false, ih1]

/-- The call `s.replace(pat, rep)` returns `s` when `pat` does not occur. -/
theorem replaceFirst_absent (pat rep s : List Char) (hpat : pat ≠ [])
    (habsent : ∀ u v, s ≠ u ++ pat ++ v) : replaceFirst pat rep s = s := by
  induction s with
  | nil => simp [replaceFirst, hpat]
  | cons x s ih =>
    have hno : pat.isPrefixOf (x :: s) = false := by
      rw [Bool.eq_false_iff, Ne, List.isPrefixOf_iff_prefix]
      rintro ⟨v, hv⟩
      exact habsent [] v (by simpa using hv.symm)
    have ih1 := ih (fun u v heq => habsent (x :: u) v (by simp [heq]))
    rw [replaceFirst]
    simp only [hno, Bool.false_eq_true, if_false, ih1]

theorem toList_append (a b : String) : (a ++ b).toList = a.toList ++ b.toList :=
  String.data_append a b

/-- C29. The token handed to the auth provider is the Authorization header
with the first occurrence of "Bearer " taken out: the header "Bearer "
followed by `t` gives `t`, whatever `t` is; in general the text before and
after the first occurrence is kept; and a header in which "Bearer " does not
occur is handed over as it is.  The gate `authenticateUser`, the profile route
and the receipt route all ask the provider about this token and no other: a
provider that knows only this token lets the request pass, and two providers
that agree on this token lead to the same answer. -/
theorem bearerToken_first_occurrence :
    (∀ t : String, bearerToken ("Bearer " ++ t) = t) ∧
    (∀ pre post : String,
      (∀ u v : List Char, u.length < pre.length →
        pre.toList ++ "Bearer ".toList ++ post.toList ≠ u ++ "Bearer ".toList ++ v) →
      bearerToken (pre ++ "Bearer " ++ post) = pre ++ post) ∧
    (∀ authHeader : String,
      (∀ u v : List Char, authHeader.toList ≠ u ++ "Bearer ".toList ++ v) →
      bearerToken authHeader = authHeader) ∧
    (∀ (authHeader : String) (user : User), authHeader ≠ "" →
      authenticateUser
          (fun token =>
            if token = bearerToken authHeader then .result (some user) none
            else .result none (some "invalid JWT"))
          (some authHeader) = .next user ∧
      getProfile
          (fun token =>
            if token = bearerToken authHeader then .result (some user) none
            else .result none (some "invalid JWT"))
          (some authHeader) = .profile user ∧
      ∀ model jsonParse dbInsert nodeEnv today,
        processReceipt
            (fun token =>
              if token = bearerToken authHeader then .result (some user) none
              else .result none (some "invalid JWT"))
            model jsonParse dbInsert nodeEnv today (some authHeader) .undefined =
          ⟨400, .error "No image data provided", [], []⟩) ∧
    (∀ (getUser1 getUser2 : String → ProviderOutcome) (authHeader : String),
      getUser1 (bearerToken authHeader) = getUser2 (bearerToken authHeader) →
      authenticateUser getUser1 (some authHeader) =
        authenticateUser getUser2 (some authHeader) ∧
      getProfile getUser1 (some authHeader) = getProfile getUser2 (some authHeader) ∧
      ∀ model jsonParse dbInsert nodeEnv today imageBase64,
        processReceipt getUser1 model jsonParse dbInsert nodeEnv today (some authHeader)
            imageBase64 =
          processReceipt getUser2 model jsonParse dbInsert nodeEnv today (some authHeader)
            imageBase64) := by
  have hpat : "Bearer ".toList ≠ [] := by decide
  refine ⟨fun t => ?_, fun pre post hfirst => ?_, fun authHeader habsent => ?_,
    fun authHeader user hne => ?_, fun getUser1 getUser2 authHeader hagree => ?_⟩
  · rw [bearerToken, toList_append, replaceFirst_at_start _ _ _ hpat]
    rfl
  · have h := replaceFirst_first "Bearer ".toList [] pre.toList post.toList hpat hfirst
    rw [bearerToken, toList_append, toList_append, h]
    apply String.ext
    simp [toList_append]
  · rw [bearerToken, replaceFirst_absent _ _ _ hpat habsent]
    rfl
  · refine ⟨?_, ?_, fun model jsonParse dbInsert nodeEnv today => ?_⟩
    · simp [authenticateUser, hne]
    · simp [getProfile, hne]
    · simp [processReceipt, hne, truthy]
  · refine ⟨?_, ?_, fun model jsonParse dbInsert nodeEnv today imageBase64 => ?_⟩
    · simp only [authenticateUser, hagree]
    · simp only [getProfile, hagree]
    · simp only [processReceipt, hagree]

/-- C29 at headers with two occurrences, with a text before the first one, and
with another scheme. -/
theorem bearerToken_examples :
    bearerToken "Bearer Bearer tok-a" = "Bearer tok-a" ∧
    bearerToken "Token Bearer tok-a" = "Token tok-a" ∧
    bearerToken "Basic dXNlcjpwdw==" = "Basic dXNlcjpwdw==" ∧
    bearerToken "tok-a" = "tok-a" ∧
    bearerToken "bearer tok-a" = "bearer tok-a" ∧
    authenticateUser sampleGetUser (some "tok-a") = .next sampleUser := by
  decide

/-! ## Lowest decimal terms -/

theorem normDec_lowest (m : Int) (k : Nat) :
    (normDec m k).2 = 0 ∨ (normDec m k).1 % 10 ≠ 0 := by
  induction k generalizing m with
  | zero => left; rfl
  | succ k ih =>
    unfold normDec
    split_ifs with h
    · exact ih (m / 10)
    · right; exact h

/-- Two fractions in lowest decimal terms with the same value are the same. -/
theorem lowest_unique (m1 : Int) (k1 : Nat) (m2 : Int) (k2 : Nat)
    (h1 : k1 = 0 ∨ m1 % 10 ≠ 0) (h2 : k2 = 0 ∨ m2 % 10 ≠ 0)
    (heq : (JSNum.fin m1 k1).toRat = (JSNum.fin m2 k2).toRat) :
    JSNum.fin m1 k1 = JSNum.fin m2 k2 := by
  simp only [JSNum.toRat] at heq
  rw [div_eq_div_iff (by positivity) (by positivity)] at heq
  have hint : m1 * 10 ^ k2 = m2 * 10 ^ k1 := by exact_mod_cast heq
  rcases Nat.lt_trichotomy k1 k2 with hlt | rfl | hgt
  · obtain ⟨d, rfl⟩ : ∃ d, k2 = k1 + (d + 1) := ⟨k2 - k1 - 1, by omega⟩
    have h10 : (10 : Int) ^ k1 ≠ 0 := by positivity
    have : m1 * 10 ^ (d + 1) = m2 := by
      apply mul_right_cancel₀ h10
      rw [← hint, pow_add]
      ring
    have hdiv : m2 % 10 = 0 := by
      rw [← this, pow_succ, ← mul_assoc]
      exact Int.mul_emod_left _ _
    rcases h2 with h2 | h2
    · omega
    · exact absurd hdiv h2
  · have h10 : (10 : Int) ^ k1 ≠ 0 := by positivity
    rw [mul_right_cancel₀ h10 hint]
  · obtain ⟨d, rfl⟩ : ∃ d, k1 = k2 + (d + 1) := ⟨k1 - k2 - 1, by omega⟩
    have h10 : (10 : Int) ^ k2 ≠ 0 := by positivity
    have : m2 * 10 ^ (d + 1) = m1 := by
      apply mul_right_cancel₀ h10
      rw [hint, pow_add]
      ring
    have hdiv : m1 % 10 = 0 := by
      rw [← this, pow_succ, ← mul_assoc]
      exact Int.mul_emod_left _ _
    rcases h1 with h1 | h1
    · omega
    · exact absurd hdiv h1

theorem add_fin_lowest (a : Int) (j : Nat) (b : Int) (k : Nat) :
    ∃ m s, (JSNum.fin a j).add (.fin b k) = .fin m s ∧ (s = 0 ∨ m % 10 ≠ 0) :=
  ⟨_, _, rfl, normDec_lowest _ _⟩

/-- A `reduce` that adds a numeric column, started from 0, ends with a
fraction in lowest decimal terms. -/
theorem foldl_add_lowest (g : Expense → Dec) (rows : List Expense) (start : JSNum)
    (hstart : ∃ m s, start = .fin m s ∧ (s = 0 ∨ m % 10 ≠ 0)) :
    ∃ m s, rows.foldl (fun sum exp => sum.add (g exp).num) start = .fin m s ∧
      (s = 0 ∨ m % 10 ≠ 0) := by
  induction rows generalizing start with
  | nil => exact hstart
  | cons e rest ih =>
    obtain ⟨m, s, rfl, _⟩ := hstart
    exact ih _ (add_fin_lowest m s (g e).mant (g e).scale)

/-- The sum of a numeric column does not depend on the order of the rows. -/
theorem foldl_add_perm (g : Expense → Dec) (rows1 rows2 : List Expense)
    (hperm : rows1.Perm rows2) :
    rows1.foldl (fun (sum : JSNum) exp => sum.add (g exp).num) (JSNum.fin 0 0) =
      rows2.foldl (fun (sum : JSNum) exp => sum.add (g exp).num) (JSNum.fin 0 0) := by
  obtain ⟨m1, s1, h1, hl1⟩ := foldl_add_lowest g rows1 (.fin 0 0) ⟨0, 0, rfl, Or.inl rfl⟩
  obtain ⟨m2, s2, h2, hl2⟩ := foldl_add_lowest g rows2 (.fin 0 0) ⟨0, 0, rfl, Or.inl rfl⟩
  have hv1 := (foldl_add_column g rows1 (.fin 0 0) rfl).2
  have hv2 := (foldl_add_column g rows2 (.fin 0 0) rfl).2
  rw [h1] at hv1 ⊢
  rw [h2] at hv2 ⊢
  refine lowest_unique m1 s1 m2 s2 hl1 hl2 ?_
  rw [hv1, hv2, (hperm.map (fun e => (g e).toRat)).sum_eq]

theorem riskScoreAverage_perm (rows1 rows2 : List Expense) (hperm : rows1.Perm rows2) :
    riskScoreAverage rows1 = riskScoreAverage rows2 := by
  simp only [riskScoreAverage, foldl_add_scores, hperm.length_eq,
    (hperm.map (fun e => e.leakage_risk_score)).sum_eq]

/-! ## The category totals in another row order -/

/-- One step of the `forEach` for an ordinary label: the new total is the
result of an addition of two finite numbers. -/
theorem addToCategory_sum (t : Record) (e : Expense)
    (hinv : ∀ p ∈ t, ∃ x : JSNum, p.2 = .num x ∧ x.isFinite = true)
    (hc : inheritedMember e.category = none) :
    ∃ m s, addToCategory t e =
      setField t e.category (.num ((JSNum.fin m s).add e.total_amount_numeric.num)) := by
  have hproto := inherited_none_ne_proto _ hc
  have hzero : ∀ s : Record,
      setField (setField s e.category (.num (.fin 0 0))) e.category
        (plusNumber (readProperty (setField s e.category (.num (.fin 0 0))) e.category)
          e.total_amount_numeric.num) =
      setField s e.category (.num ((JSNum.fin 0 0).add e.total_amount_numeric.num)) := by
    intro s
    rw [readProperty_setField_same, setField_setField_same]
    rfl
  by_cases hmem : e.category ∈ t.map Prod.fst
  · have hread := readProperty_mem t e.category hmem
    obtain ⟨x, hx, hfin⟩ := hinv _ (getField_mem t e.category hmem)
    simp only at hx
    cases x with
    | nan => cases hfin
    | inf a => cases hfin
    | fin m s =>
      by_cases hm : m = 0
      · subst hm
        refine ⟨0, 0, ?_⟩
        have htr : truthy (readProperty t e.category) = false := by
          rw [hread, hx]; rfl
        simp only [addToCategory, htr, Bool.not_false, if_true, writeProperty, hproto,
          if_false]
        exact hzero t
      · refine ⟨m, s, ?_⟩
        have htr : truthy (JSValue.num (JSNum.fin m s)) = true := by
          simp [truthy, JSNum.truthy, hm]
        simp only [addToCategory, hread, hx, htr, Bool.not_true, Bool.false_eq_true, if_false,
          writeProperty, hproto, plusNumber]
  · have hread := readProperty_not_mem t e.category hmem hc
    refine ⟨0, 0, ?_⟩
    have htr : truthy (readProperty t e.category) = false := by
      rw [hread]; rfl
    simp only [addToCategory, htr, Bool.not_false, if_true, writeProperty, hproto, if_false]
    exact hzero t

/-- Every total of `categoryTotals`, for ordinary labels, is a fraction in
lowest decimal terms. -/
theorem categoryTotals_lowest (rows : List Expense) (t : Record)
    (hrows : ∀ e ∈ rows, inheritedMember e.category = none)
    (hinv : ∀ p ∈ t, ∃ m s, p.2 = .num (.fin m s) ∧ (s = 0 ∨ m % 10 ≠ 0)) :
    ∀ p ∈ rows.foldl addToCategory t,
      ∃ m s, p.2 = .num (.fin m s) ∧ (s = 0 ∨ m % 10 ≠ 0) := by
  induction rows generalizing t with
  | nil => exact hinv
  | cons e rest ih =>
    have hfin : ∀ p ∈ t, ∃ x : JSNum, p.2 = .num x ∧ x.isFinite = true := by
      intro p hp
      obtain ⟨m, s, hp2, _⟩ := hinv p hp
      exact ⟨_, hp2, rfl⟩
    obtain ⟨m, s, hstep⟩ := addToCategory_sum t e hfin (hrows e (List.mem_cons_self _ _))
    rw [List.foldl_cons]
    refine ih _ (fun r hr => hrows r (List.mem_cons_of_mem _ hr)) ?_
    intro p hp
    rw [hstep] at hp
    rcases mem_setField _ _ _ _ hp with h | h
    · exact hinv p h
    · obtain ⟨m1, s1, hsum, hlow⟩ :=
        add_fin_lowest m s e.total_amount_numeric.mant e.total_amount_numeric.scale
      refine ⟨m1, s1, ?_, hlow⟩
      rw [h]
      simp only [Dec.num, hsum]

/-- The total of a category, for ordinary labels, does not depend on the order
of the rows. -/
theorem categoryTotals_value_perm (rows1 rows2 : List Expense) (hperm : rows1.Perm rows2)
    (hrows : ∀ e ∈ rows1, inheritedMember e.category = none) (c : String) :
    getField (categoryTotals rows1) c = getField (categoryTotals rows2) c := by
  have hrows2 : ∀ e ∈ rows2, inheritedMember e.category = none :=
    fun e he => hrows e (hperm.mem_iff.2 he)
  obtain ⟨_, hkeys1, _, hsum1⟩ := categoryTotals_spec rows1 hrows
  obtain ⟨_, hkeys2, _, hsum2⟩ := categoryTotals_spec rows2 hrows2
  have hlow1 : ∀ p ∈ categoryTotals rows1,
      ∃ m s, p.2 = .num (.fin m s) ∧ (s = 0 ∨ m % 10 ≠ 0) :=
    categoryTotals_lowest rows1 [] hrows (by simp)
  have hlow2 : ∀ p ∈ categoryTotals rows2,
      ∃ m s, p.2 = .num (.fin m s) ∧ (s = 0 ∨ m % 10 ≠ 0) :=
    categoryTotals_lowest rows2 [] hrows2 (by simp)
  by_cases hc : ∃ e ∈ rows1, e.category = c
  · have hc2 : ∃ e ∈ rows2, e.category = c := by
      obtain ⟨e, he, hec⟩ := hc
      exact ⟨e, hperm.mem_iff.1 he, hec⟩
    obtain ⟨m1, s1, hv1, hl1⟩ := hlow1 _ (getField_mem _ c ((hkeys1 c).2 hc))
    obtain ⟨m2, s2, hv2, hl2⟩ := hlow2 _ (getField_mem _ c ((hkeys2 c).2 hc2))
    simp only at hv1 hv2
    have h1 := hsum1 c
    have h2 := hsum2 c
    rw [hv1] at h1 ⊢
    rw [hv2] at h2 ⊢
    simp only [amountOf] at h1 h2
    rw [lowest_unique m1 s1 m2 s2 hl1 hl2 ?_]
    rw [h1, h2]
    exact ((hperm.filter _).map _).sum_eq
  · have hc2 : ¬ ∃ e ∈ rows2, e.category = c := by
      rintro ⟨e, he, hec⟩
      exact hc ⟨e, hperm.mem_iff.2 he, hec⟩
    rw [getField_of_not_mem _ c (fun h => hc ((hkeys1 c).1 h)),
      getField_of_not_mem _ c (fun h => hc2 ((hkeys2 c).1 h))]

theorem mem_of_keys_nodup (t : Record) (hnd : (t.map Prod.fst).Nodup) (p : String × JSValue) :
    p ∈ t ↔ p.1 ∈ t.map Prod.fst ∧ p.2 = getField t p.1 := by
  constructor
  · intro hp
    exact ⟨List.mem_map_of_mem _ hp, (getField_of_mem_nodup t hnd p.1 p.2 hp).symm⟩
  · rintro ⟨hk, hv⟩
    have := getField_mem t p.1 hk
    rw [← hv] at this
    exact this

/-- The object `categoryTotals`, for ordinary labels, has the same entries in
whatever order the rows come. -/
theorem categoryTotals_perm (rows1 rows2 : List Expense) (hperm : rows1.Perm rows2)
    (hrows : ∀ e ∈ rows1, inheritedMember e.category = none) :
    (categoryTotals rows1).Perm (categoryTotals rows2) := by
  have hrows2 : ∀ e ∈ rows2, inheritedMember e.category = none :=
    fun e he => hrows e (hperm.mem_iff.2 he)
  obtain ⟨_, hkeys1, hnd1, _⟩ := categoryTotals_spec rows1 hrows
  obtain ⟨_, hkeys2, hnd2, _⟩ := categoryTotals_spec rows2 hrows2
  refine (List.perm_ext_iff_of_nodup (List.Nodup.of_map _ hnd1)
    (List.Nodup.of_map _ hnd2)).2 (fun p => ?_)
  rw [mem_of_keys_nodup _ hnd1, mem_of_keys_nodup _ hnd2, hkeys1, hkeys2,
    categoryTotals_value_perm rows1 rows2 hperm hrows]
  constructor
  · rintro ⟨⟨e, he, hec⟩, hv⟩
    exact ⟨⟨e, hperm.mem_iff.1 he, hec⟩, hv⟩
  · rintro ⟨⟨e, he, hec⟩, hv⟩
    exact ⟨⟨e, hperm.mem_iff.2 he, hec⟩, hv⟩

/-! ## The dashboard in another row order -/

theorem sortedCategoryTotals_descending (rows : List Expense)
    (hrows : ∀ e ∈ rows, inheritedMember e.category = none) :
    (sortedCategoryTotals rows).Pairwise (fun p q => amountOf q.2 ≤ amountOf p.2) := by
  obtain ⟨hinv, _, _, _⟩ := categoryTotals_spec rows hrows
  refine insertionSort_descending _ (fun p hp => ?_)
  exact hinv p ((objectEntries_perm _).mem_iff.1 hp)

/-- When the summed amounts of the categories are pairwise distinct the sorted
entries are in strictly descending order. -/
theorem sortedCategoryTotals_strict (rows : List Expense)
    (hrows : ∀ e ∈ rows, inheritedMember e.category = none)
    (hdistinct : ∀ e1 ∈ rows, ∀ e2 ∈ rows, e1.category ≠ e2.category →
      ((rows.filter (fun e => decide (e.category = e1.category))).map
          (fun e => e.total_amount_numeric.toRat)).sum ≠
        ((rows.filter (fun e => decide (e.category = e2.category))).map
          (fun e => e.total_amount_numeric.toRat)).sum) :
    (sortedCategoryTotals rows).Pairwise (fun p q => amountOf q.2 < amountOf p.2) := by
  obtain ⟨_, hkeys, hnd, hsum⟩ := categoryTotals_spec rows hrows
  have hperm := sortedCategoryTotals_perm rows
  have hndkeys : ((sortedCategoryTotals rows).map Prod.fst).Nodup :=
    (hperm.map Prod.fst).nodup_iff.2 hnd
  have hfacts : ∀ p ∈ sortedCategoryTotals rows,
      (∃ e ∈ rows, e.category = p.1) ∧
      amountOf p.2 = ((rows.filter (fun e => decide (e.category = p.1))).map
        (fun e => e.total_amount_numeric.toRat)).sum := by
    intro p hp
    have hp1 : p ∈ categoryTotals rows := hperm.mem_iff.1 hp
    refine ⟨(hkeys p.1).1 (List.mem_map_of_mem _ hp1), ?_⟩
    rw [← hsum p.1, getField_of_mem_nodup _ hnd p.1 p.2 hp1]
  have hkeyne : (sortedCategoryTotals rows).Pairwise (fun p q => p.1 ≠ q.1) :=
    List.pairwise_map.1 hndkeys
  have hne : (sortedCategoryTotals rows).Pairwise
      (fun p q => amountOf p.2 ≠ amountOf q.2) := by
    refine hkeyne.imp_of_mem ?_
    intro p q hp hq hpq
    obtain ⟨⟨e1, he1, hc1⟩, ha1⟩ := hfacts p hp
    obtain ⟨⟨e2, he2, hc2⟩, ha2⟩ := hfacts q hq
    rw [ha1, ha2, ← hc1, ← hc2]
    exact hdistinct e1 he1 e2 he2 (by rw [hc1, hc2]; exact hpq)
  refine ((sortedCategoryTotals_descending rows hrows).and hne).imp ?_
  rintro p q ⟨hle, hneq⟩
  exact lt_of_le_of_ne hle (Ne.symm hneq)

/-- The list `topLeakageCategories`, for ordinary labels with pairwise distinct
summed amounts, does not depend on the order of the rows. -/
theorem topLeakageCategories_perm (rows1 rows2 : List Expense) (hperm : rows1.Perm rows2)
    (hrows : ∀ e ∈ rows1, inheritedMember e.category = none)
    (hdistinct : ∀ e1 ∈ rows1, ∀ e2 ∈ rows1, e1.category ≠ e2.category →
      ((rows1.filter (fun e => decide (e.category = e1.category))).map
          (fun e => e.total_amount_numeric.toRat)).sum ≠
        ((rows1.filter (fun e => decide (e.category = e2.category))).map
          (fun e => e.total_amount_numeric.toRat)).sum) :
    topLeakageCategories rows1 = topLeakageCategories rows2 := by
  have hrows2 : ∀ e ∈ rows2, inheritedMember e.category = none :=
    fun e he => hrows e (hperm.mem_iff.2 he)
  have hdistinct2 : ∀ e1 ∈ rows2, ∀ e2 ∈ rows2, e1.category ≠ e2.category →
      ((rows2.filter (fun e => decide (e.category = e1.category))).map
          (fun e => e.total_amount_numeric.toRat)).sum ≠
        ((rows2.filter (fun e => decide (e.category = e2.category))).map
          (fun e => e.total_amount_numeric.toRat)).sum := by
    intro e1 he1 e2 he2 hne
    rw [← ((hperm.filter _).map _).sum_eq, ← ((hperm.filter _).map _).sum_eq]
    exact hdistinct e1 (hperm.mem_iff.2 he1) e2 (hperm.mem_iff.2 he2) hne
  have hp : (sortedCategoryTotals rows1).Perm (sortedCategoryTotals rows2) :=
    ((sortedCategoryTotals_perm rows1).trans (categoryTotals_perm rows1 rows2 hperm hrows)).trans
      (sortedCategoryTotals_perm rows2).symm
  haveI hanti : IsAntisymm (String × JSValue) (fun p q => amountOf q.2 < amountOf p.2) :=
    ⟨fun p q h1 h2 => absurd h1 (not_lt_of_lt h2)⟩
  have heq : sortedCategoryTotals rows1 = sortedCategoryTotals rows2 :=
    List.eq_of_perm_of_sorted hp (sortedCategoryTotals_strict rows1 hrows hdistinct)
      (sortedCategoryTotals_strict rows2 hrows2 hdistinct2)
  rw [topLeakageCategories, topLeakageCategories, heq]

theorem selectRows_perm (store1 store2 : List Expense) (filters : List Filter)
    (hperm : store1.Perm store2) :
    (selectRows store1 filters).Perm (selectRows store2 filters) :=
  hperm.filter _

/-- C30. In whatever order the table returns the rows, the dashboard has the
same `totalExpensesYTD`, `totalGSTClaimed`, `totalOtherTaxes` and
`riskScoreAverage`.  When no category label of the caller's high-risk rows of
the year is the name of a member an object inherits, every category has the
same summed amount in `categoryTotals`, and when moreover the summed amounts
of the categories are pairwise distinct the whole dashboard, with
`topLeakageCategories`, is the same.  For two high-risk rows of the category
"constructor", with the amounts 100 and 200, the total of the category depends
on the order: the amounts are appended to the text of the inherited function
`Object` in the order of the rows. -/
theorem dashboard_row_order :
    (∀ (store1 store2 : List Expense) (userId : String) (currentYear : Nat),
      store1.Perm store2 →
      (dashboard store1 userId currentYear).totalExpensesYTD =
        (dashboard store2 userId currentYear).totalExpensesYTD ∧
      (dashboard store1 userId currentYear).totalGSTClaimed =
        (dashboard store2 userId currentYear).totalGSTClaimed ∧
      (dashboard store1 userId currentYear).totalOtherTaxes =
        (dashboard store2 userId currentYear).totalOtherTaxes ∧
      (dashboard store1 userId currentYear).riskScoreAverage =
        (dashboard store2 userId currentYear).riskScoreAverage ∧
      ((∀ e ∈ leakageRows store1 userId currentYear, inheritedMember e.category = none) →
        (∀ c, getField (categoryTotals (leakageRows store1 userId currentYear)) c =
          getField (categoryTotals (leakageRows store2 userId currentYear)) c) ∧
        ((∀ e1 ∈ leakageRows store1 userId currentYear,
            ∀ e2 ∈ leakageRows store1 userId currentYear, e1.category ≠ e2.category →
            (((leakageRows store1 userId currentYear).filter
                (fun e => decide (e.category = e1.category))).map
              (fun e => e.total_amount_numeric.toRat)).sum ≠
            (((leakageRows store1 userId currentYear).filter
                (fun e => decide (e.category = e2.category))).map
              (fun e => e.total_amount_numeric.toRat)).sum) →
          dashboard store1 userId currentYear = dashboard store2 userId currentYear))) ∧
    dashboard [expenseOfA, expenseOfB, lastYearOfA, secondOfA, categoryTen] "user-a" 2024 =
      dashboard [categoryTen, secondOfA, lastYearOfA, expenseOfB, expenseOfA] "user-a" 2024 ∧
    (dashboard [constructorExpense, constructorSecond] "user-a" 2024).topLeakageCategories =
      [("constructor", .str "function Object() \x7b [native code] \x7d100200")] ∧
    (dashboard [constructorSecond, constructorExpense] "user-a" 2024).topLeakageCategories =
      [("constructor", .str "function Object() \x7b [native code] \x7d200100")] ∧
    getField (categoryTotals (leakageRows [constructorExpense, constructorSecond] "user-a"
        2024)) "constructor" =
      .str "function Object() \x7b [native code] \x7d100200" ∧
    getField (categoryTotals (leakageRows [constructorSecond, constructorExpense] "user-a"
        2024)) "constructor" =
      .str "function Object() \x7b [native code] \x7d200100" := by
  refine ⟨fun store1 store2 userId currentYear hperm => ?_, by decide, by decide, by decide,
    by decide, by decide⟩
  have hytd : (ytdRows store1 userId currentYear).Perm (ytdRows store2 userId currentYear) :=
    selectRows_perm _ _ _ hperm
  have hleak : (leakageRows store1 userId currentYear).Perm
      (leakageRows store2 userId currentYear) := selectRows_perm _ _ _ hperm
  have h1 := foldl_add_perm (fun e => e.total_amount_numeric) _ _ hytd
  have h2 := foldl_add_perm (fun e => e.gst_amount_numeric) _ _ hytd
  have h3 := foldl_add_perm (fun e => e.other_tax_amount_numeric) _ _ hytd
  have h4 := riskScoreAverage_perm _ _ hytd
  refine ⟨h1, h2, h3, h4, fun hrows => ⟨fun c => ?_, fun hdistinct => ?_⟩⟩
  · exact categoryTotals_value_perm _ _ hleak hrows c
  · have h5 := topLeakageCategories_perm _ _ hleak hrows hdistinct
    simp only [dashboard] at h1 h2 h3 h4 ⊢
    rw [h1, h2, h3, h4, h5]

/-! ## Printing a number and reading it back -/

theorem stripTrailingZeros_spec (ds : List Char) :
    ∃ z, ds = stripTrailingZeros ds ++ List.replicate z '0' := by
  have hsplit := List.takeWhile_append_dropWhile (· == '0') ds.reverse
  obtain ⟨z, hz⟩ : ∃ z, ds.reverse.takeWhile (· == '0') = List.replicate z '0' := by
    refine ⟨(ds.reverse.takeWhile (· == '0')).length, ?_⟩
    rw [List.eq_replicate_iff]
    refine ⟨rfl, fun c hc => ?_⟩
    have := List.mem_takeWhile_imp hc
    simpa using this
  have hrev := congrArg List.reverse hsplit
  rw [List.reverse_append, List.reverse_reverse, hz, List.reverse_replicate] at hrev
  exact ⟨z, hrev.symm⟩

theorem stripTrailingZeros_mem (ds : List Char) (c : Char)
    (hc : c ∈ stripTrailingZeros ds) : c ∈ ds := by
  obtain ⟨z, hz⟩ := stripTrailingZeros_spec ds
  rw [hz]
  exact List.mem_append_left _ hc

theorem digitsToNat_append_zeros (l : List Char) (z : Nat) :
    digitsToNat 10 (l ++ List.replicate z '0') = digitsToNat 10 l * 10 ^ z := by
  induction z with
  | zero => simp
  | succ z ih =>
    have hz : hexVal '0' = some 0 := by decide
    rw [List.replicate_succ', ← List.append_assoc, digitsToNat_append_singleton, ih, hz]
    simp only [Option.getD_some]
    rw [pow_succ]
    ring

theorem digitsToNat_nil : digitsToNat 10 [] = 0 := rfl

/-- The digits of a positive number without the zeros at the end: there is a
digit left, and the number is what they write times a power of ten. -/
theorem significantDigits_spec (n : Nat) (hn : n ≠ 0) :
    ∃ z, Nat.toDigits 10 n = stripTrailingZeros (Nat.toDigits 10 n) ++ List.replicate z '0' ∧
      (Nat.toDigits 10 n).length = (stripTrailingZeros (Nat.toDigits 10 n)).length + z ∧
      stripTrailingZeros (Nat.toDigits 10 n) ≠ [] ∧
      (∀ c ∈ stripTrailingZeros (Nat.toDigits 10 n), isDigit c = true) ∧
      n = digitsToNat 10 (stripTrailingZeros (Nat.toDigits 10 n)) * 10 ^ z := by
  obtain ⟨_, hall, hval⟩ := toDigits_spec n
  obtain ⟨z, hz⟩ := stripTrailingZeros_spec (Nat.toDigits 10 n)
  have hvalue : n = digitsToNat 10 (stripTrailingZeros (Nat.toDigits 10 n)) * 10 ^ z := by
    rw [← digitsToNat_append_zeros, ← hz, hval]
  refine ⟨z, hz, ?_, ?_, fun c hc => hall c (stripTrailingZeros_mem _ c hc), hvalue⟩
  · conv_lhs => rw [hz]
    rw [List.length_append, List.length_replicate]
  · intro hnil
    rw [hnil, digitsToNat_nil, Nat.zero_mul] at hvalue
    exact hn hvalue

theorem toRat_sci (m : Int) (e : Int) :
    (JSNum.sci m e).toRat = (m : ℚ) * (10 : ℚ) ^ e ∧ (JSNum.sci m e).isFinite = true := by
  unfold JSNum.sci
  split_ifs with h
  · obtain ⟨k, rfl⟩ := Int.eq_ofNat_of_zero_le h
    simp [JSNum.toRat, JSNum.isFinite]
  · obtain ⟨k, hk⟩ : ∃ k : Nat, e = -(k : Int) := ⟨(-e).toNat, by omega⟩
    subst hk
    simp only [neg_neg, Int.toNat_ofNat]
    refine ⟨?_, rfl⟩
    rw [toRat_dec, zpow_neg, zpow_natCast]
    rfl

theorem sci_lowest (m : Int) (e : Int) :
    ∃ a k, JSNum.sci m e = .fin a k ∧ (k = 0 ∨ a % 10 ≠ 0) := by
  unfold JSNum.sci
  split_ifs with h
  · exact ⟨_, _, rfl, Or.inl rfl⟩
  · exact ⟨_, _, rfl, normDec_lowest _ _⟩

theorem e_not_digit : isDigit 'e' = false := by decide

theorem exponentOf_printed (e : Int) :
    exponentOf ('e' :: (if e < 0 then '-' else '+') :: Nat.toDigits 10 e.natAbs) = e := by
  obtain ⟨hne, hall, hval⟩ := toDigits_spec e.natAbs
  have ht : (Nat.toDigits 10 e.natAbs).takeWhile isDigit = Nat.toDigits 10 e.natAbs :=
    List.takeWhile_eq_self_iff.2 hall
  by_cases h : e < 0
  · simp only [exponentOf, h, if_true, true_or, takeSign, ht, hne, if_false, hval]
    omega
  · simp only [exponentOf, h, if_false, true_or, if_true, takeSign, ht, hne, hval,
      Bool.false_eq_true]
    omega

/-- Reading digits that end the text or are followed by an exponent part. -/
theorem strDecimalLiteral_digits_exp (neg : Bool) (a r : List Char)
    (ha : ∀ c ∈ a, isDigit c = true) (hne : a ≠ [])
    (hr : r = [] ∨ ∃ es, r = 'e' :: es) :
    strDecimalLiteral neg (a ++ r) =
      JSNum.sci (if neg then -(digitsToNat 10 a : Int) else (digitsToNat 10 a : Int))
        (exponentOf r) := by
  have ht : (a ++ r).takeWhile isDigit = a := by
    rcases hr with rfl | ⟨es, rfl⟩
    · simpa using List.takeWhile_eq_self_iff.2 ha
    · rw [List.takeWhile_append_of_pos ha]
      simp [List.takeWhile, e_not_digit]
  have hd : (a ++ r).dropWhile isDigit = r := by
    rcases hr with rfl | ⟨es, rfl⟩
    · simpa using List.dropWhile_eq_nil_iff.2 ha
    · rw [List.dropWhile_append_of_pos ha]
      simp [List.dropWhile, e_not_digit]
  rcases hr with rfl | ⟨es, rfl⟩
  · simp only [strDecimalLiteral, ht, hd]
    simp [hne]
  · simp only [strDecimalLiteral, ht, hd]
    simp [hne]

/-- Reading digits, a dot and digits that end the text or are followed by an
exponent part. -/
theorem strDecimalLiteral_dot_exp (neg : Bool) (a b r : List Char)
    (ha : ∀ c ∈ a, isDigit c = true) (hb : ∀ c ∈ b, isDigit c = true) (hne : a ≠ [])
    (hr : r = [] ∨ ∃ es, r = 'e' :: es) :
    strDecimalLiteral neg (a ++ '.' :: (b ++ r)) =
      JSNum.sci (if neg then -(digitsToNat 10 (a ++ b) : Int) else (digitsToNat 10 (a ++ b) : Int))
        (exponentOf r - (b.length : Int)) := by
  have hd := dropWhile_digits_dot a (b ++ r) ha
  have ht := takeWhile_digits_dot a (b ++ r) ha
  have hft : (b ++ r).takeWhile isDigit = b := by
    rcases hr with rfl | ⟨es, rfl⟩
    · simpa using List.takeWhile_eq_self_iff.2 hb
    · rw [List.takeWhile_append_of_pos hb]
      simp [List.takeWhile, e_not_digit]
  have hfd : (b ++ r).dropWhile isDigit = r := by
    rcases hr with rfl | ⟨es, rfl⟩
    · simpa using List.dropWhile_eq_nil_iff.2 hb
    · rw [List.dropWhile_append_of_pos hb]
      simp [List.dropWhile, e_not_digit]
  simp only [strDecimalLiteral, hd, ht, hft, hfd]
  simp [hne]

/-- `parseFloat` on a text that starts with a digit, after an optional minus
sign. -/
theorem parseFloatStr_signed_digit (neg : Bool) (c : Char) (t : List Char)
    (hc : isDigit c = true) :
    parseFloatStr ((if neg then ['-'] else []) ++ c :: t) = strDecimalLiteral neg (c :: t) := by
  obtain ⟨hws, hm, hp, hI, _, _, _⟩ := kept_facts c (kept_mem c (Or.inl hc))
  have hInf : "Infinity".toList.isPrefixOf (c :: t) = false := by
    have : "Infinity".toList = 'I' :: "nfinity".toList := by decide
    rw [this]
    simp [List.isPrefixOf, Ne.symm hI]
  cases neg with
  | true =>
    have h1 : List.dropWhile isWhiteSpace (['-'] ++ c :: t) = '-' :: c :: t := by
      have : isWhiteSpace '-' = false := by decide
      simp [List.dropWhile, this]
    have h2 : takeSign ('-' :: c :: t) = (true, c :: t) := rfl
    simp only [if_true, parseFloatStr, h1, h2, hInf]
    simp
  | false =>
    have h1 : List.dropWhile isWhiteSpace (c :: t) = c :: t := by
      simp [List.dropWhile, hws]
    have h2 : takeSign (c :: t) = (false, c :: t) := by
      unfold takeSign
      split
      · rename_i heq; simp at heq; exact absurd heq.1 hm
      · rename_i heq; simp at heq; exact absurd heq.1 hp
      · rfl
    simp only [Bool.false_eq_true, if_false, List.nil_append, parseFloatStr, h1, h2, hInf]

theorem parseFloatStr_signed_digits (neg : Bool) (a rest : List Char)
    (ha : ∀ c ∈ a, isDigit c = true) (hne : a ≠ []) :
    parseFloatStr ((if neg then ['-'] else []) ++ (a ++ rest)) =
      strDecimalLiteral neg (a ++ rest) := by
  cases a with
  | nil => exact absurd rfl hne
  | cons c t => exact parseFloatStr_signed_digit neg c (t ++ rest) (ha c (by simp))

theorem strDecimalLiteral_digits_end (neg : Bool) (a : List Char)
    (ha : ∀ c ∈ a, isDigit c = true) (hne : a ≠ []) :
    strDecimalLiteral neg a =
      JSNum.sci (if neg then -(digitsToNat 10 a : Int) else (digitsToNat 10 a : Int)) 0 := by
  have := strDecimalLiteral_digits_exp neg a [] ha hne (Or.inl rfl)
  simpa [exponentOf] using this

theorem sci_shift (y : Int) (j : Nat) : JSNum.sci (y * 10 ^ j) 0 = JSNum.sci y (j : Int) := by
  simp [JSNum.sci]

theorem signed_mul (neg : Bool) (d j : Nat) :
    (if neg then -((d * 10 ^ j : Nat) : Int) else ((d * 10 ^ j : Nat) : Int)) =
      (if neg then -(d : Int) else (d : Int)) * 10 ^ j := by
  cases neg <;> simp

/-- Reading back the text `Number::toString` prints for the significant digits
`s` of a number with `z` zeros after them and the decimal point `scale` places
from the right. -/
theorem parseFloatStr_printed (neg : Bool) (s : List Char) (z scale : Nat)
    (hs : ∀ c ∈ s, isDigit c = true) (hne : s ≠ []) :
    parseFloatStr ((if neg then ['-'] else []) ++
      (if (s.length : Int) ≤ ((s.length + z : Nat) : Int) - scale ∧
          ((s.length + z : Nat) : Int) - scale ≤ 21 then
        s ++ List.replicate ((((s.length + z : Nat) : Int) - scale).toNat - s.length) '0'
      else if 0 < ((s.length + z : Nat) : Int) - scale ∧
          ((s.length + z : Nat) : Int) - scale ≤ 21 then
        s.take (((s.length + z : Nat) : Int) - scale).toNat ++
          '.' :: s.drop (((s.length + z : Nat) : Int) - scale).toNat
      else if -6 < ((s.length + z : Nat) : Int) - scale ∧
          ((s.length + z : Nat) : Int) - scale ≤ 0 then
        '0' :: '.' ::
          List.replicate (-(((s.length + z : Nat) : Int) - scale)).toNat '0' ++ s
      else if s.length = 1 then
        s ++ 'e' ::
          (if ((s.length + z : Nat) : Int) - scale - 1 < 0 then '-' else '+') ::
            Nat.toDigits 10 (((s.length + z : Nat) : Int) - scale - 1).natAbs
      else
        s.take 1 ++ '.' :: s.drop 1 ++ 'e' ::
          (if ((s.length + z : Nat) : Int) - scale - 1 < 0 then '-' else '+') ::
            Nat.toDigits 10 (((s.length + z : Nat) : Int) - scale - 1).natAbs)) =
      JSNum.sci (if neg then -(digitsToNat 10 s : Int) else (digitsToNat 10 s : Int))
        ((z : Int) - scale) := by
  have hlen : 0 < s.length := List.length_pos.2 hne
  generalize hpre : (if neg then ['-'] else []) = pre
  generalize hes : ((if ((s.length + z : Nat) : Int) - scale - 1 < 0 then '-' else '+') ::
    Nat.toDigits 10 (((s.length + z : Nat) : Int) - scale - 1).natAbs) = es
  generalize hY : (if neg then -(digitsToNat 10 s : Int) else (digitsToNat 10 s : Int)) = y
  split_ifs with hA hB hC hD <;> subst hpre <;> subst hes <;> subst hY
  · -- an integer, printed with its zeros
    obtain ⟨j, hj⟩ : ∃ j : Nat, (z : Int) - scale = j := ⟨((z : Int) - scale).toNat, by omega⟩
    have hcount : (((s.length + z : Nat) : Int) - scale).toNat - s.length = j := by omega
    rw [hcount, parseFloatStr_signed_digits neg s _ hs hne,
      strDecimalLiteral_digits_end neg _ ?_ (by simp [hne]), digitsToNat_append_zeros,
      signed_mul, sci_shift, hj]
    intro c hc
    rcases List.mem_append.1 hc with h | h
    · exact hs c h
    · rw [List.eq_of_mem_replicate h]; decide
  · -- digits on both sides of the point
    obtain ⟨p, hp⟩ : ∃ p : Nat, ((s.length + z : Nat) : Int) - scale = p :=
      ⟨(((s.length + z : Nat) : Int) - scale).toNat, by omega⟩
    rw [hp, Int.toNat_ofNat]
    have hp1 : 0 < p := by omega
    have hp2 : p < s.length := by omega
    have htake : s.take p ≠ [] := by
      intro h
      have := congrArg List.length h
      simp only [List.length_take, List.length_nil] at this
      omega
    rw [parseFloatStr_signed_digits neg _ _ (fun c hc => hs c (List.mem_of_mem_take hc)) htake,
      strDecimalLiteral_signed neg _ _ (fun c hc => hs c (List.mem_of_mem_take hc))
        (fun c hc => hs c (List.mem_of_mem_drop hc)) htake,
      List.take_append_drop, List.length_drop]
    congr 1
    omega
  · -- a fraction below one, printed with its zeros after the point
    obtain ⟨j, hj⟩ : ∃ j : Nat, -(((s.length + z : Nat) : Int) - scale) = j :=
      ⟨(-(((s.length + z : Nat) : Int) - scale)).toNat, by omega⟩
    rw [hj, Int.toNat_ofNat]
    have hzero : ∀ c ∈ ['0'], isDigit c = true := by decide
    have hb : ∀ c ∈ List.replicate j '0' ++ s, isDigit c = true := by
      intro c hc
      rcases List.mem_append.1 hc with h | h
      · rw [List.eq_of_mem_replicate h]; decide
      · exact hs c h
    have hbody : '0' :: '.' :: List.replicate j '0' ++ s =
        ['0'] ++ '.' :: (List.replicate j '0' ++ s) := rfl
    have hdigits : digitsToNat 10 (['0'] ++ (List.replicate j '0' ++ s)) = digitsToNat 10 s := by
      have : ['0'] ++ (List.replicate j '0' ++ s) = List.replicate (j + 1) '0' ++ s := by
        rw [List.replicate_succ]
        rfl
      rw [this, digitsToNat_replicate_zero]
    have hparse := parseFloatStr_signed_digits neg ['0'] ('.' :: (List.replicate j '0' ++ s))
      hzero (by simp)
    rw [hbody, hparse, strDecimalLiteral_signed neg _ _ hzero hb (by simp), hdigits,
      List.length_append, List.length_replicate]
    congr 1
    push_cast
    omega
  · -- one digit and an exponent
    rw [parseFloatStr_signed_digits neg s _ hs hne,
      strDecimalLiteral_digits_exp neg s _ hs hne (Or.inr ⟨_, rfl⟩), exponentOf_printed]
    congr 1
    push_cast
    omega
  · -- a digit, a point, digits and an exponent
    have htake : s.take 1 ≠ [] := by
      intro h
      have := congrArg List.length h
      simp only [List.length_take, List.length_nil] at this
      omega
    have hbody : ∀ es : List Char,
        s.take 1 ++ '.' :: s.drop 1 ++ 'e' :: es =
          s.take 1 ++ '.' :: (s.drop 1 ++ 'e' :: es) := by
      intro es
      simp
    rw [hbody, parseFloatStr_signed_digits neg _ _ (fun c hc => hs c (List.mem_of_mem_take hc))
        htake,
      strDecimalLiteral_dot_exp neg _ _ _ (fun c hc => hs c (List.mem_of_mem_take hc))
        (fun c hc => hs c (List.mem_of_mem_drop hc)) htake (Or.inr ⟨_, rfl⟩),
      exponentOf_printed, List.take_append_drop, List.length_drop]
    congr 1
    push_cast
    omega

/-- What `parseFloat` reads from the text `Number::toString` prints for a
finite number is a number of the same value. -/
theorem parseFloatStr_numToString (m : Int) (scale : Nat) :
    ∃ (y : Int) (e : Int),
      parseFloatStr (numToString (.fin m scale)).toList = JSNum.sci y e ∧
        (y : ℚ) * (10 : ℚ) ^ e = (m : ℚ) / (10 : ℚ) ^ scale := by
  by_cases hm : m = 0
  · subst hm
    refine ⟨0, 0, ?_, by simp⟩
    have : numToString (.fin 0 scale) = "0" := by simp [numToString]
    rw [this]
    decide
  · obtain ⟨z, hall, hlen, hsne, hsdig, hval⟩ :=
      significantDigits_spec m.natAbs (by omega)
    have key := parseFloatStr_printed (decide (m < 0))
      (stripTrailingZeros (Nat.toDigits 10 m.natAbs)) z scale hsdig hsne
    rw [← hlen] at key
    refine ⟨if decide (m < 0) = true then
        -(digitsToNat 10 (stripTrailingZeros (Nat.toDigits 10 m.natAbs)) : Int)
      else (digitsToNat 10 (stripTrailingZeros (Nat.toDigits 10 m.natAbs)) : Int),
      (z : Int) - scale, ?_, ?_⟩
    · rw [← key]
      congr 1
      simp only [numToString, hm, if_false, toList_append, decide_eq_true_eq]
      have hsign : (if m < 0 then "-" else "").toList = if m < 0 then ['-'] else [] := by
        split_ifs <;> rfl
      rw [hsign]
      rfl
    · have hmq : (m : ℚ) =
          ((if decide (m < 0) = true then
              -(digitsToNat 10 (stripTrailingZeros (Nat.toDigits 10 m.natAbs)) : Int)
            else (digitsToNat 10 (stripTrailingZeros (Nat.toDigits 10 m.natAbs)) : Int) : Int) :
            ℚ) * (10 : ℚ) ^ z := by
        have hint : m =
            (if decide (m < 0) = true then
              -(digitsToNat 10 (stripTrailingZeros (Nat.toDigits 10 m.natAbs)) : Int)
            else (digitsToNat 10 (stripTrailingZeros (Nat.toDigits 10 m.natAbs)) : Int)) *
              10 ^ z := by
          have hcast : (m.natAbs : Int) =
              (digitsToNat 10 (stripTrailingZeros (Nat.toDigits 10 m.natAbs)) : Int) * 10 ^ z := by
            exact_mod_cast hval
          by_cases hneg : m < 0
          · simp only [hneg, decide_True, if_true]
            rw [neg_mul, ← hcast]
            omega
          · simp only [hneg, decide_False, Bool.false_eq_true, if_false]
            rw [← hcast]
            omega
        exact_mod_cast hint
      rw [zpow_sub₀ (by norm_num : (10 : ℚ) ≠ 0), zpow_natCast, zpow_natCast]
      conv_rhs => rw [hmq]
      ring

/-- Reading back a printed number in lowest decimal terms gives that number. -/
theorem parseFloatStr_numToString_lowest (m : Int) (scale : Nat)
    (hlow : scale = 0 ∨ m % 10 ≠ 0) :
    parseFloatStr (numToString (.fin m scale)).toList = .fin m scale := by
  obtain ⟨y, e, hparse, hval⟩ := parseFloatStr_numToString m scale
  obtain ⟨a, k, hfin, hlow1⟩ := sci_lowest y e
  rw [hparse, hfin]
  refine lowest_unique a k m scale hlow1 hlow ?_
  rw [← hfin, (toRat_sci y e).1, hval]
  rfl

/-! ## The risk badge -/

theorem ge_fin_iff (a : Int) (j : Nat) (b : Int) (k : Nat) :
    (JSNum.fin a j).ge (.fin b k) = true ↔ (JSNum.fin b k).toRat ≤ (JSNum.fin a j).toRat := by
  have h := lt_fin_iff a j b k
  simp only [JSNum.ge, JSNum.isNaN, Bool.or_self, Bool.not_false, Bool.true_and,
    Bool.not_eq_true', ← not_lt]
  rw [← h]
  simp

/-- The badge of a finite number goes by the value of the number. -/
theorem DataBadge_risk_fin (m : Int) (scale : Nat) :
    DataBadge (.num (.fin m scale)) "risk" =
      .ok (if 7 ≤ (JSNum.fin m scale).toRat then "bg-red-100 text-red-800 font-bold"
        else if 4 ≤ (JSNum.fin m scale).toRat then "bg-yellow-100 text-yellow-800"
        else "bg-green-100 text-green-800") := by
  obtain ⟨y, e, hparse, hval⟩ := parseFloatStr_numToString m scale
  obtain ⟨a, k, hfin, _⟩ := sci_lowest y e
  have hrat : (JSNum.fin a k).toRat = (JSNum.fin m scale).toRat := by
    rw [← hfin, (toRat_sci y e).1, hval]
    rfl
  have h7 : (JSNum.fin 7 0).toRat = 7 := by simp [JSNum.toRat]
  have h4 : (JSNum.fin 4 0).toRat = 4 := by simp [JSNum.toRat]
  have hge7 := ge_fin_iff a k 7 0
  have hge4 := ge_fin_iff a k 4 0
  rw [hrat, h7] at hge7
  rw [hrat, h4] at hge4
  simp only [DataBadge, if_true, parseFloat, toStr, Except.map, hparse, hfin, bind, Except.bind,
    pure, Except.pure]
  by_cases c7 : 7 ≤ (JSNum.fin m scale).toRat
  · rw [if_pos (hge7.2 c7), if_pos c7]
  · have n7 : ¬ (JSNum.fin a k).ge (.fin 7 0) = true := fun h => c7 (hge7.1 h)
    rw [if_neg n7, if_neg c7]
    by_cases c4 : 4 ≤ (JSNum.fin m scale).toRat
    · rw [if_pos (hge4.2 c4), if_pos c4]
    · have n4 : ¬ (JSNum.fin a k).ge (.fin 4 0) = true := fun h => c4 (hge4.1 h)
      rw [if_neg n4, if_neg c4]

/-- C25. For every number the risk badge uses the red style exactly when the
number is at least 7, the yellow style exactly when it is at least 4 and less
than 7, and the green style otherwise (less than 4, or `NaN`).  Each integer
score from 0 to 10 gets the one style of its band, and a row's badge is red
exactly when the row passes the filter `leakage_risk_score >= 7` of the flagged
list. -/
theorem DataBadge_risk_bands (v : JSNum) :
    (DataBadge (.num v) "risk" = .ok "bg-red-100 text-red-800 font-bold" ↔
      v = .inf false ∨ (v.isFinite = true ∧ 7 ≤ v.toRat)) ∧
    (DataBadge (.num v) "risk" = .ok "bg-yellow-100 text-yellow-800" ↔
      v.isFinite = true ∧ 4 ≤ v.toRat ∧ v.toRat < 7) ∧
    (DataBadge (.num v) "risk" = .ok "bg-green-100 text-green-800" ↔
      v = .nan ∨ v = .inf true ∨ (v.isFinite = true ∧ v.toRat < 4)) ∧
    (∀ n : Nat, n ≤ 10 →
      DataBadge (.num (.fin n 0)) "risk" =
        .ok (if 7 ≤ n then "bg-red-100 text-red-800 font-bold"
          else if 4 ≤ n then "bg-yellow-100 text-yellow-800"
          else "bg-green-100 text-green-800")) ∧
    (∀ e : Expense,
      DataBadge (.num (.fin e.leakage_risk_score 0)) "risk" =
          .ok "bg-red-100 text-red-800 font-bold" ↔
        e ∈ listFlagged [e] e.user_id) := by
  have hry : ("bg-red-100 text-red-800 font-bold" : String) ≠ "bg-yellow-100 text-yellow-800" := by
    decide
  have hrg : ("bg-red-100 text-red-800 font-bold" : String) ≠ "bg-green-100 text-green-800" := by
    decide
  have hyg : ("bg-yellow-100 text-yellow-800" : String) ≠ "bg-green-100 text-green-800" := by
    decide
  have hbands : ∀ (m : Int) (scale : Nat),
      (DataBadge (.num (.fin m scale)) "risk" = .ok "bg-red-100 text-red-800 font-bold" ↔
        7 ≤ (JSNum.fin m scale).toRat) ∧
      (DataBadge (.num (.fin m scale)) "risk" = .ok "bg-yellow-100 text-yellow-800" ↔
        4 ≤ (JSNum.fin m scale).toRat ∧ (JSNum.fin m scale).toRat < 7) ∧
      (DataBadge (.num (.fin m scale)) "risk" = .ok "bg-green-100 text-green-800" ↔
        (JSNum.fin m scale).toRat < 4) := by
    intro m scale
    rw [DataBadge_risk_fin]
    by_cases c7 : 7 ≤ (JSNum.fin m scale).toRat
    · rw [if_pos c7]
      exact ⟨⟨fun _ => c7, fun _ => rfl⟩,
        ⟨fun h => absurd (Except.ok.inj h) hry, fun h => absurd c7 (not_le.2 h.2)⟩,
        ⟨fun h => absurd (Except.ok.inj h) hrg,
          fun h => absurd c7 (not_le.2 (lt_trans h (by norm_num)))⟩⟩
    · rw [if_neg c7]
      by_cases c4 : 4 ≤ (JSNum.fin m scale).toRat
      · rw [if_pos c4]
        exact ⟨⟨fun h => absurd (Except.ok.inj h) hry.symm, fun h => absurd h c7⟩,
          ⟨fun _ => ⟨c4, not_le.1 c7⟩, fun _ => rfl⟩,
          ⟨fun h => absurd (Except.ok.inj h) hyg, fun h => absurd c4 (not_le.2 h)⟩⟩
      · rw [if_neg c4]
        exact ⟨⟨fun h => absurd (Except.ok.inj h) hrg.symm, fun h => absurd h c7⟩,
          ⟨fun h => absurd (Except.ok.inj h) hyg.symm, fun h => absurd h.1 c4⟩,
          ⟨fun _ => not_le.1 c4, fun _ => rfl⟩⟩
  refine ⟨?_, ?_, ?_, ?_, ?_⟩
  · cases v with
    | nan => decide
    | inf a => cases a <;> decide
    | fin m scale =>
      rw [(hbands m scale).1]
      simp [JSNum.isFinite]
  · cases v with
    | nan => decide
    | inf a => cases a <;> decide
    | fin m scale =>
      rw [(hbands m scale).2.1]
      simp [JSNum.isFinite]
  · cases v with
    | nan => decide
    | inf a => cases a <;> decide
    | fin m scale =>
      rw [(hbands m scale).2.2]
      simp [JSNum.isFinite]
  · intro n hn
    interval_cases n <;> decide
  · intro e
    rw [(hbands e.leakage_risk_score 0).1]
    simp only [listFlagged, selectRows, Filter.holds, JSNum.toRat, List.mem_insertionSort,
      List.mem_filter, List.mem_singleton, List.all_cons, List.all_nil, Bool.and_true,
      decide_True, Bool.true_and, decide_eq_true_eq, true_and, pow_zero, div_one]
    norm_cast

/-! ## Validating a validated record -/

theorem sci_fin_lowest (y e : Int) (m : Int) (k : Nat) (h : JSNum.sci y e = .fin m k) :
    k = 0 ∨ m % 10 ≠ 0 := by
  obtain ⟨a, j, hfin, hlow⟩ := sci_lowest y e
  rw [hfin] at h
  cases h
  exact hlow

theorem strDecimalLiteral_cases (neg : Bool) (u : List Char) :
    strDecimalLiteral neg u = .nan ∨ ∃ y e, strDecimalLiteral neg u = JSNum.sci y e := by
  unfold strDecimalLiteral
  simp only
  split
  · exact Or.inl rfl
  · exact Or.inr ⟨_, _, rfl⟩

theorem strDecimalLiteral_lowest (neg : Bool) (u : List Char) (m : Int) (k : Nat)
    (h : strDecimalLiteral neg u = .fin m k) : k = 0 ∨ m % 10 ≠ 0 := by
  rcases strDecimalLiteral_cases neg u with hnan | ⟨y, e, hsci⟩
  · rw [hnan] at h
    cases h
  · rw [hsci] at h
    exact sci_fin_lowest y e m k h

theorem parseFloatStr_lowest (s : List Char) (m : Int) (k : Nat)
    (h : parseFloatStr s = .fin m k) : k = 0 ∨ m % 10 ≠ 0 := by
  simp only [parseFloatStr] at h
  split_ifs at h
  exact strDecimalLiteral_lowest _ _ m k h

/-- The confidence expression yields a fraction in lowest decimal terms
between 0 and 1, when its argument, if finite, is in lowest terms. -/
theorem clampConfidence_lowest (x : JSNum)
    (hx : ∀ m k, x = .fin m k → (k = 0 ∨ m % 10 ≠ 0)) :
    ∃ (m : Int) (k : Nat), 0 ≤ m ∧ m ≤ 10 ^ k ∧ (k = 0 ∨ m % 10 ≠ 0) ∧
      mathMax (.fin 0 0) (mathMin (.fin 1 0) (numOr x (.fin 5 1))) = .fin m k := by
  cases x with
  | nan => exact ⟨5, 1, by decide, by decide, by decide, by decide⟩
  | inf neg =>
    cases neg
    · exact ⟨1, 0, by decide, by decide, by decide, by decide⟩
    · exact ⟨0, 0, by decide, by decide, by decide, by decide⟩
  | fin m k =>
    by_cases h0 : m = 0
    · subst h0
      refine ⟨5, 1, by decide, by decide, by decide, ?_⟩
      simp [mathMax, mathMin, numOr, JSNum.truthy, JSNum.isNaN, JSNum.lt]
    · by_cases h1 : m < 10 ^ k
      · by_cases hpos : 0 < m
        · refine ⟨m, k, by omega, by omega, hx m k rfl, ?_⟩
          simp [mathMax, mathMin, numOr, JSNum.truthy, JSNum.isNaN, JSNum.lt, h0, h1, hpos]
        · refine ⟨0, 0, by omega, by simp, Or.inl rfl, ?_⟩
          simp [mathMax, mathMin, numOr, JSNum.truthy, JSNum.isNaN, JSNum.lt, h0, h1, hpos]
      · refine ⟨1, 0, by omega, by simp, Or.inl rfl, ?_⟩
        simp [mathMax, mathMin, numOr, JSNum.truthy, JSNum.isNaN, JSNum.lt, h0, h1]

/-- A confidence in lowest terms above 0 and at most 1 is what the confidence
expression makes of it. -/
theorem clampConfidence_fixed (m : Int) (k : Nat) (h0 : 0 < m) (h1 : m ≤ 10 ^ k)
    (hlow : k = 0 ∨ m % 10 ≠ 0) :
    mathMax (.fin 0 0) (mathMin (.fin 1 0) (numOr (.fin m k) (.fin 5 1))) = .fin m k := by
  have hm0 : m ≠ 0 := by omega
  by_cases hlt : m < 10 ^ k
  · simp [mathMax, mathMin, numOr, JSNum.truthy, JSNum.isNaN, JSNum.lt, hm0, hlt, h0]
  · have hm : m = 10 ^ k := le_antisymm h1 (not_lt.1 hlt)
    have hk : k = 0 := by
      rcases hlow with hk | hmod
      · exact hk
      · by_contra hk0
        obtain ⟨j, rfl⟩ : ∃ j, k = j + 1 := ⟨k - 1, by omega⟩
        apply hmod
        rw [hm, pow_succ]
        exact Int.mul_emod_left _ _
    subst hk
    simp only [pow_zero] at hm
    subst hm
    decide

theorem leakage_fixed (n : Nat) (h0 : n ≠ 0) (h10 : n ≤ 10) :
    mathMax (.fin 0 0) (mathMin (.fin 10 0)
      (numOr (parseIntStr (numToString (.fin n 0)).toList) (.fin 5 0))) = .fin n 0 := by
  interval_cases n <;> first | exact absurd rfl h0 | decide

theorem setField_getField_self (t : Record) (f : String) (v : JSValue)
    (hmem : f ∈ t.map Prod.fst) (hv : getField t f = v) : setField t f v = t := by
  induction t with
  | nil => simp at hmem
  | cons p rest ih =>
    obtain ⟨k, w⟩ := p
    by_cases hk : k = f
    · subst hk
      simp only [getField, if_true] at hv
      simp [setField, hv]
    · simp only [getField, hk, if_false] at hv
      simp only [List.map_cons, List.mem_cons] at hmem
      rcases hmem with h | h
      · exact absurd h.symm hk
      · simp [setField, hk, ih h hv]

theorem mem_keys_of_getField (t : Record) (f : String) (h : getField t f ≠ .undefined) :
    f ∈ t.map Prod.fst := by
  by_contra hmem
  exact h (getField_of_not_mem t f hmem)

/-- A validated record whose two scores are not 0 is returned as it is when it
is validated again. -/
theorem validateExtractedData_fixed (data out : Record)
    (h : validateExtractedData data = .ok out)
    (hl : getField out "leakageRiskScore" ≠ .num (.fin 0 0))
    (hc : getField out "confidenceScore" ≠ .num (.fin 0 0)) :
    validateExtractedData out = .ok out := by
  have hne : ("leakageRiskScore" : String) ≠ "confidenceScore" := by decide
  obtain ⟨_, s1, s2, _, _, hout⟩ := validateExtractedData_ok_inv data out h
  obtain ⟨n, hn, hlv⟩ := clampLeakage_range _ (parseIntStr_cases s1.toList)
  obtain ⟨m, k, hm0, hm1, hlow, hcv⟩ :=
    clampConfidence_lowest (parseFloatStr s2.toList) (parseFloatStr_lowest s2.toList)
  have hgl : getField out "leakageRiskScore" = .num (.fin n 0) := by
    rw [hout, getField_setField_other _ _ _ _ hne, getField_setField_same, hlv]
  have hgc : getField out "confidenceScore" = .num (.fin m k) := by
    rw [hout, getField_setField_same, hcv]
  have hn0 : n ≠ 0 := by
    rintro rfl
    exact hl hgl
  have hmne : m ≠ 0 := by
    rintro rfl
    rcases hlow with rfl | hmod
    · exact hc hgc
    · exact hmod rfl
  have hreq : checkRequired out required = .ok () := by
    refine checkRequired_ok_of_present _ (fun f hf => ?_)
    by_cases hfl : f = "leakageRiskScore"
    · rw [hfl, hgl]
      exact ⟨by simp, by simp⟩
    · by_cases hfc : f = "confidenceScore"
      · rw [hfc, hgc]
        exact ⟨by simp, by simp⟩
      · rw [validateExtractedData_other_fields data out h f hfl hfc]
        exact validateExtractedData_ok_present data out h f hf
  rw [validateExtractedData_unfold, hreq]
  simp only [hgl, hgc, toStr]
  rw [leakage_fixed n hn0 hn, parseFloatStr_numToString_lowest m k hlow,
    clampConfidence_fixed m k (by omega) hm1 hlow]
  have hself1 : setField out "leakageRiskScore" (.num (.fin n 0)) = out :=
    setField_getField_self _ _ _ (mem_keys_of_getField _ _ (by rw [hgl]; simp)) hgl
  rw [hself1]
  have hself2 : setField out "confidenceScore" (.num (.fin m k)) = out :=
    setField_getField_self _ _ _ (mem_keys_of_getField _ _ (by rw [hgc]; simp)) hgc
  rw [hself2]

/-- C26. Validating a validated record again returns it unchanged when neither
of its scores is 0.  A score the first validation has set to 0 is replaced on
the second: a `leakageRiskScore` of -3 becomes 0 and then 5, a
`confidenceScore` of -1 becomes 0 and then 0.5, because `parseInt(0) || 5` and
`parseFloat(0) || 0.5` take 0 for a missing value. -/
theorem validateExtractedData_twice :
    (∀ data out : Record, validateExtractedData data = .ok out →
      getField out "leakageRiskScore" ≠ .num (.fin 0 0) →
      getField out "confidenceScore" ≠ .num (.fin 0 0) →
      validateExtractedData out = .ok out) ∧
    validateExtractedData (sampleRecord (.num (.fin (-3) 0)) (.num (.fin 85 2))) =
      .ok (sampleRecord (.num (.fin 0 0)) (.num (.fin 85 2))) ∧
    validateExtractedData (sampleRecord (.num (.fin 0 0)) (.num (.fin 85 2))) =
      .ok (sampleRecord (.num (.fin 5 0)) (.num (.fin 85 2))) ∧
    validateExtractedData (sampleRecord (.num (.fin 7 0)) (.num (.fin (-1) 0))) =
      .ok (sampleRecord (.num (.fin 7 0)) (.num (.fin 0 0))) ∧
    validateExtractedData (sampleRecord (.num (.fin 7 0)) (.num (.fin 0 0))) =
      .ok (sampleRecord (.num (.fin 7 0)) (.num (.fin 5 1))) ∧
    validateExtractedData (sampleRecord (.num (.fin 15 0)) (.num (.fin 85 2))) =
      .ok (sampleRecord (.num (.fin 10 0)) (.num (.fin 85 2))) ∧
    validateExtractedData (sampleRecord (.num (.fin 10 0)) (.num (.fin 85 2))) =
      .ok (sampleRecord (.num (.fin 10 0)) (.num (.fin 85 2))) := by
  exact ⟨validateExtractedData_fixed, by decide, by decide, by decide, by decide, by decide,
    by decide⟩

/-! ## The dashboard in binary64 arithmetic -/

theorem plusNumberWith_add : plusNumberWith JSNum.add = plusNumber := by
  funext a b
  cases a with
  | obj conv => cases conv <;> rfl
  | _ => rfl

/-- With exact decimal addition the definitions with the addition left open
are the definitions of the dashboard over exact decimals. -/
theorem dashboardWith_add : dashboardWith JSNum.add = dashboard := by
  have h1 : addToCategoryWith JSNum.add = addToCategory := by
    funext t e
    simp only [addToCategoryWith, addToCategory, plusNumberWith_add]
  have h2 : topLeakageCategoriesWith JSNum.add = topLeakageCategories := by
    funext rows
    simp only [topLeakageCategoriesWith, topLeakageCategories, sortedCategoryTotalsWith,
      sortedCategoryTotals, categoryTotalsWith, categoryTotals, h1]
  funext store userId currentYear
  simp only [dashboardWith, dashboard, h2]

/-- One step of the `forEach` for an ordinary label when every total so far is
a number: the total of the label is set to a number. -/
theorem addToCategoryWith_step (plus : JSNum → JSNum → JSNum) (t : Record) (e : Expense)
    (hinv : ∀ p ∈ t, ∃ x : JSNum, p.2 = .num x)
    (hc : inheritedMember e.category = none) :
    ∃ y : JSNum, addToCategoryWith plus t e = setField t e.category (.num y) := by
  have hproto := inherited_none_ne_proto _ hc
  have hzero : ∀ s : Record,
      setField (setField s e.category (.num (.fin 0 0))) e.category
        (plusNumberWith plus
          (readProperty (setField s e.category (.num (.fin 0 0))) e.category)
          e.total_amount_numeric.num) =
      setField s e.category (.num (plus (JSNum.fin 0 0) e.total_amount_numeric.num)) := by
    intro s
    rw [readProperty_setField_same, setField_setField_same]
    rfl
  by_cases hmem : e.category ∈ t.map Prod.fst
  · have hread := readProperty_mem t e.category hmem
    obtain ⟨x, hx⟩ := hinv _ (getField_mem t e.category hmem)
    simp only at hx
    by_cases htr : truthy (JSValue.num x) = true
    · refine ⟨plus x e.total_amount_numeric.num, ?_⟩
      simp only [addToCategoryWith, hread, hx, htr, Bool.not_true, Bool.false_eq_true,
        if_false, writeProperty, hproto, plusNumberWith]
    · refine ⟨plus (.fin 0 0) e.total_amount_numeric.num, ?_⟩
      have htr' : truthy (readProperty t e.category) = false := by
        rw [hread, hx]
        simpa using htr
      simp only [addToCategoryWith, htr', Bool.not_false, if_true, writeProperty, hproto,
        if_false]
      exact hzero t
  · have hread := readProperty_not_mem t e.category hmem hc
    refine ⟨plus (.fin 0 0) e.total_amount_numeric.num, ?_⟩
    have htr : truthy (readProperty t e.category) = false := by
      rw [hread]; rfl
    simp only [addToCategoryWith, htr, Bool.not_false, if_true, writeProperty, hproto, if_false]
    exact hzero t

/-- The object `categoryTotals` while the rows have ordinary labels, whatever
the addition: every total is a number, keys are only added at the end and
never twice, and the keys are the labels met. -/
theorem categoryTotalsWith_fold (plus : JSNum → JSNum → JSNum) (rows : List Expense)
    (t : Record)
    (hrows : ∀ e ∈ rows, inheritedMember e.category = none)
    (hinv : ∀ p ∈ t, ∃ x : JSNum, p.2 = .num x) :
    (∀ p ∈ rows.foldl (addToCategoryWith plus) t, ∃ x : JSNum, p.2 = .num x) ∧
    (t.map Prod.fst <+: (rows.foldl (addToCategoryWith plus) t).map Prod.fst) ∧
    (∀ c, c ∈ (rows.foldl (addToCategoryWith plus) t).map Prod.fst ↔
      c ∈ t.map Prod.fst ∨ ∃ e ∈ rows, e.category = c) ∧
    ((t.map Prod.fst).Nodup →
      ((rows.foldl (addToCategoryWith plus) t).map Prod.fst).Nodup) := by
  induction rows generalizing t with
  | nil =>
    refine ⟨hinv, List.prefix_refl _, fun c => by simp, fun h => h⟩
  | cons e rest ih =>
    obtain ⟨y, hstep⟩ :=
      addToCategoryWith_step plus t e hinv (hrows e (List.mem_cons_self _ _))
    have hinv' : ∀ p ∈ addToCategoryWith plus t e, ∃ x : JSNum, p.2 = .num x := by
      intro p hp
      rw [hstep] at hp
      rcases mem_setField _ _ _ _ hp with h | h
      · exact hinv p h
      · exact ⟨y, by rw [h]⟩
    obtain ⟨h1, h2, h3, h4⟩ :=
      ih (addToCategoryWith plus t e)
        (fun e' he' => hrows e' (List.mem_cons_of_mem _ he')) hinv'
    have hkeys : (addToCategoryWith plus t e).map Prod.fst =
        if e.category ∈ t.map Prod.fst then t.map Prod.fst
        else t.map Prod.fst ++ [e.category] := by
      rw [hstep, keys_setField]
    simp only [List.foldl_cons]
    refine ⟨h1, ?_, ?_, ?_⟩
    · refine List.IsPrefix.trans ?_ h2
      rw [hkeys]
      split_ifs
      · exact List.prefix_refl _
      · exact List.prefix_append _ _
    · intro c
      rw [h3 c, hkeys]
      split_ifs with hmem
      · constructor
        · rintro (h | ⟨e', he', hc⟩)
          · exact Or.inl h
          · exact Or.inr ⟨e', List.mem_cons_of_mem _ he', hc⟩
        · rintro (h | ⟨e', he', hc⟩)
          · exact Or.inl h
          · rcases List.mem_cons.1 he' with h | h
            · subst h; subst hc; exact Or.inl hmem
            · exact Or.inr ⟨e', h, hc⟩
      · constructor
        · rintro (h | ⟨e', he', hc⟩)
          · rcases List.mem_append.1 h with h | h
            · exact Or.inl h
            · simp only [List.mem_singleton] at h
              exact Or.inr ⟨e, List.mem_cons_self _ _, h.symm⟩
          · exact Or.inr ⟨e', List.mem_cons_of_mem _ he', hc⟩
        · rintro (h | ⟨e', he', hc⟩)
          · exact Or.inl (List.mem_append_left _ h)
          · rcases List.mem_cons.1 he' with h | h
            · subst h; subst hc
              exact Or.inl (List.mem_append_right _ (List.mem_singleton_self _))
            · exact Or.inr ⟨e', h, hc⟩
    · intro hnd
      apply h4
      rw [hkeys]
      split_ifs with hmem
      · exact hnd
      · rw [List.nodup_append]
        refine ⟨hnd, List.nodup_singleton _, ?_⟩
        intro a ha hb
        simp only [List.mem_singleton] at hb
        subst hb
        exact hmem ha

/-- A label that occurs in the rows before another label's first occurrence
gets its key earlier, whatever the addition. -/
theorem categoryTotalsWith_first_occurrence (plus : JSNum → JSNum → JSNum)
    (rows : List Expense) (t : Record) (c1 c2 : String)
    (hrows : ∀ e ∈ rows, inheritedMember e.category = none)
    (hinv : ∀ p ∈ t, ∃ x : JSNum, p.2 = .num x)
    (hc2 : c2 ∉ t.map Prod.fst)
    (hmem2 : c2 ∈ rows.map (fun e => e.category))
    (hfirst : (rows.map (fun e => e.category)).indexOf c1 <
      (rows.map (fun e => e.category)).indexOf c2) :
    List.Sublist [c1, c2] ((rows.foldl (addToCategoryWith plus) t).map Prod.fst) := by
  induction rows generalizing t with
  | nil => simp at hmem2
  | cons e rest ih =>
    obtain ⟨y, hstep⟩ :=
      addToCategoryWith_step plus t e hinv (hrows e (List.mem_cons_self _ _))
    have hrest : ∀ e' ∈ rest, inheritedMember e'.category = none :=
      fun e' he' => hrows e' (List.mem_cons_of_mem _ he')
    have hinv' : ∀ p ∈ addToCategoryWith plus t e, ∃ x : JSNum, p.2 = .num x := by
      intro p hp
      rw [hstep] at hp
      rcases mem_setField _ _ _ _ hp with h | h
      · exact hinv p h
      · exact ⟨y, by rw [h]⟩
    have hkeys : (addToCategoryWith plus t e).map Prod.fst =
        if e.category ∈ t.map Prod.fst then t.map Prod.fst
        else t.map Prod.fst ++ [e.category] := by
      rw [hstep, keys_setField]
    simp only [List.map_cons, List.indexOf_cons] at hfirst
    have he2 : e.category ≠ c2 := by
      intro h
      simp [h] at hfirst
    have hc2' : c2 ∉ (addToCategoryWith plus t e).map Prod.fst := by
      rw [hkeys]
      split_ifs
      · exact hc2
      · simp only [List.mem_append, List.mem_singleton, not_or]
        exact ⟨hc2, Ne.symm he2⟩
    have hmem2' : c2 ∈ rest.map (fun e => e.category) := by
      simp only [List.map_cons, List.mem_cons] at hmem2
      rcases hmem2 with h | h
      · exact absurd h.symm he2
      · exact h
    simp only [List.foldl_cons]
    by_cases he1 : e.category = c1
    · obtain ⟨_, hpre, hall, _⟩ :=
        categoryTotalsWith_fold plus rest (addToCategoryWith plus t e) hrest hinv'
      obtain ⟨suffix, hsuf⟩ := hpre
      have hc1mem : c1 ∈ (addToCategoryWith plus t e).map Prod.fst := by
        rw [hkeys, ← he1]
        split_ifs with h
        · exact h
        · simp
      have hc2fin : c2 ∈
          (rest.foldl (addToCategoryWith plus) (addToCategoryWith plus t e)).map Prod.fst := by
        rw [hall]
        right
        obtain ⟨e', he', hc⟩ := List.mem_map.1 hmem2'
        exact ⟨e', he', hc⟩
      rw [← hsuf] at hc2fin ⊢
      have hc2suf : c2 ∈ suffix := by
        rcases List.mem_append.1 hc2fin with h | h
        · exact absurd h hc2'
        · exact h
      have h1 : List.Sublist [c1] ((addToCategoryWith plus t e).map Prod.fst) :=
        List.singleton_sublist.2 hc1mem
      have h2 : List.Sublist [c2] suffix := List.singleton_sublist.2 hc2suf
      exact List.Sublist.append h1 h2
    · have he1' : ¬ (e.category == c1) = true := by simpa using he1
      have he2' : ¬ (e.category == c2) = true := by simpa using he2
      simp only [he1', he2', cond_false, Bool.false_eq_true] at hfirst
      exact ih (addToCategoryWith plus t e) hrest hinv' hc2' hmem2' (by simpa using hfirst)

theorem normDec_zero_of_fst (m : Int) (k : Nat) (h : (normDec m k).1 = 0) :
    (normDec m k).2 = 0 := by
  rcases normDec_lowest m k with h1 | h1
  · exact h1
  · rw [h] at h1
    exact absurd rfl h1

/-- A double is an infinity or a fraction in lowest decimal terms. -/
theorem toDouble_shape (x : JSNum) (hx : x.isNaN = false) :
    (x.toDouble).isNaN = false ∧ ((x.toDouble).truthy = false → x.toDouble = .fin 0 0) := by
  cases x with
  | nan => cases hx
  | inf a => exact ⟨rfl, fun h => by cases h⟩
  | fin m k =>
    simp only [JSNum.toDouble]
    cases nearestDouble m.natAbs (10 ^ k) with
    | none => exact ⟨rfl, fun h => by cases h⟩
    | some p =>
      obtain ⟨significand, e⟩ := p
      refine ⟨rfl, ?_⟩
      intro h
      simp only [JSNum.dec, JSNum.truthy, decide_eq_false_iff_not, not_not] at h
      simp only [JSNum.dec]
      rw [h, normDec_zero_of_fst _ _ h]

/-- A sum in binary64 arithmetic of a number that is not `NaN` and a finite
double is not `NaN`, and when it is zero it is the zero. -/
theorem addDouble_shape (x y : JSNum) (hx : x.isNaN = false)
    (hy : (y.toDouble).isFinite = true) :
    (x.addDouble y).isNaN = false ∧
      ((x.addDouble y).truthy = false → x.addDouble y = .fin 0 0) := by
  simp only [JSNum.addDouble]
  apply toDouble_shape
  have hxd := (toDouble_shape x hx).1
  cases hyd : y.toDouble with
  | nan => rw [hyd] at hy; cases hy
  | inf b => rw [hyd] at hy; cases hy
  | fin b k =>
    cases hxv : x.toDouble with
    | nan => rw [hxv] at hxd; cases hxd
    | inf a => rfl
    | fin a j => rfl

/-- The number a total stands for when a row is added: the total itself, `0`
when the label has none yet. -/
theorem addToCategoryWith_value (t : Record) (e : Expense)
    (hinv : ∀ p ∈ t, ∃ x : JSNum, p.2 = .num x ∧ x.isNaN = false ∧
      (x.truthy = false → x = .fin 0 0))
    (hc : inheritedMember e.category = none)
    (hfin : (e.total_amount_numeric.num.toDouble).isFinite = true) :
    ∃ y : JSNum, y.isNaN = false ∧ (y.truthy = false → y = .fin 0 0) ∧
      addToCategoryWith JSNum.addDouble t e = setField t e.category (.num y) ∧
      ((e.category ∉ t.map Prod.fst ∧
          y = (JSNum.fin 0 0).addDouble e.total_amount_numeric.num) ∨
        ∃ x, getField t e.category = .num x ∧
          y = x.addDouble e.total_amount_numeric.num) := by
  have hproto := inherited_none_ne_proto _ hc
  have hzero : ∀ s : Record,
      setField (setField s e.category (.num (.fin 0 0))) e.category
        (plusNumberWith JSNum.addDouble
          (readProperty (setField s e.category (.num (.fin 0 0))) e.category)
          e.total_amount_numeric.num) =
      setField s e.category
        (.num ((JSNum.fin 0 0).addDouble e.total_amount_numeric.num)) := by
    intro s
    rw [readProperty_setField_same, setField_setField_same]
    rfl
  by_cases hmem : e.category ∈ t.map Prod.fst
  · have hread := readProperty_mem t e.category hmem
    obtain ⟨x, hx, hnan, hz⟩ := hinv _ (getField_mem t e.category hmem)
    simp only at hx
    obtain ⟨h1, h2⟩ := addDouble_shape x e.total_amount_numeric.num hnan hfin
    refine ⟨x.addDouble e.total_amount_numeric.num, h1, h2, ?_, Or.inr ⟨x, hx, rfl⟩⟩
    by_cases htr : x.truthy = true
    · have htr' : truthy (JSValue.num x) = true := by simpa [truthy] using htr
      simp only [addToCategoryWith, hread, hx, htr', Bool.not_true, Bool.false_eq_true,
        if_false, writeProperty, hproto, plusNumberWith]
    · have hx0 : x = .fin 0 0 := hz (by simpa using htr)
      have htr' : truthy (readProperty t e.category) = false := by
        rw [hread, hx, hx0]
        rfl
      simp only [addToCategoryWith, htr', Bool.not_false, if_true, writeProperty, hproto,
        if_false]
      rw [hzero t, hx0]
  · have hread := readProperty_not_mem t e.category hmem hc
    obtain ⟨h1, h2⟩ := addDouble_shape (.fin 0 0) e.total_amount_numeric.num rfl hfin
    refine ⟨(JSNum.fin 0 0).addDouble e.total_amount_numeric.num, h1, h2, ?_,
      Or.inl ⟨hmem, rfl⟩⟩
    have htr : truthy (readProperty t e.category) = false := by
      rw [hread]; rfl
    simp only [addToCategoryWith, htr, Bool.not_false, if_true, writeProperty, hproto, if_false]
    exact hzero t

/-- The totals of `categoryTotals` in binary64 arithmetic, for rows with
ordinary labels and amounts in the range of the doubles: the total of a label
is the sum of the amounts of its rows, added up in the order of the rows. -/
theorem categoryTotalsWith_value (rows : List Expense) (t : Record)
    (hrows : ∀ e ∈ rows, inheritedMember e.category = none)
    (hfin : ∀ e ∈ rows, (e.total_amount_numeric.num.toDouble).isFinite = true)
    (hinv : ∀ p ∈ t, ∃ x : JSNum, p.2 = .num x ∧ x.isNaN = false ∧
      (x.truthy = false → x = .fin 0 0))
    (c : String) :
    (c ∈ t.map Prod.fst → ∀ x, getField t c = .num x →
      getField (rows.foldl (addToCategoryWith JSNum.addDouble) t) c =
        .num ((rows.filter (fun e => decide (e.category = c))).foldl
          (fun (sum : JSNum) e => sum.addDouble e.total_amount_numeric.num) x)) ∧
    (c ∉ t.map Prod.fst → (∃ e ∈ rows, e.category = c) →
      getField (rows.foldl (addToCategoryWith JSNum.addDouble) t) c =
        .num ((rows.filter (fun e => decide (e.category = c))).foldl
          (fun (sum : JSNum) e => sum.addDouble e.total_amount_numeric.num) (.fin 0 0))) := by
  induction rows generalizing t with
  | nil =>
    refine ⟨fun _ x hx => by simpa using hx, fun _ h => ?_⟩
    obtain ⟨e, he, _⟩ := h
    simp at he
  | cons e rest ih =>
    obtain ⟨y, hy1, hy2, hstep, hyval⟩ := addToCategoryWith_value t e hinv
      (hrows e (List.mem_cons_self _ _)) (hfin e (List.mem_cons_self _ _))
    have hinv' : ∀ p ∈ addToCategoryWith JSNum.addDouble t e,
        ∃ x : JSNum, p.2 = .num x ∧ x.isNaN = false ∧ (x.truthy = false → x = .fin 0 0) := by
      intro p hp
      rw [hstep] at hp
      rcases mem_setField _ _ _ _ hp with h | h
      · exact hinv p h
      · exact ⟨y, by rw [h], hy1, hy2⟩
    obtain ⟨ih1, ih2⟩ := ih (addToCategoryWith JSNum.addDouble t e)
      (fun e' he' => hrows e' (List.mem_cons_of_mem _ he'))
      (fun e' he' => hfin e' (List.mem_cons_of_mem _ he')) hinv'
    have hkeys : (addToCategoryWith JSNum.addDouble t e).map Prod.fst =
        if e.category ∈ t.map Prod.fst then t.map Prod.fst
        else t.map Prod.fst ++ [e.category] := by
      rw [hstep, keys_setField]
    simp only [List.foldl_cons]
    by_cases hc : e.category = c
    · have hget : getField (addToCategoryWith JSNum.addDouble t e) c = .num y := by
        rw [hstep, hc, getField_setField_same]
      have hmem' : c ∈ (addToCategoryWith JSNum.addDouble t e).map Prod.fst := by
        rw [hkeys, hc]
        split_ifs with h
        · exact h
        · simp
      have hfilter : (e :: rest).filter (fun e => decide (e.category = c)) =
          e :: rest.filter (fun e => decide (e.category = c)) := by
        simp [List.filter_cons, hc]
      rw [hfilter]
      simp only [List.foldl_cons]
      constructor
      · intro hmem x hx
        rw [ih1 hmem' y hget]
        rcases hyval with ⟨hnot, _⟩ | ⟨x', hx', hy⟩
        · rw [hc] at hnot
          exact absurd hmem hnot
        · rw [hc, hx] at hx'
          simp only [JSValue.num.injEq] at hx'
          rw [hy, ← hx']
      · intro hnot _
        rw [ih1 hmem' y hget]
        rcases hyval with ⟨_, hy⟩ | ⟨x', hx', _⟩
        · rw [hy]
        · rw [hc, getField_of_not_mem t c hnot] at hx'
          cases hx'
    · have hget : getField (addToCategoryWith JSNum.addDouble t e) c = getField t c := by
        rw [hstep, getField_setField_other _ _ _ _ (Ne.symm hc)]
      have hfilter : (e :: rest).filter (fun e => decide (e.category = c)) =
          rest.filter (fun e => decide (e.category = c)) := by
        simp [List.filter_cons, hc]
      rw [hfilter]
      have hmemiff : c ∈ (addToCategoryWith JSNum.addDouble t e).map Prod.fst ↔
          c ∈ t.map Prod.fst := by
        rw [hkeys]
        split_ifs with h
        · exact Iff.rfl
        · simp only [List.mem_append, List.mem_singleton]
          constructor
          · rintro (h1 | h1)
            · exact h1
            · exact absurd h1.symm hc
          · exact Or.inl
      constructor
      · intro hmem x hx
        exact ih1 (hmemiff.2 hmem) x (by rw [hget, hx])
      · intro hnot hex
        refine ih2 (fun h => hnot (hmemiff.1 h)) ?_
        obtain ⟨e', he', hce⟩ := hex
        rcases List.mem_cons.1 he' with h | h
        · rw [h] at hce
          exact absurd hce hc
        · exact ⟨e', h, hce⟩

theorem amountLess_self (v : JSValue) : amountLess v v = false := by
  cases v with
  | num x =>
    cases x with
    | nan => rfl
    | inf a => cases a <;> rfl
    | fin m k => simp [amountLess, JSNum.lt]
  | _ => rfl

set_option maxRecDepth 100000 in
theorem topLeakageCategoriesWith_rounding_example :
    categoryTotalsWith JSNum.addDouble [threeTenthsOfA, tenthOfA, fifthOfA] =
        [("Travel", .num (.fin 299999999999999988897769753748434595763683319091796875 54)),
          ("Meals", .num (.fin 3000000000000000444089209850062616169452667236328125 52))] ∧
      topLeakageCategoriesWith JSNum.addDouble [threeTenthsOfA, tenthOfA, fifthOfA] =
        [("Meals", .num (.fin 3000000000000000444089209850062616169452667236328125 52)),
          ("Travel", .num (.fin 299999999999999988897769753748434595763683319091796875 54))] := by
  decide

/-- C17, as amended.  For high-risk rows whose category labels are not names of
members an object inherits, two categories whose totals in `categoryTotals`
are equal (for amounts in the range of the doubles the total of a category is
the sum of the amounts of its rows, added up in binary64 arithmetic in the
order of the rows) keep the order `Object.entries` gives them, in the sorted list and across the cut to five entries: of two
labels that are not array indices the one that occurs first in the rows comes
first; a label that is an array index comes before one that is not; and of two
array-index labels the one with the smaller number comes first, whatever their
order in the rows.  Sums that are equal as exact decimals need not be equal as
the code computes them: for a Travel row of 0.3 followed by Meals rows of 0.1
and 0.2 the total of Meals is 0.30000000000000004 and Meals comes first. -/
theorem topLeakageCategories_ties (rows : List Expense)
    (hrows : ∀ e ∈ rows, inheritedMember e.category = none)
    (c1 c2 : String)
    (h1 : c1 ∈ rows.map (fun e => e.category))
    (h2 : c2 ∈ rows.map (fun e => e.category))
    (htie : getField (categoryTotalsWith JSNum.addDouble rows) c1 =
      getField (categoryTotalsWith JSNum.addDouble rows) c2)
    (horder :
      (arrayIndex c1 = none ∧ arrayIndex c2 = none ∧
        (rows.map (fun e => e.category)).indexOf c1 <
          (rows.map (fun e => e.category)).indexOf c2) ∨
      (arrayIndex c1 ≠ none ∧ arrayIndex c2 = none) ∨
      (∃ n1 n2, arrayIndex c1 = some n1 ∧ arrayIndex c2 = some n2 ∧ n1 < n2)) :
    (∃ x : JSNum,
      getField (categoryTotalsWith JSNum.addDouble rows) c1 = .num x ∧
      getField (categoryTotalsWith JSNum.addDouble rows) c2 = .num x ∧
      ((∀ e ∈ rows, (e.total_amount_numeric.num.toDouble).isFinite = true) →
        x = (rows.filter (fun e => decide (e.category = c1))).foldl
            (fun (sum : JSNum) e => sum.addDouble e.total_amount_numeric.num) (.fin 0 0) ∧
          x = (rows.filter (fun e => decide (e.category = c2))).foldl
            (fun (sum : JSNum) e => sum.addDouble e.total_amount_numeric.num) (.fin 0 0)) ∧
      List.Sublist [(c1, .num x), (c2, .num x)]
        (sortedCategoryTotalsWith JSNum.addDouble rows) ∧
      ((c2, .num x) ∈ topLeakageCategoriesWith JSNum.addDouble rows →
        (c1, .num x) ∈ topLeakageCategoriesWith JSNum.addDouble rows)) ∧
    topLeakageCategoriesWith JSNum.addDouble [threeTenthsOfA, tenthOfA, fifthOfA] =
      [("Meals", .num (.fin 3000000000000000444089209850062616169452667236328125 52)),
        ("Travel", .num (.fin 299999999999999988897769753748434595763683319091796875 54))] := by
  refine ⟨?_, topLeakageCategoriesWith_rounding_example.2⟩
  obtain ⟨hinv, _, hkeys, hnd0⟩ :=
    categoryTotalsWith_fold JSNum.addDouble rows [] hrows (by simp)
  have hnd : ((categoryTotalsWith JSNum.addDouble rows).map Prod.fst).Nodup :=
    hnd0 List.nodup_nil
  have hk1 : c1 ∈ (categoryTotalsWith JSNum.addDouble rows).map Prod.fst := by
    rw [categoryTotalsWith, hkeys]
    obtain ⟨e, he, hc⟩ := List.mem_map.1 h1
    exact Or.inr ⟨e, he, hc⟩
  have hk2 : c2 ∈ (categoryTotalsWith JSNum.addDouble rows).map Prod.fst := by
    rw [categoryTotalsWith, hkeys]
    obtain ⟨e, he, hc⟩ := List.mem_map.1 h2
    exact Or.inr ⟨e, he, hc⟩
  have hm1 := getField_mem _ c1 hk1
  have hm2 := getField_mem _ c2 hk2
  have hentries : List.Sublist
      [(c1, getField (categoryTotalsWith JSNum.addDouble rows) c1),
        (c2, getField (categoryTotalsWith JSNum.addDouble rows) c2)]
      (objectEntries (categoryTotalsWith JSNum.addDouble rows)) := by
    rcases horder with ⟨hi1, hi2, hfirst⟩ | ⟨hi1, hi2⟩ | ⟨n1, n2, hi1, hi2, hlt⟩
    · have hsub := categoryTotalsWith_first_occurrence JSNum.addDouble rows [] c1 c2 hrows
        (by simp) (by simp) h2 hfirst
      exact objectEntries_plain_pair _ _ _ hi1 hi2
        (entries_sublist_of_keys _ hnd c1 c2 hsub)
    · exact objectEntries_index_first _ _ _ hi1 hi2 hm1 hm2
    · exact objectEntries_index_ascending _ _ _ n1 n2 hi1 hi2 hlt hm1 hm2
  obtain ⟨x, hx⟩ := hinv _ hm1
  simp only at hx
  have hx2 : getField (categoryTotalsWith JSNum.addDouble rows) c2 = .num x := by
    rw [← htie, hx]
  rw [hx, hx2] at hentries
  have hsorted : List.Sublist [(c1, JSValue.num x), (c2, JSValue.num x)]
      (sortedCategoryTotalsWith JSNum.addDouble rows) :=
    List.pair_sublist_insertionSort
      (r := fun p q : String × JSValue => amountLess p.2 q.2 = false)
      (amountLess_self (.num x)) hentries
  have hnodup : (sortedCategoryTotalsWith JSNum.addDouble rows).Nodup := by
    have hperm : (sortedCategoryTotalsWith JSNum.addDouble rows).Perm
        (categoryTotalsWith JSNum.addDouble rows) :=
      (List.perm_insertionSort _ _).trans (objectEntries_perm _)
    exact hperm.nodup_iff.2 (List.Nodup.of_map _ hnd)
  have hvalue : (∀ e ∈ rows, (e.total_amount_numeric.num.toDouble).isFinite = true) →
      x = (rows.filter (fun e => decide (e.category = c1))).foldl
          (fun (sum : JSNum) e => sum.addDouble e.total_amount_numeric.num) (.fin 0 0) ∧
        x = (rows.filter (fun e => decide (e.category = c2))).foldl
          (fun (sum : JSNum) e => sum.addDouble e.total_amount_numeric.num) (.fin 0 0) := by
    intro hfin
    have hv1 := (categoryTotalsWith_value rows [] hrows hfin (by simp) c1).2 (by simp)
      (by
        obtain ⟨e, he, hc⟩ := List.mem_map.1 h1
        exact ⟨e, he, hc⟩)
    have hv2 := (categoryTotalsWith_value rows [] hrows hfin (by simp) c2).2 (by simp)
      (by
        obtain ⟨e, he, hc⟩ := List.mem_map.1 h2
        exact ⟨e, he, hc⟩)
    have hx' : getField (rows.foldl (addToCategoryWith JSNum.addDouble) []) c1 = .num x := hx
    have hx2' : getField (rows.foldl (addToCategoryWith JSNum.addDouble) []) c2 = .num x := hx2
    rw [hv1] at hx'
    rw [hv2] at hx2'
    simp only [JSValue.num.injEq] at hx' hx2'
    exact ⟨hx'.symm, hx2'.symm⟩
  exact ⟨x, hx, hx2, hvalue, hsorted,
    fun h => take_mem_of_pair_sublist _ hnodup _ _ 5 hsorted h⟩

set_option maxRecDepth 100000 in
/-- C17, for the categories Travel and Meals, each with one high-risk row of
amount 100, Travel first. -/
theorem topLeakageCategories_ties_witness :
    (∃ x : JSNum,
      getField (categoryTotalsWith JSNum.addDouble [travelOfA, expenseOfA]) "Travel" =
        .num x ∧
      getField (categoryTotalsWith JSNum.addDouble [travelOfA, expenseOfA]) "Meals" =
        .num x ∧
      ((∀ e ∈ [travelOfA, expenseOfA],
          (e.total_amount_numeric.num.toDouble).isFinite = true) →
        x = ([travelOfA, expenseOfA].filter (fun e => decide (e.category = "Travel"))).foldl
            (fun (sum : JSNum) e => sum.addDouble e.total_amount_numeric.num) (.fin 0 0) ∧
          x = ([travelOfA, expenseOfA].filter (fun e => decide (e.category = "Meals"))).foldl
            (fun (sum : JSNum) e => sum.addDouble e.total_amount_numeric.num) (.fin 0 0)) ∧
      List.Sublist [("Travel", .num x), ("Meals", .num x)]
        (sortedCategoryTotalsWith JSNum.addDouble [travelOfA, expenseOfA]) ∧
      (("Meals", .num x) ∈ topLeakageCategoriesWith JSNum.addDouble [travelOfA, expenseOfA] →
        ("Travel", .num x) ∈
          topLeakageCategoriesWith JSNum.addDouble [travelOfA, expenseOfA])) ∧
    topLeakageCategoriesWith JSNum.addDouble [threeTenthsOfA, tenthOfA, fifthOfA] =
      [("Meals", .num (.fin 3000000000000000444089209850062616169452667236328125 52)),
        ("Travel", .num (.fin 299999999999999988897769753748434595763683319091796875 54))] :=
  topLeakageCategories_ties [travelOfA, expenseOfA] (by decide) "Travel" "Meals"
    (by decide) (by decide) (by decide)
    (Or.inl ⟨by decide, by decide, by decide⟩)

/-! ## The dashboard totals in binary64 arithmetic -/

theorem roundHalfEven_mul (c d : Nat) (hd : 0 < d) : roundHalfEven (c * d) d = c := by
  unfold roundHalfEven
  have h1 : c * d % d = 0 := Nat.mul_mod_left c d
  have h2 : c * d / d = c := Nat.mul_div_cancel c hd
  rw [h1, h2, if_pos (by omega)]

theorem toDouble_zero (k : Nat) : (JSNum.fin 0 k).toDouble = .fin 0 0 := by
  simp [JSNum.toDouble, nearestDouble, JSNum.dec, normDec]

/-- A whole number below `2 ^ 53` is a double: rounding leaves it as it is. -/
theorem toDouble_nat (m : Int) (k : Nat) (n : Nat) (h : (JSNum.fin m k).toRat = n)
    (hn : n < 2 ^ 53) : (JSNum.fin m k).toDouble = .fin n 0 := by
  rcases Nat.eq_zero_or_pos n with h0 | h0
  · subst h0
    have hm : m = 0 := fin_zero_of_toRat m k (by simpa using h)
    subst hm
    exact toDouble_zero k
  · have hp : (0 : ℚ) < (10 : ℚ) ^ k := by positivity
    have hmq : (m : ℚ) = (n : ℚ) * (10 : ℚ) ^ k := by
      simp only [JSNum.toRat] at h
      rw [div_eq_iff (ne_of_gt hp)] at h
      exact h
    have hmi : m = ((n * 10 ^ k : Nat) : Int) := by
      have : (m : ℚ) = (((n * 10 ^ k : Nat) : Int) : ℚ) := by
        rw [hmq]
        push_cast
        ring
      exact_mod_cast this
    have hnat : m.natAbs = n * 10 ^ k := by
      rw [hmi]
      exact Int.natAbs_ofNat _
    have hb : (10 : Nat) ^ k ≠ 0 := by positivity
    have ha : n * 10 ^ k ≠ 0 := Nat.mul_ne_zero (by omega) hb
    have hq : ((n * 10 ^ k : Nat) : ℚ) / ((10 ^ k : Nat) : ℚ) = n := by
      push_cast
      field_simp
    obtain ⟨hmin, hhi, hlo⟩ := doubleExponent_spec (n * 10 ^ k) (10 ^ k) ha hb
    rw [hq] at hhi hlo
    have hn1 : (1 : ℚ) ≤ n := by exact_mod_cast h0
    have hsmall : (1 : ℚ) / 2 ^ 1022 ≤ 1 := by norm_num
    have hlow := hlo (Or.inr (le_trans hsmall hn1))
    have hnq : (n : ℚ) < (2 : ℚ) ^ ((53 : Nat) : Int) := by
      rw [zpow_natCast]
      exact_mod_cast hn
    have he : doubleExponent (n * 10 ^ k) (10 ^ k) + 52 < 53 :=
      two_zpow_lt_inv _ _ (lt_of_le_of_lt hlow hnq)
    obtain ⟨j, hj⟩ : ∃ j : Nat, doubleExponent (n * 10 ^ k) (10 ^ k) = -(j : Int) :=
      ⟨(-doubleExponent (n * 10 ^ k) (10 ^ k)).toNat, by omega⟩
    have hnd : nearestDouble (n * 10 ^ k) (10 ^ k) = some (n * 2 ^ j, -(j : Int)) := by
      simp only [nearestDouble]
      rw [if_neg ha, hj]
      have e1 : (-(j : Int)).toNat = 0 := by omega
      have e2 : (-(-(j : Int))).toNat = j := by omega
      rw [e1, e2, pow_zero, Nat.mul_one]
      have e3 : n * 10 ^ k * 2 ^ j = n * 2 ^ j * 10 ^ k := by ring
      rw [e3, roundHalfEven_mul _ _ (by positivity)]
      rw [if_neg]
      rintro (h1 | ⟨h1, _⟩) <;> omega
    have hneg : ¬ m < 0 := by
      rw [hmi]
      exact not_lt.2 (Int.ofNat_nonneg _)
    have hto : (JSNum.fin m k).toDouble =
        JSNum.dec (((n * 2 ^ j : Nat) : Int) * 2 ^ (-(j : Int)).toNat *
          5 ^ (-(-(j : Int))).toNat) (-(-(j : Int))).toNat := by
      simp only [JSNum.toDouble, hnat, hnd]
      rw [if_neg hneg]
    rw [hto]
    have e1 : (-(j : Int)).toNat = 0 := by omega
    have e2 : (-(-(j : Int))).toNat = j := by omega
    rw [e1, e2]
    have hdec : ∀ (a : Int) (i : Nat), JSNum.dec a i =
        .fin (normDec a i).1 (normDec a i).2 := fun _ _ => rfl
    rw [hdec]
    apply lowest_unique _ _ _ _ (normDec_lowest _ _) (Or.inl rfl)
    have hv := toRat_dec (((n * 2 ^ j : Nat) : Int) * 2 ^ 0 * 5 ^ j) j
    rw [hdec] at hv
    rw [hv]
    simp only [JSNum.toRat]
    have h10 : (10 : ℚ) ^ j = 2 ^ j * 5 ^ j := by
      rw [← mul_pow]
      norm_num
    rw [h10]
    push_cast
    field_simp
    ring

theorem addDouble_nat (N : Nat) (m : Int) (k : Nat) (n : Nat)
    (h : (JSNum.fin m k).toRat = n) (hsum : N + n < 2 ^ 53) :
    (JSNum.fin N 0).addDouble (.fin m k) = .fin ((N + n : Nat) : Int) 0 := by
  have h1 : (JSNum.fin N 0).toDouble = .fin N 0 :=
    toDouble_nat N 0 N (by simp [JSNum.toRat]) (by omega)
  have h2 : (JSNum.fin m k).toDouble = .fin n 0 := toDouble_nat m k n h (by omega)
  have h3 : (JSNum.fin (N : Int) 0).add (.fin (n : Int) 0) = .fin ((N + n : Nat) : Int) 0 := by
    rw [add_fin_fin]
    simp [JSNum.dec, normDec]
  simp only [JSNum.addDouble]
  rw [h1, h2, h3]
  exact toDouble_nat _ 0 (N + n) (by simp [JSNum.toRat]) hsum

/-- A `reduce` in binary64 arithmetic over a column of whole numbers with a sum
below `2 ^ 53` gives the exact sum. -/
theorem foldl_addDouble_nat (g : Expense → Dec) (rows : List Expense) (N : Nat)
    (hrows : ∀ e ∈ rows, ∃ n : Nat, (g e).toRat = n)
    (hsum : (N : ℚ) + (rows.map (fun e => (g e).toRat)).sum < 2 ^ 53) :
    ∃ T : Nat, rows.foldl (fun (sum : JSNum) exp => sum.addDouble (g exp).num)
        (JSNum.fin N 0) = JSNum.fin T 0 ∧
      (T : ℚ) = N + (rows.map (fun e => (g e).toRat)).sum := by
  induction rows generalizing N with
  | nil => exact ⟨N, rfl, by simp⟩
  | cons e rest ih =>
    obtain ⟨n, hn⟩ := hrows e (List.mem_cons_self _ _)
    have hrest : ∀ e' ∈ rest, ∃ n : Nat, (g e').toRat = n :=
      fun e' he' => hrows e' (List.mem_cons_of_mem _ he')
    have hnonneg : 0 ≤ (rest.map (fun e => (g e).toRat)).sum := by
      apply List.sum_nonneg
      intro x hx
      obtain ⟨e', he', rfl⟩ := List.mem_map.1 hx
      obtain ⟨n', hn'⟩ := hrest e' he'
      rw [hn']
      positivity
    simp only [List.map_cons, List.sum_cons, hn] at hsum
    have hlt : N + n < 2 ^ 53 := by
      have : ((N + n : Nat) : ℚ) < ((2 ^ 53 : Nat) : ℚ) := by
        push_cast
        linarith
      exact_mod_cast this
    have hstep : (JSNum.fin N 0).addDouble (g e).num = .fin ((N + n : Nat) : Int) 0 :=
      addDouble_nat N (g e).mant (g e).scale n hn hlt
    obtain ⟨T, hT, hval⟩ := ih (N + n) hrest (by push_cast; linarith)
    refine ⟨T, ?_, ?_⟩
    · simp only [List.foldl_cons]
      rw [hstep]
      exact hT
    · rw [hval]
      simp only [List.map_cons, List.sum_cons, hn]
      push_cast
      ring

set_option maxRecDepth 100000 in
theorem dashboardWith_rounding_example :
    (dashboardWith JSNum.addDouble [tenthOfA, fifthOfA] "user-a" 2024).totalExpensesYTD =
        .fin 3000000000000000444089209850062616169452667236328125 52 ∧
      (dashboardWith JSNum.addDouble [tenthOfA, fifthOfA] "user-a" 2024).totalGSTClaimed =
        .fin 3000000000000000444089209850062616169452667236328125 52 ∧
      (dashboardWith JSNum.addDouble [tenthOfA, fifthOfA] "user-a" 2024).totalOtherTaxes =
        .fin 3000000000000000444089209850062616169452667236328125 52 ∧
      (JSNum.fin 3 1).toDouble =
        .fin 299999999999999988897769753748434595763683319091796875 54 ∧
      ytdRows [tenthOfA, fifthOfA] "user-a" 2024 = [tenthOfA, fifthOfA] := by
  decide

set_option maxRecDepth 100000 in
theorem dashboardWith_scenario_example :
    (dashboardWith JSNum.addDouble [expenseOfA, expenseOfB, lastYearOfA, secondOfA]
        "user-a" 2024).totalExpensesYTD = .fin 300 0 ∧
      (dashboardWith JSNum.addDouble [expenseOfA, expenseOfB, lastYearOfA, secondOfA]
        "user-a" 2024).totalGSTClaimed = .fin 30 0 := by
  decide

/-- C14, as amended.  With `Y` the current year, the three totals of the
dashboard are the sums, added up row by row in binary64 arithmetic from 0, of
`total_amount_numeric`, `gst_amount_numeric` and `other_tax_amount_numeric`
over the rows of the table that belong to the caller and whose date lies
between `Y-01-01` and `Y-12-31`, which are the caller's rows dated in the year
`Y`.  Each total is the exact sum when the column holds whole numbers in those
rows and the exact sum is below `2 ^ 53`, and each is 0 when there is no such
row.  For the caller's rows with amounts 100 and 200 and GST 10 and 20, beside
a row of another owner and one of an earlier year, the totals are 300 and
30. -/
theorem dashboard_totals (store : List Expense) (userId : String) (currentYear : Nat)
    (hvalid : ∀ e ∈ store, e.date.valid = true) :
    (∀ e, e ∈ ytdRows store userId currentYear ↔
      e ∈ store ∧ e.user_id = userId ∧ (yearStart currentYear).le e.date = true ∧
        e.date.le (yearEnd currentYear) = true) ∧
    ytdRows store userId currentYear =
      store.filter (fun e => decide (e.user_id = userId) && decide (e.date.year = currentYear)) ∧
    ((dashboardWith JSNum.addDouble store userId currentYear).totalExpensesYTD =
        (store.filter
          (fun e => decide (e.user_id = userId) && decide (e.date.year = currentYear))).foldl
          (fun sum e => sum.addDouble e.total_amount_numeric.num) (.fin 0 0) ∧
      (dashboardWith JSNum.addDouble store userId currentYear).totalGSTClaimed =
        (store.filter
          (fun e => decide (e.user_id = userId) && decide (e.date.year = currentYear))).foldl
          (fun sum e => sum.addDouble e.gst_amount_numeric.num) (.fin 0 0) ∧
      (dashboardWith JSNum.addDouble store userId currentYear).totalOtherTaxes =
        (store.filter
          (fun e => decide (e.user_id = userId) && decide (e.date.year = currentYear))).foldl
          (fun sum e => sum.addDouble e.other_tax_amount_numeric.num) (.fin 0 0)) ∧
    (((∀ e ∈ ytdRows store userId currentYear, ∃ n : Nat, e.total_amount_numeric.toRat = n) →
        ((ytdRows store userId currentYear).map
          (fun e => e.total_amount_numeric.toRat)).sum < 2 ^ 53 →
        (dashboardWith JSNum.addDouble store userId currentYear).totalExpensesYTD.isFinite =
            true ∧
          (dashboardWith JSNum.addDouble store userId currentYear).totalExpensesYTD.toRat =
            ((ytdRows store userId currentYear).map
              (fun e => e.total_amount_numeric.toRat)).sum) ∧
      ((∀ e ∈ ytdRows store userId currentYear, ∃ n : Nat, e.gst_amount_numeric.toRat = n) →
        ((ytdRows store userId currentYear).map
          (fun e => e.gst_amount_numeric.toRat)).sum < 2 ^ 53 →
        (dashboardWith JSNum.addDouble store userId currentYear).totalGSTClaimed.isFinite =
            true ∧
          (dashboardWith JSNum.addDouble store userId currentYear).totalGSTClaimed.toRat =
            ((ytdRows store userId currentYear).map
              (fun e => e.gst_amount_numeric.toRat)).sum) ∧
      ((∀ e ∈ ytdRows store userId currentYear,
          ∃ n : Nat, e.other_tax_amount_numeric.toRat = n) →
        ((ytdRows store userId currentYear).map
          (fun e => e.other_tax_amount_numeric.toRat)).sum < 2 ^ 53 →
        (dashboardWith JSNum.addDouble store userId currentYear).totalOtherTaxes.isFinite =
            true ∧
          (dashboardWith JSNum.addDouble store userId currentYear).totalOtherTaxes.toRat =
            ((ytdRows store userId currentYear).map
              (fun e => e.other_tax_amount_numeric.toRat)).sum)) ∧
    ((∀ e ∈ store, ¬ (e.user_id = userId ∧ e.date.year = currentYear)) →
      (dashboardWith JSNum.addDouble store userId currentYear).totalExpensesYTD = .fin 0 0 ∧
      (dashboardWith JSNum.addDouble store userId currentYear).totalGSTClaimed = .fin 0 0 ∧
      (dashboardWith JSNum.addDouble store userId currentYear).totalOtherTaxes = .fin 0 0) ∧
    ((dashboardWith JSNum.addDouble [expenseOfA, expenseOfB, lastYearOfA, secondOfA]
        "user-a" 2024).totalExpensesYTD = .fin 300 0 ∧
      (dashboardWith JSNum.addDouble [expenseOfA, expenseOfB, lastYearOfA, secondOfA]
        "user-a" 2024).totalGSTClaimed = .fin 30 0) := by
  have hfilter := ytdRows_eq_filter store userId currentYear hvalid
  have hexact : ∀ g : Expense → Dec,
      (∀ e ∈ ytdRows store userId currentYear, ∃ n : Nat, (g e).toRat = n) →
      ((ytdRows store userId currentYear).map (fun e => (g e).toRat)).sum < 2 ^ 53 →
      ((ytdRows store userId currentYear).foldl
          (fun (sum : JSNum) exp => sum.addDouble (g exp).num) (JSNum.fin 0 0)).isFinite =
          true ∧
        ((ytdRows store userId currentYear).foldl
          (fun (sum : JSNum) exp => sum.addDouble (g exp).num) (JSNum.fin 0 0)).toRat =
          ((ytdRows store userId currentYear).map (fun e => (g e).toRat)).sum := by
    intro g hwhole hlt
    obtain ⟨T, hT, hval⟩ := foldl_addDouble_nat g (ytdRows store userId currentYear) 0 hwhole
      (by simpa using hlt)
    have h0 : (JSNum.fin ((0 : Nat) : Int) 0) = JSNum.fin 0 0 := rfl
    rw [h0] at hT
    rw [hT]
    refine ⟨rfl, ?_⟩
    simp only [JSNum.toRat]
    rw [pow_zero, div_one]
    push_cast at hval ⊢
    rw [hval]
    ring
  refine ⟨?_, hfilter, ?_, ⟨hexact (fun e => e.total_amount_numeric),
    hexact (fun e => e.gst_amount_numeric), hexact (fun e => e.other_tax_amount_numeric)⟩,
    ?_, dashboardWith_scenario_example⟩
  · intro e
    rw [ytdRows, mem_selectRows]
    simp [Filter.holds]
  · rw [← hfilter]
    exact ⟨rfl, rfl, rfl⟩
  · intro hno
    have hnil : ytdRows store userId currentYear = [] := by
      rw [hfilter, List.filter_eq_nil_iff]
      intro e he
      simpa using hno e he
    simp [dashboardWith, hnil]

set_option maxRecDepth 100000 in
/-- C14, for a table with two current-year rows of the caller, a row of another
owner and a row of an earlier year: the total is the binary64 sum over the two
rows, the exact sum 300. -/
theorem dashboard_totals_witness :
    (dashboardWith JSNum.addDouble [expenseOfA, expenseOfB, lastYearOfA, secondOfA]
        "user-a" 2024).totalExpensesYTD =
      ([expenseOfA, secondOfA] : List Expense).foldl
        (fun sum e => sum.addDouble e.total_amount_numeric.num) (.fin 0 0) :=
  have h := dashboard_totals [expenseOfA, expenseOfB, lastYearOfA, secondOfA] "user-a" 2024
    (by decide)
  have hrows : [expenseOfA, expenseOfB, lastYearOfA, secondOfA].filter
      (fun e => decide (e.user_id = "user-a") && decide (e.date.year = 2024)) =
      [expenseOfA, secondOfA] := by decide
  hrows ▸ h.2.2.1.1

/-- C14 as stated fails for the caller's rows with 0.1 and 0.2 in each numeric
column: the sum of the amounts is 0.3, but each total is the double
0.3000000000000000444..., which is neither 0.3 nor the double nearest to
0.3. -/
theorem dashboard_totals_rounding_counterexample :
    ytdRows [tenthOfA, fifthOfA] "user-a" 2024 = [tenthOfA, fifthOfA] ∧
      (([tenthOfA, fifthOfA] : List Expense).map
        (fun e => e.total_amount_numeric.toRat)).sum = 3 / 10 ∧
      (dashboardWith JSNum.addDouble [tenthOfA, fifthOfA] "user-a" 2024).totalExpensesYTD =
        .fin 3000000000000000444089209850062616169452667236328125 52 ∧
      (dashboardWith JSNum.addDouble [tenthOfA, fifthOfA] "user-a" 2024).totalGSTClaimed =
        .fin 3000000000000000444089209850062616169452667236328125 52 ∧
      (dashboardWith JSNum.addDouble [tenthOfA, fifthOfA] "user-a" 2024).totalOtherTaxes =
        .fin 3000000000000000444089209850062616169452667236328125 52 ∧
      (JSNum.fin 3000000000000000444089209850062616169452667236328125 52).toRat ≠ 3 / 10 ∧
      (JSNum.fin 3000000000000000444089209850062616169452667236328125 52) ≠
        (JSNum.fin 3 1).toDouble := by
  obtain ⟨h1, h2, h3, h4, h5⟩ := dashboardWith_rounding_example
  refine ⟨h5, ?_, h1, h2, h3, ?_, ?_⟩
  · simp only [tenthOfA, fifthOfA, Dec.toRat, List.map_cons, List.map_nil, List.sum_cons,
      List.sum_nil]
    norm_num
  · simp only [JSNum.toRat]
    norm_num
  · rw [h4]
    decide

end FinalProject
